import Mathlib

/-!
# ReviveDB (NVMDB): heap access, logic files, undo segments, serializer, statistics

A shallow embedding of the row allocator (`RowIDMgr`, `VecStore`, `RowIdMap`), of the MVCC
heap operations of `nvm_access.cpp`, of `LogicFile` and `memcpy_no_flush_nt`, of the
recycling and recovery of undo segments, of the binary serializer, of the latency
statistics of the tests and of the flush filter of the tuples, followed by theorems about
them.

Conventions of the embedding:

* machine integers are `Nat` (`Int` for signed values); where the source computes in a
  fixed width the result is reduced by `u8`, `u16`, `u32` or `u64`;
* persistent memory of the heap is a map from tuple addresses to tuples (header fields and
  payload bytes); the byte-level functions work on `Memory`, the byte at each address;
  cache-line flushes, fences and prefetches do not change contents and are not modelled;
* `DCHECK` is compiled out (release build): where a theorem needs the asserted condition
  it appears as a hypothesis;
* a result of `none` stands for abnormal termination: a fatal `CHECK`, a null
  dereference, a spin on a lock that is never released, or exhausted fuel of a loop;
* a division of the source whose divisor can be zero is either followed to a separate
  outcome (`CtorResult.divisionByZero`, `none` in `getNvmAddrByPageId`) or used under the
  hypothesis that the divisor is not zero;
* the model is sequential: one worker thread, one table; where a claim speaks of racing
  threads, what they do between two steps of the worker is a parameter
  (`RowIDMgr.tryAllocNewPageRaced`).
-/

namespace NVMDB

/-! ## Basic types -/

/-- Reduction of an unsigned 32-bit computation. -/
def u32 (n : Nat) : Nat := n % 4294967296

/-- Constants and helpers declared in headers that are not among the sources
(`nvm_types.h`, `nvm_table_space.h`); every definition that uses one takes them as `P`. -/
structure Params where
  /-- The value of `sizeof(NVMTuple)`. -/
  NVMTupleHeadSize : Nat
  /-- The value of `GetExtentSize(HEAP_EXTENT_SIZE)`. -/
  extentSize : Nat
  /-- The offset `GetExtentAddr(page) - page` of an extent's payload. -/
  extentHeaderSize : Nat
  /-- The test `NVMPageIdIsValid`. -/
  NVMPageIdIsValid : Nat → Bool
  /-- The sentinel `InvalidRowId`. -/
  InvalidRowId : Nat
  /-- The largest row id `MaxRowId`. -/
  MaxRowId : Nat

/-- The test `RowIdIsValid` (header absent): a row id other than the sentinel. -/
def RowIdIsValid (P : Params) (rid : Nat) : Bool := rid != P.InvalidRowId

/-! ## RowIDMgr (`heap/nvm_rowid_mgr.h`) -/

/-- State of a `RowIDMgr`. The segment-head page of the table is represented by its two
contents, `maxPageId` and the array `extentIds`; the table space by its address
translation `pageBase` (`TableSpace::getNvmAddrByPageId`) and by the page ids its
allocator `fastAllocNewExtent` will hand out, in order (`freePages`). -/
structure RowIDMgr where
  pageBase : Nat → Nat
  freePages : List Nat
  /-- The number of directories, `getDirConfig()->getDirPaths().size()`. -/
  spaceCount : Nat
  m_tupleLen : Nat
  m_tuplesPerExtent : Nat
  maxPageId : Nat
  extentIds : Nat → Nat

/-- The constructor `RowIDMgr::RowIDMgr(tableSpace, segHead, tupleLen)` over a given
table space and segment-head contents. -/
def RowIDMgr.create (P : Params) (pageBase : Nat → Nat) (freePages : List Nat)
    (spaceCount maxPageId : Nat) (extentIds : Nat → Nat) (tupleLen : Nat) : RowIDMgr :=
  { pageBase := pageBase
    freePages := freePages
    spaceCount := spaceCount
    m_tupleLen := u32 (P.NVMTupleHeadSize + tupleLen)
    m_tuplesPerExtent := u32 (P.extentSize / u32 (P.NVMTupleHeadSize + tupleLen))
    maxPageId := maxPageId
    extentIds := extentIds }

/-- The fields the constructor computes from the row length. -/
def RowIDMgr.BuiltFor (P : Params) (m : RowIDMgr) (rowLen : Nat) : Prop :=
  m.m_tupleLen = u32 (P.NVMTupleHeadSize + rowLen) ∧
  m.m_tuplesPerExtent = u32 (P.extentSize / m.m_tupleLen)

/-- The function `RowIDMgr::getTuplesPerExtent`. -/
def RowIDMgr.getTuplesPerExtent (m : RowIDMgr) : Nat := m.m_tuplesPerExtent

/-- The function `RowIDMgr::GetMaxPageId`. -/
def RowIDMgr.GetMaxPageId (m : RowIDMgr) : Nat := m.maxPageId

/-- The function `RowIDMgr::getUpperRowId`: a product of two `uint32`. -/
def RowIDMgr.getUpperRowId (m : RowIDMgr) : Nat :=
  u32 (u32 (m.GetMaxPageId + 1) * m.m_tuplesPerExtent)

/-- The function `RowIDMgr::UpdateMaxPageId`: the compare-exchange loop, run without
interference, stores `pageId` exactly when the old value is smaller. -/
def RowIDMgr.UpdateMaxPageId (m : RowIDMgr) (pageId : Nat) : RowIDMgr :=
  if m.maxPageId < pageId then { m with maxPageId := pageId } else m

/-- The loop `while (NVMPageIdIsValid(extentIds[leafExtentId])) leafExtentId += spaceCount`
of `tryAllocNewPage`; `none` when the fuel runs out. -/
def RowIDMgr.installSlot (P : Params) (m : RowIDMgr) : Nat → Nat → Option Nat
  | 0, _ => none
  | fuel + 1, leafExtentId =>
    if P.NVMPageIdIsValid (m.extentIds leafExtentId) then
      RowIDMgr.installSlot P m fuel (u32 (leafExtentId + m.spaceCount))
    else some leafExtentId

/-- The function `RowIDMgr::tryAllocNewPage`. An exhausted table space is fatal. -/
def RowIDMgr.tryAllocNewPage (P : Params) (fuel : Nat) (m : RowIDMgr) (leafExtentId : Nat) :
    Option RowIDMgr :=
  if P.NVMPageIdIsValid (m.extentIds leafExtentId) then some m
  else
    match m.freePages with
    | [] => none
    | pageId :: rest =>
      match RowIDMgr.installSlot P m fuel leafExtentId with
      | none => none
      | some slot =>
        some { m with freePages := rest, extentIds := Function.update m.extentIds slot pageId }

/-- The address computation that ends `RowIDMgr::getNVMTupleByRowId`: the page of the
extent slot, its payload (`GetExtentAddr`), and `leafPageOffset * m_tupleLen`, a product of
two `uint32`. -/
def RowIDMgr.tupleAddr (P : Params) (m : RowIDMgr) (rowId : Nat) : Nat :=
  m.pageBase (m.extentIds (rowId / m.m_tuplesPerExtent)) + P.extentHeaderSize
    + u32 (rowId % m.m_tuplesPerExtent * m.m_tupleLen)

/-- The function `RowIDMgr::getNVMTupleByRowId`. The inner `none` is `nullptr`. -/
def RowIDMgr.getNVMTupleByRowId (P : Params) (fuel : Nat) (m : RowIDMgr) (rowId : Nat)
    (append : Bool) : Option (Option Nat × RowIDMgr) :=
  let leafExtentId := rowId / m.m_tuplesPerExtent
  if P.NVMPageIdIsValid (m.extentIds leafExtentId) then some (some (m.tupleAddr P rowId), m)
  else if !append then some (none, m)
  else
    match RowIDMgr.tryAllocNewPage P fuel (m.UpdateMaxPageId leafExtentId) leafExtentId with
    | none => none
    | some m1 => some (some (m1.tupleAddr P rowId), m1)

/-- The calls `getNVMTupleByRowId(rowId, true)` for a sequence of row ids, in order. -/
def RowIDMgr.appendCalls (P : Params) (fuel : Nat) : RowIDMgr → List Nat → Option RowIDMgr
  | m, [] => some m
  | m, rowId :: rest =>
    match m.getNVMTupleByRowId P fuel rowId true with
    | none => none
    | some (_, m1) => RowIDMgr.appendCalls P fuel m1 rest

/-- The address of a row as the spec gives it: `pageBase(extentIds[rowId / tuplesPerExtent])
+ extentHeaderSize + (rowId % tuplesPerExtent) × (NVMTupleHeadSize + rowLen)`. -/
def specTupleAddr (P : Params) (m : RowIDMgr) (rowLen : Nat) (rowId : Nat) : Nat :=
  m.pageBase (m.extentIds (rowId / m.m_tuplesPerExtent)) + P.extentHeaderSize
    + rowId % m.m_tuplesPerExtent * (P.NVMTupleHeadSize + rowLen)

/-! ## Tuples (`heap/nvm_tuple.h`, `heap/nvm_tuple.cpp`) -/

/-- The struct `NVMTuple`: the header fields and the payload `m_data` that follows them. -/
structure NVMTuple where
  m_txInfo : Nat
  m_prev : Nat
  m_isUsed : Bool
  m_isDeleted : Bool
  m_dataSize : Nat
  m_data : List Nat
deriving DecidableEq, Repr

/-- The struct `UndoColumnDesc`. -/
structure UndoColumnDesc where
  m_colOffset : Nat
  m_colLen : Nat
deriving DecidableEq, Repr

/-- The class `RAMTuple`: `m_tuple` is the buffer `m_tupleData` (header at
`m_rowHeaderPtr`, row bytes at `m_rowDataPtr`), `m_updatedCols` the first `m_updateCnt`
entries of the updated-column array. -/
structure RAMTuple where
  m_rowLen : Nat
  m_updatedCols : List UndoColumnDesc
  m_updateLen : Nat
  m_tuple : NVMTuple
deriving DecidableEq, Repr

/-- A byte copy `memcpy(dst + off, src, |src|)` inside a buffer `dst`. -/
def copyBytes (dst : List Nat) (off : Nat) (src : List Nat) : List Nat :=
  dst.take off ++ src ++ dst.drop (off + src.length)

/-- The bytes `[off, off + len)` of a buffer. -/
def bytesAt (buf : List Nat) (off len : Nat) : List Nat := (buf.drop off).take len

/-- The sentinel `InvalidUndoRecPtr` (header `undo/nvm_undo_ptr.h` absent). -/
def InvalidUndoRecPtr : Nat := 0

/-- The test `UndoRecPtrIsInValid`. -/
def UndoRecPtrIsInValid (p : Nat) : Bool := p == InvalidUndoRecPtr

/-- The function `RAMTuple::getRowLen`. -/
def RAMTuple.getRowLen (t : RAMTuple) : Nat := t.m_rowLen

/-- The function `RAMTuple::IsUsed`. -/
def RAMTuple.IsUsed (t : RAMTuple) : Bool := t.m_tuple.m_isUsed

/-- The function `RAMTuple::IsDeleted`. -/
def RAMTuple.IsDeleted (t : RAMTuple) : Bool := t.m_tuple.m_isDeleted

/-- The function `RAMTuple::HasPreVersion`. -/
def RAMTuple.HasPreVersion (t : RAMTuple) : Bool := !UndoRecPtrIsInValid t.m_tuple.m_prev

/-- The header assignment of `RAMTuple::InitHead`, on the header it is applied to. -/
def NVMTuple.InitHead (h : NVMTuple) (rowLen txInfo : Nat) (prev : Nat)
    (isUsed isDeleted : Bool) : NVMTuple :=
  { h with m_txInfo := txInfo, m_prev := prev, m_isUsed := isUsed, m_isDeleted := isDeleted,
           m_dataSize := rowLen }

/-- The function `RAMTuple::InitHead`. -/
def RAMTuple.InitHead (t : RAMTuple) (txInfo : Nat) (prev : Nat)
    (isUsed isDeleted : Bool) : RAMTuple :=
  { t with m_tuple := t.m_tuple.InitHead t.m_rowLen txInfo prev isUsed isDeleted }

/-- A copy of `RealTupleSize(rowLen)` bytes from one tuple image onto another: the header
and the first `rowLen` payload bytes. -/
def copyTuple (rowLen : Nat) (dst src : NVMTuple) : NVMTuple :=
  { src with m_data := copyBytes dst.m_data 0 (src.m_data.take rowLen) }

/-- The function `RAMTuple::Serialize`: the tuple itself (its `m_dataSize` is set) and the
new image at `nvmAddr`, whose old image is `old`. -/
def RAMTuple.Serialize (t : RAMTuple) (old : NVMTuple) : RAMTuple × NVMTuple :=
  let t1 := { t with m_tuple := { t.m_tuple with m_dataSize := t.m_rowLen } }
  (t1, copyTuple t.m_rowLen old t1.m_tuple)

/-- The function `RAMTuple::Deserialize`. -/
def RAMTuple.Deserialize (t : RAMTuple) (nvm : NVMTuple) : RAMTuple :=
  { t with m_tuple := copyTuple t.m_rowLen t.m_tuple nvm }

/-- The column copies of `RAMTuple::copyUpdatedColumnsToNVM`, on the payload at `nvmAddr`. -/
def RAMTuple.copyUpdatedColumnsToNVM (t : RAMTuple) (nvm : List Nat) : List Nat :=
  t.m_updatedCols.foldl
    (fun acc c => copyBytes acc c.m_colOffset (bytesAt t.m_tuple.m_data c.m_colOffset c.m_colLen))
    nvm

/-! ## VecStore (`heap/nvm_vecstore.cpp`) -/

/-- Modelled from the spec: the per-thread reservation range of a table (`m_range` of the
thread-local table cache, header absent), "advance thread-local `range.next()`". -/
structure RowIdRange where
  m_next : Nat
  m_end : Nat
deriving DecidableEq, Repr

/-- Modelled from the spec: `range.next()`, the next row id of the range or the sentinel
when the range is used up. -/
def RowIdRange.next (P : Params) (r : RowIdRange) : Nat × RowIdRange :=
  if r.m_next < r.m_end then (r.m_next, { r with m_next := r.m_next + 1 })
  else (P.InvalidRowId, r)

/-- Modelled from the spec: `setRange(start, end)`. -/
def RowIdRange.setRange (start stop : Nat) : RowIdRange := { m_next := start, m_end := stop }

/-- Modelled from the spec: the thread-local table cache (`TLTableCache`, header absent):
"the thread-local free list of previously freed rowids" and the reservation range. -/
structure TLTableCache where
  m_rowidCache : List Nat
  m_range : RowIdRange
deriving DecidableEq, Repr

/-- Modelled from the spec: `m_rowidCache.pop()`, a freed row id or the sentinel. -/
def TLTableCache.pop (P : Params) (c : TLTableCache) : Nat × TLTableCache :=
  match c.m_rowidCache with
  | [] => (P.InvalidRowId, c)
  | rid :: rest => (rid, { c with m_rowidCache := rest })

/-- Modelled from the spec: the bitmap of the extents of one directory (`GlobalBitMap`,
header absent); a bit is `true` once acquired. -/
structure GlobalBitMap where
  bits : List Bool
deriving DecidableEq, Repr

/-- The index of the first bit of a bitmap that is not acquired. -/
def firstFree : List Bool → Option Nat
  | [] => none
  | false :: _ => some 0
  | true :: rest => (firstFree rest).map (· + 1)

/-- Modelled from the spec: `SyncAcquire`, "atomically acquire one set bit from the
bitmap"; the first bit not yet acquired is taken. An exhausted bitmap is fatal. -/
def GlobalBitMap.SyncAcquire (b : GlobalBitMap) : Option (Nat × GlobalBitMap) :=
  match firstFree b.bits with
  | none => none
  | some i => some (i, { bits := b.bits.set i true })

/-- State of a `VecStore` as seen by one worker thread: the bitmaps `m_gbm`, the NUMA
group of the thread (`NumaBinding::getThreadLocalGroupId()`) and its table cache. -/
structure VecStore where
  m_tuplesPerExtent : Nat
  m_gbm : List GlobalBitMap
  groupId : Nat
  cache : TLTableCache
deriving DecidableEq, Repr

/-- The constructor `VecStore::VecStore`, for a worker of group `groupId` whose table
cache is empty. `CHECK(spaceCount > 0)` is fatal. -/
def VecStore.create (P : Params) (spaceCount tuplesPerExtent groupId : Nat) : Option VecStore :=
  if spaceCount = 0 then none
  else
    let pagesPerDir := u32 (P.MaxRowId / tuplesPerExtent / spaceCount)
    some { m_tuplesPerExtent := tuplesPerExtent
           m_gbm := List.replicate spaceCount { bits := List.replicate pagesPerDir false }
           groupId := groupId
           cache := { m_rowidCache := [], m_range := RowIdRange.setRange 0 0 } }

/-- The extent id `globalBit = dirSeq + spaceCount * localBit` of `tryNextSegment`. -/
def globalBitOf (spaceCount dirSeq localBit : Nat) : Nat := u32 (dirSeq + spaceCount * localBit)

/-- The range `[globalBit * tuplesPerExtent, (globalBit + 1) * tuplesPerExtent)` that
`tryNextSegment` sets, both ends computed in 32 bits. -/
def segmentRange (tuplesPerExtent globalBit : Nat) : RowIdRange :=
  RowIdRange.setRange (u32 (globalBit * tuplesPerExtent))
    (u32 (u32 (globalBit + 1) * tuplesPerExtent))

/-- The function `VecStore::tryNextSegment`. -/
def VecStore.tryNextSegment (v : VecStore) : Option VecStore :=
  let spaceCount := v.m_gbm.length
  let dirSeq := v.groupId
  match v.m_gbm.get? dirSeq with
  | none => none
  | some bm =>
    match bm.SyncAcquire with
    | none => none
    | some (localBit, bm1) =>
      let globalBit := globalBitOf spaceCount dirSeq localBit
      some { v with m_gbm := v.m_gbm.set dirSeq bm1
                    cache := { v.cache with m_range := segmentRange v.m_tuplesPerExtent globalBit } }

/-- The loop of `VecStore::tryNextRowid` over the range and the bitmap. -/
def VecStore.tryNextRowidLoop (P : Params) : Nat → VecStore → Option (Nat × VecStore)
  | 0, _ => none
  | fuel + 1, v =>
    let (rid, r1) := v.cache.m_range.next P
    if RowIdIsValid P rid then some (rid, { v with cache := { v.cache with m_range := r1 } })
    else
      match ({ v with cache := { v.cache with m_range := r1 } } : VecStore).tryNextSegment with
      | none => none
      | some v1 => VecStore.tryNextRowidLoop P fuel v1

/-- The function `VecStore::tryNextRowid`. -/
def VecStore.tryNextRowid (P : Params) (fuel : Nat) (v : VecStore) : Option (Nat × VecStore) :=
  let (rid, c1) := v.cache.pop P
  if RowIdIsValid P rid then some (rid, { v with cache := c1 })
  else VecStore.tryNextRowidLoop P fuel { v with cache := c1 }

/-- A row id that `tryNextRowid` hands out for a table of `spaceCount` directories: a row
id of the range that `tryNextSegment` sets for a bit `localBit` of the bitmap of a directory
`dirSeq`, the bitmaps being those the constructor built (`MaxRowId / tuplesPerExtent /
spaceCount` bits each). -/
def VecStore.HandsOut (P : Params) (spaceCount tuplesPerExtent rowId : Nat) : Prop :=
  ∃ dirSeq localBit, dirSeq < spaceCount ∧
    localBit < u32 (P.MaxRowId / tuplesPerExtent / spaceCount) ∧
    (segmentRange tuplesPerExtent (globalBitOf spaceCount dirSeq localBit)).m_next ≤ rowId ∧
    rowId < (segmentRange tuplesPerExtent (globalBitOf spaceCount dirSeq localBit)).m_end

/-! ## RowIdMap (`heap/nvm_rowid_map.h`, `heap/nvm_rowid_map.cpp`) -/

/-- The class `RowIdMapEntry`: the spin lock (`true` while held), the validity flag, the
read and write counters and the address of the tuple. The DRAM cache is disabled in the
source (`loadDRAMCache` returns `m_nvmAddr`). -/
structure RowIdMapEntry where
  m_locked : Bool
  m_isTupleValid : Bool
  m_readCount : Nat
  m_writeCount : Nat
  m_nvmAddr : Nat
deriving DecidableEq, Repr

/-- A zero-initialised entry of a fresh segment. -/
def RowIdMapEntry.zero : RowIdMapEntry :=
  { m_locked := false, m_isTupleValid := false, m_readCount := 0, m_writeCount := 0,
    m_nvmAddr := 0 }

/-- The function `RowIdMapEntry::Lock`; a held lock is spun on for ever. -/
def RowIdMapEntry.Lock (e : RowIdMapEntry) : Option RowIdMapEntry :=
  if e.m_locked then none else some { e with m_locked := true }

/-- The function `RowIdMapEntry::Unlock`. -/
def RowIdMapEntry.Unlock (e : RowIdMapEntry) : RowIdMapEntry := { e with m_locked := false }

/-- The function `RowIdMapEntry::Init`. -/
def RowIdMapEntry.Init (e : RowIdMapEntry) (nvmAddr : Nat) : RowIdMapEntry :=
  { e with m_nvmAddr := nvmAddr, m_isTupleValid := true }

/-- The function `RowIdMapEntry::addReadRef`. -/
def RowIdMapEntry.addReadRef (e : RowIdMapEntry) : RowIdMapEntry :=
  { e with m_readCount := u32 (e.m_readCount + 1) }

/-- The function `RowIdMapEntry::addWriteRef`. -/
def RowIdMapEntry.addWriteRef (e : RowIdMapEntry) : RowIdMapEntry :=
  { e with m_writeCount := u32 (e.m_writeCount + 1) }

/-- The function `RowIdMapEntry::clearRef`. -/
def RowIdMapEntry.clearRef (e : RowIdMapEntry) : RowIdMapEntry :=
  { e with m_writeCount := 0, m_readCount := 0 }

/-- The class `RowIdMap` for one worker thread; `m_entries` is the two-level array
`m_segments`, whose segments are zero-filled on first touch. -/
structure RowIdMap where
  m_rowLen : Nat
  m_isInsertInit : Bool
  m_entries : Nat → RowIdMapEntry
  m_vecStore : VecStore
  m_rowidMgr : RowIDMgr

/-- Persistent memory of the heap: the tuple image found at each tuple address. -/
abbrev PMem := Nat → NVMTuple

/-- The function `RowIdMap::getUpperRowId`. -/
def RowIdMap.getUpperRowId (r : RowIdMap) : Nat := r.m_rowidMgr.getUpperRowId

/-- One pass through the body of the loop of `RowIdMap::getNextEmptyRow`: `some (rowId, addr)`
when the pass returns, `none` when it ends in `continue`. -/
def RowIdMap.getNextEmptyRowStep (P : Params) (fuel : Nat) (txInfo : Nat) (r : RowIdMap)
    (pm : PMem) : Option (Option (Nat × Nat) × RowIdMap × PMem) :=
  match r.m_vecStore.tryNextRowid P fuel with
  | none => none
  | some (rowId, v1) =>
    match r.m_rowidMgr.getNVMTupleByRowId P fuel rowId true with
    | none => none
    | some (none, _) => none
    | some (some tuple, m1) =>
      if (pm tuple).m_isUsed then
        if !r.m_isInsertInit then
          match v1.tryNextSegment with
          | none => none
          | some v2 => some (none, { r with m_vecStore := v2, m_rowidMgr := m1 }, pm)
        else some (none, { r with m_vecStore := v1, m_rowidMgr := m1 }, pm)
      else
        some (some (rowId, tuple),
              { r with m_vecStore := v1, m_rowidMgr := m1, m_isInsertInit := true },
              Function.update pm tuple { pm tuple with m_txInfo := txInfo })

/-- The loop of `RowIdMap::getNextEmptyRow`; `inner` is the fuel of the loops it calls. -/
def RowIdMap.getNextEmptyRowLoop (P : Params) (inner : Nat) (txInfo : Nat) :
    Nat → RowIdMap → PMem → Option ((Nat × Nat) × RowIdMap × PMem)
  | 0, _, _ => none
  | fuel + 1, r, pm =>
    match RowIdMap.getNextEmptyRowStep P inner txInfo r pm with
    | none => none
    | some (some res, r1, pm1) => some (res, r1, pm1)
    | some (none, r1, pm1) => RowIdMap.getNextEmptyRowLoop P inner txInfo fuel r1 pm1

/-- The function `RowIdMap::getNextEmptyRow`. -/
def RowIdMap.getNextEmptyRow (P : Params) (fuel : Nat) (txInfo : Nat) (r : RowIdMap) (pm : PMem) :
    Option ((Nat × Nat) × RowIdMap × PMem) :=
  RowIdMap.getNextEmptyRowLoop P fuel txInfo fuel r pm

/-- The function `RowIdMap::GetEntry`: `some none` is `nullptr`. The entry is addressed by
its row id. -/
def RowIdMap.GetEntry (P : Params) (r : RowIdMap) (rowId : Nat) (_isRead : Bool) :
    Option (Option RowIdMapEntry × RowIdMap) :=
  let entry := r.m_entries rowId
  if !entry.m_isTupleValid then
    match r.m_rowidMgr.getNVMTupleByRowId P 0 rowId false with
    | none => none
    | some (none, _) => some (none, r)
    | some (some nvmTuple, _) =>
      match entry.Lock with
      | none => none
      | some e1 =>
        let e2 := (if !e1.m_isTupleValid then e1.Init nvmTuple else e1).Unlock
        some (some e2, { r with m_entries := Function.update r.m_entries rowId e2 })
  else some (some entry, r)

/-! ## Transactions and undo records

The `Transaction` class, the undo segment header and the heap undo helpers
(`heap/nvm_heap_undo.h`) are not among the sources. -/

/-- The enum `HamStatus`, from its uses in `nvm_access.cpp`. -/
inductive HamStatus where
  | OK
  | READ_ROW_NOT_USED
  | ROW_DELETED
  | NO_VISIBLE_VERSION
  | UPDATE_CONFLICT
  | WAIT_ABORT
deriving DecidableEq, Repr

/-- The enum `TMResult`, from its uses in `nvm_access.cpp`. -/
inductive TMResult where
  | OK
  | SELF_UPDATED
  | INVISIBLE
  | ABORTED
  | BEING_MODIFIED
deriving DecidableEq, Repr

/-- The enum `TxStatus`; `nvm_access.cpp` uses `WAIT_ABORT` only. -/
inductive TxStatus where
  | EMPTY
  | IN_PROGRESS
  | WAIT_ABORT
  | COMMITTED
  | ABORTED
deriving DecidableEq, Repr

/-- The enum `TxSlotStatus`. -/
inductive TxSlotStatus where
  | EMPTY
  | IN_PROGRESS
  | COMMITTED
  | ROLL_BACKED
deriving DecidableEq, Repr

/-- The struct `TxSlot` (`endPtr` is the field `end`). -/
structure TxSlot where
  status : TxSlotStatus
  csn : Nat
  start : Nat
  endPtr : Nat
deriving DecidableEq, Repr

/-- The undo record types. -/
inductive UndoType where
  | HeapInsertUndo
  | HeapUpdateUndo
  | HeapDeleteUndo
deriving DecidableEq, Repr

/-- Modelled from the spec: one entry of an update delta, "a list of `{offset, length,
bytes}`". -/
structure UndoDelta where
  m_colOffset : Nat
  m_colLen : Nat
  m_bytes : List Nat
deriving DecidableEq, Repr

/-- Modelled from the spec: an undo record "`{undoType, txSlot, prev, segmentHead, rowId,
payload}` where payload encodes either a pre-image (insert/delete) or a delta (update)".
The pre-image `data` holds the old header and, for a delete, the old row bytes; an insert
record bears the row length. -/
structure UndoRecord where
  m_undoType : UndoType
  m_txSlot : Nat
  m_prev : Nat
  m_segHead : Nat
  m_rowId : Nat
  m_rowLen : Nat
  data : NVMTuple
  m_delta : List UndoDelta
deriving DecidableEq, Repr

/-- Modelled from the spec: the undo segment of the worker thread, reduced to the next
free slot id, the `UNDO_TX_SLOTS` ring of `TxSlot`s and the undo records appended so far.
The record at position `i` has the undo pointer `i + 1`. The remaining fields are those of
the segment head that `undo/nvm_undo_segment.cpp` reads and writes. -/
structure UndoSegment where
  UNDO_TX_SLOTS : Nat
  m_nextFreeSlot : Nat
  m_slots : Nat → TxSlot
  m_records : List UndoRecord
  m_nextRecycleSlot : Nat := 0
  m_minSlotId : Nat := 0
  m_minSnapshot : Nat := 0
  m_recoveryStart : Nat := 0
  m_recoveryEnd : Nat := 0
  m_recycledBegin : Nat := 0

/-- The function `UndoSegment::getTxSlot`: the ring position of a slot id. -/
def UndoSegment.getTxSlot (u : UndoSegment) (slotId : Nat) : TxSlot :=
  u.m_slots (slotId % u.UNDO_TX_SLOTS)

/-- Modelled from the spec: `allocateTxSlot`, "`slotId = nextFreeSlot++`; slot starts as
`IN_PROGRESS`, `start = currentUndoOffset`, `end = 0`, `csn = 0`". -/
def UndoSegment.allocateTxSlot (u : UndoSegment) : Nat × UndoSegment :=
  (u.m_nextFreeSlot,
   { u with m_nextFreeSlot := u.m_nextFreeSlot + 1
            m_slots := Function.update u.m_slots (u.m_nextFreeSlot % u.UNDO_TX_SLOTS)
              { status := TxSlotStatus.IN_PROGRESS, csn := 0
                start := u.m_records.length + 1, endPtr := 0 } })

/-- Modelled from the spec: `appendUndoRecord`, "encode `rec` at the current undo offset,
flush bytes, update `end` of the current TxSlot, return the offset". -/
def UndoSegment.appendUndoRecord (u : UndoSegment) (slotId : Nat) (rec : UndoRecord) :
    UndoSegment × Nat :=
  let ptr := u.m_records.length + 1
  ({ u with m_records := u.m_records ++ [rec]
            m_slots := Function.update u.m_slots (slotId % u.UNDO_TX_SLOTS)
              { u.getTxSlot slotId with endPtr := ptr } }, ptr)

/-- Modelled from the spec: `GetUndoRecord`, the record an undo pointer names. -/
def UndoSegment.GetUndoRecord (u : UndoSegment) (ptr : Nat) : Option UndoRecord :=
  if ptr = 0 then none else u.m_records.get? (ptr - 1)

/-- Modelled from the spec: the transaction context of the worker, "current snapshot,
TxSlot pointer, and write-set"; the write-set names each `RowIdMapEntry` by its row id. -/
structure Transaction where
  m_txStatus : TxStatus
  m_snapshotCSN : Nat
  m_undoPrepared : Bool
  m_txSlotLocation : Nat
  m_writeSet : List Nat
deriving DecidableEq, Repr

/-- The function `Transaction::GetTxStatus`. -/
def Transaction.GetTxStatus (tx : Transaction) : TxStatus := tx.m_txStatus

/-- The function `Transaction::GetTxSlotLocation`. -/
def Transaction.GetTxSlotLocation (tx : Transaction) : Nat := tx.m_txSlotLocation

/-- Modelled from the spec: `Transaction::WaitAbort`, "mark `WAIT_ABORT`". -/
def Transaction.WaitAbort (tx : Transaction) : Transaction :=
  { tx with m_txStatus := TxStatus.WAIT_ABORT }

/-- Modelled from the spec: `Transaction::PushWriteSet`, "pushes the entry to the
transaction's write-set". -/
def Transaction.PushWriteSet (tx : Transaction) (rowId : Nat) : Transaction :=
  { tx with m_writeSet := tx.m_writeSet ++ [rowId] }

/-- Modelled from the spec: `Transaction::PrepareUndo`, "a TxSlot: allocated on first
write of a transaction". -/
def Transaction.PrepareUndo (tx : Transaction) (u : UndoSegment) : Transaction × UndoSegment :=
  if tx.m_undoPrepared then (tx, u)
  else
    let (slotId, u1) := u.allocateTxSlot
    ({ tx with m_undoPrepared := true, m_txSlotLocation := slotId }, u1)

/-- The discriminator of `m_txInfo`: the most significant of its 64 bits marks a CSN. -/
def TxInfoIsCSN (txInfo : Nat) : Bool := decide (9223372036854775808 ≤ txInfo)

/-- Modelled from the spec: `Transaction::VersionIsVisible`. "If MSB(`txInfo`)=1 (CSN):
visible iff `txInfo ≤ snapshot`. Else (TSP): look up the referenced TxSlot. If
`status=COMMITTED` and `csn ≤ snapshot`: OK. If self: SELF_UPDATED. If COMMITTED but
`csn > snapshot`: INVISIBLE. If IN_PROGRESS and not self: BEING_MODIFIED. If ROLL_BACKED:
ABORTED." The spec leaves a recycled (`EMPTY`) slot open; it is judged OK here. -/
def Transaction.VersionIsVisible (tx : Transaction) (u : UndoSegment) (txInfo : Nat) : TMResult :=
  if TxInfoIsCSN txInfo then
    if txInfo ≤ tx.m_snapshotCSN then TMResult.OK else TMResult.INVISIBLE
  else
    let slot := u.getTxSlot txInfo
    if slot.status = TxSlotStatus.COMMITTED ∧ slot.csn ≤ tx.m_snapshotCSN then TMResult.OK
    else if tx.m_undoPrepared = true ∧ txInfo = tx.m_txSlotLocation then TMResult.SELF_UPDATED
    else
      match slot.status with
      | TxSlotStatus.COMMITTED => TMResult.INVISIBLE
      | TxSlotStatus.IN_PROGRESS => TMResult.BEING_MODIFIED
      | TxSlotStatus.ROLL_BACKED => TMResult.ABORTED
      | TxSlotStatus.EMPTY => TMResult.OK

/-- The method `Transaction::SatisfiedUpdate` is absent and the spec does not define it:
the update and delete operations take it as a parameter of this type. -/
abbrev SatisfiedUpdateFn := Transaction → UndoSegment → NVMTuple → TMResult

/-- The header of a tuple image, without payload. -/
def NVMTuple.head (t : NVMTuple) : NVMTuple := { t with m_data := [] }

/-- Modelled from the spec: `PrepareInsertUndo`, "appends an `InsertUndo` record bearing
`(segHead, rowId, rowLen)`". -/
def PrepareInsertUndo (u : UndoSegment) (tx : Transaction) (segHead : Nat) (rowId : Nat)
    (rowLen : Nat) : UndoSegment × Nat :=
  u.appendUndoRecord tx.GetTxSlotLocation
    { m_undoType := UndoType.HeapInsertUndo, m_txSlot := tx.GetTxSlotLocation
      m_prev := InvalidUndoRecPtr, m_segHead := segHead, m_rowId := rowId, m_rowLen := rowLen
      data := { m_txInfo := 0, m_prev := InvalidUndoRecPtr, m_isUsed := false
                m_isDeleted := false, m_dataSize := 0, m_data := [] }
      m_delta := [] }

/-- Modelled from the spec: `PrepareUpdateUndo`, "append an `UpdateUndo` capturing the
changed columns' old bytes plus the old header". -/
def PrepareUpdateUndo (u : UndoSegment) (tx : Transaction) (segHead : Nat) (rowId : Nat)
    (oldTuple : NVMTuple) (updatedCols : List UndoColumnDesc) : UndoSegment × Nat :=
  u.appendUndoRecord tx.GetTxSlotLocation
    { m_undoType := UndoType.HeapUpdateUndo, m_txSlot := tx.GetTxSlotLocation
      m_prev := oldTuple.m_prev, m_segHead := segHead, m_rowId := rowId
      m_rowLen := oldTuple.m_data.length
      data := oldTuple.head
      m_delta := updatedCols.map (fun c =>
        { m_colOffset := c.m_colOffset, m_colLen := c.m_colLen
          m_bytes := bytesAt oldTuple.m_data c.m_colOffset c.m_colLen }) }

/-- Modelled from the spec: `PrepareDeleteUndo`, "append `DeleteUndo` with the full old
header+body". -/
def PrepareDeleteUndo (u : UndoSegment) (tx : Transaction) (segHead : Nat) (rowId : Nat)
    (oldTuple : NVMTuple) : UndoSegment × Nat :=
  u.appendUndoRecord tx.GetTxSlotLocation
    { m_undoType := UndoType.HeapDeleteUndo, m_txSlot := tx.GetTxSlotLocation
      m_prev := oldTuple.m_prev, m_segHead := segHead, m_rowId := rowId
      m_rowLen := oldTuple.m_data.length
      data := oldTuple
      m_delta := [] }

/-- Modelled from the spec: `UndoUpdate`, "reversing updates by copying the captured old
bytes back", with the old header; applied to a tuple image (header and row bytes). -/
def UndoUpdate (rec : UndoRecord) (t : NVMTuple) : NVMTuple :=
  { rec.data with
    m_data := rec.m_delta.foldl (fun acc d => copyBytes acc d.m_colOffset d.m_bytes) t.m_data }

/-- The function `RAMTuple::FetchPreVersion`; `none` when the undo pointer names no
record. -/
def RAMTuple.FetchPreVersion (t : RAMTuple) (u : UndoSegment) : Option RAMTuple :=
  match u.GetUndoRecord t.m_tuple.m_prev with
  | none => none
  | some undoRecordCache =>
    if undoRecordCache.m_undoType = UndoType.HeapUpdateUndo then
      some { t with m_tuple := UndoUpdate undoRecordCache t.m_tuple }
    else some (t.Deserialize undoRecordCache.data)

/-! ## Heap access (`nvm_access.cpp`) -/

/-- The part of a `Table` the heap operations read; its `m_rowIdMap` is held by the
state. -/
structure Table where
  m_rowLen : Nat
  m_segHead : Nat
deriving DecidableEq, Repr

/-- The function `Table::GetRowLen`. -/
def Table.GetRowLen (t : Table) : Nat := t.m_rowLen

/-- The function `Table::SegmentHead`. -/
def Table.SegmentHead (t : Table) : Nat := t.m_segHead

/-- State the heap operations work on: the row-id map of the table, the persistent
memory of its tuples, the undo segment of the worker and the flag `g_forceWriteBackCSN`. -/
structure HeapState where
  rowIdMap : RowIdMap
  pm : PMem
  undo : UndoSegment
  forceWriteBackCSN : Bool

/-- The function `ForceWriteBackCSN`. -/
def HeapState.ForceWriteBackCSN (s : HeapState) : Bool := s.forceWriteBackCSN

/-- The function `CheckTxStatus`. -/
def CheckTxStatus (tx : Transaction) : Bool := tx.GetTxStatus == TxStatus.WAIT_ABORT

/-- The function `HeapUpperRowId`. -/
def HeapUpperRowId (s : HeapState) : Nat := s.rowIdMap.getUpperRowId

/-- The entry of a row after an operation has released it. -/
def RowIdMap.putEntry (r : RowIdMap) (rowId : Nat) (e : RowIdMapEntry) : RowIdMap :=
  { r with m_entries := Function.update r.m_entries rowId e }

/-- The write-set push `if (ForceWriteBackCSN()) PushWriteSet(GetEntry(rowId, false))` that
ends both insert operations. -/
def pushInserted (P : Params) (s : HeapState) (tx : Transaction) (rowId : Nat) :
    Option (HeapState × Transaction) :=
  if s.ForceWriteBackCSN then
    match s.rowIdMap.GetEntry P rowId false with
    | none => none
    | some (none, _) => none
    | some (some _, r1) => some ({ s with rowIdMap := r1 }, tx.PushWriteSet rowId)
  else some (s, tx)

/-- The function `HeapInsertEmptyTuple`. The returned `RAMTuple` is a view of the tuple at
`nvmAddr`: it is represented by that address, `none` being `nullptr`. -/
def HeapInsertEmptyTuple (P : Params) (fuel : Nat) (s : HeapState) (tx : Transaction)
    (table : Table) : Option ((Option Nat × Nat) × HeapState × Transaction) :=
  if CheckTxStatus tx then some ((none, P.InvalidRowId), s, tx)
  else
    let (tx1, u1) := tx.PrepareUndo s.undo
    match s.rowIdMap.getNextEmptyRow P fuel tx1.GetTxSlotLocation s.pm with
    | none => none
    | some ((rowId, nvmAddr), r1, pm1) =>
      let (u2, _) := PrepareInsertUndo u1 tx1 table.SegmentHead rowId table.GetRowLen
      let pm2 := Function.update pm1 nvmAddr
        ((pm1 nvmAddr).InitHead table.GetRowLen tx1.GetTxSlotLocation InvalidUndoRecPtr true false)
      match pushInserted P { s with rowIdMap := r1, pm := pm2, undo := u2 } tx1 rowId with
      | none => none
      | some (s1, tx2) => some ((some nvmAddr, rowId), s1, tx2)

/-- The function `HeapInsert`; the tuple is returned as the call leaves it. -/
def HeapInsert (P : Params) (fuel : Nat) (s : HeapState) (tx : Transaction) (table : Table)
    (tuple : RAMTuple) : Option (Nat × RAMTuple × HeapState × Transaction) :=
  if CheckTxStatus tx then some (P.InvalidRowId, tuple, s, tx)
  else
    let (tx1, u1) := tx.PrepareUndo s.undo
    match s.rowIdMap.getNextEmptyRow P fuel tx1.GetTxSlotLocation s.pm with
    | none => none
    | some ((rowId, nvmAddr), r1, pm1) =>
      let (u2, _) := PrepareInsertUndo u1 tx1 table.SegmentHead rowId tuple.getRowLen
      let t1 := tuple.InitHead tx1.GetTxSlotLocation InvalidUndoRecPtr true false
      let (t2, image) := t1.Serialize (pm1 nvmAddr)
      let pm2 := Function.update pm1 nvmAddr image
      match pushInserted P { s with rowIdMap := r1, pm := pm2, undo := u2 } tx1 rowId with
      | none => none
      | some (s1, tx2) => some (rowId, t2, s1, tx2)

/-- The loop of `HeapRead` over the versions of a row. -/
def HeapReadLoop (tx : Transaction) (u : UndoSegment) : Nat → RAMTuple → Option (HamStatus × RAMTuple)
  | 0, _ => none
  | fuel + 1, tuple =>
    let result := tx.VersionIsVisible u tuple.m_tuple.m_txInfo
    if result = TMResult.OK ∨ result = TMResult.SELF_UPDATED then
      if tuple.IsDeleted then some (HamStatus.ROW_DELETED, tuple)
      else some (HamStatus.OK, tuple)
    else if result = TMResult.INVISIBLE ∨ result = TMResult.ABORTED
        ∨ result = TMResult.BEING_MODIFIED then
      if !tuple.HasPreVersion then some (HamStatus.NO_VISIBLE_VERSION, tuple)
      else
        match tuple.FetchPreVersion u with
        | none => none
        | some t1 => HeapReadLoop tx u fuel t1
    else none

/-- The function `HeapRead`; `tuple` is the out parameter. -/
def HeapRead (P : Params) (fuel : Nat) (s : HeapState) (tx : Transaction) (rowId : Nat)
    (tuple : RAMTuple) : Option (HamStatus × RAMTuple × HeapState) :=
  if CheckTxStatus tx then some (HamStatus.WAIT_ABORT, tuple, s)
  else
    match s.rowIdMap.GetEntry P rowId true with
    | none => none
    | some (none, r1) => some (HamStatus.READ_ROW_NOT_USED, tuple, { s with rowIdMap := r1 })
    | some (some rowEntry, r1) =>
      match rowEntry.Lock with
      | none => none
      | some e1 =>
        let dramCache := s.pm e1.m_nvmAddr
        let t1 := tuple.Deserialize dramCache
        let s1 := { s with rowIdMap := r1.putEntry rowId e1.addReadRef.Unlock }
        if !t1.IsUsed then some (HamStatus.READ_ROW_NOT_USED, t1, s1)
        else
          match HeapReadLoop tx s.undo fuel t1 with
          | none => none
          | some (st, t2) => some (st, t2, s1)

/-- The function `HeapUpdate` (read-modify-write: the whole tuple is serialized). -/
def HeapUpdate (P : Params) (su : SatisfiedUpdateFn) (s : HeapState) (tx : Transaction)
    (table : Table) (rowId : Nat) (tuple : RAMTuple) :
    Option (HamStatus × RAMTuple × HeapState × Transaction) :=
  if CheckTxStatus tx then some (HamStatus.WAIT_ABORT, tuple, s, tx)
  else
    let (tx1, u1) := tx.PrepareUndo s.undo
    match s.rowIdMap.GetEntry P rowId false with
    | none => none
    | some (none, _) => none
    | some (some rowEntry, r1) =>
      match rowEntry.Lock with
      | none => none
      | some e1 =>
        let dramCache := s.pm e1.m_nvmAddr
        let result := su tx1 u1 dramCache
        if result = TMResult.INVISIBLE ∨ result = TMResult.BEING_MODIFIED then
          some (HamStatus.UPDATE_CONFLICT, tuple,
                { s with rowIdMap := r1.putEntry rowId e1.Unlock, undo := u1 }, tx1.WaitAbort)
        else if dramCache.m_isDeleted then
          some (HamStatus.ROW_DELETED, tuple,
                { s with rowIdMap := r1.putEntry rowId e1.Unlock, undo := u1 }, tx1.WaitAbort)
        else
          let (u2, undo_ptr) :=
            PrepareUpdateUndo u1 tx1 table.SegmentHead rowId dramCache tuple.m_updatedCols
          let t1 := tuple.InitHead tx1.GetTxSlotLocation undo_ptr dramCache.m_isUsed
            dramCache.m_isDeleted
          let (t2, image) := t1.Serialize dramCache
          some (HamStatus.OK, t2,
                { s with rowIdMap := r1.putEntry rowId e1.addWriteRef.Unlock
                         pm := Function.update s.pm e1.m_nvmAddr image
                         undo := u2 },
                tx1.PushWriteSet rowId)

/-- The function `HeapUpdate2` (direct update: only the updated columns are copied). -/
def HeapUpdate2 (P : Params) (su : SatisfiedUpdateFn) (s : HeapState) (tx : Transaction)
    (table : Table) (rowId : Nat) (tuple : RAMTuple) :
    Option (HamStatus × HeapState × Transaction) :=
  if CheckTxStatus tx then some (HamStatus.WAIT_ABORT, s, tx)
  else
    let (tx1, u1) := tx.PrepareUndo s.undo
    match s.rowIdMap.GetEntry P rowId false with
    | none => none
    | some (none, _) => none
    | some (some rowEntry, r1) =>
      match rowEntry.Lock with
      | none => none
      | some e1 =>
        let dramCache := s.pm e1.m_nvmAddr
        let result := su tx1 u1 dramCache
        if result = TMResult.INVISIBLE ∨ result = TMResult.BEING_MODIFIED then
          some (HamStatus.UPDATE_CONFLICT,
                { s with rowIdMap := r1.putEntry rowId e1.Unlock, undo := u1 }, tx1.WaitAbort)
        else if dramCache.m_isDeleted then
          some (HamStatus.ROW_DELETED,
                { s with rowIdMap := r1.putEntry rowId e1.Unlock, undo := u1 }, tx1.WaitAbort)
        else
          let (u2, undo_ptr) :=
            PrepareUpdateUndo u1 tx1 table.SegmentHead rowId dramCache tuple.m_updatedCols
          let image : NVMTuple :=
            { dramCache with m_txInfo := tx1.GetTxSlotLocation, m_prev := undo_ptr
                             m_data := tuple.copyUpdatedColumnsToNVM dramCache.m_data }
          some (HamStatus.OK,
                { s with rowIdMap := r1.putEntry rowId e1.addWriteRef.Unlock
                         pm := Function.update s.pm e1.m_nvmAddr image
                         undo := u2 },
                tx1.PushWriteSet rowId)

/-- The function `HeapDelete`. -/
def HeapDelete (P : Params) (su : SatisfiedUpdateFn) (s : HeapState) (tx : Transaction)
    (table : Table) (rowId : Nat) : Option (HamStatus × HeapState × Transaction) :=
  if CheckTxStatus tx then some (HamStatus.WAIT_ABORT, s, tx)
  else
    let (tx1, u1) := tx.PrepareUndo s.undo
    match s.rowIdMap.GetEntry P rowId false with
    | none => none
    | some (none, _) => none
    | some (some rowEntry, r1) =>
      match rowEntry.Lock with
      | none => none
      | some e1 =>
        let dramCache := s.pm e1.m_nvmAddr
        let result := su tx1 u1 dramCache
        if result = TMResult.INVISIBLE ∨ result = TMResult.BEING_MODIFIED then
          some (HamStatus.UPDATE_CONFLICT,
                { s with rowIdMap := r1.putEntry rowId e1.Unlock, undo := u1 }, tx1.WaitAbort)
        else if dramCache.m_isDeleted then
          some (HamStatus.ROW_DELETED,
                { s with rowIdMap := r1.putEntry rowId e1.Unlock, undo := u1 }, tx1.WaitAbort)
        else
          let (u2, undo_ptr) := PrepareDeleteUndo u1 tx1 table.SegmentHead rowId dramCache
          let image : NVMTuple :=
            { dramCache with m_isDeleted := true, m_txInfo := tx1.GetTxSlotLocation
                             m_prev := undo_ptr }
          some (HamStatus.OK,
                { s with rowIdMap := r1.putEntry rowId e1.clearRef.Unlock
                         pm := Function.update s.pm e1.m_nvmAddr image
                         undo := u2 },
                tx1.PushWriteSet rowId)

/-! ## Predicates used by the theorems -/

/-- The relation between a manager and its state after further appending calls: the
constants are kept, a valid extent slot keeps its page, and the pages still to be handed
out stay valid if they were. -/
def RowIDMgr.Extends (P : Params) (m m1 : RowIDMgr) : Prop :=
  m1.pageBase = m.pageBase ∧ m1.m_tupleLen = m.m_tupleLen ∧
  m1.m_tuplesPerExtent = m.m_tuplesPerExtent ∧ m1.spaceCount = m.spaceCount ∧
  (∀ i, P.NVMPageIdIsValid (m.extentIds i) = true → m1.extentIds i = m.extentIds i) ∧
  ((∀ p ∈ m.freePages, P.NVMPageIdIsValid p = true) →
    ∀ p ∈ m1.freePages, P.NVMPageIdIsValid p = true)

/-- Every valid entry of the row-id map holds the address of its row, in an allocated
extent (what `RowIdMapEntry::Init` records). -/
def RowIdMap.EntriesOk (P : Params) (r : RowIdMap) : Prop :=
  ∀ q, (r.m_entries q).m_isTupleValid = true →
    P.NVMPageIdIsValid (r.m_rowidMgr.extentIds (q / r.m_rowidMgr.m_tuplesPerExtent)) = true ∧
    (r.m_entries q).m_nvmAddr = r.m_rowidMgr.tupleAddr P q

/-- No entry lock is held (the state between two operations of the worker). -/
def RowIdMap.Unlocked (r : RowIdMap) : Prop := ∀ q, (r.m_entries q).m_locked = false

/-- The column copies of an update or of its undo: the bytes of the columns `cols` of
`src`, copied over `dst` column by column. -/
def patchColumns (src : List Nat) (cols : List UndoColumnDesc) (dst : List Nat) : List Nat :=
  cols.foldl (fun acc c => copyBytes acc c.m_colOffset (bytesAt src c.m_colOffset c.m_colLen)) dst

/-- The byte `i` of a row lies in one of the columns `cols`. -/
def coveredBy (cols : List UndoColumnDesc) (i : Nat) : Prop :=
  ∃ c ∈ cols, c.m_colOffset ≤ i ∧ i < c.m_colOffset + c.m_colLen

/-- The outcome of a failed update or delete of row `rowId`: the status `st` is returned,
the transaction is marked `WAIT_ABORT`, the entry lock of the row is free, and the
persistent memory, the undo records and the write-set are those before the call. The undo
segment is exactly the one `PrepareUndo` leaves, which is the segment before the call when
the transaction had prepared its undo already; the transaction is the one `PrepareUndo`
leaves, marked `WAIT_ABORT`. -/
def FailsAtomically (rowId : Nat) (s : HeapState) (tx : Transaction) (st : HamStatus)
    (res : Option (HamStatus × HeapState × Transaction)) : Prop :=
  ∃ s1 tx1, res = some (st, s1, tx1) ∧ tx1.m_txStatus = TxStatus.WAIT_ABORT ∧
    (s1.rowIdMap.m_entries rowId).m_locked = false ∧ s1.pm = s.pm ∧
    s1.undo.m_records = s.undo.m_records ∧ tx1.m_writeSet = tx.m_writeSet ∧
    s1.undo = (tx.PrepareUndo s.undo).2 ∧ tx1 = (tx.PrepareUndo s.undo).1.WaitAbort ∧
    s1.forceWriteBackCSN = s.forceWriteBackCSN ∧
    (tx.m_undoPrepared = true → s1.undo = s.undo ∧ tx1 = tx.WaitAbort)

/-- The older versions `vs` of the version `t` of a row, newest first: each has a
previous version and is followed by the one `FetchPreVersion` fetches from it. -/
def VersionChain (u : UndoSegment) : RAMTuple → List RAMTuple → Prop
  | _, [] => True
  | t, v :: rest => t.HasPreVersion = true ∧ t.FetchPreVersion u = some v ∧ VersionChain u v rest

/-- The visibility test of `HeapRead` judges the version `OK` or `SELF_UPDATED`. -/
def Transaction.Sees (tx : Transaction) (u : UndoSegment) (t : RAMTuple) : Prop :=
  tx.VersionIsVisible u t.m_tuple.m_txInfo = TMResult.OK ∨
  tx.VersionIsVisible u t.m_tuple.m_txInfo = TMResult.SELF_UPDATED

/-- The status `HeapRead` returns at a visible version. -/
def visibleStatus (t : RAMTuple) : HamStatus :=
  if t.IsDeleted then HamStatus.ROW_DELETED else HamStatus.OK

/-! ## A small table used to instantiate the theorems -/

/-- Parameters of the example: 24-byte tuple header, extents of 128 payload bytes after a
64-byte header, page id 0 invalid, 64 row ids. -/
def exParams : Params :=
  { NVMTupleHeadSize := 24, extentSize := 128, extentHeaderSize := 64
    NVMPageIdIsValid := fun p => p != 0
    InvalidRowId := 4294967295, MaxRowId := 63 }

/-- The example table: rows of 8 bytes. -/
def exTable : Table := { m_rowLen := 8, m_segHead := 1 }

/-- A zero tuple image of the example table. -/
def exZeroTuple : NVMTuple :=
  { m_txInfo := 0, m_prev := 0, m_isUsed := false, m_isDeleted := false, m_dataSize := 0
    m_data := [0, 0, 0, 0, 0, 0, 0, 0] }

/-- The row-id manager of the example: two directories, pages of 4096 bytes, the table
space hands out the pages 2, 3, 4; no extent allocated yet. -/
def exMgr : RowIDMgr :=
  RowIDMgr.create exParams (fun p => 4096 * p) [2, 3, 4] 2 0 (fun _ => 0) 8

/-- The allocator of the example, for a worker of NUMA group 0 with an empty table cache. -/
def exVec : VecStore :=
  { m_tuplesPerExtent := 4
    m_gbm := [{ bits := List.replicate 7 false }, { bits := List.replicate 7 false }]
    groupId := 0
    cache := { m_rowidCache := [], m_range := RowIdRange.setRange 0 0 } }

/-- The undo segment of the example: no slot allocated, no record. -/
def exUndo : UndoSegment :=
  { UNDO_TX_SLOTS := 8, m_nextFreeSlot := 5
    m_slots := fun _ => { status := TxSlotStatus.EMPTY, csn := 0, start := 0, endPtr := 0 }
    m_records := [] }

/-- The example state: an empty table on zeroed persistent memory. -/
def exState : HeapState :=
  { rowIdMap := { m_rowLen := 8, m_isInsertInit := false, m_entries := fun _ => RowIdMapEntry.zero
                  m_vecStore := exVec, m_rowidMgr := exMgr }
    pm := fun _ => exZeroTuple
    undo := exUndo
    forceWriteBackCSN := true }

/-- A transaction of the example in progress, with snapshot `2^63 + 5`. -/
def exTx : Transaction :=
  { m_txStatus := TxStatus.IN_PROGRESS, m_snapshotCSN := 9223372036854775813
    m_undoPrepared := false, m_txSlotLocation := 0, m_writeSet := [] }

/-- A tuple of the example table carrying the row bytes 1..8. -/
def exTuple : RAMTuple :=
  { m_rowLen := 8, m_updatedCols := [], m_updateLen := 0
    m_tuple := { exZeroTuple with m_data := [1, 2, 3, 4, 5, 6, 7, 8] } }

/-- A `SatisfiedUpdate` for the examples: the visibility test, with the own version
updatable. -/
def exSatisfiedUpdate : SatisfiedUpdateFn := fun tx u t =>
  match tx.VersionIsVisible u t.m_txInfo with
  | TMResult.SELF_UPDATED => TMResult.OK
  | r => r

/-- The row-id manager of a table whose first extent is allocated (page 2). -/
def exRowMgr : RowIDMgr :=
  RowIDMgr.create exParams (fun p => 4096 * p) [3, 4] 2 0 (fun i => if i = 0 then 2 else 0) 8

/-- A committed row image: CSN `2^63 + 1`, bytes 1..8. -/
def exRowImage : NVMTuple :=
  { m_txInfo := 9223372036854775809, m_prev := 0, m_isUsed := true, m_isDeleted := false
    m_dataSize := 8, m_data := [1, 2, 3, 4, 5, 6, 7, 8] }

/-- The example table with row 0 committed at address 8256 (page 2, offset 64). The worker
has inserted before (`m_isInsertInit`), holds extent 0 and its range starts at row 0, as
after a restart. -/
def exRowState : HeapState :=
  { rowIdMap :=
      { m_rowLen := 8, m_isInsertInit := true, m_entries := fun _ => RowIdMapEntry.zero
        m_vecStore :=
          { m_tuplesPerExtent := 4
            m_gbm :=
              [{ bits := true :: List.replicate 6 false }, { bits := List.replicate 7 false }]
            groupId := 0
            cache := { m_rowidCache := [], m_range := RowIdRange.setRange 0 4 } }
        m_rowidMgr := exRowMgr }
    pm := fun a => if a = 8256 then exRowImage else exZeroTuple
    undo := exUndo
    forceWriteBackCSN := true }

/-- A tuple whose row bytes are all 9 and whose updated-column list names bytes 0 and 1. -/
def exDirtyTuple : RAMTuple :=
  { m_rowLen := 8, m_updatedCols := [{ m_colOffset := 0, m_colLen := 2 }], m_updateLen := 2
    m_tuple := { exZeroTuple with m_data := [9, 9, 9, 9, 9, 9, 9, 9] } }

/-- A tuple read from row 0 whose bytes 0 and 1 have been updated to 9. -/
def exUpdatedTuple : RAMTuple :=
  { m_rowLen := 8, m_updatedCols := [{ m_colOffset := 0, m_colLen := 2 }], m_updateLen := 2
    m_tuple := { exRowImage with m_data := [9, 9, 3, 4, 5, 6, 7, 8] } }

/-- Parameters with the sizes of the source: 24-byte header, 2 MiB extents, 32-bit row
ids. -/
def wideParams : Params :=
  { NVMTupleHeadSize := 24, extentSize := 2097152, extentHeaderSize := 0
    NVMPageIdIsValid := fun p => p != 0
    InvalidRowId := 4294967295, MaxRowId := 4294967294 }

/-- A fresh table of 8-byte rows under `wideParams`: 65536 tuples per extent. -/
def wideMgr : RowIDMgr :=
  RowIDMgr.create wideParams (fun p => 8192 * p) [512] 1 0 (fun _ => 0) 8

/-- The state `exRowState` after a transaction holding TxSlot 5 has updated bytes 0 and 1
of row 0 to 9 with `HeapUpdate2` and not yet committed. -/
def exUpdatedState : HeapState :=
  { rowIdMap :=
      { exRowState.rowIdMap with
        m_entries := fun q =>
          if q = 0 then
            { m_locked := false, m_isTupleValid := true, m_readCount := 0, m_writeCount := 1
              m_nvmAddr := 8256 }
          else RowIdMapEntry.zero }
    pm := fun a =>
      if a = 8256 then
        { m_txInfo := 5, m_prev := 1, m_isUsed := true, m_isDeleted := false, m_dataSize := 8
          m_data := [9, 9, 3, 4, 5, 6, 7, 8] }
      else exZeroTuple
    undo :=
      { UNDO_TX_SLOTS := 8, m_nextFreeSlot := 6
        m_slots := fun i =>
          if i = 5 then { status := TxSlotStatus.IN_PROGRESS, csn := 0, start := 1, endPtr := 1 }
          else { status := TxSlotStatus.EMPTY, csn := 0, start := 0, endPtr := 0 }
        m_records :=
          [{ m_undoType := UndoType.HeapUpdateUndo, m_txSlot := 5, m_prev := 0, m_segHead := 1
             m_rowId := 0, m_rowLen := 8, data := exRowImage.head
             m_delta := [{ m_colOffset := 0, m_colLen := 2, m_bytes := [1, 2] }] }] }
    forceWriteBackCSN := true }

/-- The committed version of row 0 as a reader holding `exTuple` as out parameter sees it. -/
def exRowVersion : RAMTuple :=
  { m_rowLen := 8, m_updatedCols := [], m_updateLen := 0, m_tuple := exRowImage }


/-- An exhausted allocator: empty free list, range `[8, 8)` used up, every bit of both
bitmaps acquired. -/
def exFullVec : VecStore :=
  { m_tuplesPerExtent := 4
    m_gbm := [{ bits := List.replicate 7 true }, { bits := List.replicate 7 true }]
    groupId := 0
    cache := { m_rowidCache := [], m_range := RowIdRange.setRange 8 8 } }

/-! ## Opening a table (`RowIdMap::RowIdMap`) -/

/-- Outcome of a constructor of the source. `checkFailed` is a failed `CHECK` (a message is
logged and the process aborts); `divisionByZero` is the execution of an integer division
whose divisor is zero, which the language leaves undefined. -/
inductive CtorResult (α : Type) where
  | built (a : α)
  | checkFailed
  | divisionByZero

/-- The constructor `RowIdMap::RowIdMap(tableSpace, segHead, rowLen)` for a worker of group
`groupId`: it builds the `RowIDMgr`, reads `getTuplesPerExtent()` and builds the `VecStore`
with `spaceCount = dirConfig->size()`. The divisions of the two inner constructors,
`GetExtentSize(HEAP_EXTENT_SIZE) / m_tupleLen` and `MaxRowId / m_tuplesPerExtent /
spaceCount`, are followed in the order of the source; the only test on the way is
`CHECK(spaceCount > 0)`. -/
def RowIdMap.create (P : Params) (pageBase : Nat → Nat) (freePages : List Nat)
    (maxPageId : Nat) (extentIds : Nat → Nat) (spaceCount groupId rowLen : Nat) :
    CtorResult RowIdMap :=
  if u32 (P.NVMTupleHeadSize + rowLen) = 0 then CtorResult.divisionByZero
  else
    let mgr := RowIDMgr.create P pageBase freePages spaceCount maxPageId extentIds rowLen
    let tuplesPerExtent := mgr.getTuplesPerExtent
    if spaceCount = 0 then CtorResult.checkFailed
    else if tuplesPerExtent = 0 then CtorResult.divisionByZero
    else
      match VecStore.create P spaceCount tuplesPerExtent groupId with
      | none => CtorResult.checkFailed
      | some v =>
        CtorResult.built
          { m_rowLen := rowLen, m_isInsertInit := false
            m_entries := fun _ => RowIdMapEntry.zero
            m_vecStore := v, m_rowidMgr := mgr }

/-! ## Byte memory and `memcpy_no_flush_nt` (`common/nvm_cfg.cpp`) -/

/-- The virtual address space of the process, DRAM and mapped persistent memory alike:
the byte held at each address and, as bookkeeping, the number of byte stores that have hit
each address. Pointers are addresses; `nullptr` is address 0. -/
structure Memory where
  bytes : Nat → Nat
  stores : Nat → Nat

/-- One load of `k` bytes at `s` followed by one store of them at `d`: a byte assignment
`d[i] = s[i]` (`k = 1`), a `uint32_t`/`uint64_t` assignment (`k = 4, 8`), an SSE/AVX
load-store pair (`k = 16, 32, 64`) or a `memcpy` of non-overlapping ranges. -/
def Memory.copy (m : Memory) (d s k : Nat) : Memory :=
  { bytes := fun a => if d ≤ a ∧ a < d + k then m.bytes (s + (a - d)) else m.bytes a
    stores := fun a => if d ≤ a ∧ a < d + k then m.stores a + 1 else m.stores a }

/-- The loops `while (cond(i)) { copy k bytes from s + i to d + i; i += k; }` of
`memcpy_no_flush_nt`, run for at most `fuel` rounds from index `i`. -/
def copyWhile (cond : Nat → Bool) (k d s : Nat) : Nat → Nat → Memory → Nat × Memory
  | 0, i, m => (i, m)
  | fuel + 1, i, m =>
    if cond i then copyWhile cond k d s fuel (i + k) (m.copy (d + i) (s + i) k) else (i, m)

/-- The loop `for (j = 0; j < avx512_blocks; j++, i += 64)` of `memcpy_no_flush_nt`: one
64-byte load and one non-temporal 64-byte store per round (the prefetch of the variant for
more than four blocks changes no byte). -/
def copyBlocks (d s : Nat) : Nat → Nat → Memory → Nat × Memory
  | 0, i, m => (i, m)
  | blocks + 1, i, m => copyBlocks d s blocks (i + 64) (m.copy (d + i) (s + i) 64)

/-- The steps `if (i + k <= n) { copy k bytes; i += k; }` of `memcpy_no_flush_nt`. -/
def copyStep (d s n k : Nat) (st : Nat × Memory) : Nat × Memory :=
  if st.1 + k ≤ n then (st.1 + k, st.2.copy (d + st.1) (s + st.1) k) else st

/-- The block `if (d_addr & 0x3F) { ... }` of `memcpy_no_flush_nt` for a destination that
is not 64-byte aligned: bytes up to an 8-byte boundary, then 8-byte words, then bytes, up to
`prefix_len = min(64 - (d_addr & 0x3F), n)`. `d_addr & 0x3F` is `dest % 64` and
`(d_addr + i) & 0x7` is `(dest + i) % 8`. -/
def copyHead (m : Memory) (dest src n : Nat) : Nat × Memory :=
  if dest % 64 ≠ 0 then
    let prefix_len := if 64 - dest % 64 < n then 64 - dest % 64 else n
    let st1 := copyWhile (fun i => decide (i < prefix_len) && decide ((dest + i) % 8 ≠ 0))
      1 dest src n 0 m
    let st2 := copyWhile (fun i => decide (i + 8 ≤ prefix_len)) 8 dest src n st1.1 st1.2
    copyWhile (fun i => decide (i < prefix_len)) 1 dest src n st2.1 st2.2
  else (0, m)

/-- The function `memcpy_no_flush_nt(dest, ndest, src, n)`; the result is the returned
`errno_t` and the memory. The three `DCHECK`s are compiled out; `n` rounds are enough for
every `while` loop, each round advancing `i`. The index arithmetic of the source is in
`size_t` and stays below `2^64`, since two disjoint buffers of `n` bytes fit the address
space. -/
def memcpy_no_flush_nt (m : Memory) (dest _ndest src n : Nat) : Nat × Memory :=
  if n < 32 then
    (0, (copyWhile (fun i => decide (i < n)) 1 dest src n 0 m).2)
  else
    let head := copyHead m dest src n
    let main : Nat × Memory :=
      if head.1 + 64 ≤ n then copyBlocks dest src ((n - head.1) / 64) head.1 head.2 else head
    let st32 := copyStep dest src n 32 main
    let st16 := copyStep dest src n 16 st32
    let st8 := copyStep dest src n 8 st16
    let st4 := copyStep dest src n 4 st8
    let tail := copyWhile (fun i => decide (i < n)) 1 dest src n st4.1 st4.2
    (0, tail.2)

/-- The ranges `[dest, dest + n)` and `[src, src + n)` do not overlap, in the words of the
`DCHECK` of `memcpy_no_flush_nt`. -/
def NoOverlap (dest src n : Nat) : Prop :=
  ¬ (src ≤ dest ∧ dest < src + n) ∧ ¬ (dest ≤ src ∧ src < dest + n)

/-- The memory `m` is `m0` after `[src, src + i)` has been copied to `[dest, dest + i)`,
each byte of the destination stored exactly once and no other byte stored. -/
def Copied (m0 : Memory) (dest src i : Nat) (m : Memory) : Prop :=
  (∀ j, j < i → m.bytes (dest + j) = m0.bytes (src + j)) ∧
  (∀ a, ¬ (dest ≤ a ∧ a < dest + i) → m.bytes a = m0.bytes a) ∧
  (∀ a, m.stores a = m0.stores a + if dest ≤ a ∧ a < dest + i then 1 else 0)

/-- A memory for the examples: address `a` holds the byte `a % 251`, nothing stored yet. -/
def exMemory : Memory := { bytes := fun a => a % 251, stores := fun _ => 0 }

/-! ## LogicFile (`table_space/nvm_logic_file.h`, `table_space/nvm_logic_file.cpp`) -/

/-- Reduction of an unsigned 64-bit computation. -/
def u64 (n : Nat) : Nat := n % 18446744073709551616

/-- State of a `LogicFile`. The vector `m_segmentAddr` is its size `segmentCount` and its
entries below that size, address 0 being `nullptr`; `segmentCapacity` is the capacity
reserved by the constructor. The library call `pmem_map_file` is represented by the address
it returns for a segment id and a create flag, 0 when the file cannot be mapped as
persistent memory of `m_segmentSize` bytes. -/
structure LogicFile where
  m_segmentSize : Nat
  m_pagesPerSegment : Nat
  segmentCount : Nat
  m_segmentAddr : Nat → Nat
  segmentCapacity : Nat
  pmem_map_file : Nat → Bool → Nat

/-- The test "is mounted" of `mMapFile`:
`m_segmentAddr.size() > segmentId && m_segmentAddr[segmentId] != nullptr`. -/
def LogicFile.isMounted (f : LogicFile) (segmentId : Nat) : Bool :=
  decide (segmentId < f.segmentCount) && decide (f.m_segmentAddr segmentId ≠ 0)

/-- The function `LogicFile::mMapFile(segmentId, init)`; `none` is the fatal
`CHECK(false) << "Cannot map PMem file!"`. A `resize` fills the new entries with
`nullptr`. -/
def LogicFile.mMapFile (f : LogicFile) (segmentId : Nat) (init : Bool) :
    Option (Bool × LogicFile) :=
  if f.isMounted segmentId then some (true, f)
  else
    let nvmAddr := f.pmem_map_file segmentId init
    if nvmAddr = 0 then (if init then none else some (false, f))
    else
      let resized : LogicFile :=
        if f.segmentCount ≤ segmentId then
          { f with segmentCount := segmentId + 1
                   m_segmentAddr := fun i => if f.segmentCount ≤ i then 0 else f.m_segmentAddr i }
        else f
      some (true, { resized with
        m_segmentAddr := Function.update resized.m_segmentAddr segmentId nvmAddr })

/-- The function `LogicFile::getNvmAddrByPageId(globalPageId)` for the page size
`NVM_PAGE_SIZE` (a constant of an absent header); `none` is one of its two fatal `CHECK`s
or, in a file whose `m_pagesPerSegment` is 0, the division by zero of its second line. The
page offset is computed in 64 bits. -/
def LogicFile.getNvmAddrByPageId (NVM_PAGE_SIZE : Nat) (f : LogicFile) (globalPageId : Nat) :
    Option Nat :=
  let pagesPerSegment := f.m_pagesPerSegment
  if pagesPerSegment = 0 then none
  else
    let segmentId := globalPageId / pagesPerSegment
    if segmentId < f.segmentCount then
      let nvmAddr := f.m_segmentAddr segmentId
      if nvmAddr ≠ 0 then
        some (nvmAddr + u64 (u64 (globalPageId % pagesPerSegment) * NVM_PAGE_SIZE))
      else none
    else none

/-- A logic file for the examples: segments of 4 pages of 64 bytes, segment 0 mounted at
address 4096 and segment 1 at address 8192, segment 2 unmapped; `pmem_map_file` maps segment
`i` at `4096 * (i + 1)`. -/
def exFile : LogicFile :=
  { m_segmentSize := 256, m_pagesPerSegment := 4, segmentCount := 3
    m_segmentAddr := fun i => if i = 0 then 4096 else if i = 1 then 8192 else 0
    segmentCapacity := 16
    pmem_map_file := fun i _ => 4096 * (i + 1) }

/-- The function `LogicFile::reMMapFile(segmentId)`: the mapping of a mounted segment moves
to a fresh trailing entry; `none` is the fatal `CHECK(m_segmentAddr.size() <
m_segmentAddr.capacity())`. The `rename` of the file is taken to succeed. -/
def LogicFile.reMMapFile (f : LogicFile) (segmentId : Nat) : Option LogicFile :=
  if f.segmentCount ≤ segmentId ∨ f.m_segmentAddr segmentId = 0 then some f
  else if ¬ f.segmentCount < f.segmentCapacity then none
  else
    let offset := f.segmentCount
    some { f with
      segmentCount := offset + 1
      m_segmentAddr :=
        Function.update (Function.update f.m_segmentAddr offset (f.m_segmentAddr segmentId))
          segmentId 0 }

/-- The loop `for (i = startSegmentId; i < endSegmentId; i++) reMMapFile(i)` of `punch`,
`count` rounds from `i`. -/
def LogicFile.punchLoop : Nat → Nat → LogicFile → Option LogicFile
  | 0, _, f => some f
  | count + 1, i, f =>
    match f.reMMapFile i with
    | none => none
    | some f1 => LogicFile.punchLoop count (i + 1) f1

/-- The function `LogicFile::punch(startSegmentId, endSegmentId)`; `none` is a fatal
`CHECK`. -/
def LogicFile.punch (f : LogicFile) (startSegmentId endSegmentId : Nat) : Option LogicFile :=
  if ¬ startSegmentId < endSegmentId then none
  else LogicFile.punchLoop (endSegmentId - startSegmentId) startSegmentId f

/-- The constant `SLOT_OFFSET`. -/
def SLOT_OFFSET : Nat := 2

/-- The functions of absent headers that `undo/nvm_undo_segment.cpp` calls:
`UndoSegment::isEmpty`, `UndoSegment::isTxSlotRecyclable(slotId, minSnapshot)` and
`UndoRecPtrGetOffset`. -/
structure UndoEnv where
  isEmpty : UndoSegment → Bool
  isTxSlotRecyclable : UndoSegment → Nat → Nat → Bool
  UndoRecPtrGetOffset : Nat → Nat

/-- The loop of `recycleUndoPages` over the slots `i, i + 1, ...`, `count` of them: the
pair `(recycledEnd, endSegmentId)` after the last slot that has undo records. -/
def UndoSegment.recycledEndLoop (E : UndoEnv) (u : UndoSegment) (segmentSize : Nat) :
    Nat → Nat → Nat × Nat → Nat × Nat
  | 0, _, acc => acc
  | count + 1, i, acc =>
    let txSlot := u.getTxSlot i
    if txSlot.start = 0 then UndoSegment.recycledEndLoop E u segmentSize count (i + 1) acc
    else
      let recycledEnd := E.UndoRecPtrGetOffset txSlot.endPtr
      UndoSegment.recycledEndLoop E u segmentSize count (i + 1)
        (recycledEnd, u32 (recycledEnd / segmentSize))

/-- The function `UndoSegment::recycleUndoPages(beginSlot, endSlot)` on the segment head and
the logic file of the segment; `none` is a fatal `CHECK` of `punch`. -/
def UndoSegment.recycleUndoPages (E : UndoEnv) (u : UndoSegment) (file : LogicFile)
    (beginSlot endSlot : Nat) : Option (UndoSegment × LogicFile) :=
  let segmentSize := file.m_segmentSize
  let startSegmentId := u32 (u.m_recycledBegin / segmentSize)
  let r := UndoSegment.recycledEndLoop E u segmentSize (endSlot + 1 - beginSlot) beginSlot (0, 0)
  let recycledEnd := r.1
  let endSegmentId := r.2
  let startSegmentId := if startSegmentId = 0 then 1 else startSegmentId
  if startSegmentId < endSegmentId then
    match file.punch startSegmentId endSegmentId with
    | none => none
    | some file1 => some ({ u with m_recycledBegin := recycledEnd }, file1)
  else some (u, file)

/-- The loop `while (next_slot < max_slot)` of `recycleTxSlot`: the pair `(next_slot,
recycled)` it ends with, given at least `max_slot - next_slot` rounds. -/
def UndoSegment.recycleScan (recyclable : Nat → Bool) (max_slot : Nat) :
    Nat → Nat → Bool → Nat × Bool
  | 0, next_slot, recycled => (next_slot, recycled)
  | fuel + 1, next_slot, recycled =>
    if next_slot < max_slot then
      if !recyclable next_slot then (next_slot, recycled)
      else UndoSegment.recycleScan recyclable max_slot fuel (next_slot + 1) true
    else (next_slot, recycled)

/-- The zero image a `memset_s` leaves in a `TxSlot` (status 0 is `EMPTY`). -/
def TxSlot.zero : TxSlot := { status := TxSlotStatus.EMPTY, csn := 0, start := 0, endPtr := 0 }

/-- The two `memset_s` branches of `recycleTxSlot` on the ring of slots. -/
def UndoSegment.clearSlots (u : UndoSegment) (begin_offset end_offset : Nat) : Nat → TxSlot :=
  if begin_offset < end_offset then
    fun i => if begin_offset ≤ i ∧ i < end_offset then TxSlot.zero else u.m_slots i
  else
    fun i =>
      if (begin_offset ≤ i ∧ i < u.UNDO_TX_SLOTS) ∨ i < end_offset then TxSlot.zero
      else u.m_slots i

/-- The function `UndoSegment::recycleTxSlot(minSnapshot)` on the segment head and the
logic file of the segment; `none` is a fatal `CHECK` of `punch`. -/
def UndoSegment.recycleTxSlot (E : UndoEnv) (u : UndoSegment) (file : LogicFile)
    (minSnapshot : Nat) : Option (UndoSegment × LogicFile) :=
  let begin_slot := u.m_nextRecycleSlot
  let max_slot := u.m_nextFreeSlot
  let scan := UndoSegment.recycleScan (fun i => E.isTxSlotRecyclable u i minSnapshot) max_slot
    (max_slot - begin_slot) begin_slot false
  let next_slot := scan.1
  if scan.2 then
    let u1 : UndoSegment :=
      if next_slot + SLOT_OFFSET ≥ max_slot then { u with m_minSnapshot := minSnapshot } else u
    let u2 : UndoSegment := { u1 with m_minSlotId := next_slot }
    let next_slot := u2.m_minSlotId
    match u2.recycleUndoPages E file begin_slot (next_slot - 1) with
    | none => none
    | some (u3, file1) =>
      let begin_offset := begin_slot % u3.UNDO_TX_SLOTS
      let end_offset := next_slot % u3.UNDO_TX_SLOTS
      some ({ u3 with m_slots := u3.clearSlots begin_offset end_offset
                      m_nextRecycleSlot := next_slot }, file1)
  else some (u, file)

/-- The loop `for (i = slot_begin; i <= slot_end; i++)` of `getMaxCSNForRollback`, `count`
rounds from `i`: the largest `csn` of a `COMMITTED` slot. -/
def UndoSegment.maxCommittedCSN (u : UndoSegment) : Nat → Nat → Nat → Nat
  | 0, _, maxUndoCSN => maxUndoCSN
  | count + 1, i, maxUndoCSN =>
    let txSlot := u.getTxSlot i
    UndoSegment.maxCommittedCSN u count (i + 1)
      (if txSlot.status = TxSlotStatus.COMMITTED then max maxUndoCSN txSlot.csn else maxUndoCSN)

/-- The function `UndoSegment::getMaxCSNForRollback`, for a segment whose `m_nextFreeSlot`
is at least 1 when it is not empty (the `DCHECK` of the source). -/
def UndoSegment.getMaxCSNForRollback (E : UndoEnv) (u : UndoSegment) : Nat × UndoSegment :=
  if E.isEmpty u then (u.m_minSnapshot, u)
  else
    let slot_end := u.m_nextFreeSlot - 1
    let slot_begin := if slot_end > 0 then slot_end - 1 else 0
    let maxUndoCSN := u.maxCommittedCSN (slot_end + 1 - slot_begin) slot_begin 0
    let u1 : UndoSegment :=
      if u.m_recoveryStart = 0 then { u with m_recoveryStart := slot_begin + 1 } else u
    (maxUndoCSN, { u1 with m_recoveryEnd := slot_end })

/-- The loop of `backgroundRecovery`, `count` rounds from slot `i`. The calls of
`UndoRecordRollBack` (absent) are recorded by the id of the slot they are given; the
function is taken to leave the TxSlots of the segment as they are. -/
def UndoSegment.recoveryLoop : Nat → Nat → UndoSegment × List Nat → UndoSegment × List Nat
  | 0, _, st => st
  | count + 1, i, (u, rolledBack) =>
    if (u.getTxSlot i).status = TxSlotStatus.IN_PROGRESS then
      UndoSegment.recoveryLoop count (i + 1)
        ({ u with m_slots := Function.update u.m_slots (i % u.UNDO_TX_SLOTS)
                    { u.getTxSlot i with status := TxSlotStatus.ROLL_BACKED } },
          rolledBack ++ [i])
    else UndoSegment.recoveryLoop count (i + 1) (u, rolledBack)

/-- The function `UndoSegment::backgroundRecovery`: the segment afterwards and the slots
handed to `UndoRecordRollBack`, in order. -/
def UndoSegment.backgroundRecovery (u : UndoSegment) : UndoSegment × List Nat :=
  let r := UndoSegment.recoveryLoop (u.m_recoveryEnd + 1 - u.m_recoveryStart) u.m_recoveryStart
    (u, [])
  ({ r.1 with m_recoveryStart := 0 }, r.2)

/-- The cursor invariant of the TxSlot ring. -/
def UndoSegment.CursorsOrdered (u : UndoSegment) : Prop :=
  u.m_nextRecycleSlot ≤ u.m_minSlotId ∧ u.m_minSlotId ≤ u.m_nextFreeSlot

/-- Modelled from the spec: "a slot is recyclable iff it is COMMITTED with `csn ≤
minSnapshot`, or ROLL_BACKED, or EMPTY"; used in the examples, together with an `isEmpty`
that compares the two cursors and undo pointers that are their own offsets. -/
def exUndoEnv : UndoEnv :=
  { isEmpty := fun u => u.m_nextFreeSlot == u.m_nextRecycleSlot
    isTxSlotRecyclable := fun u slotId minSnapshot =>
      match (u.getTxSlot slotId).status with
      | TxSlotStatus.COMMITTED => decide ((u.getTxSlot slotId).csn ≤ minSnapshot)
      | TxSlotStatus.ROLL_BACKED => true
      | TxSlotStatus.EMPTY => true
      | TxSlotStatus.IN_PROGRESS => false
    UndoRecPtrGetOffset := fun p => p }

/-- An undo segment for the examples: a ring of 8 slots, slots 0..3 allocated; slots 0 and
1 committed at CSN `2^63 + 1` and `2^63 + 2`, slot 2 rolled back, slot 3 in progress. -/
def exRing : UndoSegment :=
  { UNDO_TX_SLOTS := 8, m_nextFreeSlot := 4
    m_slots := fun i =>
      if i = 0 then { status := TxSlotStatus.COMMITTED, csn := 9223372036854775809
                      start := 0, endPtr := 0 }
      else if i = 1 then { status := TxSlotStatus.COMMITTED, csn := 9223372036854775810
                           start := 0, endPtr := 0 }
      else if i = 2 then { status := TxSlotStatus.ROLL_BACKED, csn := 0, start := 0, endPtr := 0 }
      else if i = 3 then { status := TxSlotStatus.IN_PROGRESS, csn := 0, start := 0, endPtr := 0 }
      else TxSlot.zero
    m_records := [] }

/-- An undo segment found after a crash: one slot allocated, slot 0, still in progress. -/
def exCrashed : UndoSegment :=
  { UNDO_TX_SLOTS := 8, m_nextFreeSlot := 1
    m_slots := fun i =>
      if i = 0 then { status := TxSlotStatus.IN_PROGRESS, csn := 0, start := 1, endPtr := 1 }
      else TxSlot.zero
    m_records := [] }

/-- An undo segment found after a crash: slots 0..3 allocated, slots 0 and 1 committed,
slots 2 and 3 still in progress. -/
def exCrashedTwo : UndoSegment :=
  { exRing with
    m_slots := fun i =>
      if i = 2 ∨ i = 3 then { status := TxSlotStatus.IN_PROGRESS, csn := 0, start := 1, endPtr := 1 }
      else exRing.m_slots i }

/-! ## Recovered CSN and watermark (`undo/nvm_undo_segment.cpp`) -/

/-- The loop of `CheckRecoverUndoWatermark` over the undo segments and their entries of
`g_undoSegmentAllocated`: a segment whose entry is 2 contributes `getMaxCSNForRollback()`
and its entry becomes 0. -/
def CheckRecoverUndoWatermarkLoop (E : UndoEnv) :
    List (UndoSegment × Nat) → Nat → Nat × List (UndoSegment × Nat)
  | [], maxUndoCSN => (maxUndoCSN, [])
  | (seg, allocated) :: rest, maxUndoCSN =>
    if allocated ≠ 2 then
      let r := CheckRecoverUndoWatermarkLoop E rest maxUndoCSN
      (r.1, (seg, allocated) :: r.2)
    else
      let g := seg.getMaxCSNForRollback E
      let r := CheckRecoverUndoWatermarkLoop E rest (max maxUndoCSN g.1)
      (r.1, (g.2, 0) :: r.2)

/-- The function `CheckRecoverUndoWatermark` for the constant `MIN_TX_CSN` (header
absent). -/
def CheckRecoverUndoWatermark (E : UndoEnv) (MIN_TX_CSN : Nat)
    (segments : List (UndoSegment × Nat)) : Nat × List (UndoSegment × Nat) :=
  CheckRecoverUndoWatermarkLoop E segments MIN_TX_CSN

/-- The function `UndoSegmentMount` over the undo segments as their `mount()` finds them
on persistent memory: every entry of `g_undoSegmentAllocated` is set to 2, and the value
of `CheckRecoverUndoWatermark()` is handed to `setRecoveredCSN`. The result is that value
and the segments afterwards. The call `setRecoveredCSN(GetAndIncreaseWatermark())` is
commented out in the source. -/
def UndoSegmentMount (E : UndoEnv) (MIN_TX_CSN : Nat) (segments : List UndoSegment) :
    Nat × List (UndoSegment × Nat) :=
  CheckRecoverUndoWatermark E MIN_TX_CSN (segments.map (fun seg => (seg, 2)))

/-- The constructor `LogicFile::LogicFile(dirConfig, spaceName, segmentSize,
maxSegmentCount)` for the page size `NVM_PAGE_SIZE`; `none` is the fatal
`CHECK(mMapFile(0, true))`. -/
def LogicFile.create (NVM_PAGE_SIZE : Nat) (pmem_map_file : Nat → Bool → Nat)
    (segmentSize maxSegmentCount : Nat) : Option LogicFile :=
  let f : LogicFile :=
    { m_segmentSize := segmentSize, m_pagesPerSegment := segmentSize / NVM_PAGE_SIZE
      segmentCount := 0, m_segmentAddr := fun _ => 0
      segmentCapacity := maxSegmentCount, pmem_map_file := pmem_map_file }
  match f.mMapFile 0 true with
  | none => none
  | some (ok, f1) => if ok then some f1 else none

/-- The loop `for (i = 1; i < segmentCapacity(); i++)` of `mount`, `count` rounds from
`i`, leaving at the first segment that does not exist. -/
def LogicFile.mountLoop : Nat → Nat → LogicFile → Option LogicFile
  | 0, _, f => some f
  | count + 1, i, f =>
    match f.mMapFile i false with
    | none => none
    | some (ok, f1) => if ok then LogicFile.mountLoop count (i + 1) f1 else some f1

/-- The function `LogicFile::mount`; `none` is the fatal `CHECK` on segment 0. -/
def LogicFile.mount (f : LogicFile) : Option LogicFile :=
  if f.m_segmentAddr 0 = 0 then none
  else LogicFile.mountLoop (f.segmentCapacity - 1) 1 f

/-- The function `GetAndIncreaseWatermark` for the constants `NVM_PAGE_SIZE` and
`MIN_TX_CSN` (headers absent). The persistent memory is given by the `uint64` found at each
address; the result is the returned CSN and the memory afterwards, `none` a fatal `CHECK`
of the logic file. The increment, the shift and the sum are 64-bit operations. The file has
one segment of 1024 bytes, hence `1024 / NVM_PAGE_SIZE` pages, and `getNvmAddrByPageId(0)`
divides by that number. -/
def GetAndIncreaseWatermark (NVM_PAGE_SIZE MIN_TX_CSN : Nat) (pmem_map_file : Nat → Bool → Nat)
    (pm : Nat → Nat) : Option (Nat × (Nat → Nat)) :=
  match LogicFile.create NVM_PAGE_SIZE pmem_map_file 1024 1 with
  | none => none
  | some file =>
    match file.mount with
    | none => none
    | some file1 =>
      match file1.getNvmAddrByPageId NVM_PAGE_SIZE 0 with
      | none => none
      | some watermark =>
        let pm1 := Function.update pm watermark (u64 (pm watermark + 1))
        let value := pm1 watermark
        some (u64 (MIN_TX_CSN + u64 (value * 4294967296)), pm1)

/-- The largest `csn` of a `COMMITTED` slot among the last two allocated slots of a
segment, 0 if there is none. -/
def UndoSegment.lastCommittedCSN (u : UndoSegment) : Nat :=
  max
    (if 2 ≤ u.m_nextFreeSlot ∧
        (u.getTxSlot (u.m_nextFreeSlot - 2)).status = TxSlotStatus.COMMITTED
      then (u.getTxSlot (u.m_nextFreeSlot - 2)).csn else 0)
    (if (u.getTxSlot (u.m_nextFreeSlot - 1)).status = TxSlotStatus.COMMITTED
      then (u.getTxSlot (u.m_nextFreeSlot - 1)).csn else 0)

/-- What a segment contributes to the recovered CSN: its persisted `m_minSnapshot` if it is
empty, the largest committed `csn` among its last two slots otherwise. -/
def UndoSegment.rollbackCSN (E : UndoEnv) (u : UndoSegment) : Nat :=
  if E.isEmpty u then u.m_minSnapshot else u.lastCommittedCSN
/-- An undo segment for the examples: one slot allocated, committed at CSN `2^63 + 5`. -/
def exCommitted : UndoSegment :=
  { UNDO_TX_SLOTS := 8, m_nextFreeSlot := 1
    m_slots := fun i =>
      if i = 0 then { status := TxSlotStatus.COMMITTED, csn := 9223372036854775813
                      start := 1, endPtr := 1 }
      else TxSlot.zero
    m_records := [] }

/-! ## Serializer (`common/serializer.h`) and the key codec of the PAC-tree benchmark -/

/-- Reduction of an unsigned 8-bit computation. -/
def u8 (n : Nat) : Nat := n % 256

/-- Reduction of an unsigned 16-bit computation. -/
def u16 (n : Nat) : Nat := n % 65536

/-- The conversion `static_cast<uint8_t>` of an `int8_t`. -/
def toU8 (v : Int) : Nat := (v % 256).toNat

/-- The conversion `static_cast<int8_t>` of a value below `2^8`. -/
def toS8 (u : Nat) : Int := if u < 128 then (u : Int) else (u : Int) - 256

/-- The conversion `static_cast<uint16_t>` of an `int16_t`. -/
def toU16 (v : Int) : Nat := (v % 65536).toNat

/-- The conversion `static_cast<int16_t>` of a value below `2^16`. -/
def toS16 (u : Nat) : Int := if u < 32768 then (u : Int) else (u : Int) - 65536

/-- The conversion `static_cast<uint32_t>` of an `int32_t`. -/
def toU32 (v : Int) : Nat := (v % 4294967296).toNat

/-- The conversion `static_cast<int32_t>` of a value below `2^32`. -/
def toS32 (u : Nat) : Int := if u < 2147483648 then (u : Int) else (u : Int) - 4294967296

/-- The conversion `static_cast<uint64_t>` of an `int64_t`. -/
def toU64 (v : Int) : Nat := (v % 18446744073709551616).toNat

/-- The conversion `static_cast<int64_t>` of a value below `2^64`. -/
def toS64 (u : Nat) : Int :=
  if u < 9223372036854775808 then (u : Int) else (u : Int) - 18446744073709551616

/-- The constant `INT32_SIGN`. -/
def INT32_SIGN : Nat := 0x80000000

/-- The constant `INT64_SIGN`. -/
def INT64_SIGN : Nat := 0x8000000000000000

/-- The class `BinaryWriter`: the `char` array it was given, each `char` by its value as
an `unsigned char`, and the write position. The class holds no capacity: staying inside the
array is the caller's obligation. -/
structure BinaryWriter where
  buffer : Nat → Nat
  position : Nat

/-- The constructor `BinaryWriter(char* data)`. -/
def BinaryWriter.create (data : Nat → Nat) : BinaryWriter := { buffer := data, position := 0 }

/-- The function `BinaryWriter::get_size`. -/
def BinaryWriter.get_size (w : BinaryWriter) : Nat := w.position

/-- The statement `buffer[position++] = static_cast<char>(c)`. -/
def BinaryWriter.put (w : BinaryWriter) (c : Nat) : BinaryWriter :=
  { buffer := Function.update w.buffer w.position (u8 c), position := w.position + 1 }

/-- The function `BinaryWriter::write_uint8`. -/
def BinaryWriter.write_uint8 (w : BinaryWriter) (value : Nat) : BinaryWriter := w.put value

/-- The function `BinaryWriter::write_int8`. -/
def BinaryWriter.write_int8 (w : BinaryWriter) (value : Int) : BinaryWriter :=
  w.write_uint8 (toU8 value ^^^ 0x80)

/-- The function `BinaryWriter::write_uint16`. -/
def BinaryWriter.write_uint16 (w : BinaryWriter) (value : Nat) : BinaryWriter :=
  (w.put ((value >>> 8) &&& 0xFF)).put (value &&& 0xFF)

/-- The function `BinaryWriter::write_int16`. -/
def BinaryWriter.write_int16 (w : BinaryWriter) (value : Int) : BinaryWriter :=
  w.write_uint16 (toU16 value ^^^ 0x8000)

/-- The function `BinaryWriter::write_uint32`. -/
def BinaryWriter.write_uint32 (w : BinaryWriter) (value : Nat) : BinaryWriter :=
  (((w.put ((value >>> 24) &&& 0xFF)).put ((value >>> 16) &&& 0xFF)).put
    ((value >>> 8) &&& 0xFF)).put (value &&& 0xFF)

/-- The function `BinaryWriter::write_int32`. -/
def BinaryWriter.write_int32 (w : BinaryWriter) (value : Int) : BinaryWriter :=
  w.write_uint32 (toU32 value ^^^ INT32_SIGN)

/-- The function `BinaryWriter::write_uint64`. -/
def BinaryWriter.write_uint64 (w : BinaryWriter) (value : Nat) : BinaryWriter :=
  (((((((w.put ((value >>> 56) &&& 0xFF)).put ((value >>> 48) &&& 0xFF)).put
    ((value >>> 40) &&& 0xFF)).put ((value >>> 32) &&& 0xFF)).put
    ((value >>> 24) &&& 0xFF)).put ((value >>> 16) &&& 0xFF)).put
    ((value >>> 8) &&& 0xFF)).put (value &&& 0xFF)

/-- The function `BinaryWriter::write_int64`. -/
def BinaryWriter.write_int64 (w : BinaryWriter) (value : Int) : BinaryWriter :=
  w.write_uint64 (toU64 value ^^^ INT64_SIGN)

/-- The class `BinaryReader`. -/
structure BinaryReader where
  buffer : Nat → Nat
  position : Nat

/-- The constructor `BinaryReader(const char* data)`. -/
def BinaryReader.create (data : Nat → Nat) : BinaryReader := { buffer := data, position := 0 }

/-- The function `BinaryReader::get_position`. -/
def BinaryReader.get_position (r : BinaryReader) : Nat := r.position

/-- The expression `static_cast<uint8_t>(buffer[position + i])`. -/
def BinaryReader.byteAt (r : BinaryReader) (i : Nat) : Nat := u8 (r.buffer (r.position + i))

/-- The function `BinaryReader::read_uint8`. -/
def BinaryReader.read_uint8 (r : BinaryReader) : Nat × BinaryReader :=
  (r.byteAt 0, { r with position := r.position + 1 })

/-- The function `BinaryReader::read_int8`. -/
def BinaryReader.read_int8 (r : BinaryReader) : Int × BinaryReader :=
  (toS8 (u8 (r.read_uint8.1 ^^^ 0x80)), r.read_uint8.2)

/-- The function `BinaryReader::read_uint16`. -/
def BinaryReader.read_uint16 (r : BinaryReader) : Nat × BinaryReader :=
  let value := u16 (r.byteAt 0 <<< 8)
  let value := value ||| r.byteAt 1
  (value, { r with position := r.position + 2 })

/-- The function `BinaryReader::read_int16`. -/
def BinaryReader.read_int16 (r : BinaryReader) : Int × BinaryReader :=
  (toS16 (u16 (r.read_uint16.1 ^^^ 0x8000)), r.read_uint16.2)

/-- The function `BinaryReader::read_uint32`. -/
def BinaryReader.read_uint32 (r : BinaryReader) : Nat × BinaryReader :=
  let value := u32 (r.byteAt 0 <<< 24)
  let value := value ||| u32 (r.byteAt 1 <<< 16)
  let value := value ||| u32 (r.byteAt 2 <<< 8)
  let value := value ||| r.byteAt 3
  (value, { r with position := r.position + 4 })

/-- The function `BinaryReader::read_int32`. -/
def BinaryReader.read_int32 (r : BinaryReader) : Int × BinaryReader :=
  (toS32 (r.read_uint32.1 ^^^ INT32_SIGN), r.read_uint32.2)

/-- The function `BinaryReader::read_uint64`. -/
def BinaryReader.read_uint64 (r : BinaryReader) : Nat × BinaryReader :=
  let value := u64 (r.byteAt 0 <<< 56)
  let value := value ||| u64 (r.byteAt 1 <<< 48)
  let value := value ||| u64 (r.byteAt 2 <<< 40)
  let value := value ||| u64 (r.byteAt 3 <<< 32)
  let value := value ||| u64 (r.byteAt 4 <<< 24)
  let value := value ||| u64 (r.byteAt 5 <<< 16)
  let value := value ||| u64 (r.byteAt 6 <<< 8)
  let value := value ||| r.byteAt 7
  (value, { r with position := r.position + 8 })

/-- The function `BinaryReader::read_int64`. -/
def BinaryReader.read_int64 (r : BinaryReader) : Int × BinaryReader :=
  (toS64 (r.read_uint64.1 ^^^ INT64_SIGN), r.read_uint64.2)

/-- A value of one of the eight integer types of the serializer; used to state what a
sequence of writes and the matching sequence of reads do. -/
inductive Field where
  | uint8 (v : Nat)
  | int8 (v : Int)
  | uint16 (v : Nat)
  | int16 (v : Int)
  | uint32 (v : Nat)
  | int32 (v : Int)
  | uint64 (v : Nat)
  | int64 (v : Int)
deriving DecidableEq, Repr

/-- The value `sizeof(T)` of the type of a field. -/
def Field.size : Field → Nat
  | Field.uint8 _ => 1
  | Field.int8 _ => 1
  | Field.uint16 _ => 2
  | Field.int16 _ => 2
  | Field.uint32 _ => 4
  | Field.int32 _ => 4
  | Field.uint64 _ => 8
  | Field.int64 _ => 8

/-- The value of a field is a value of its type. -/
def Field.InRange : Field → Prop
  | Field.uint8 v => v < 256
  | Field.int8 v => -128 ≤ v ∧ v < 128
  | Field.uint16 v => v < 65536
  | Field.int16 v => -32768 ≤ v ∧ v < 32768
  | Field.uint32 v => v < 4294967296
  | Field.int32 v => -2147483648 ≤ v ∧ v < 2147483648
  | Field.uint64 v => v < 18446744073709551616
  | Field.int64 v => -9223372036854775808 ≤ v ∧ v < 9223372036854775808

/-- The call `write_T(v)` for a field `v` of type `T`. -/
def BinaryWriter.write (w : BinaryWriter) : Field → BinaryWriter
  | Field.uint8 v => w.write_uint8 v
  | Field.int8 v => w.write_int8 v
  | Field.uint16 v => w.write_uint16 v
  | Field.int16 v => w.write_int16 v
  | Field.uint32 v => w.write_uint32 v
  | Field.int32 v => w.write_int32 v
  | Field.uint64 v => w.write_uint64 v
  | Field.int64 v => w.write_int64 v

/-- The call `read_T()` for the type `T` of the given field, whose value is not used. -/
def BinaryReader.read (r : BinaryReader) : Field → Field × BinaryReader
  | Field.uint8 _ => (Field.uint8 r.read_uint8.1, r.read_uint8.2)
  | Field.int8 _ => (Field.int8 r.read_int8.1, r.read_int8.2)
  | Field.uint16 _ => (Field.uint16 r.read_uint16.1, r.read_uint16.2)
  | Field.int16 _ => (Field.int16 r.read_int16.1, r.read_int16.2)
  | Field.uint32 _ => (Field.uint32 r.read_uint32.1, r.read_uint32.2)
  | Field.int32 _ => (Field.int32 r.read_int32.1, r.read_int32.2)
  | Field.uint64 _ => (Field.uint64 r.read_uint64.1, r.read_uint64.2)
  | Field.int64 _ => (Field.int64 r.read_int64.1, r.read_int64.2)

/-- A sequence of writes, in order. -/
def BinaryWriter.writeAll (w : BinaryWriter) (fs : List Field) : BinaryWriter :=
  fs.foldl BinaryWriter.write w

/-- A sequence of reads of the types of the given fields, in order. -/
def BinaryReader.readAll : BinaryReader → List Field → List Field × BinaryReader
  | r, [] => ([], r)
  | r, f :: rest =>
    ((r.read f).1 :: ((r.read f).2.readAll rest).1, ((r.read f).2.readAll rest).2)

/-- The class `Key_t` (header absent) as the benchmark uses it: the `char` array
`getData()` and the field `keyLength`. -/
structure Key_t where
  data : Nat → Nat
  keyLength : Nat

/-- The function `PacTreeIndex::encode(pacKey, pKey, rowId)`; `none` is its fatal `CHECK`.
`RowId` is a 32-bit type, `sizeof(RowId) * 2` is 8. -/
def PacTreeIndex.encode (pacKey : Key_t) (pKey rowId : Nat) : Option Key_t :=
  let writer := BinaryWriter.create pacKey.data
  let writer := writer.write_uint32 pKey
  let writer := writer.write_uint32 rowId
  let keyLength := writer.get_size
  if keyLength = 4 * 2 then some { data := writer.buffer, keyLength := keyLength } else none

/-- The function `PacTreeIndex::decode(pacKey, pKey)`; `none` is one of its fatal
`CHECK`s. -/
def PacTreeIndex.decode (pacKey : Key_t) (pKey : Nat) : Option Nat :=
  if pacKey.keyLength ≠ 4 * 2 then none
  else
    let reader := BinaryReader.create pacKey.data
    let first := reader.read_uint32
    if pKey ≠ first.1 then none
    else some first.2.read_uint32.1

/-! ## Order of serialized values (`common/serializer.h`, `PacTreeIndex::Get`) -/

/-- The bytes a writer has produced since it stood at position `start`, each as an
`unsigned char`, in order. -/
def BinaryWriter.written (w : BinaryWriter) (start : Nat) : List Nat :=
  (List.range (w.position - start)).map (fun i => w.buffer (start + i))

/-- The bytes of a key, `getData()[0 .. keyLength)`, each as an `unsigned char`. -/
def Key_t.bytes (k : Key_t) : List Nat := (List.range k.keyLength).map k.data

/-- The order in which byte strings are compared: lexicographic, byte by byte as
`unsigned char`, a proper prefix first. -/
def bytesLt : List Nat → List Nat → Bool
  | [], [] => false
  | [], _ :: _ => true
  | _ :: _, [] => false
  | a :: as, b :: bs => decide (a < b) || (a == b && bytesLt as bs)

/-- The order of two values of one integer type of the serializer. -/
def Field.lt : Field → Field → Prop
  | Field.uint8 a, Field.uint8 b => a < b
  | Field.int8 a, Field.int8 b => a < b
  | Field.uint16 a, Field.uint16 b => a < b
  | Field.int16 a, Field.int16 b => a < b
  | Field.uint32 a, Field.uint32 b => a < b
  | Field.int32 a, Field.int32 b => a < b
  | Field.uint64 a, Field.uint64 b => a < b
  | Field.int64 a, Field.int64 b => a < b
  | _, _ => False

/-- The unsigned value `write_T` hands to the byte writer: the value itself for an unsigned
type, the value with its sign bit flipped for a signed type. -/
def Field.code : Field → Nat
  | Field.uint8 v => v
  | Field.int8 v => toU8 v ^^^ 0x80
  | Field.uint16 v => v
  | Field.int16 v => toU16 v ^^^ 0x8000
  | Field.uint32 v => v
  | Field.int32 v => toU32 v ^^^ INT32_SIGN
  | Field.uint64 v => v
  | Field.int64 v => toU64 v ^^^ INT64_SIGN

/-- The `k` low bytes of a value, most significant first. -/
def beBytes : Nat → Nat → List Nat
  | 0, _ => []
  | k + 1, v => (v / 256 ^ k % 256) :: beBytes k v

/-! ## Latency statistics (`tests/common/latency_stat.h`, `tests/common/latency_stat_test.cpp`) -/

/-- The constant `BatchSize`, `sizeof(__m512i) / sizeof(int64_t)`. -/
def BatchSize : Nat := 8

/-- The class `LatencyStat<BucketNum, Precision>`: the array `m_data` (cell `i` for
`i < BucketNum`) and the two overflow counters. The template parameters are explicit
arguments of the functions that use them. Latencies are non-negative, and the `int64_t`
counters are taken not to overflow. -/
structure LatencyStat where
  m_data : Nat → Nat
  m_overflowCnt : Nat
  m_overflowSum : Nat

/-- The constant `m_maxLatencyUs`. -/
def LatencyStat.m_maxLatencyUs (BucketNum Precision : Nat) : Nat := BucketNum * Precision

/-- The constructor `LatencyStat()`: `reset()` and the member initialisers. -/
def LatencyStat.create : LatencyStat :=
  { m_data := fun _ => 0, m_overflowCnt := 0, m_overflowSum := 0 }

/-- The function `LatencyStat::insert`. -/
def LatencyStat.insert (BucketNum Precision : Nat) (s : LatencyStat) (latencyUs : Nat) :
    LatencyStat :=
  if latencyUs < LatencyStat.m_maxLatencyUs BucketNum Precision then
    { s with m_data := Function.update s.m_data (latencyUs / Precision)
                         (s.m_data (latencyUs / Precision) + 1) }
  else
    { s with m_overflowCnt := s.m_overflowCnt + 1
             m_overflowSum := s.m_overflowSum + latencyUs }

/-- The number of rounds of a loop `for (latencyUs = 0; latencyUs < BucketNum; latencyUs +=
BatchSize)`. -/
def LatencyStat.batches (BucketNum : Nat) : Nat := (BucketNum + (BatchSize - 1)) / BatchSize

/-- The loop of `operator+=`: the array after the given number of rounds, each of which adds
the eight cells of one batch. -/
def LatencyStat.addLoop (data other : Nat → Nat) : Nat → (Nat → Nat)
  | 0 => data
  | n + 1 => fun i =>
    if n * BatchSize ≤ i ∧ i < n * BatchSize + BatchSize then
      LatencyStat.addLoop data other n i + other i
    else LatencyStat.addLoop data other n i

/-- The function `LatencyStat::operator+=`. -/
def LatencyStat.add (BucketNum : Nat) (s other : LatencyStat) : LatencyStat :=
  { m_data := LatencyStat.addLoop s.m_data other.m_data (LatencyStat.batches BucketNum)
    m_overflowCnt := s.m_overflowCnt + other.m_overflowCnt
    m_overflowSum := s.m_overflowSum + other.m_overflowSum }

/-- The function `LatencyStat::operator==`. -/
def LatencyStat.eq (BucketNum : Nat) (s other : LatencyStat) : Bool :=
  (List.range BucketNum).all (fun latencyUs => s.m_data latencyUs == other.m_data latencyUs) &&
    (s.m_overflowCnt == other.m_overflowCnt && s.m_overflowSum == other.m_overflowSum)

/-- The first loop of `LatencyStat::sumUp`: the array of `out` after the given number of
rounds, each of which stores the lane sums of one batch over `stats`. -/
def LatencyStat.sumUpLoop (stats : List LatencyStat) (out : Nat → Nat) : Nat → (Nat → Nat)
  | 0 => out
  | n + 1 => fun i =>
    if n * BatchSize ≤ i ∧ i < n * BatchSize + BatchSize then
      stats.foldl (fun vec st => vec + st.m_data i) 0
    else LatencyStat.sumUpLoop stats out n i

/-- The function `LatencyStat::sumUp(out, stats, len)`, `stats` being the `len` objects. -/
def LatencyStat.sumUp (BucketNum : Nat) (out : LatencyStat) (stats : List LatencyStat) :
    LatencyStat :=
  { m_data := LatencyStat.sumUpLoop stats out.m_data (LatencyStat.batches BucketNum)
    m_overflowCnt := stats.foldl (fun c st => c + st.m_overflowCnt) 0
    m_overflowSum := stats.foldl (fun c st => c + st.m_overflowSum) 0 }

/-- The function `RowIDMgr::tryAllocNewPage` with other threads running between its unlocked
test of the slot and the acquisition of `m_tableSpaceMutex`: `others` is what they do to
the manager in that window, after this thread has taken its page from the table space.
The loop and the store run under the mutex, on the page map the others have left. -/
def RowIDMgr.tryAllocNewPageRaced (P : Params) (fuel : Nat) (m : RowIDMgr)
    (others : RowIDMgr → RowIDMgr) (leafExtentId : Nat) : Option RowIDMgr :=
  if P.NVMPageIdIsValid (m.extentIds leafExtentId) then some m
  else
    match m.freePages with
    | [] => none
    | pageId :: rest =>
      let locked := others { m with freePages := rest }
      match RowIDMgr.installSlot P locked fuel leafExtentId with
      | none => none
      | some slot =>
        some { locked with extentIds := Function.update locked.extentIds slot pageId }

/-- Two racing threads of the other stripe member: they install pages 7 and 8 in the slots
1 and 3 of the page map. -/
def exOthers (m : RowIDMgr) : RowIDMgr :=
  { m with extentIds := fun i => if i = 1 then 7 else if i = 3 then 8 else m.extentIds i }

/-- An undo ring of 4 slots that wraps: the slot ids 3, 4 and 5 are allocated, at the ring
positions 3, 0 and 1; ids 3 and 4 are committed at CSN `2^63 + 1`, id 5 is in progress. -/
def exWrappedRing : UndoSegment :=
  { UNDO_TX_SLOTS := 4, m_nextFreeSlot := 6, m_nextRecycleSlot := 3, m_minSlotId := 3
    m_slots := fun i =>
      if i = 3 then { status := TxSlotStatus.COMMITTED, csn := 9223372036854775809
                      start := 0, endPtr := 0 }
      else if i = 0 then { status := TxSlotStatus.COMMITTED, csn := 9223372036854775809
                           start := 0, endPtr := 0 }
      else if i = 1 then { status := TxSlotStatus.IN_PROGRESS, csn := 0, start := 0, endPtr := 0 }
      else { status := TxSlotStatus.COMMITTED, csn := 9223372036854775809
             start := 0, endPtr := 0 }
    m_records := [] }

/-- An undo segment whose slot 0 is committed with undo records that end at offset 600, in
the third segment of the example file. -/
def exRecorded : UndoSegment :=
  { UNDO_TX_SLOTS := 8, m_nextFreeSlot := 1
    m_slots := fun i =>
      if i = 0 then { status := TxSlotStatus.COMMITTED, csn := 9223372036854775809
                      start := 300, endPtr := 600 }
      else TxSlot.zero
    m_records := [] }

/-! ## The segment array of the row-id map (`heap/nvm_rowid_map.h`, `RowIdMap::GetEntry`) -/

/-- The constant `RowIdMapSegmentLen`. -/
def RowIdMapSegmentLen : Nat := 256 * 1024

/-- The constant `SegmentEntryLen`, `UINT32_MAX / RowIdMapSegmentLen`: the length of the
array `m_segments`. -/
def SegmentEntryLen : Nat := 4294967295 / RowIdMapSegmentLen

/-- The two indices `RowIdMap::GetEntry(rowId, isRead)` computes: `segId`, with which
`GetSegment` reads `m_segments[segId]` without a test, and the index
`rowId % RowIdMapSegmentLen` of the entry inside the segment. -/
def RowIdMap.entryIndex (rowId : Nat) : Nat × Nat :=
  (rowId / RowIdMapSegmentLen, rowId % RowIdMapSegmentLen)

/-- The allocator of a table of 65536 tuples per extent in one directory, under
`wideParams`, after the extents 0 to 65533 have been acquired: the bitmap the constructor
built has 65535 bits, and bit 65534 is the one still free. -/
def exTopVec : VecStore :=
  { m_tuplesPerExtent := 65536
    m_gbm := [{ bits := List.replicate 65534 true ++ false :: [] }]
    groupId := 0
    cache := { m_rowidCache := [], m_range := RowIdRange.setRange 0 0 } }

/-! ## The flush filter (`FlushCache`, `heap/nvm_tuple.h`) -/

/-- The constant `GROUP`. -/
def GROUP : Nat := 1 <<< 12

/-- The constant `SET`. -/
def SET : Nat := 32

/-- The constant `FMASK`. -/
def FMASK : Nat := (1 <<< 50) - 1

/-- The constant `COUNT_START`. -/
def COUNT_START : Nat := 50

/-- The struct `FlushCache`: `tuple_id k i` is the entry `i` of group `k`, a 64-bit value
whose low 50 bits are a key and whose high bits are a hit counter; `counter` is the
replacement cursor, one for all groups. -/
structure FlushCache where
  tuple_id : Nat → Nat → Nat
  counter : Nat

/-- The constructor `FlushCache()`: every entry is filled with 0. -/
def FlushCache.create : FlushCache := { tuple_id := fun _ _ => 0, counter := 0 }

/-- The test of the first loop of `access`, over the entries `i, i + 1, …` of a group,
`count` of them: the index of the first entry whose key bits equal `access`. -/
def FlushCache.findHit (caches : Nat → Nat) (access : Nat) : Nat → Nat → Option Nat
  | 0, _ => none
  | count + 1, i =>
    if access = caches i &&& FMASK then some i
    else FlushCache.findHit caches access count (i + 1)

/-- A store to the entry `i` of group `k`. -/
def FlushCache.setEntry (c : FlushCache) (k i value : Nat) : FlushCache :=
  { c with tuple_id := Function.update c.tuple_id k (Function.update (c.tuple_id k) i value) }

/-- The second loop of `access`, `rounds` rounds: the entry under the cursor takes the key
if its counter is 0, and loses one count otherwise. -/
def FlushCache.evict (k access : Nat) : Nat → FlushCache → FlushCache
  | 0, c => c
  | rounds + 1, c =>
    let counter := if c.counter = SET then 0 else c.counter
    let cache := c.tuple_id k counter
    let count := cache >>> COUNT_START
    if count = 0 then { (c.setEntry k counter access) with counter := counter + 1 }
    else
      FlushCache.evict k access rounds
        { (c.setEntry k counter (cache - (FMASK + 1))) with counter := counter + 1 }

/-- The function `FlushCache::access`: the value returned and the cache afterwards. -/
def FlushCache.access (c : FlushCache) (access : Nat) : Bool × FlushCache :=
  let k := ((access / 100) % 1000000007) &&& (GROUP - 1)
  match FlushCache.findHit (c.tuple_id k) access SET 0 with
  | some i =>
    let cache := c.tuple_id k i
    let count := cache >>> COUNT_START
    (true, if count < 10000 then c.setEntry k i (u64 (cache + (FMASK + 1))) else c)
  | none => (false, FlushCache.evict k access 2 c)

/-- The last statement of `RAMTuple::copyUpdatedColumnsToNVM(nvmAddr, rowId)`,
`if (!FlushCache::g_rowIdCache.access(rowId)) FlushCache::flush(nvmAddr, getRowLen())`:
whether the row is flushed, and the cache afterwards. -/
def RAMTuple.flushAfterCopy (g_rowIdCache : FlushCache) (rowId : Nat) : Bool × FlushCache :=
  (!(g_rowIdCache.access rowId).1, (g_rowIdCache.access rowId).2)

/-! ## Theorems -/

/-! ### Auxiliary lemmas: 32-bit arithmetic and the row-id manager -/

theorem u32_of_lt {n : Nat} (h : n < 4294967296) : u32 n = n := Nat.mod_eq_of_lt h

theorem u32_le (n : Nat) : u32 n ≤ n := Nat.mod_le _ _

theorem RowIDMgr.installSlot_of_invalid (P : Params) (m : RowIDMgr) (fuel leaf : Nat)
    (h : P.NVMPageIdIsValid (m.extentIds leaf) = false) :
    RowIDMgr.installSlot P m (fuel + 1) leaf = some leaf := by
  simp [RowIDMgr.installSlot, h]

/-- What a returning `tryAllocNewPage` has done. -/
theorem RowIDMgr.tryAllocNewPage_eq_some (P : Params) (fuel : Nat) (m m1 : RowIDMgr) (leaf : Nat)
    (h : m.tryAllocNewPage P fuel leaf = some m1) :
    (P.NVMPageIdIsValid (m.extentIds leaf) = true ∧ m1 = m) ∨
    (P.NVMPageIdIsValid (m.extentIds leaf) = false ∧ ∃ p rest, m.freePages = p :: rest ∧
      m1 = { m with freePages := rest, extentIds := Function.update m.extentIds leaf p }) := by
  unfold RowIDMgr.tryAllocNewPage at h
  by_cases hv : P.NVMPageIdIsValid (m.extentIds leaf) = true
  · left
    simp [hv] at h
    exact ⟨hv, h.symm⟩
  · right
    have hv' : P.NVMPageIdIsValid (m.extentIds leaf) = false := by simpa using hv
    refine ⟨hv', ?_⟩
    simp only [hv', Bool.false_eq_true, if_false] at h
    cases hf : m.freePages with
    | nil => simp [hf] at h
    | cons p rest =>
      simp only [hf] at h
      cases fuel with
      | zero => simp [RowIDMgr.installSlot] at h
      | succ n =>
        rw [RowIDMgr.installSlot_of_invalid P m n leaf hv'] at h
        simp only [Option.some.injEq] at h
        exact ⟨p, rest, rfl, h.symm⟩

/-- What a returning `getNVMTupleByRowId(rowId, true)` has done. -/
theorem RowIDMgr.getNVMTupleByRowId_append_eq_some (P : Params) (fuel : Nat) (m m1 : RowIDMgr)
    (rowId : Nat) (res : Option Nat)
    (h : m.getNVMTupleByRowId P fuel rowId true = some (res, m1)) :
    res = some (m1.tupleAddr P rowId) ∧
    ((P.NVMPageIdIsValid (m.extentIds (rowId / m.m_tuplesPerExtent)) = true ∧ m1 = m) ∨
     (P.NVMPageIdIsValid (m.extentIds (rowId / m.m_tuplesPerExtent)) = false ∧
      ∃ p rest, m.freePages = p :: rest ∧
        m1 = { m.UpdateMaxPageId (rowId / m.m_tuplesPerExtent) with
               freePages := rest
               extentIds := Function.update m.extentIds (rowId / m.m_tuplesPerExtent) p })) := by
  unfold RowIDMgr.getNVMTupleByRowId at h
  by_cases hv : P.NVMPageIdIsValid (m.extentIds (rowId / m.m_tuplesPerExtent)) = true
  · simp [hv] at h
    obtain ⟨h1, h2⟩ := h
    subst h2
    exact ⟨h1.symm, Or.inl ⟨hv, rfl⟩⟩
  · have hv' : P.NVMPageIdIsValid (m.extentIds (rowId / m.m_tuplesPerExtent)) = false := by
      simpa using hv
    simp only [hv', Bool.false_eq_true, if_false, Bool.not_true] at h
    cases ha : RowIDMgr.tryAllocNewPage P fuel
        (m.UpdateMaxPageId (rowId / m.m_tuplesPerExtent)) (rowId / m.m_tuplesPerExtent) with
    | none => simp [ha] at h
    | some m2 =>
      simp only [ha, Option.some.injEq, Prod.mk.injEq] at h
      obtain ⟨h1, h2⟩ := h
      subst h2
      refine ⟨h1.symm, Or.inr ⟨hv', ?_⟩⟩
      have hext : (m.UpdateMaxPageId (rowId / m.m_tuplesPerExtent)).extentIds = m.extentIds := by
        unfold RowIDMgr.UpdateMaxPageId; split <;> rfl
      have hfree : (m.UpdateMaxPageId (rowId / m.m_tuplesPerExtent)).freePages = m.freePages := by
        unfold RowIDMgr.UpdateMaxPageId; split <;> rfl
      rcases RowIDMgr.tryAllocNewPage_eq_some P fuel _ _ _ ha with ⟨hv2, _⟩ | ⟨_, p, rest, hf, hm⟩
      · rw [hext, hv'] at hv2; exact absurd hv2 (by simp)
      · rw [hfree] at hf
        rw [hext] at hm
        exact ⟨p, rest, hf, hm⟩

theorem RowIDMgr.Extends.refl (P : Params) (m : RowIDMgr) : RowIDMgr.Extends P m m :=
  ⟨rfl, rfl, rfl, rfl, fun _ _ => rfl, fun h => h⟩

theorem RowIDMgr.Extends.trans {P : Params} {m m1 m2 : RowIDMgr}
    (h1 : RowIDMgr.Extends P m m1) (h2 : RowIDMgr.Extends P m1 m2) : RowIDMgr.Extends P m m2 := by
  obtain ⟨a1, a2, a3, a4, a5, a6⟩ := h1
  obtain ⟨b1, b2, b3, b4, b5, b6⟩ := h2
  refine ⟨b1.trans a1, b2.trans a2, b3.trans a3, b4.trans a4, ?_, fun h => b6 (a6 h)⟩
  intro i hi
  have := a5 i hi
  rw [b5 i (by rw [this]; exact hi), this]

theorem RowIDMgr.UpdateMaxPageId_fields (m : RowIDMgr) (e : Nat) :
    (m.UpdateMaxPageId e).pageBase = m.pageBase ∧
    (m.UpdateMaxPageId e).m_tupleLen = m.m_tupleLen ∧
    (m.UpdateMaxPageId e).m_tuplesPerExtent = m.m_tuplesPerExtent ∧
    (m.UpdateMaxPageId e).spaceCount = m.spaceCount ∧
    (m.UpdateMaxPageId e).extentIds = m.extentIds ∧
    (m.UpdateMaxPageId e).freePages = m.freePages := by
  unfold RowIDMgr.UpdateMaxPageId
  split <;> exact ⟨rfl, rfl, rfl, rfl, rfl, rfl⟩

/-- An appending call extends the manager, and leaves the extent slot of its row valid
when the table space hands out valid pages only. -/
theorem RowIDMgr.getNVMTupleByRowId_append_extends (P : Params) (fuel : Nat) (m m1 : RowIDMgr)
    (rowId : Nat) (res : Option Nat)
    (h : m.getNVMTupleByRowId P fuel rowId true = some (res, m1)) :
    RowIDMgr.Extends P m m1 ∧
    ((∀ p ∈ m.freePages, P.NVMPageIdIsValid p = true) →
      P.NVMPageIdIsValid (m1.extentIds (rowId / m1.m_tuplesPerExtent)) = true) := by
  rcases (RowIDMgr.getNVMTupleByRowId_append_eq_some P fuel m m1 rowId res h).2 with
    ⟨hv, hm⟩ | ⟨hv, p, rest, hf, hm⟩
  · subst hm
    exact ⟨RowIDMgr.Extends.refl P _, fun _ => hv⟩
  · obtain ⟨f1, f2, f3, f4, _, _⟩ := RowIDMgr.UpdateMaxPageId_fields m (rowId / m.m_tuplesPerExtent)
    subst hm
    refine ⟨⟨f1, f2, f3, f4, ?_, ?_⟩, ?_⟩
    · intro i hi
      have hne : i ≠ rowId / m.m_tuplesPerExtent := by
        intro hEq
        rw [hEq, hv] at hi
        exact absurd hi (by simp)
      simp only
      exact Function.update_noteq hne _ _
    · intro hall q hq
      simp only at hq
      exact hall q (by rw [hf]; exact List.mem_cons_of_mem _ hq)
    · intro hall
      show P.NVMPageIdIsValid (Function.update m.extentIds (rowId / m.m_tuplesPerExtent) p
        (rowId / (m.UpdateMaxPageId (rowId / m.m_tuplesPerExtent)).m_tuplesPerExtent)) = true
      rw [f3, Function.update_same]
      exact hall p (by rw [hf]; exact List.mem_cons_self _ _)

/-- What one pass of the loop of `getNextEmptyRow` has done. -/
theorem RowIdMap.getNextEmptyRowStep_eq_some (P : Params) (fuel txInfo : Nat) (r r1 : RowIdMap)
    (pm pm1 : PMem) (out : Option (Nat × Nat))
    (h : RowIdMap.getNextEmptyRowStep P fuel txInfo r pm = some (out, r1, pm1)) :
    r1.m_entries = r.m_entries ∧ r1.m_rowLen = r.m_rowLen ∧
    RowIDMgr.Extends P r.m_rowidMgr r1.m_rowidMgr ∧
    match out with
    | none => pm1 = pm
    | some (rowId, addr) =>
      addr = r1.m_rowidMgr.tupleAddr P rowId ∧ (pm addr).m_isUsed = false ∧
      pm1 = Function.update pm addr { pm addr with m_txInfo := txInfo } ∧
      r1.m_isInsertInit = true ∧
      ((∀ p ∈ r.m_rowidMgr.freePages, P.NVMPageIdIsValid p = true) →
        P.NVMPageIdIsValid (r1.m_rowidMgr.extentIds (rowId / r1.m_rowidMgr.m_tuplesPerExtent))
          = true) := by
  unfold RowIdMap.getNextEmptyRowStep at h
  cases hn : r.m_vecStore.tryNextRowid P fuel with
  | none => simp [hn] at h
  | some x =>
    obtain ⟨rowId, v1⟩ := x
    simp only [hn] at h
    cases hg : r.m_rowidMgr.getNVMTupleByRowId P fuel rowId true with
    | none => simp [hg] at h
    | some y =>
      obtain ⟨res, m1⟩ := y
      obtain ⟨hres, _⟩ := RowIDMgr.getNVMTupleByRowId_append_eq_some P fuel _ _ _ _ hg
      obtain ⟨hext, hvalid⟩ := RowIDMgr.getNVMTupleByRowId_append_extends P fuel _ _ _ _ hg
      subst hres
      simp only [hg] at h
      by_cases hu : (pm (m1.tupleAddr P rowId)).m_isUsed = true
      · simp only [hu, if_true] at h
        by_cases hi : r.m_isInsertInit = true
        · simp only [hi, Bool.not_true, Bool.false_eq_true, if_false, Option.some.injEq,
            Prod.mk.injEq] at h
          obtain ⟨h1, h2, h3⟩ := h
          subst h1 h2 h3
          exact ⟨rfl, rfl, hext, rfl⟩
        · have hi' : r.m_isInsertInit = false := by simpa using hi
          simp only [hi', Bool.not_false, if_true] at h
          cases hs : v1.tryNextSegment with
          | none => simp [hs] at h
          | some v2 =>
            simp only [hs, Option.some.injEq, Prod.mk.injEq] at h
            obtain ⟨h1, h2, h3⟩ := h
            subst h1 h2 h3
            exact ⟨rfl, rfl, hext, rfl⟩
      · have hu' : (pm (m1.tupleAddr P rowId)).m_isUsed = false := by simpa using hu
        rw [if_neg hu] at h
        simp only [Option.some.injEq, Prod.mk.injEq] at h
        obtain ⟨h1, h2, h3⟩ := h
        subst h1 h2 h3
        exact ⟨rfl, rfl, hext, rfl, hu', rfl, rfl, hvalid⟩

/-- What a returning `getNextEmptyRow` loop has done. -/
theorem RowIdMap.getNextEmptyRowLoop_eq_some (P : Params) (inner txInfo : Nat) :
    ∀ (fuel : Nat) (r r1 : RowIdMap) (pm pm1 : PMem) (rowId addr : Nat),
      RowIdMap.getNextEmptyRowLoop P inner txInfo fuel r pm = some ((rowId, addr), r1, pm1) →
      r1.m_entries = r.m_entries ∧ r1.m_rowLen = r.m_rowLen ∧
      RowIDMgr.Extends P r.m_rowidMgr r1.m_rowidMgr ∧
      addr = r1.m_rowidMgr.tupleAddr P rowId ∧ (pm addr).m_isUsed = false ∧
      pm1 = Function.update pm addr { pm addr with m_txInfo := txInfo } ∧
      r1.m_isInsertInit = true ∧
      ((∀ p ∈ r.m_rowidMgr.freePages, P.NVMPageIdIsValid p = true) →
        P.NVMPageIdIsValid (r1.m_rowidMgr.extentIds (rowId / r1.m_rowidMgr.m_tuplesPerExtent))
          = true) := by
  intro fuel
  induction fuel with
  | zero => intro r r1 pm pm1 rowId addr h; simp [RowIdMap.getNextEmptyRowLoop] at h
  | succ n ih =>
    intro r r1 pm pm1 rowId addr h
    simp only [RowIdMap.getNextEmptyRowLoop] at h
    cases hs : RowIdMap.getNextEmptyRowStep P inner txInfo r pm with
    | none => simp [hs] at h
    | some x =>
      obtain ⟨out, r2, pm2⟩ := x
      obtain ⟨e1, e2, e3, e4⟩ := RowIdMap.getNextEmptyRowStep_eq_some P inner txInfo r r2 pm pm2 out hs
      cases out with
      | some res =>
        simp only [hs, Option.some.injEq, Prod.mk.injEq] at h
        obtain ⟨h1, h2, h3⟩ := h
        subst h1 h2 h3
        exact ⟨e1, e2, e3, e4⟩
      | none =>
        simp only [hs] at h
        simp only at e4
        subst e4
        obtain ⟨i1, i2, i3, i4, i5, i6, i7, i8⟩ := ih r2 r1 pm2 pm1 rowId addr h
        exact ⟨i1.trans e1, i2.trans e2, e3.trans i3, i4, i5, i6, i7,
          fun hall => i8 (e3.2.2.2.2.2 hall)⟩

/-! ### Auxiliary lemmas: the row-id map -/

/-- A read-only translation of a row in an allocated extent. -/
theorem RowIDMgr.getNVMTupleByRowId_of_valid (P : Params) (fuel : Nat) (m : RowIDMgr)
    (rowId : Nat) (append : Bool)
    (hv : P.NVMPageIdIsValid (m.extentIds (rowId / m.m_tuplesPerExtent)) = true) :
    m.getNVMTupleByRowId P fuel rowId append = some (some (m.tupleAddr P rowId), m) := by
  simp [RowIDMgr.getNVMTupleByRowId, hv]

/-- On a consistent map `GetEntry` finds, for a row in an allocated extent, an unlocked
entry holding the address of the row; the map stays consistent. -/
theorem RowIdMap.GetEntry_of_valid (P : Params) (r : RowIdMap) (rowId : Nat) (isRead : Bool)
    (hok : r.EntriesOk P) (hun : r.Unlocked)
    (hv : P.NVMPageIdIsValid
      (r.m_rowidMgr.extentIds (rowId / r.m_rowidMgr.m_tuplesPerExtent)) = true) :
    ∃ e r1, r.GetEntry P rowId isRead = some (some e, r1) ∧
      e.m_nvmAddr = r.m_rowidMgr.tupleAddr P rowId ∧ e.m_locked = false ∧
      r1.m_entries rowId = e ∧
      r1.m_rowidMgr = r.m_rowidMgr ∧ r1.m_rowLen = r.m_rowLen ∧
      r1.m_vecStore = r.m_vecStore ∧ r1.m_isInsertInit = r.m_isInsertInit ∧
      (∀ q, q ≠ rowId → r1.m_entries q = r.m_entries q) ∧
      r1.EntriesOk P ∧ r1.Unlocked := by
  unfold RowIdMap.GetEntry
  by_cases hval : (r.m_entries rowId).m_isTupleValid = true
  · refine ⟨r.m_entries rowId, r, ?_, (hok rowId hval).2, hun rowId, rfl, rfl, rfl, rfl, rfl,
      fun _ _ => rfl, hok, hun⟩
    simp [hval]
  · have hval' : (r.m_entries rowId).m_isTupleValid = false := by simpa using hval
    have hl := hun rowId
    simp only [hval', Bool.not_false, if_true,
      RowIDMgr.getNVMTupleByRowId_of_valid P 0 _ rowId false hv, RowIdMapEntry.Lock, hl,
      Bool.false_eq_true, if_false, RowIdMapEntry.Unlock, RowIdMapEntry.Init]
    refine ⟨_, _, rfl, rfl, rfl, ?_, rfl, rfl, rfl, rfl, ?_, ?_, ?_⟩
    · simp
    · intro q hq
      simp [Function.update_noteq hq]
    · intro q hq
      by_cases hqr : q = rowId
      · subst hqr
        simp only [Function.update_same]
        exact ⟨hv, trivial⟩
      · simp only [Function.update_noteq hqr] at hq ⊢
        exact hok q hq
    · intro q
      by_cases hqr : q = rowId
      · subst hqr
        simp
      · simp only [Function.update_noteq hqr]
        exact hun q

/-! ### Auxiliary lemmas: tuples, transactions and inserts -/

theorem copyBytes_zero_full (dst src : List Nat) (h : dst.length ≤ src.length) :
    copyBytes dst 0 src = src := by
  simp [copyBytes, List.drop_eq_nil_of_le h]

/-- The image `Serialize` leaves at the address of a tuple of the row length. -/
theorem RAMTuple.Serialize_image (t : RAMTuple) (old : NVMTuple) (txInfo prev : Nat)
    (used del : Bool) (hrow : t.m_tuple.m_data.length = t.m_rowLen)
    (hold : old.m_data.length = t.m_rowLen) :
    ((t.InitHead txInfo prev used del).Serialize old).2 =
      { m_txInfo := txInfo, m_prev := prev, m_isUsed := used, m_isDeleted := del
        m_dataSize := t.m_rowLen, m_data := t.m_tuple.m_data } := by
  simp only [RAMTuple.Serialize, RAMTuple.InitHead, NVMTuple.InitHead, copyTuple]
  rw [List.take_of_length_le (by omega), copyBytes_zero_full _ _ (by omega)]

/-- What `PrepareUndo` leaves of the transaction and of the undo segment. -/
theorem Transaction.PrepareUndo_facts (tx : Transaction) (u : UndoSegment) :
    (tx.PrepareUndo u).1.m_txStatus = tx.m_txStatus ∧
    (tx.PrepareUndo u).1.m_writeSet = tx.m_writeSet ∧
    (tx.PrepareUndo u).1.m_snapshotCSN = tx.m_snapshotCSN ∧
    (tx.PrepareUndo u).1.m_undoPrepared = true ∧
    (tx.PrepareUndo u).2.m_records = u.m_records ∧
    (tx.PrepareUndo u).2.UNDO_TX_SLOTS = u.UNDO_TX_SLOTS ∧
    (tx.PrepareUndo u).1.m_txSlotLocation
      = (if tx.m_undoPrepared then tx.m_txSlotLocation else u.m_nextFreeSlot) ∧
    (tx.m_undoPrepared = true → tx.PrepareUndo u = (tx, u)) ∧
    (tx.m_undoPrepared = false →
      ((tx.PrepareUndo u).2.getTxSlot (tx.PrepareUndo u).1.m_txSlotLocation).status
        = TxSlotStatus.IN_PROGRESS) := by
  unfold Transaction.PrepareUndo
  by_cases hp : tx.m_undoPrepared = true
  · simp [hp]
  · have hp' : tx.m_undoPrepared = false := by simpa using hp
    simp [hp', UndoSegment.allocateTxSlot, UndoSegment.getTxSlot]

/-- What a returning write-set push of an insert has done. -/
theorem pushInserted_eq_some (P : Params) (s s1 : HeapState) (tx tx2 : Transaction) (rid : Nat)
    (h : pushInserted P s tx rid = some (s1, tx2)) :
    s1.pm = s.pm ∧ s1.undo = s.undo ∧ s1.forceWriteBackCSN = s.forceWriteBackCSN ∧
    s1.rowIdMap.m_rowidMgr = s.rowIdMap.m_rowidMgr ∧
    tx2 = (if s.ForceWriteBackCSN then tx.PushWriteSet rid else tx) ∧
    (s.rowIdMap.EntriesOk P → s.rowIdMap.Unlocked →
      P.NVMPageIdIsValid (s.rowIdMap.m_rowidMgr.extentIds
        (rid / s.rowIdMap.m_rowidMgr.m_tuplesPerExtent)) = true →
      s1.rowIdMap.EntriesOk P ∧ s1.rowIdMap.Unlocked) := by
  unfold pushInserted at h
  by_cases hf : s.ForceWriteBackCSN = true
  · simp only [hf, if_true] at h ⊢
    cases hg : s.rowIdMap.GetEntry P rid false with
    | none => simp [hg] at h
    | some x =>
      obtain ⟨res, r1⟩ := x
      cases res with
      | none => simp [hg] at h
      | some e =>
        simp only [hg, Option.some.injEq, Prod.mk.injEq] at h
        obtain ⟨h1, h2⟩ := h
        subst h1 h2
        have hmgr : r1.m_rowidMgr = s.rowIdMap.m_rowidMgr := by
          unfold RowIdMap.GetEntry at hg
          by_cases hval : (s.rowIdMap.m_entries rid).m_isTupleValid = true
          · simp [hval] at hg
            rw [← hg.2]
          · have hval' : (s.rowIdMap.m_entries rid).m_isTupleValid = false := by simpa using hval
            simp only [hval', Bool.not_false, if_true] at hg
            cases hq : s.rowIdMap.m_rowidMgr.getNVMTupleByRowId P 0 rid false with
            | none => simp [hq] at hg
            | some y =>
              obtain ⟨a, m2⟩ := y
              cases a with
              | none => simp [hq] at hg
              | some a =>
                simp only [hq] at hg
                cases hl : (s.rowIdMap.m_entries rid).Lock with
                | none => simp [hl] at hg
                | some e1 =>
                  simp only [hl, Option.some.injEq, Prod.mk.injEq] at hg
                  rw [← hg.2]
        refine ⟨rfl, rfl, rfl, hmgr, rfl, ?_⟩
        intro hok hun hv
        obtain ⟨e', r1', hge, _, _, _, _, _, _, _, _, hok1, hun1⟩ :=
          RowIdMap.GetEntry_of_valid P s.rowIdMap rid false hok hun hv
        rw [hg] at hge
        simp only [Option.some.injEq, Prod.mk.injEq] at hge
        obtain ⟨_, hr⟩ := hge
        subst hr
        exact ⟨hok1, hun1⟩
  · have hf' : s.ForceWriteBackCSN = false := by simpa using hf
    simp only [hf', Bool.false_eq_true, if_false, Option.some.injEq, Prod.mk.injEq] at h ⊢
    obtain ⟨h1, h2⟩ := h
    subst h1 h2
    exact ⟨rfl, rfl, rfl, rfl, rfl, fun hok hun _ => ⟨hok, hun⟩⟩

/-- What a returning `HeapInsert` of a live transaction has done. -/
theorem HeapInsert_eq_some (P : Params) (fuel : Nat) (s s1 : HeapState) (tx tx2 : Transaction)
    (table : Table) (tuple t2 : RAMTuple) (rid : Nat)
    (hst : CheckTxStatus tx = false)
    (h : HeapInsert P fuel s tx table tuple = some (rid, t2, s1, tx2)) :
    ∃ nvmAddr r1 pm1,
      s.rowIdMap.getNextEmptyRow P fuel (tx.PrepareUndo s.undo).1.GetTxSlotLocation s.pm
        = some ((rid, nvmAddr), r1, pm1) ∧
      pushInserted P
        { s with
          rowIdMap := r1
          pm := Function.update pm1 nvmAddr
            ((tuple.InitHead (tx.PrepareUndo s.undo).1.GetTxSlotLocation InvalidUndoRecPtr
              true false).Serialize (pm1 nvmAddr)).2
          undo := (PrepareInsertUndo (tx.PrepareUndo s.undo).2 (tx.PrepareUndo s.undo).1
            table.SegmentHead rid tuple.getRowLen).1 }
        (tx.PrepareUndo s.undo).1 rid = some (s1, tx2) := by
  unfold HeapInsert at h
  simp only [hst, Bool.false_eq_true, if_false] at h
  cases hg : s.rowIdMap.getNextEmptyRow P fuel (tx.PrepareUndo s.undo).1.GetTxSlotLocation s.pm with
  | none => simp [hg] at h
  | some x =>
    obtain ⟨⟨rowId, nvmAddr⟩, r1, pm1⟩ := x
    simp only [hg] at h
    cases hp : pushInserted P
        { s with
          rowIdMap := r1
          pm := Function.update pm1 nvmAddr
            ((tuple.InitHead (tx.PrepareUndo s.undo).1.GetTxSlotLocation InvalidUndoRecPtr
              true false).Serialize (pm1 nvmAddr)).2
          undo := (PrepareInsertUndo (tx.PrepareUndo s.undo).2 (tx.PrepareUndo s.undo).1
            table.SegmentHead rowId tuple.getRowLen).1 }
        (tx.PrepareUndo s.undo).1 rowId with
    | none => simp [hp] at h
    | some y =>
      obtain ⟨s1', tx2'⟩ := y
      simp only [hp, Option.some.injEq, Prod.mk.injEq] at h
      obtain ⟨h1, _, h3, h4⟩ := h
      subst h1 h3 h4
      exact ⟨nvmAddr, r1, pm1, rfl, hp⟩

theorem CheckTxStatus_eq_false (tx : Transaction) (h : tx.GetTxStatus ≠ TxStatus.WAIT_ABORT) :
    CheckTxStatus tx = false := by
  simp [CheckTxStatus, h]

/-! ### Auxiliary lemmas: column copies -/

theorem bytesAt_length (src : List Nat) (off len : Nat) (hs : off + len ≤ src.length) :
    (bytesAt src off len).length = len := by
  simp only [bytesAt, List.length_take, List.length_drop]
  omega

theorem copyBytes_bytesAt_length (dst src : List Nat) (off len : Nat)
    (hd : off + len ≤ dst.length) (hs : off + len ≤ src.length) :
    (copyBytes dst off (bytesAt src off len)).length = dst.length := by
  simp only [copyBytes, List.length_append, List.length_take, List.length_drop,
    bytesAt_length src off len hs]
  omega

theorem copyBytes_bytesAt_getElem? (dst src : List Nat) (off len i : Nat)
    (hd : off + len ≤ dst.length) (hs : off + len ≤ src.length) :
    (copyBytes dst off (bytesAt src off len))[i]? =
      if off ≤ i ∧ i < off + len then src[i]? else dst[i]? := by
  have hlen := bytesAt_length src off len hs
  unfold copyBytes
  rw [hlen]
  by_cases h1 : i < off
  · rw [List.append_assoc, List.getElem?_append_left (by simp; omega)]
    rw [if_neg (by omega)]
    simp [List.getElem?_take, h1]
  · by_cases h2 : i < off + len
    · rw [List.getElem?_append_left (by simp [hlen]; omega)]
      rw [List.getElem?_append_right (by simp; omega)]
      rw [if_pos (by omega)]
      have : (List.take off dst).length = off := by simp; omega
      rw [this]
      simp only [bytesAt]
      rw [List.getElem?_take_of_lt (by omega), List.getElem?_drop]
      congr 1
      omega
    · rw [List.getElem?_append_right (by simp [hlen]; omega)]
      rw [if_neg (by omega)]
      have : (List.take off dst ++ bytesAt src off len).length = off + len := by
        simp [hlen]; omega
      rw [this, List.getElem?_drop]
      congr 1
      omega


theorem coveredBy_cons (c : UndoColumnDesc) (rest : List UndoColumnDesc) (i : Nat) :
    coveredBy (c :: rest) i ↔
      (c.m_colOffset ≤ i ∧ i < c.m_colOffset + c.m_colLen) ∨ coveredBy rest i := by
  simp [coveredBy]

/-- Column copies keep the length of the row; a byte inside a column comes from `src`, a
byte outside every column is kept. -/
theorem patchColumns_spec (src : List Nat) :
    ∀ (cols : List UndoColumnDesc) (dst : List Nat),
      (∀ c ∈ cols, c.m_colOffset + c.m_colLen ≤ src.length) → dst.length = src.length →
      (patchColumns src cols dst).length = src.length ∧
      ∀ i, (coveredBy cols i → (patchColumns src cols dst)[i]? = src[i]?) ∧
           (¬ coveredBy cols i → (patchColumns src cols dst)[i]? = dst[i]?) := by
  intro cols
  induction cols with
  | nil =>
    intro dst _ hlen
    refine ⟨hlen, fun i => ⟨?_, fun _ => rfl⟩⟩
    intro h
    simp [coveredBy] at h
  | cons c rest ih =>
    intro dst hin hlen
    have hc : c.m_colOffset + c.m_colLen ≤ src.length := hin c (List.mem_cons_self _ _)
    have hstep := copyBytes_bytesAt_length dst src c.m_colOffset c.m_colLen (by omega) hc
    obtain ⟨il, ip⟩ := ih (copyBytes dst c.m_colOffset (bytesAt src c.m_colOffset c.m_colLen))
      (fun d hd => hin d (List.mem_cons_of_mem _ hd)) (by omega)
    refine ⟨il, fun i => ⟨?_, ?_⟩⟩
    · intro hcov
      by_cases hr : coveredBy rest i
      · exact (ip i).1 hr
      · have hci := ((coveredBy_cons c rest i).mp hcov).resolve_right hr
        have := (ip i).2 hr
        simp only [patchColumns, List.foldl_cons] at this ⊢
        rw [this, copyBytes_bytesAt_getElem? dst src _ _ i (by omega) hc, if_pos hci]
    · intro hcov
      have hr : ¬ coveredBy rest i := fun h => hcov ((coveredBy_cons c rest i).mpr (Or.inr h))
      have hci : ¬ (c.m_colOffset ≤ i ∧ i < c.m_colOffset + c.m_colLen) :=
        fun h => hcov ((coveredBy_cons c rest i).mpr (Or.inl h))
      have := (ip i).2 hr
      simp only [patchColumns, List.foldl_cons] at this ⊢
      rw [this, copyBytes_bytesAt_getElem? dst src _ _ i (by omega) hc, if_neg hci]

/-- Copying the columns of `orig` back restores `orig` from any row that differs from it
inside the columns only. -/
theorem patchColumns_restore (orig cur : List Nat) (cols : List UndoColumnDesc)
    (hin : ∀ c ∈ cols, c.m_colOffset + c.m_colLen ≤ orig.length)
    (hlen : cur.length = orig.length)
    (hout : ∀ i, ¬ coveredBy cols i → cur[i]? = orig[i]?) :
    patchColumns orig cols cur = orig := by
  obtain ⟨_, hp⟩ := patchColumns_spec orig cols cur hin hlen
  apply List.ext_getElem?
  intro i
  by_cases hc : coveredBy cols i
  · exact (hp i).1 hc
  · rw [(hp i).2 hc]
    exact hout i hc

/-- The undo of an update record applies the recorded column bytes. -/
theorem UndoUpdate_of_update_record (u : UndoSegment) (tx : Transaction) (segHead rowId : Nat)
    (old cur : NVMTuple) (cols : List UndoColumnDesc) :
    ∃ rec, (PrepareUpdateUndo u tx segHead rowId old cols).1.GetUndoRecord
        (PrepareUpdateUndo u tx segHead rowId old cols).2 = some rec ∧
      rec.m_undoType = UndoType.HeapUpdateUndo ∧ rec.m_rowId = rowId ∧
      UndoUpdate rec cur = { old with m_data := patchColumns old.m_data cols cur.m_data } := by
  have hget : (PrepareUpdateUndo u tx segHead rowId old cols).1.GetUndoRecord
      (PrepareUpdateUndo u tx segHead rowId old cols).2 = some
        { m_undoType := UndoType.HeapUpdateUndo, m_txSlot := tx.GetTxSlotLocation
          m_prev := old.m_prev, m_segHead := segHead, m_rowId := rowId
          m_rowLen := old.m_data.length
          data := old.head
          m_delta := cols.map (fun c =>
            { m_colOffset := c.m_colOffset, m_colLen := c.m_colLen
              m_bytes := bytesAt old.m_data c.m_colOffset c.m_colLen }) } := by
    simp [PrepareUpdateUndo, UndoSegment.appendUndoRecord, UndoSegment.GetUndoRecord]
  refine ⟨_, hget, rfl, rfl, ?_⟩
  simp only [UndoUpdate, NVMTuple.head, patchColumns, List.foldl_map]

/-! ### Auxiliary lemmas: heap operations -/

theorem RowIdMapEntry.lock_unlock (e : RowIdMapEntry) (h : e.m_locked = false) :
    ({ e with m_locked := true } : RowIdMapEntry).Unlock = e := by
  cases e
  simp_all [RowIdMapEntry.Unlock]

theorem NVMTuple.head_with_data (t : NVMTuple) : { t.head with m_data := t.m_data } = t := by
  cases t; rfl

theorem HeapReadLoop_of_sees (tx : Transaction) (u : UndoSegment) (fuel : Nat) (t : RAMTuple)
    (h : tx.Sees u t) : HeapReadLoop tx u (fuel + 1) t = some (visibleStatus t, t) := by
  unfold Transaction.Sees at h
  simp only [HeapReadLoop, h, if_true, visibleStatus]
  split <;> rfl

theorem not_sees_cases (tx : Transaction) (u : UndoSegment) (t : RAMTuple) (h : ¬ tx.Sees u t) :
    tx.VersionIsVisible u t.m_tuple.m_txInfo = TMResult.INVISIBLE ∨
    tx.VersionIsVisible u t.m_tuple.m_txInfo = TMResult.ABORTED ∨
    tx.VersionIsVisible u t.m_tuple.m_txInfo = TMResult.BEING_MODIFIED := by
  unfold Transaction.Sees at h
  cases hv : tx.VersionIsVisible u t.m_tuple.m_txInfo <;> simp_all

/-- The walk of `HeapRead` along a chain of versions of which only the last may be
visible. -/
theorem HeapReadLoop_chain (tx : Transaction) (u : UndoSegment) :
    ∀ (vs : List RAMTuple) (t : RAMTuple) (fuel : Nat),
      VersionChain u t vs → (∀ v ∈ (t :: vs).dropLast, ¬ tx.Sees u v) →
      vs.length + 1 ≤ fuel →
      (tx.Sees u ((t :: vs).getLast (List.cons_ne_nil _ _)) →
        HeapReadLoop tx u fuel t
          = some (visibleStatus ((t :: vs).getLast (List.cons_ne_nil _ _)),
                  (t :: vs).getLast (List.cons_ne_nil _ _))) ∧
      (¬ tx.Sees u ((t :: vs).getLast (List.cons_ne_nil _ _)) →
        ((t :: vs).getLast (List.cons_ne_nil _ _)).HasPreVersion = false →
        HeapReadLoop tx u fuel t
          = some (HamStatus.NO_VISIBLE_VERSION, (t :: vs).getLast (List.cons_ne_nil _ _))) := by
  intro vs
  induction vs with
  | nil =>
    intro t fuel _ _ hf
    obtain ⟨n, rfl⟩ : ∃ n, fuel = n + 1 := ⟨fuel - 1, by simp at hf; omega⟩
    simp only [List.getLast_singleton]
    refine ⟨fun hs => HeapReadLoop_of_sees tx u n t hs, fun hs hp => ?_⟩
    have hc := not_sees_cases tx u t hs
    unfold Transaction.Sees at hs
    simp only [HeapReadLoop, hs, if_false, hc, if_true, hp, Bool.not_false]
  | cons v rest ih =>
    intro t fuel hch hinv hf
    obtain ⟨n, rfl⟩ : ∃ n, fuel = n + 1 := ⟨fuel - 1, by simp at hf; omega⟩
    obtain ⟨hpre, hfetch, hrest⟩ := hch
    have hnt : ¬ tx.Sees u t := hinv t (by simp [List.dropLast])
    have hinv2 : ∀ w ∈ (v :: rest).dropLast, ¬ tx.Sees u w := by
      intro w hw
      apply hinv w
      rw [List.dropLast_cons_of_ne_nil (List.cons_ne_nil _ _)]
      exact List.mem_cons_of_mem _ hw
    have hstep : HeapReadLoop tx u (n + 1) t = HeapReadLoop tx u n v := by
      have hc := not_sees_cases tx u t hnt
      unfold Transaction.Sees at hnt
      simp only [HeapReadLoop, hnt, if_false, hc, if_true, hpre, Bool.not_true,
        Bool.false_eq_true, hfetch]
    have hlast : (t :: v :: rest).getLast (List.cons_ne_nil _ _)
        = (v :: rest).getLast (List.cons_ne_nil _ _) := List.getLast_cons (List.cons_ne_nil _ _)
    rw [hstep, hlast]
    exact ih v n hrest hinv2 (by simp at hf ⊢; omega)

/-- C1. For a transaction whose status is `WAIT_ABORT`, `HeapInsert` and
`HeapInsertEmptyTuple` return `InvalidRowId` and `HeapRead`, `HeapUpdate`, `HeapUpdate2`
and `HeapDelete` return `HamStatus::WAIT_ABORT`; the whole state (allocator, persistent
memory, undo segment) and the transaction (write-set included) are returned unchanged. -/
theorem waitAbort_rejects_every_heap_operation (P : Params) (su : SatisfiedUpdateFn)
    (fuel : Nat) (s : HeapState) (tx : Transaction) (table : Table) (rowId : Nat)
    (tuple : RAMTuple) (h : tx.GetTxStatus = TxStatus.WAIT_ABORT) :
    HeapInsert P fuel s tx table tuple = some (P.InvalidRowId, tuple, s, tx) ∧
    HeapInsertEmptyTuple P fuel s tx table = some ((none, P.InvalidRowId), s, tx) ∧
    HeapRead P fuel s tx rowId tuple = some (HamStatus.WAIT_ABORT, tuple, s) ∧
    HeapUpdate P su s tx table rowId tuple = some (HamStatus.WAIT_ABORT, tuple, s, tx) ∧
    HeapUpdate2 P su s tx table rowId tuple = some (HamStatus.WAIT_ABORT, s, tx) ∧
    HeapDelete P su s tx table rowId = some (HamStatus.WAIT_ABORT, s, tx) := by
  have hc : CheckTxStatus tx = true := by simp [CheckTxStatus, h]
  refine ⟨?_, ?_, ?_, ?_, ?_, ?_⟩
  · simp [HeapInsert, hc]
  · simp [HeapInsertEmptyTuple, hc]
  · simp [HeapRead, hc]
  · simp [HeapUpdate, hc]
  · simp [HeapUpdate2, hc]
  · simp [HeapDelete, hc]

/-- Witness of C1 on the example table, for a doomed transaction. -/
theorem waitAbort_rejects_every_heap_operation_witness :
    HeapInsert exParams 3 exState exTx.WaitAbort exTable exTuple
      = some (exParams.InvalidRowId, exTuple, exState, exTx.WaitAbort) ∧
    HeapDelete exParams exSatisfiedUpdate exState exTx.WaitAbort exTable 0
      = some (HamStatus.WAIT_ABORT, exState, exTx.WaitAbort) :=
  have h := waitAbort_rejects_every_heap_operation exParams exSatisfiedUpdate 3 exState
    exTx.WaitAbort exTable 0 exTuple rfl
  ⟨h.1, h.2.2.2.2.2⟩

/-! ### C2 -/

/-- C3. For a row whose entry resolves to a PM header with `isUsed` set, `HeapRead` walks
the versions newest first: given the chain `vs` of older versions that `FetchPreVersion`
reaches through `prev`, none but the last of which the visibility test judges `OK` or
`SELF_UPDATED`, and fuel for the walk, it returns at a visible last version `ROW_DELETED`
if that version has `isDeleted` set and `OK` otherwise, with the out tuple equal to that
version; at an invisible last version without previous version it returns
`NO_VISIBLE_VERSION`. In particular a single version that bears a CSN greater than the
snapshot of the reader gives `NO_VISIBLE_VERSION`. -/
theorem HeapRead_walks_version_chain (P : Params) (fuel : Nat) (s : HeapState)
    (tx : Transaction) (rowId : Nat) (out : RAMTuple) (e : RowIdMapEntry) (r1 : RowIdMap)
    (vs : List RAMTuple)
    (hst : tx.GetTxStatus ≠ TxStatus.WAIT_ABORT)
    (hent : s.rowIdMap.GetEntry P rowId true = some (some e, r1))
    (hlock : e.m_locked = false)
    (hpmused : (s.pm e.m_nvmAddr).m_isUsed = true)
    (hchain : VersionChain s.undo (out.Deserialize (s.pm e.m_nvmAddr)) vs)
    (hinv : ∀ v ∈ (out.Deserialize (s.pm e.m_nvmAddr) :: vs).dropLast, ¬ tx.Sees s.undo v)
    (hfuel : vs.length + 1 ≤ fuel) :
    (tx.Sees s.undo ((out.Deserialize (s.pm e.m_nvmAddr) :: vs).getLast (List.cons_ne_nil _ _)) →
      (HeapRead P fuel s tx rowId out).map (fun r => (r.1, r.2.1))
        = some (visibleStatus
                  ((out.Deserialize (s.pm e.m_nvmAddr) :: vs).getLast (List.cons_ne_nil _ _)),
                (out.Deserialize (s.pm e.m_nvmAddr) :: vs).getLast (List.cons_ne_nil _ _))) ∧
    (¬ tx.Sees s.undo
        ((out.Deserialize (s.pm e.m_nvmAddr) :: vs).getLast (List.cons_ne_nil _ _)) →
      ((out.Deserialize (s.pm e.m_nvmAddr) :: vs).getLast (List.cons_ne_nil _ _)).HasPreVersion
        = false →
      (HeapRead P fuel s tx rowId out).map (fun r => (r.1, r.2.1))
        = some (HamStatus.NO_VISIBLE_VERSION,
                (out.Deserialize (s.pm e.m_nvmAddr) :: vs).getLast (List.cons_ne_nil _ _))) ∧
    (vs = [] → TxInfoIsCSN (s.pm e.m_nvmAddr).m_txInfo = true →
      tx.m_snapshotCSN < (s.pm e.m_nvmAddr).m_txInfo →
      (out.Deserialize (s.pm e.m_nvmAddr)).HasPreVersion = false →
      (HeapRead P fuel s tx rowId out).map (fun r => (r.1, r.2.1))
        = some (HamStatus.NO_VISIBLE_VERSION, out.Deserialize (s.pm e.m_nvmAddr))) := by
  have hchk := CheckTxStatus_eq_false tx hst
  have hused : (out.Deserialize (s.pm e.m_nvmAddr)).IsUsed = true := by
    simpa [RAMTuple.IsUsed, RAMTuple.Deserialize, copyTuple] using hpmused
  obtain ⟨h1, h2⟩ := HeapReadLoop_chain tx s.undo vs (out.Deserialize (s.pm e.m_nvmAddr)) fuel
    hchain hinv hfuel
  have hrun : (HeapRead P fuel s tx rowId out).map (fun r => (r.1, r.2.1))
      = HeapReadLoop tx s.undo fuel (out.Deserialize (s.pm e.m_nvmAddr)) := by
    simp only [HeapRead, hchk, Bool.false_eq_true, if_false, hent, RowIdMapEntry.Lock, hlock,
      hused, Bool.not_true]
    cases HeapReadLoop tx s.undo fuel (out.Deserialize (s.pm e.m_nvmAddr)) with
    | none => rfl
    | some x => rfl
  refine ⟨fun hs => by rw [hrun]; exact h1 hs, fun hs hp => by rw [hrun]; exact h2 hs hp, ?_⟩
  intro hvs hcsn hgt hp
  subst hvs
  have hns : ¬ tx.Sees s.undo (out.Deserialize (s.pm e.m_nvmAddr)) := by
    have hinfo : (out.Deserialize (s.pm e.m_nvmAddr)).m_tuple.m_txInfo
        = (s.pm e.m_nvmAddr).m_txInfo := by
      simp [RAMTuple.Deserialize, copyTuple]
    unfold Transaction.Sees
    rw [hinfo]
    simp only [Transaction.VersionIsVisible, hcsn, if_true, if_neg (not_le.mpr hgt)]
    simp
  rw [hrun]
  exact h2 hns hp

/-- Witness of C3: in the updated example the reader skips the uncommitted newest version
of row 0 and returns the committed one. -/
theorem HeapRead_walks_version_chain_witness :
    (HeapRead exParams 2 exUpdatedState exTx 0 exTuple).map (fun r => (r.1, r.2.1))
      = some (HamStatus.OK, exRowVersion) :=
  (HeapRead_walks_version_chain exParams 2 exUpdatedState exTx 0 exTuple
    (exUpdatedState.rowIdMap.m_entries 0) exUpdatedState.rowIdMap [exRowVersion]
    (by decide) rfl rfl rfl ⟨by decide, by decide, trivial⟩
    (by
      intro v hv
      simp only [List.dropLast, List.mem_singleton] at hv
      subst hv
      simp only [Transaction.Sees]
      decide)
    (by decide)).1
    (by
      simp only [Transaction.Sees]
      decide)

/-! ### C4 -/

/-- C4 (amended). `HeapUpdate`, `HeapUpdate2` and `HeapDelete` fail atomically. For a live
transaction and a row whose entry is found unlocked: when `SatisfiedUpdate` on the current
header of the row yields `INVISIBLE` or `BEING_MODIFIED` they return `UPDATE_CONFLICT`, and
when it yields `OK` on a row whose `isDeleted` flag is set they return `ROW_DELETED`; in
both cases the transaction is marked `WAIT_ABORT`, the entry lock is released, and the
persistent memory, the undo records and the write-set are unchanged. The undo segment is
exactly as `PrepareUndo`, called before the test, leaves it: unchanged when the transaction
had prepared its undo already, with the TxSlot of the transaction allocated otherwise
(`FailsAtomically`). `HeapUpdate` leaves its tuple as it was. -/
theorem update_or_delete_fails_atomically (P : Params) (su : SatisfiedUpdateFn) (s : HeapState)
    (tx : Transaction) (table : Table) (rowId : Nat) (tuple : RAMTuple) (e : RowIdMapEntry)
    (r1 : RowIdMap) (hst : tx.GetTxStatus ≠ TxStatus.WAIT_ABORT)
    (hent : s.rowIdMap.GetEntry P rowId false = some (some e, r1))
    (hlock : e.m_locked = false) :
    ((su (tx.PrepareUndo s.undo).1 (tx.PrepareUndo s.undo).2 (s.pm e.m_nvmAddr)
        = TMResult.INVISIBLE ∨
      su (tx.PrepareUndo s.undo).1 (tx.PrepareUndo s.undo).2 (s.pm e.m_nvmAddr)
        = TMResult.BEING_MODIFIED) →
      FailsAtomically rowId s tx HamStatus.UPDATE_CONFLICT
        ((HeapUpdate P su s tx table rowId tuple).map (fun r => (r.1, r.2.2))) ∧
      (HeapUpdate P su s tx table rowId tuple).map (fun r => r.2.1) = some tuple ∧
      FailsAtomically rowId s tx HamStatus.UPDATE_CONFLICT
        (HeapUpdate2 P su s tx table rowId tuple) ∧
      FailsAtomically rowId s tx HamStatus.UPDATE_CONFLICT
        (HeapDelete P su s tx table rowId)) ∧
    (su (tx.PrepareUndo s.undo).1 (tx.PrepareUndo s.undo).2 (s.pm e.m_nvmAddr) = TMResult.OK →
      (s.pm e.m_nvmAddr).m_isDeleted = true →
      FailsAtomically rowId s tx HamStatus.ROW_DELETED
        ((HeapUpdate P su s tx table rowId tuple).map (fun r => (r.1, r.2.2))) ∧
      (HeapUpdate P su s tx table rowId tuple).map (fun r => r.2.1) = some tuple ∧
      FailsAtomically rowId s tx HamStatus.ROW_DELETED
        (HeapUpdate2 P su s tx table rowId tuple) ∧
      FailsAtomically rowId s tx HamStatus.ROW_DELETED
        (HeapDelete P su s tx table rowId)) := by
  have hchk := CheckTxStatus_eq_false tx hst
  obtain ⟨_, f2, _, _, f5, _, _, f7, _⟩ := Transaction.PrepareUndo_facts tx s.undo
  have f8 : tx.m_undoPrepared = true →
      (tx.PrepareUndo s.undo).2 = s.undo ∧ (tx.PrepareUndo s.undo).1.WaitAbort = tx.WaitAbort :=
    fun hp => by rw [f7 hp]; exact ⟨rfl, rfl⟩
  constructor
  · intro hres
    refine ⟨?_, ?_, ?_, ?_⟩
    · refine ⟨{ s with rowIdMap := r1.putEntry rowId e, undo := (tx.PrepareUndo s.undo).2 },
        (tx.PrepareUndo s.undo).1.WaitAbort, ?_, rfl, ?_, rfl, f5, f2, rfl, rfl, rfl, f8⟩
      · simp only [HeapUpdate, hchk, Bool.false_eq_true, if_false, hent, RowIdMapEntry.Lock,
          hlock, hres, if_true, Option.map_some', RowIdMapEntry.lock_unlock e hlock]
      · simp [RowIdMap.putEntry, hlock]
    · simp only [HeapUpdate, hchk, Bool.false_eq_true, if_false, hent, RowIdMapEntry.Lock,
        hlock, hres, if_true, Option.map_some']
    · refine ⟨{ s with rowIdMap := r1.putEntry rowId e, undo := (tx.PrepareUndo s.undo).2 },
        (tx.PrepareUndo s.undo).1.WaitAbort, ?_, rfl, ?_, rfl, f5, f2, rfl, rfl, rfl, f8⟩
      · simp only [HeapUpdate2, hchk, Bool.false_eq_true, if_false, hent, RowIdMapEntry.Lock,
          hlock, hres, if_true, RowIdMapEntry.lock_unlock e hlock]
      · simp [RowIdMap.putEntry, hlock]
    · refine ⟨{ s with rowIdMap := r1.putEntry rowId e, undo := (tx.PrepareUndo s.undo).2 },
        (tx.PrepareUndo s.undo).1.WaitAbort, ?_, rfl, ?_, rfl, f5, f2, rfl, rfl, rfl, f8⟩
      · simp only [HeapDelete, hchk, Bool.false_eq_true, if_false, hent, RowIdMapEntry.Lock,
          hlock, hres, if_true, RowIdMapEntry.lock_unlock e hlock]
      · simp [RowIdMap.putEntry, hlock]
  · intro hres hdel
    have hno : ¬ (TMResult.OK = TMResult.INVISIBLE ∨ TMResult.OK = TMResult.BEING_MODIFIED) := by
      simp
    refine ⟨?_, ?_, ?_, ?_⟩
    · refine ⟨{ s with rowIdMap := r1.putEntry rowId e, undo := (tx.PrepareUndo s.undo).2 },
        (tx.PrepareUndo s.undo).1.WaitAbort, ?_, rfl, ?_, rfl, f5, f2, rfl, rfl, rfl, f8⟩
      · simp only [HeapUpdate, hchk, Bool.false_eq_true, if_false, hent, RowIdMapEntry.Lock,
          hlock, hres, hno, hdel, if_true, Option.map_some', RowIdMapEntry.lock_unlock e hlock]
      · simp [RowIdMap.putEntry, hlock]
    · simp only [HeapUpdate, hchk, Bool.false_eq_true, if_false, hent, RowIdMapEntry.Lock,
        hlock, hres, hno, hdel, if_true, Option.map_some']
    · refine ⟨{ s with rowIdMap := r1.putEntry rowId e, undo := (tx.PrepareUndo s.undo).2 },
        (tx.PrepareUndo s.undo).1.WaitAbort, ?_, rfl, ?_, rfl, f5, f2, rfl, rfl, rfl, f8⟩
      · simp only [HeapUpdate2, hchk, Bool.false_eq_true, if_false, hent, RowIdMapEntry.Lock,
          hlock, hres, hno, hdel, if_true, RowIdMapEntry.lock_unlock e hlock]
      · simp [RowIdMap.putEntry, hlock]
    · refine ⟨{ s with rowIdMap := r1.putEntry rowId e, undo := (tx.PrepareUndo s.undo).2 },
        (tx.PrepareUndo s.undo).1.WaitAbort, ?_, rfl, ?_, rfl, f5, f2, rfl, rfl, rfl, f8⟩
      · simp only [HeapDelete, hchk, Bool.false_eq_true, if_false, hent, RowIdMapEntry.Lock,
          hlock, hres, hno, hdel, if_true, RowIdMapEntry.lock_unlock e hlock]
      · simp [RowIdMap.putEntry, hlock]

/-- Witness of C4: a second writer meets the uncommitted update of row 0. -/
theorem update_or_delete_fails_atomically_witness :
    FailsAtomically 0 exUpdatedState exTx HamStatus.UPDATE_CONFLICT
      (HeapUpdate2 exParams exSatisfiedUpdate exUpdatedState exTx exTable 0 exDirtyTuple) ∧
    FailsAtomically 0 exUpdatedState exTx HamStatus.UPDATE_CONFLICT
      (HeapDelete exParams exSatisfiedUpdate exUpdatedState exTx exTable 0) :=
  have h := (update_or_delete_fails_atomically exParams exSatisfiedUpdate exUpdatedState exTx
    exTable 0 exDirtyTuple (exUpdatedState.rowIdMap.m_entries 0) exUpdatedState.rowIdMap
    (by decide) rfl rfl).1 (Or.inr (by decide))
  ⟨h.2.2.1, h.2.2.2⟩

/-- Counterexample to C4 as stated: the second writer of row 0 has not prepared its undo;
its `HeapUpdate2` and `HeapDelete` return `UPDATE_CONFLICT`, and the undo segment is not
the one before the call: `PrepareUndo` has allocated TxSlot 6, which was `EMPTY` and is
`IN_PROGRESS`, and the next free slot has moved from 6 to 7; the undo records are the same. -/
theorem failed_update_allocates_tx_slot :
    exTx.m_undoPrepared = false ∧
    exUpdatedState.undo.m_nextFreeSlot = 6 ∧
    (exUpdatedState.undo.m_slots 6).status = TxSlotStatus.EMPTY ∧
    (HeapUpdate2 exParams exSatisfiedUpdate exUpdatedState exTx exTable 0 exDirtyTuple).map
        (fun r => (r.1, r.2.1.undo.m_nextFreeSlot, (r.2.1.undo.m_slots 6).status,
          decide (r.2.1.undo.m_records = exUpdatedState.undo.m_records)))
      = some (HamStatus.UPDATE_CONFLICT, 7, TxSlotStatus.IN_PROGRESS, true) ∧
    (HeapDelete exParams exSatisfiedUpdate exUpdatedState exTx exTable 0).map
        (fun r => (r.1, r.2.1.undo.m_nextFreeSlot, (r.2.1.undo.m_slots 6).status,
          decide (r.2.1.undo.m_records = exUpdatedState.undo.m_records)))
      = some (HamStatus.UPDATE_CONFLICT, 7, TxSlotStatus.IN_PROGRESS, true) := by
  decide

/-! ### C5 -/

/-- C5 (amended). For a transaction not in `WAIT_ABORT` and a tuple of the row length of
the table, after `rid = HeapInsert(tx, table, t)` the PM tuple at the address of `rid` has
header `txInfo` = the TxSlot pointer of `tx`, `prev = InvalidUndoRecPtr`, `isUsed = true`,
`isDeleted = false`, `dataSize = rowLen` and the first `rowLen` row bytes of `t` as
payload; the row is pushed to the write-set exactly when `ForceWriteBackCSN()` holds, and
the write-set is unchanged otherwise. -/
theorem HeapInsert_writes_tuple (P : Params) (fuel : Nat) (s s1 : HeapState)
    (tx tx2 : Transaction) (table : Table) (tuple t2 : RAMTuple) (rid : Nat)
    (hst : tx.GetTxStatus ≠ TxStatus.WAIT_ABORT)
    (hlen : table.GetRowLen = tuple.getRowLen)
    (hrow : tuple.m_tuple.m_data.length = tuple.m_rowLen)
    (hpm : ∀ a, (s.pm a).m_data.length = table.m_rowLen)
    (h : HeapInsert P fuel s tx table tuple = some (rid, t2, s1, tx2)) :
    s1.pm (s1.rowIdMap.m_rowidMgr.tupleAddr P rid) =
      { m_txInfo := tx2.GetTxSlotLocation, m_prev := InvalidUndoRecPtr, m_isUsed := true
        m_isDeleted := false, m_dataSize := table.m_rowLen
        m_data := bytesAt tuple.m_tuple.m_data 0 table.m_rowLen } ∧
    tx2.m_writeSet = (if s.ForceWriteBackCSN then tx.m_writeSet ++ [rid] else tx.m_writeSet) := by
  have hl : table.m_rowLen = tuple.m_rowLen := hlen
  obtain ⟨nvmAddr, r1, pm1, hg, hp⟩ :=
    HeapInsert_eq_some P fuel s s1 tx tx2 table tuple t2 rid (CheckTxStatus_eq_false tx hst) h
  obtain ⟨_, _, _, haddr, hunused, hpm1, _, _⟩ :=
    RowIdMap.getNextEmptyRowLoop_eq_some P fuel _ fuel _ _ _ _ _ _ hg
  obtain ⟨q1, _, _, q4, q5, _⟩ := pushInserted_eq_some P _ s1 _ tx2 rid hp
  obtain ⟨f1, f2, _, _, _, _, _, _, _⟩ := Transaction.PrepareUndo_facts tx s.undo
  have hold : (pm1 nvmAddr).m_data.length = tuple.m_rowLen := by
    rw [hpm1, Function.update_same]
    simp only
    rw [← hl]
    exact hpm nvmAddr
  constructor
  · rw [q1, q4]
    simp only
    rw [← haddr, Function.update_same, RAMTuple.Serialize_image _ _ _ _ _ _ hrow hold, q5]
    have hb : bytesAt tuple.m_tuple.m_data 0 table.m_rowLen = tuple.m_tuple.m_data := by
      simp only [bytesAt, List.drop_zero]
      exact List.take_of_length_le (by omega)
    rw [hb, hl]
    simp only [HeapState.ForceWriteBackCSN, Transaction.GetTxSlotLocation,
      Transaction.PushWriteSet]
    split <;> rfl
  · rw [q5]
    simp only [HeapState.ForceWriteBackCSN, Transaction.PushWriteSet]
    split
    · simp only [f2]
    · exact f2

/-- Witness of C5 on the example table. -/
theorem HeapInsert_writes_tuple_witness :
    ∃ r, HeapInsert exParams 3 exState exTx exTable exTuple = some r ∧
      r.2.2.1.pm (r.2.2.1.rowIdMap.m_rowidMgr.tupleAddr exParams r.1) =
        { m_txInfo := r.2.2.2.GetTxSlotLocation, m_prev := InvalidUndoRecPtr, m_isUsed := true
          m_isDeleted := false, m_dataSize := 8
          m_data := [1, 2, 3, 4, 5, 6, 7, 8] } ∧
      r.2.2.2.m_writeSet = [r.1] := by
  cases hx : HeapInsert exParams 3 exState exTx exTable exTuple with
  | none =>
    have : (HeapInsert exParams 3 exState exTx exTable exTuple).isSome = true := by decide
    rw [hx] at this
    exact absurd this (by simp)
  | some r =>
    obtain ⟨rid, t2, s1, tx2⟩ := r
    obtain ⟨h1, h2⟩ := HeapInsert_writes_tuple exParams 3 exState s1 exTx tx2 exTable exTuple t2
      rid (by decide) rfl rfl (fun a => rfl) hx
    exact ⟨_, rfl, h1, h2⟩

/-- Counterexample to C5 as stated: with `g_forceWriteBackCSN` cleared `HeapInsert` returns
row 0 for a live transaction and its write-set stays empty. -/
theorem HeapInsert_without_writeback_pushes_nothing :
    (HeapInsert exParams 3 { exState with forceWriteBackCSN := false } exTx exTable exTuple).map
      (fun r => (r.1, r.2.2.2.m_txStatus, r.2.2.2.m_writeSet))
      = some (0, TxStatus.IN_PROGRESS, []) := by
  decide

/-! ### C6 -/

/-- C6 (amended). Update-then-abort restores the row. For a live transaction and updated
columns inside the row: after a successful `HeapUpdate2` with any tuple, and after a
successful `HeapUpdate` with a tuple whose row bytes agree with the stored row outside the
updated columns, the `prev` pointer of the PM tuple names the `UpdateUndo` record of the
row, and applying that record (`UndoUpdate`: the old header and the old bytes of the
updated columns) to the PM tuple gives back the tuple, header and body, as it was before
the update. -/
theorem update_then_undo_restores_row (P : Params) (su : SatisfiedUpdateFn) (s : HeapState)
    (tx : Transaction) (table : Table) (rowId : Nat) (tuple : RAMTuple) (e : RowIdMapEntry)
    (r1 : RowIdMap) (hst : tx.GetTxStatus ≠ TxStatus.WAIT_ABORT)
    (hent : s.rowIdMap.GetEntry P rowId false = some (some e, r1))
    (hcols : ∀ c ∈ tuple.m_updatedCols, c.m_colOffset + c.m_colLen ≤ tuple.m_rowLen)
    (hrow : tuple.m_tuple.m_data.length = tuple.m_rowLen)
    (hpm : (s.pm e.m_nvmAddr).m_data.length = tuple.m_rowLen) :
    (∀ s1 tx2, HeapUpdate2 P su s tx table rowId tuple = some (HamStatus.OK, s1, tx2) →
      ∃ rec, s1.undo.GetUndoRecord (s1.pm e.m_nvmAddr).m_prev = some rec ∧
        rec.m_undoType = UndoType.HeapUpdateUndo ∧ rec.m_rowId = rowId ∧
        UndoUpdate rec (s1.pm e.m_nvmAddr) = s.pm e.m_nvmAddr) ∧
    (∀ t2 s1 tx2, HeapUpdate P su s tx table rowId tuple = some (HamStatus.OK, t2, s1, tx2) →
      (∀ i, ¬ coveredBy tuple.m_updatedCols i →
        tuple.m_tuple.m_data[i]? = (s.pm e.m_nvmAddr).m_data[i]?) →
      ∃ rec, s1.undo.GetUndoRecord (s1.pm e.m_nvmAddr).m_prev = some rec ∧
        rec.m_undoType = UndoType.HeapUpdateUndo ∧ rec.m_rowId = rowId ∧
        UndoUpdate rec (s1.pm e.m_nvmAddr) = s.pm e.m_nvmAddr) := by
  have hchk := CheckTxStatus_eq_false tx hst
  have hin : ∀ c ∈ tuple.m_updatedCols,
      c.m_colOffset + c.m_colLen ≤ (s.pm e.m_nvmAddr).m_data.length := by
    intro c hc; rw [hpm]; exact hcols c hc
  constructor
  · intro s1 tx2 h
    unfold HeapUpdate2 at h
    simp only [hchk, Bool.false_eq_true, if_false, hent] at h
    cases hl : e.Lock with
    | none => simp [hl] at h
    | some e1 =>
      have he1 : e1.m_nvmAddr = e.m_nvmAddr := by
        unfold RowIdMapEntry.Lock at hl
        split at hl
        · simp at hl
        · simp only [Option.some.injEq] at hl
          rw [← hl]
      simp only [hl, he1] at h
      split at h
      · simp at h
      · split at h
        · simp at h
        · simp only [Option.some.injEq, Prod.mk.injEq, true_and] at h
          obtain ⟨h1, _⟩ := h
          subst h1
          obtain ⟨rec, hget, ht, hr, hu⟩ := UndoUpdate_of_update_record
            (tx.PrepareUndo s.undo).2 (tx.PrepareUndo s.undo).1 table.SegmentHead rowId
            (s.pm e.m_nvmAddr)
            { s.pm e.m_nvmAddr with
              m_txInfo := (tx.PrepareUndo s.undo).1.GetTxSlotLocation
              m_prev := (PrepareUpdateUndo (tx.PrepareUndo s.undo).2 (tx.PrepareUndo s.undo).1
                table.SegmentHead rowId (s.pm e.m_nvmAddr) tuple.m_updatedCols).2
              m_data := tuple.copyUpdatedColumnsToNVM (s.pm e.m_nvmAddr).m_data }
            tuple.m_updatedCols
          refine ⟨rec, ?_, ht, hr, ?_⟩
          · simp only [Function.update_same]
            exact hget
          · simp only [Function.update_same]
            rw [hu]
            have hcopy := patchColumns_spec tuple.m_tuple.m_data tuple.m_updatedCols
              (s.pm e.m_nvmAddr).m_data (by intro c hc; rw [hrow]; exact hcols c hc)
              (by rw [hpm, hrow])
            have := patchColumns_restore (s.pm e.m_nvmAddr).m_data
              (tuple.copyUpdatedColumnsToNVM (s.pm e.m_nvmAddr).m_data) tuple.m_updatedCols hin
              (by
                show (patchColumns tuple.m_tuple.m_data tuple.m_updatedCols
                  (s.pm e.m_nvmAddr).m_data).length = _
                rw [hcopy.1, hrow, hpm])
              (fun i hi => (hcopy.2 i).2 hi)
            simp only [this]
  · intro t2 s1 tx2 h hagree
    unfold HeapUpdate at h
    simp only [hchk, Bool.false_eq_true, if_false, hent] at h
    cases hl : e.Lock with
    | none => simp [hl] at h
    | some e1 =>
      have he1 : e1.m_nvmAddr = e.m_nvmAddr := by
        unfold RowIdMapEntry.Lock at hl
        split at hl
        · simp at hl
        · simp only [Option.some.injEq] at hl
          rw [← hl]
      simp only [hl, he1] at h
      split at h
      · simp at h
      · split at h
        · simp at h
        · simp only [Option.some.injEq, Prod.mk.injEq, true_and] at h
          obtain ⟨_, h1, _⟩ := h
          subst h1
          have himg := RAMTuple.Serialize_image tuple (s.pm e.m_nvmAddr)
            (tx.PrepareUndo s.undo).1.GetTxSlotLocation
            (PrepareUpdateUndo (tx.PrepareUndo s.undo).2 (tx.PrepareUndo s.undo).1
                table.SegmentHead rowId (s.pm e.m_nvmAddr) tuple.m_updatedCols).2
            (s.pm e.m_nvmAddr).m_isUsed (s.pm e.m_nvmAddr).m_isDeleted hrow hpm
          obtain ⟨rec, hget, ht, hr, hu⟩ := UndoUpdate_of_update_record
            (tx.PrepareUndo s.undo).2 (tx.PrepareUndo s.undo).1 table.SegmentHead rowId
            (s.pm e.m_nvmAddr)
            { m_txInfo := (tx.PrepareUndo s.undo).1.GetTxSlotLocation
              m_prev := (PrepareUpdateUndo (tx.PrepareUndo s.undo).2 (tx.PrepareUndo s.undo).1
                table.SegmentHead rowId (s.pm e.m_nvmAddr) tuple.m_updatedCols).2
              m_isUsed := (s.pm e.m_nvmAddr).m_isUsed
              m_isDeleted := (s.pm e.m_nvmAddr).m_isDeleted
              m_dataSize := tuple.m_rowLen
              m_data := tuple.m_tuple.m_data }
            tuple.m_updatedCols
          refine ⟨rec, ?_, ht, hr, ?_⟩
          · simp only [Function.update_same, himg]
            exact hget
          · simp only [Function.update_same, himg]
            rw [hu]
            have := patchColumns_restore (s.pm e.m_nvmAddr).m_data tuple.m_tuple.m_data
              tuple.m_updatedCols hin (by rw [hrow, hpm]) hagree
            simp only [this]

/-- Witness of C6: a `HeapUpdate2` of bytes 0 and 1 of row 0 and its undo. -/
theorem update_then_undo_restores_row_witness :
    ∃ r rec, HeapUpdate2 exParams exSatisfiedUpdate exRowState exTx exTable 0 exDirtyTuple
        = some r ∧ r.1 = HamStatus.OK ∧
      (r.2.1.pm 8256).m_data = [9, 9, 3, 4, 5, 6, 7, 8] ∧
      r.2.1.undo.GetUndoRecord (r.2.1.pm 8256).m_prev = some rec ∧
      UndoUpdate rec (r.2.1.pm 8256) = exRowImage := by
  cases hx : HeapUpdate2 exParams exSatisfiedUpdate exRowState exTx exTable 0 exDirtyTuple with
  | none =>
    have : (HeapUpdate2 exParams exSatisfiedUpdate exRowState exTx exTable 0
      exDirtyTuple).isSome = true := by decide
    rw [hx] at this
    exact absurd this (by simp)
  | some r =>
    obtain ⟨st, s1, tx2⟩ := r
    have h0 : (HeapUpdate2 exParams exSatisfiedUpdate exRowState exTx exTable 0 exDirtyTuple).map
        (fun x => (x.1, (x.2.1.pm 8256).m_data)) = some (HamStatus.OK, [9, 9, 3, 4, 5, 6, 7, 8]) := by
      decide
    rw [hx] at h0
    simp only [Option.map_some', Option.some.injEq, Prod.mk.injEq] at h0
    obtain ⟨hst, hdata⟩ := h0
    subst hst
    obtain ⟨rec, h1, _, _, h2⟩ := (update_then_undo_restores_row exParams exSatisfiedUpdate
      exRowState exTx exTable 0 exDirtyTuple
      { RowIdMapEntry.zero with m_isTupleValid := true, m_nvmAddr := 8256 }
      (exRowState.rowIdMap.putEntry 0
        { RowIdMapEntry.zero with m_isTupleValid := true, m_nvmAddr := 8256 })
      (by decide) rfl (by decide) rfl rfl).1 s1 tx2 hx
    exact ⟨_, rec, rfl, rfl, hdata, h1, h2⟩

/-- Counterexample to C6 as stated: `HeapUpdate` with a tuple whose bytes differ from the
row outside its updated columns (bytes 0 and 1) serializes all eight bytes, and the undo
record restores bytes 0 and 1 only. -/
theorem HeapUpdate_then_undo_keeps_foreign_bytes :
    (HeapUpdate exParams exSatisfiedUpdate exRowState exTx exTable 0 exDirtyTuple).bind
      (fun r => (r.2.2.1.undo.GetUndoRecord (r.2.2.1.pm 8256).m_prev).map
        (fun rec => (r.1, rec.m_undoType, (UndoUpdate rec (r.2.2.1.pm 8256)).m_data,
          (exRowState.pm 8256).m_data)))
      = some (HamStatus.OK, UndoType.HeapUpdateUndo, [1, 2, 9, 9, 9, 9, 9, 9],
          [1, 2, 3, 4, 5, 6, 7, 8]) := by
  decide

/-! ### C7 -/

/-- C7 (amended). `RowIdMap::getNextEmptyRow(txInfo)` returns `(rowId, addr)` only for a
row whose PM header had `isUsed = false`, with `addr` the PM tuple address of `rowId`; it
changes persistent memory at `addr` only, where it sets `txInfo`. A candidate row whose
header says `isUsed` is not returned by its pass through the loop: the pass ends in
`continue`, after `tryNextSegment()` if `m_isInsertInit` is still false, and with the rest
of the current range kept once `m_isInsertInit` is set. -/
theorem getNextEmptyRow_reserves_unused_row (P : Params) (fuel txInfo : Nat) (r : RowIdMap)
    (pm : PMem) :
    (∀ res, r.getNextEmptyRow P fuel txInfo pm = some res →
      (pm res.1.2).m_isUsed = false ∧
      res.1.2 = res.2.1.m_rowidMgr.tupleAddr P res.1.1 ∧
      res.2.2 = Function.update pm res.1.2 { pm res.1.2 with m_txInfo := txInfo } ∧
      (res.2.2 res.1.2).m_txInfo = txInfo) ∧
    (∀ rowId v1 addr m1, r.m_vecStore.tryNextRowid P fuel = some (rowId, v1) →
      r.m_rowidMgr.getNVMTupleByRowId P fuel rowId true = some (some addr, m1) →
      (pm addr).m_isUsed = true →
      RowIdMap.getNextEmptyRowStep P fuel txInfo r pm =
        if r.m_isInsertInit then
          some (none, { r with m_vecStore := v1, m_rowidMgr := m1 }, pm)
        else
          v1.tryNextSegment.map
            (fun v2 => (none, { r with m_vecStore := v2, m_rowidMgr := m1 }, pm))) := by
  constructor
  · intro res h
    obtain ⟨⟨rowId, addr⟩, r1, pm1⟩ := res
    obtain ⟨_, _, _, haddr, hunused, hpm1, _, _⟩ :=
      RowIdMap.getNextEmptyRowLoop_eq_some P fuel txInfo fuel r r1 pm pm1 rowId addr h
    refine ⟨hunused, haddr, hpm1, ?_⟩
    simp only [hpm1, Function.update_same]
  · intro rowId v1 addr m1 hn hg hu
    simp only [RowIdMap.getNextEmptyRowStep, hn, hg, hu, if_true]
    by_cases hi : r.m_isInsertInit = true
    · simp [hi]
    · have hi' : r.m_isInsertInit = false := by simpa using hi
      simp only [hi', Bool.not_false, if_true, Bool.false_eq_true, if_false]
      cases v1.tryNextSegment <;> rfl

/-- Witness of C7: the first reservation on the empty example table. -/
theorem getNextEmptyRow_reserves_unused_row_witness :
    ∃ res, exState.rowIdMap.getNextEmptyRow exParams 3 5 exState.pm = some res ∧
      res.1 = (0, 8256) ∧ (exState.pm res.1.2).m_isUsed = false ∧
      (res.2.2 res.1.2).m_txInfo = 5 := by
  cases hx : exState.rowIdMap.getNextEmptyRow exParams 3 5 exState.pm with
  | none =>
    have : (exState.rowIdMap.getNextEmptyRow exParams 3 5 exState.pm).isSome = true := by decide
    rw [hx] at this
    exact absurd this (by simp)
  | some res =>
    have h := (getNextEmptyRow_reserves_unused_row exParams 3 5 exState.rowIdMap exState.pm).1
      res hx
    have h1 : (exState.rowIdMap.getNextEmptyRow exParams 3 5 exState.pm).map (fun x => x.1)
        = some (0, 8256) := by decide
    rw [hx] at h1
    simp only [Option.map_some', Option.some.injEq] at h1
    exact ⟨res, rfl, h1, h.1, h.2.2.2⟩

/-- Counterexample to C7 as stated: the worker has inserted before and its range starts at
row 0, which is in use. The pass over row 0 acquires no extent and keeps the range `[1, 4)`,
where `tryNextSegment` would have set `[8, 12)`; the call then returns row 1. -/
theorem getNextEmptyRow_used_row_keeps_range :
    (exRowState.rowIdMap.m_vecStore.tryNextRowid exParams 3).map (fun x => x.1) = some 0 ∧
    (exRowState.pm 8256).m_isUsed = true ∧
    (RowIdMap.getNextEmptyRowStep exParams 3 5 exRowState.rowIdMap exRowState.pm).map
        (fun x => (x.1, x.2.1.m_vecStore.cache.m_range, x.2.1.m_vecStore.m_gbm))
      = some (none, { m_next := 1, m_end := 4 },
          [{ bits := true :: List.replicate 6 false }, { bits := List.replicate 7 false }]) ∧
    (exRowState.rowIdMap.m_vecStore.tryNextRowid exParams 3).bind
        (fun x => x.2.tryNextSegment.map (fun v => (v.cache.m_range, v.m_gbm)))
      = some ({ m_next := 8, m_end := 12 },
          [{ bits := true :: true :: List.replicate 5 false }, { bits := List.replicate 7 false }]) ∧
    (exRowState.rowIdMap.getNextEmptyRow exParams 3 5 exRowState.pm).map (fun x => x.1)
      = some (1, 8288) := by
  decide

/-! ### C8 -/

/-- Facts about a manager built for `rowLen` whose extents hold at least one tuple. -/
theorem RowIDMgr.builtFor_facts (P : Params) (m : RowIDMgr) (rowLen : Nat)
    (hb : m.BuiltFor P rowLen) (hlen : P.NVMTupleHeadSize + rowLen < 4294967296)
    (hext : P.extentSize < 4294967296) (htpe : 0 < m.m_tuplesPerExtent) :
    m.m_tupleLen = P.NVMTupleHeadSize + rowLen ∧ 0 < m.m_tupleLen ∧
    m.m_tuplesPerExtent * m.m_tupleLen ≤ P.extentSize := by
  obtain ⟨h1, h2⟩ := hb
  rw [u32_of_lt hlen] at h1
  have hdiv : P.extentSize / m.m_tupleLen < 4294967296 :=
    lt_of_le_of_lt (Nat.div_le_self _ _) hext
  rw [u32_of_lt hdiv] at h2
  refine ⟨h1, ?_, ?_⟩
  · by_contra h0
    have : m.m_tupleLen = 0 := by omega
    rw [this, Nat.div_zero] at h2
    omega
  · rw [h2]; exact Nat.div_mul_le_self _ _

/-- C8. Row-id translation. For a manager built for `rowLen` (without 32-bit overflow of
the tuple length, with extents below 4 GiB that hold at least one tuple): for every row id
whose extent slot is valid `getNVMTupleByRowId` returns `pageBase(extentIds[rowId /
tuplesPerExtent]) + extentHeaderSize + (rowId % tuplesPerExtent) × (NVMTupleHeadSize +
rowLen)` and leaves the manager unchanged; two distinct row ids of one extent get
non-overlapping tuple byte ranges; each range lies inside the `GetExtentSize` payload bytes
of the extent. -/
theorem getNVMTupleByRowId_translation (P : Params) (m : RowIDMgr) (rowLen fuel : Nat)
    (append : Bool) (hb : m.BuiltFor P rowLen)
    (hlen : P.NVMTupleHeadSize + rowLen < 4294967296) (hext : P.extentSize < 4294967296)
    (htpe : 0 < m.m_tuplesPerExtent) :
    (∀ rowId, P.NVMPageIdIsValid (m.extentIds (rowId / m.m_tuplesPerExtent)) = true →
      m.getNVMTupleByRowId P fuel rowId append = some (some (specTupleAddr P m rowLen rowId), m)) ∧
    (∀ r1 r2, r1 / m.m_tuplesPerExtent = r2 / m.m_tuplesPerExtent → r1 ≠ r2 →
      specTupleAddr P m rowLen r1 + (P.NVMTupleHeadSize + rowLen) ≤ specTupleAddr P m rowLen r2 ∨
      specTupleAddr P m rowLen r2 + (P.NVMTupleHeadSize + rowLen) ≤ specTupleAddr P m rowLen r1) ∧
    (∀ rowId,
      m.pageBase (m.extentIds (rowId / m.m_tuplesPerExtent)) + P.extentHeaderSize
        ≤ specTupleAddr P m rowLen rowId ∧
      specTupleAddr P m rowLen rowId + (P.NVMTupleHeadSize + rowLen)
        ≤ m.pageBase (m.extentIds (rowId / m.m_tuplesPerExtent)) + P.extentHeaderSize
            + P.extentSize) := by
  obtain ⟨hl, hpos, hfit⟩ := RowIDMgr.builtFor_facts P m rowLen hb hlen hext htpe
  have hoff : ∀ rowId, (rowId % m.m_tuplesPerExtent + 1) * m.m_tupleLen ≤ P.extentSize := by
    intro rowId
    have h1 : rowId % m.m_tuplesPerExtent + 1 ≤ m.m_tuplesPerExtent := Nat.mod_lt _ htpe
    exact le_trans (Nat.mul_le_mul_right _ h1) hfit
  refine ⟨?_, ?_, ?_⟩
  · intro rowId hv
    have hlt : rowId % m.m_tuplesPerExtent * m.m_tupleLen < 4294967296 := by
      have := hoff rowId
      rw [Nat.add_mul] at this
      omega
    simp only [RowIDMgr.getNVMTupleByRowId, hv, RowIDMgr.tupleAddr, specTupleAddr,
      u32_of_lt hlt, if_true]
    rw [hl]
  · intro r1 r2 hsame hne
    have hmod : r1 % m.m_tuplesPerExtent ≠ r2 % m.m_tuplesPerExtent := by
      intro h
      apply hne
      rw [← Nat.div_add_mod r1 m.m_tuplesPerExtent, ← Nat.div_add_mod r2 m.m_tuplesPerExtent,
        hsame, h]
    simp only [specTupleAddr, hsame]
    rw [← hl]
    rcases Nat.lt_or_gt_of_ne hmod with h | h
    · left
      have : (r1 % m.m_tuplesPerExtent + 1) * m.m_tupleLen
          ≤ r2 % m.m_tuplesPerExtent * m.m_tupleLen := Nat.mul_le_mul_right _ h
      rw [Nat.add_mul] at this
      omega
    · right
      have : (r2 % m.m_tuplesPerExtent + 1) * m.m_tupleLen
          ≤ r1 % m.m_tuplesPerExtent * m.m_tupleLen := Nat.mul_le_mul_right _ h
      rw [Nat.add_mul] at this
      omega
  · intro rowId
    have := hoff rowId
    rw [Nat.add_mul] at this
    simp only [specTupleAddr]
    rw [← hl]
    omega

/-- Witness of C8: rows 1 and 2 of the allocated extent of the example. -/
theorem getNVMTupleByRowId_translation_witness :
    exRowMgr.getNVMTupleByRowId exParams 0 1 false = some (some 8288, exRowMgr) ∧
    specTupleAddr exParams exRowMgr 8 1 + 32 ≤ specTupleAddr exParams exRowMgr 8 2 :=
  have h := getNVMTupleByRowId_translation exParams exRowMgr 8 0 false ⟨rfl, rfl⟩
    (by decide) (by decide) (by decide)
  ⟨h.1 1 rfl, (h.2.1 1 2 rfl (by decide)).resolve_right (by decide)⟩

/-! ### C9 -/

theorem RowIDMgr.UpdateMaxPageId_maxPageId (m : RowIDMgr) (p : Nat) :
    (m.UpdateMaxPageId p).maxPageId = max m.maxPageId p := by
  unfold RowIDMgr.UpdateMaxPageId
  split
  · next h => exact (max_eq_right (Nat.le_of_lt h)).symm
  · next h => exact (max_eq_left (Nat.le_of_not_lt h)).symm

theorem RowIDMgr.UpdateMaxPageId_tuplesPerExtent (m : RowIDMgr) (p : Nat) :
    (m.UpdateMaxPageId p).m_tuplesPerExtent = m.m_tuplesPerExtent := by
  unfold RowIDMgr.UpdateMaxPageId; split <;> rfl

/-- One appending call keeps the valid extent slots below `maxPageId`, raises `maxPageId`
to the extent of the row at least, and never lowers it. -/
theorem RowIDMgr.getNVMTupleByRowId_append_maxPageId (P : Params) (fuel : Nat) (m m1 : RowIDMgr)
    (rowId : Nat) (res : Option Nat)
    (hinv : ∀ i, P.NVMPageIdIsValid (m.extentIds i) = true → i ≤ m.maxPageId)
    (h : m.getNVMTupleByRowId P fuel rowId true = some (res, m1)) :
    (∀ i, P.NVMPageIdIsValid (m1.extentIds i) = true → i ≤ m1.maxPageId) ∧
    m1.m_tuplesPerExtent = m.m_tuplesPerExtent ∧
    m1.maxPageId = max m.maxPageId (rowId / m.m_tuplesPerExtent) := by
  rcases (RowIDMgr.getNVMTupleByRowId_append_eq_some P fuel m m1 rowId res h).2 with
    ⟨hv, hm⟩ | ⟨_, p, rest, _, hm⟩
  · subst hm
    exact ⟨hinv, rfl, (max_eq_left (hinv _ hv)).symm⟩
  · subst hm
    refine ⟨?_, RowIDMgr.UpdateMaxPageId_tuplesPerExtent _ _, ?_⟩
    · intro i hi
      simp only at hi ⊢
      rw [RowIDMgr.UpdateMaxPageId_maxPageId]
      by_cases hil : i = rowId / m.m_tuplesPerExtent
      · rw [hil]; exact le_max_right _ _
      · rw [Function.update_noteq hil] at hi
        exact le_trans (hinv i hi) (le_max_left _ _)
    · simp only
      exact RowIDMgr.UpdateMaxPageId_maxPageId _ _

theorem RowIDMgr.appendCalls_maxPageId (P : Params) (fuel : Nat) (rows : List Nat) :
    ∀ (m m1 : RowIDMgr),
      (∀ i, P.NVMPageIdIsValid (m.extentIds i) = true → i ≤ m.maxPageId) →
      m.appendCalls P fuel rows = some m1 →
      m1.m_tuplesPerExtent = m.m_tuplesPerExtent ∧ m.maxPageId ≤ m1.maxPageId ∧
      (∀ r ∈ rows, r / m.m_tuplesPerExtent ≤ m1.maxPageId) ∧
      (m1.maxPageId = m.maxPageId ∨ ∃ r ∈ rows, m1.maxPageId = r / m.m_tuplesPerExtent) := by
  induction rows with
  | nil =>
    intro m m1 _ h
    simp only [RowIDMgr.appendCalls, Option.some.injEq] at h
    subst h
    simp
  | cons r rest ih =>
    intro m m1 hinv h
    simp only [RowIDMgr.appendCalls] at h
    cases hc : m.getNVMTupleByRowId P fuel r true with
    | none => simp [hc] at h
    | some x =>
      obtain ⟨res, m2⟩ := x
      simp only [hc] at h
      obtain ⟨hinv2, htpe2, hmax2⟩ :=
        RowIDMgr.getNVMTupleByRowId_append_maxPageId P fuel m m2 r res hinv hc
      obtain ⟨i1, i2, i3, i4⟩ := ih m2 m1 hinv2 h
      rw [htpe2] at i1 i3 i4
      refine ⟨i1, le_trans (by rw [hmax2]; exact le_max_left _ _) i2, ?_, ?_⟩
      · intro q hq
        rcases List.mem_cons.mp hq with hq | hq
        · rw [hq]
          exact le_trans (by rw [hmax2]; exact le_max_right _ _) i2
        · exact i3 q hq
      · rcases i4 with h4 | ⟨q, hq, h4⟩
        · rw [h4, hmax2]
          rcases Nat.le_total m.maxPageId (r / m.m_tuplesPerExtent) with hle | hle
          · right; exact ⟨r, List.mem_cons_self _ _, max_eq_right hle⟩
          · left; exact max_eq_left hle
        · right; exact ⟨q, List.mem_cons_of_mem _ hq, h4⟩

/-- The extent of local bit `b` of directory `d` ends below `MaxRowId`. -/
theorem extent_end_le_maxRowId (maxRowId dirCount tpe d b : Nat) (hd : d < dirCount)
    (hb : b < maxRowId / tpe / dirCount) : (d + dirCount * b + 1) * tpe ≤ maxRowId := by
  have h1 : d + dirCount * b + 1 ≤ dirCount * (maxRowId / tpe / dirCount) := by
    have : dirCount * (b + 1) ≤ dirCount * (maxRowId / tpe / dirCount) :=
      Nat.mul_le_mul_left _ hb
    rw [Nat.mul_add, Nat.mul_one] at this
    omega
  have h2 : dirCount * (maxRowId / tpe / dirCount) ≤ maxRowId / tpe := Nat.mul_div_le _ _
  have h3 : (d + dirCount * b + 1) * tpe ≤ maxRowId / tpe * tpe :=
    Nat.mul_le_mul_right _ (le_trans h1 h2)
  exact le_trans h3 (Nat.div_mul_le_self _ _)

/-- The extent of a row id that `VecStore` hands out ends at or below `MaxRowId`. -/
theorem VecStore.HandsOut_extent_end (P : Params) (spaceCount tpe rowId : Nat)
    (hmax : P.MaxRowId < 4294967296) (h : VecStore.HandsOut P spaceCount tpe rowId) :
    0 < tpe ∧ (rowId / tpe + 1) * tpe ≤ P.MaxRowId := by
  obtain ⟨d, b, hd, hb, hlo, hhi⟩ := h
  have hb1 : b < P.MaxRowId / tpe / spaceCount := Nat.lt_of_lt_of_le hb (u32_le _)
  have htpe : 0 < tpe := by
    by_contra h0
    have : tpe = 0 := by omega
    subst this
    simp at hb1
  have hend := extent_end_le_maxRowId P.MaxRowId spaceCount tpe d b hd hb1
  have he1 : d + spaceCount * b + 1 ≤ (d + spaceCount * b + 1) * tpe :=
    Nat.le_mul_of_pos_right _ htpe
  have hstart : (d + spaceCount * b) * tpe ≤ (d + spaceCount * b + 1) * tpe :=
    Nat.mul_le_mul_right _ (Nat.le_succ _)
  simp only [segmentRange, globalBitOf, RowIdRange.setRange] at hlo hhi
  rw [u32_of_lt (show d + spaceCount * b < 4294967296 by omega),
    u32_of_lt (show (d + spaceCount * b) * tpe < 4294967296 by omega)] at hlo
  rw [u32_of_lt (show d + spaceCount * b < 4294967296 by omega),
    u32_of_lt (show d + spaceCount * b + 1 < 4294967296 by omega),
    u32_of_lt (show (d + spaceCount * b + 1) * tpe < 4294967296 by omega)] at hhi
  have hq : rowId / tpe = d + spaceCount * b := by
    apply Nat.div_eq_of_lt_le
    · exact hlo
    · exact hhi
  rw [hq]
  exact ⟨htpe, hend⟩

/-- The manager the constructor builds over a zeroed segment head, page id 0 being invalid:
no extent slot is valid, `maxPageId` is 0 and `m_tuplesPerExtent` is a `uint32`. -/
theorem RowIDMgr.create_fresh (P : Params) (pageBase : Nat → Nat) (freePages : List Nat)
    (spaceCount tupleLen : Nat) (hnull : P.NVMPageIdIsValid 0 = false) :
    (∀ i, P.NVMPageIdIsValid
      ((RowIDMgr.create P pageBase freePages spaceCount 0 (fun _ => 0) tupleLen).extentIds i)
        = true →
      i ≤ (RowIDMgr.create P pageBase freePages spaceCount 0 (fun _ => 0) tupleLen).maxPageId) ∧
    (RowIDMgr.create P pageBase freePages spaceCount 0 (fun _ => 0) tupleLen).maxPageId = 0 ∧
    (RowIDMgr.create P pageBase freePages spaceCount 0 (fun _ => 0) tupleLen).spaceCount
      = spaceCount ∧
    (RowIDMgr.create P pageBase freePages spaceCount 0 (fun _ => 0) tupleLen).m_tuplesPerExtent
      < 4294967296 := by
  refine ⟨?_, rfl, rfl, ?_⟩
  · intro i hi
    simp only [RowIDMgr.create, hnull] at hi
    exact absurd hi (by simp)
  · simp only [RowIDMgr.create, u32]
    exact Nat.mod_lt _ (by norm_num)

/-- C9. `HeapUpperRowId` is an exclusive upper bound of the allocated rows. On a table from
its creation (the manager the constructor builds over a zeroed segment head, page id 0 being
invalid), after any sequence of calls `getNVMTupleByRowId(rowId, true)` for row ids that
`VecStore` hands out, `MaxRowId` being a 32-bit value: every such row id is below
`getUpperRowId()`, which equals `(maxPageId + 1) × tuplesPerExtent`, the 32-bit product not
wrapping; no appending call lowers `maxPageId`, and `UpdateMaxPageId` sets it to the maximum
of its old value and the extent index. -/
theorem upperRowId_bounds_appended_rows (P : Params) (fuel : Nat)
    (pageBase : Nat → Nat) (freePages : List Nat) (spaceCount tupleLen : Nat)
    (m1 : RowIDMgr) (rows : List Nat)
    (hmaxrow : P.MaxRowId < 4294967296)
    (hnull : P.NVMPageIdIsValid 0 = false)
    (hrows : ∀ r ∈ rows, VecStore.HandsOut P spaceCount
      (RowIDMgr.create P pageBase freePages spaceCount 0 (fun _ => 0) tupleLen).m_tuplesPerExtent r)
    (hcalls : (RowIDMgr.create P pageBase freePages spaceCount 0 (fun _ => 0) tupleLen).appendCalls
      P fuel rows = some m1) :
    (∀ r ∈ rows, r < m1.getUpperRowId) ∧
    m1.getUpperRowId = (m1.maxPageId + 1) * m1.m_tuplesPerExtent ∧
    (∀ (mgr mgr1 : RowIDMgr) (r : Nat) (res : Option Nat),
      mgr.getNVMTupleByRowId P fuel r true = some (res, mgr1) →
      mgr.maxPageId ≤ mgr1.maxPageId) ∧
    (∀ mgr : RowIDMgr, ∀ e, (mgr.UpdateMaxPageId e).maxPageId = max mgr.maxPageId e) := by
  obtain ⟨hinv, hzero, _, htpe32⟩ :=
    RowIDMgr.create_fresh P pageBase freePages spaceCount tupleLen hnull
  generalize RowIDMgr.create P pageBase freePages spaceCount 0 (fun _ => 0) tupleLen = m
    at hinv hzero htpe32 hrows hcalls
  obtain ⟨h1, _, h3, h4⟩ := RowIDMgr.appendCalls_maxPageId P fuel rows m m1 hinv hcalls
  have hnowrap : (m1.maxPageId + 1) * m.m_tuplesPerExtent < 4294967296 := by
    rcases h4 with h4 | ⟨q, hq, h4⟩
    · rw [h4, hzero]; omega
    · rw [h4]
      exact lt_of_le_of_lt
        (VecStore.HandsOut_extent_end P spaceCount _ q hmaxrow (hrows q hq)).2 hmaxrow
  have hupper : m1.getUpperRowId = (m1.maxPageId + 1) * m1.m_tuplesPerExtent := by
    simp only [RowIDMgr.getUpperRowId, RowIDMgr.GetMaxPageId]
    rw [h1]
    rcases Nat.eq_zero_or_pos m.m_tuplesPerExtent with h0 | hpos
    · rw [h0]; simp [u32]
    · have hle : m1.maxPageId + 1 ≤ (m1.maxPageId + 1) * m.m_tuplesPerExtent :=
        Nat.le_mul_of_pos_right _ hpos
      rw [u32_of_lt (show m1.maxPageId + 1 < 4294967296 by omega), u32_of_lt hnowrap]
  refine ⟨?_, hupper, ?_, RowIDMgr.UpdateMaxPageId_maxPageId⟩
  · intro r hr
    rw [hupper, h1]
    have hle := h3 r hr
    have hpos := (VecStore.HandsOut_extent_end P spaceCount _ r hmaxrow (hrows r hr)).1
    have hlt : r < (r / m.m_tuplesPerExtent + 1) * m.m_tuplesPerExtent := by
      rw [Nat.mul_comm]
      exact Nat.lt_mul_div_succ r hpos
    exact lt_of_lt_of_le hlt (Nat.mul_le_mul_right _ (Nat.succ_le_succ hle))
  · intro mgr mgr1 r res h
    rcases (RowIDMgr.getNVMTupleByRowId_append_eq_some P fuel mgr mgr1 r res h).2 with
      ⟨_, hm⟩ | ⟨_, p, rest, _, hm⟩
    · rw [hm]
    · rw [hm]
      simp only
      rw [RowIDMgr.UpdateMaxPageId_maxPageId]
      exact le_max_left _ _

/-- Witness of C9: rows 5 and 0, of the extents of bit 0 of the directories 1 and 0,
appended to the empty example table. -/
theorem upperRowId_bounds_appended_rows_witness :
    ∃ m1, exMgr.appendCalls exParams 1 [5, 0] = some m1 ∧ 5 < m1.getUpperRowId ∧
      0 < m1.getUpperRowId ∧ m1.getUpperRowId = 8 := by
  cases hx : exMgr.appendCalls exParams 1 [5, 0] with
  | none =>
    have : (exMgr.appendCalls exParams 1 [5, 0]).isSome = true := by decide
    rw [hx] at this
    exact absurd this (by simp)
  | some m1 =>
    have h := upperRowId_bounds_appended_rows exParams 1 (fun p => 4096 * p) [2, 3, 4] 2 8 m1 [5, 0]
      (by decide) rfl
      (by
        intro r hr
        simp only [List.mem_cons, List.mem_singleton, List.not_mem_nil, or_false] at hr
        rcases hr with rfl | rfl
        · exact ⟨1, 0, by decide, by decide, by decide, by decide⟩
        · exact ⟨0, 0, by decide, by decide, by decide, by decide⟩)
      hx
    have h8 : (exMgr.appendCalls exParams 1 [5, 0]).map (fun m => m.getUpperRowId) = some 8 := by
      decide
    rw [hx] at h8
    exact ⟨m1, rfl, h.1 5 (by decide), h.1 0 (by decide), by simpa using h8⟩

/-- The bound rests on the row ids being those `VecStore` hands out. The row id
`4294967294` lies in the last extent of the 32-bit range, which no bitmap bit stands for
(65536 tuples per extent, `MaxRowId = 2^32 - 2`, hence 65535 bits): a call for it would
raise `maxPageId` to 65535, and `getUpperRowId()`, computed in 32 bits, would be 0. -/
theorem upperRowId_wraps_at_last_extent :
    wideMgr.m_tuplesPerExtent = 65536 ∧
    (wideMgr.appendCalls wideParams 1 [4294967294]).map
        (fun m1 => (m1.maxPageId, m1.getUpperRowId, decide (4294967294 < m1.getUpperRowId)))
      = some (65535, 0, false) := by
  decide

/-! ### C10 -/

theorem firstFree_lt : ∀ (bits : List Bool) (i : Nat), firstFree bits = some i → i < bits.length
  | [], i, h => by simp [firstFree] at h
  | false :: rest, i, h => by
    simp only [firstFree, Option.some.injEq] at h
    subst h
    simp
  | true :: rest, i, h => by
    simp only [firstFree, Option.map_eq_some'] at h
    obtain ⟨j, hj, rfl⟩ := h
    have := firstFree_lt rest j hj
    simp only [List.length_cons]
    omega

/-- C10. Row reservation is exclusive. With `MaxRowId` a 32-bit value and `pagesPerDir =
MaxRowId / tuplesPerExtent / dirCount`: the constructor gives each of the `dirCount`
directories a bitmap of `pagesPerDir` bits; a thread bound to directory `d` that acquires
local bit `b` of such a bitmap gets from `tryNextSegment` the range `[e × tuplesPerExtent,
(e + 1) × tuplesPerExtent)` with `e = d + dirCount × b`, where `e mod dirCount = d` and the
range ends at or below `MaxRowId`; the ranges of distinct pairs `(d, b)` are disjoint; and
for every `b < pagesPerDir` the 32-bit computation of the range does not wrap and its end
is at most `MaxRowId`. -/
theorem tryNextSegment_ranges_exclusive (P : Params) (dirCount tpe : Nat)
    (hmax : P.MaxRowId < 4294967296) :
    (∀ (g : Nat) (v : VecStore), VecStore.create P dirCount tpe g = some v →
      v.m_gbm.length = dirCount ∧ v.m_tuplesPerExtent = tpe ∧ v.groupId = g ∧
      ∀ bm ∈ v.m_gbm, bm.bits.length = u32 (P.MaxRowId / tpe / dirCount)) ∧
    (∀ (v : VecStore) (bm bm1 : GlobalBitMap) (b : Nat),
      v.m_gbm.length = dirCount → v.m_tuplesPerExtent = tpe →
      v.m_gbm.get? v.groupId = some bm →
      bm.bits.length = u32 (P.MaxRowId / tpe / dirCount) →
      bm.SyncAcquire = some (b, bm1) →
      ∃ v1, v.tryNextSegment = some v1 ∧
        v1.cache.m_range = { m_next := (v.groupId + dirCount * b) * tpe
                             m_end := (v.groupId + dirCount * b + 1) * tpe } ∧
        (v.groupId + dirCount * b) % dirCount = v.groupId ∧
        v1.cache.m_range.m_end ≤ P.MaxRowId) ∧
    (∀ d1 b1 d2 b2, d1 < dirCount → d2 < dirCount → (d1, b1) ≠ (d2, b2) →
      (d1 + dirCount * b1 + 1) * tpe ≤ (d2 + dirCount * b2) * tpe ∨
      (d2 + dirCount * b2 + 1) * tpe ≤ (d1 + dirCount * b1) * tpe) ∧
    (∀ d b, d < dirCount → b < u32 (P.MaxRowId / tpe / dirCount) →
      segmentRange tpe (globalBitOf dirCount d b)
        = { m_next := (d + dirCount * b) * tpe, m_end := (d + dirCount * b + 1) * tpe } ∧
      (d + dirCount * b + 1) * tpe ≤ P.MaxRowId) := by
  have hppd : u32 (P.MaxRowId / tpe / dirCount) = P.MaxRowId / tpe / dirCount :=
    u32_of_lt (lt_of_le_of_lt (le_trans (Nat.div_le_self _ _) (Nat.div_le_self _ _)) hmax)
  have hrange : ∀ d b, d < dirCount → b < u32 (P.MaxRowId / tpe / dirCount) →
      segmentRange tpe (globalBitOf dirCount d b)
        = { m_next := (d + dirCount * b) * tpe, m_end := (d + dirCount * b + 1) * tpe } ∧
      (d + dirCount * b + 1) * tpe ≤ P.MaxRowId := by
    intro d b hd hb
    rw [hppd] at hb
    have hend := extent_end_le_maxRowId P.MaxRowId dirCount tpe d b hd hb
    have htpe : 0 < tpe := by
      by_contra h0
      have : tpe = 0 := by omega
      subst this
      simp at hb
    have he1 : d + dirCount * b + 1 ≤ (d + dirCount * b + 1) * tpe :=
      Nat.le_mul_of_pos_right _ htpe
    have hstart : (d + dirCount * b) * tpe ≤ (d + dirCount * b + 1) * tpe :=
      Nat.mul_le_mul_right _ (Nat.le_succ _)
    refine ⟨?_, hend⟩
    simp only [segmentRange, globalBitOf, RowIdRange.setRange]
    rw [u32_of_lt (show d + dirCount * b < 4294967296 by omega),
      u32_of_lt (show d + dirCount * b + 1 < 4294967296 by omega),
      u32_of_lt (show (d + dirCount * b) * tpe < 4294967296 by omega),
      u32_of_lt (show (d + dirCount * b + 1) * tpe < 4294967296 by omega)]
  refine ⟨?_, ?_, ?_, hrange⟩
  · intro g v hv
    unfold VecStore.create at hv
    by_cases h0 : dirCount = 0
    · simp [h0] at hv
    · simp only [h0, if_false, Option.some.injEq] at hv
      subst hv
      refine ⟨by simp, rfl, rfl, ?_⟩
      intro bm hbm
      rw [List.eq_of_mem_replicate hbm]
      simp
  · intro v bm bm1 b hlen htp hget hbits hacq
    have hd : v.groupId < dirCount := by
      rw [← hlen]
      exact (List.get?_eq_some.mp hget).1
    have hb : b < u32 (P.MaxRowId / tpe / dirCount) := by
      rw [← hbits]
      unfold GlobalBitMap.SyncAcquire at hacq
      cases hf : firstFree bm.bits with
      | none => simp [hf] at hacq
      | some i =>
        simp only [hf, Option.some.injEq, Prod.mk.injEq] at hacq
        rw [← hacq.1]
        exact firstFree_lt _ _ hf
    obtain ⟨hr, hend⟩ := hrange v.groupId b hd hb
    have hrun : v.tryNextSegment = some
        { v with m_gbm := v.m_gbm.set v.groupId bm1
                 cache := { v.cache with
                   m_range := segmentRange tpe (globalBitOf dirCount v.groupId b) } } := by
      simp only [VecStore.tryNextSegment, hget, hacq, hlen, htp]
    refine ⟨_, hrun, ?_, ?_, ?_⟩
    · simp only [hr]
    · rw [Nat.add_mul_mod_self_left]
      exact Nat.mod_eq_of_lt hd
    · simp only [hr]
      exact hend
  · intro d1 b1 d2 b2 hd1 hd2 hne
    have hne2 : d1 + dirCount * b1 ≠ d2 + dirCount * b2 := by
      intro h
      apply hne
      have hm : (d1 + dirCount * b1) % dirCount = (d2 + dirCount * b2) % dirCount := by rw [h]
      rw [Nat.add_mul_mod_self_left, Nat.add_mul_mod_self_left, Nat.mod_eq_of_lt hd1,
        Nat.mod_eq_of_lt hd2] at hm
      subst hm
      have hpos : 0 < dirCount := by omega
      have : dirCount * b1 = dirCount * b2 := by omega
      rw [Nat.eq_of_mul_eq_mul_left hpos this]
    rcases Nat.lt_or_gt_of_ne hne2 with h | h
    · left; exact Nat.mul_le_mul_right _ h
    · right; exact Nat.mul_le_mul_right _ h

/-- Witness of C10 on the example allocator. -/
theorem tryNextSegment_ranges_exclusive_witness :
    (∃ v1, exVec.tryNextSegment = some v1 ∧ v1.cache.m_range = { m_next := 0, m_end := 4 }) ∧
    (1 + 2 * 6 + 1) * 4 ≤ exParams.MaxRowId :=
  have h := tryNextSegment_ranges_exclusive exParams 2 4 (by decide)
  have ha := h.2.1 exVec { bits := List.replicate 7 false }
    { bits := true :: List.replicate 6 false } 0 rfl rfl rfl (by decide) (by decide)
  ⟨ha.elim (fun v1 hv => ⟨v1, hv.1, hv.2.1⟩), (h.2.2.2 1 6 (by decide) (by decide)).2⟩

/-! ### C11 -/

/-- Every row id the loop of `tryNextRowid` returns passed `RowIdIsValid`. -/
theorem VecStore.tryNextRowidLoop_valid (P : Params) :
    ∀ (fuel : Nat) (v v1 : VecStore) (rid : Nat),
      VecStore.tryNextRowidLoop P fuel v = some (rid, v1) → RowIdIsValid P rid = true := by
  intro fuel
  induction fuel with
  | zero => intro v v1 rid h; simp [VecStore.tryNextRowidLoop] at h
  | succ n ih =>
    intro v v1 rid h
    unfold VecStore.tryNextRowidLoop at h
    simp only at h
    by_cases hv : RowIdIsValid P (v.cache.m_range.next P).1 = true
    · simp only [hv, if_true, Option.some.injEq, Prod.mk.injEq] at h
      rw [← h.1]; exact hv
    · simp only [hv, if_false] at h
      cases hs : ({ v with cache := { v.cache with m_range := (v.cache.m_range.next P).2 } } :
          VecStore).tryNextSegment with
      | none => simp [hs] at h
      | some v2 =>
        simp only [hs] at h
        exact ih v2 v1 rid h

/-- Every row id `tryNextRowid` returns passed `RowIdIsValid`. -/
theorem VecStore.tryNextRowid_valid (P : Params) (fuel : Nat) (v v1 : VecStore) (rid : Nat)
    (h : v.tryNextRowid P fuel = some (rid, v1)) : RowIdIsValid P rid = true := by
  unfold VecStore.tryNextRowid at h
  simp only at h
  by_cases hv : RowIdIsValid P (v.cache.pop P).1 = true
  · simp only [hv, if_true, Option.some.injEq, Prod.mk.injEq] at h
    rw [← h.1]; exact hv
  · simp only [hv, if_false] at h
    exact VecStore.tryNextRowidLoop_valid P fuel _ v1 rid h

/-- The sentinel does not pass `RowIdIsValid`. -/
theorem RowIdIsValid_invalid (P : Params) : RowIdIsValid P P.InvalidRowId = false := by
  simp [RowIdIsValid]

/-- C11 (amended). `VecStore::tryNextRowid` never returns `InvalidRowId`: every row id it
returns passed `RowIdIsValid`. With the free list empty and the range used up, each pass of
its loop calls `tryNextSegment()` and tries the range again; when no extent can be acquired
there (the bitmap of the thread's directory has no free bit), the call does not return. -/
theorem tryNextRowid_exhausted_never_returns (P : Params) (fuel : Nat) (v : VecStore) :
    (∀ rid v1, v.tryNextRowid P fuel = some (rid, v1) →
      RowIdIsValid P rid = true ∧ rid ≠ P.InvalidRowId) ∧
    (v.cache.m_rowidCache = [] → ¬ v.cache.m_range.m_next < v.cache.m_range.m_end →
      v.tryNextRowid P (fuel + 1)
        = v.tryNextSegment.bind (fun v1 => VecStore.tryNextRowidLoop P fuel v1)) ∧
    (v.cache.m_rowidCache = [] → ¬ v.cache.m_range.m_next < v.cache.m_range.m_end →
      v.tryNextSegment = none → v.tryNextRowid P fuel = none) := by
  have hloop : v.cache.m_rowidCache = [] → ¬ v.cache.m_range.m_next < v.cache.m_range.m_end →
      ∀ n, v.tryNextRowid P (n + 1)
        = v.tryNextSegment.bind (fun v1 => VecStore.tryNextRowidLoop P n v1) := by
    intro hc hr n
    have hpop : v.cache.pop P = (P.InvalidRowId, v.cache) := by
      simp [TLTableCache.pop, hc]
    have hnext : v.cache.m_range.next P = (P.InvalidRowId, v.cache.m_range) := by
      simp [RowIdRange.next, hr]
    unfold VecStore.tryNextRowid
    simp only [hpop, RowIdIsValid_invalid, Bool.false_eq_true, if_false]
    conv_lhs => unfold VecStore.tryNextRowidLoop
    simp only [hnext, RowIdIsValid_invalid, Bool.false_eq_true, if_false]
    cases v.tryNextSegment <;> rfl
  refine ⟨?_, fun hc hr => hloop hc hr fuel, ?_⟩
  · intro rid v1 h
    have hv := VecStore.tryNextRowid_valid P fuel v v1 rid h
    refine ⟨hv, ?_⟩
    intro he
    rw [he, RowIdIsValid_invalid] at hv
    exact absurd hv (by simp)
  · intro hc hr hs
    cases fuel with
    | zero =>
      unfold VecStore.tryNextRowid
      simp [TLTableCache.pop, hc, RowIdIsValid_invalid, VecStore.tryNextRowidLoop]
    | succ n =>
      rw [hloop hc hr n, hs]
      rfl

/-- Witness of C11 on the exhausted example allocator. -/
theorem tryNextRowid_exhausted_never_returns_witness :
    exFullVec.tryNextRowid exParams 5 = none :=
  (tryNextRowid_exhausted_never_returns exParams 5 exFullVec).2.2 rfl (by decide) (by decide)

/-- Counterexample to C11 as stated: on the exhausted example allocator (empty free list,
range used up, all bits of every bitmap acquired) no amount of fuel makes `tryNextRowid`
return `InvalidRowId`. -/
theorem tryNextRowid_exhausted_returns_no_sentinel :
    exFullVec.cache.m_rowidCache = [] ∧
    exFullVec.cache.m_range.m_next = exFullVec.cache.m_range.m_end ∧
    (∀ bm ∈ exFullVec.m_gbm, firstFree bm.bits = none) ∧
    ¬ ∃ fuel v1, exFullVec.tryNextRowid exParams fuel = some (exParams.InvalidRowId, v1) := by
  refine ⟨rfl, rfl, by decide, ?_⟩
  rintro ⟨fuel, v1, h⟩
  have hv := VecStore.tryNextRowid_valid exParams fuel exFullVec v1 _ h
  rw [RowIdIsValid_invalid] at hv
  exact absurd hv (by simp)

/-! ### C12 -/

/-- C12 (what the code does). A row length that leaves zero tuples per extent is not
rejected when the table is opened: `RowIDMgr::RowIDMgr` stores `m_tuplesPerExtent = 0` and
returns, and `RowIdMap::RowIdMap` hands that value to `VecStore::VecStore`, which passes
its only test `CHECK(spaceCount > 0)` and then divides `MaxRowId` by it. No `CHECK` fails on
the way. -/
theorem rowIdMap_create_zero_tuples_unchecked (P : Params) (pageBase : Nat → Nat)
    (freePages : List Nat) (maxPageId : Nat) (extentIds : Nat → Nat)
    (spaceCount groupId rowLen : Nat)
    (hlen : P.extentSize < u32 (P.NVMTupleHeadSize + rowLen)) (hs : 0 < spaceCount) :
    (RowIDMgr.create P pageBase freePages spaceCount maxPageId extentIds
      rowLen).getTuplesPerExtent = 0 ∧
    RowIdMap.create P pageBase freePages maxPageId extentIds spaceCount groupId rowLen
      = CtorResult.divisionByZero := by
  have htpe : (RowIDMgr.create P pageBase freePages spaceCount maxPageId extentIds
      rowLen).getTuplesPerExtent = 0 := by
    simp only [RowIDMgr.getTuplesPerExtent, RowIDMgr.create]
    rw [Nat.div_eq_of_lt hlen]
    rfl
  refine ⟨htpe, ?_⟩
  have h0 : u32 (P.NVMTupleHeadSize + rowLen) ≠ 0 := by omega
  have hs0 : spaceCount ≠ 0 := by omega
  unfold RowIdMap.create
  simp only [h0, if_false, hs0, htpe, if_true]

/-- Witness of C12: rows of 128 bytes on extents of 128 payload bytes, two directories. -/
theorem rowIdMap_create_zero_tuples_unchecked_witness :
    (RowIDMgr.create exParams (fun p => 4096 * p) [2, 3, 4] 2 0 (fun _ => 0)
      128).getTuplesPerExtent = 0 ∧
    RowIdMap.create exParams (fun p => 4096 * p) [2, 3, 4] 0 (fun _ => 0) 2 0 128
      = CtorResult.divisionByZero :=
  rowIdMap_create_zero_tuples_unchecked exParams (fun p => 4096 * p) [2, 3, 4] 0 (fun _ => 0)
    2 0 128 (by decide) (by decide)

/-! ### Auxiliary lemmas: byte copies -/

/-- Nothing copied yet. -/
theorem Copied.start (m : Memory) (d s : Nat) : Copied m d s 0 m := by
  refine ⟨?_, ?_, ?_⟩
  · intro j hj; omega
  · intro a _; rfl
  · intro a
    have : ¬ (d ≤ a ∧ a < d + 0) := by omega
    simp [this]

/-- One load-store pair of `k` bytes at index `i` extends the copied range by `k`. -/
theorem Copied.step {m0 m : Memory} {d s i n k : Nat} (h : Copied m0 d s i m)
    (hk : i + k ≤ n) (hd : NoOverlap d s n) :
    Copied m0 d s (i + k) (m.copy (d + i) (s + i) k) := by
  obtain ⟨h1, h2, h3⟩ := h
  unfold NoOverlap at hd
  refine ⟨?_, ?_, ?_⟩
  · intro j hj
    simp only [Memory.copy]
    by_cases hji : j < i
    · rw [if_neg (by omega)]
      exact h1 j hji
    · rw [if_pos (by omega)]
      have e : s + i + (d + j - (d + i)) = s + j := by omega
      rw [e]
      exact h2 (s + j) (by omega)
  · intro a ha
    simp only [Memory.copy]
    rw [if_neg (by omega)]
    exact h2 a (by omega)
  · intro a
    simp only [Memory.copy]
    rw [h3 a]
    by_cases h4 : d + i ≤ a ∧ a < d + i + k
    · rw [if_pos h4, if_neg (by omega), if_pos (by omega)]
    · rw [if_neg h4]
      by_cases h5 : d ≤ a ∧ a < d + i
      · rw [if_pos h5, if_pos (by omega)]
      · rw [if_neg h5, if_neg (by omega)]

/-- A `while` loop whose condition leaves room for its store extends the copied range and,
given `n - i` rounds, ends with its condition false. -/
theorem copyWhile_copied (cond : Nat → Bool) (k d s n : Nat) (m0 : Memory)
    (hk : 0 < k) (hd : NoOverlap d s n) (hc : ∀ i, cond i = true → i + k ≤ n) :
    ∀ (fuel i : Nat) (m : Memory), Copied m0 d s i m → i ≤ n → n ≤ i + fuel →
      Copied m0 d s (copyWhile cond k d s fuel i m).1 (copyWhile cond k d s fuel i m).2 ∧
      (copyWhile cond k d s fuel i m).1 ≤ n ∧
      cond (copyWhile cond k d s fuel i m).1 = false := by
  intro fuel
  induction fuel with
  | zero =>
    intro i m h hi hf
    simp only [copyWhile]
    refine ⟨h, hi, ?_⟩
    cases hci : cond i with
    | false => rfl
    | true => have := hc i hci; omega
  | succ f ih =>
    intro i m h hi hf
    simp only [copyWhile]
    cases hci : cond i with
    | false => simp only [Bool.false_eq_true, if_false]; exact ⟨h, hi, hci⟩
    | true =>
      simp only [if_true]
      have hik := hc i hci
      exact ih (i + k) _ (h.step hik hd) hik (by omega)

/-- The block loop extends the copied range by `64 * blocks`. -/
theorem copyBlocks_copied (d s n : Nat) (m0 : Memory) (hd : NoOverlap d s n) :
    ∀ (blocks i : Nat) (m : Memory), Copied m0 d s i m → i + 64 * blocks ≤ n →
      Copied m0 d s (copyBlocks d s blocks i m).1 (copyBlocks d s blocks i m).2 ∧
      (copyBlocks d s blocks i m).1 ≤ n := by
  intro blocks
  induction blocks with
  | zero => intro i m h hi; simp only [copyBlocks]; exact ⟨h, by omega⟩
  | succ b ih =>
    intro i m h hi
    simp only [copyBlocks]
    exact ih (i + 64) _ (h.step (show i + 64 ≤ n by omega) hd) (by omega)

/-- A guarded step extends the copied range or leaves it. -/
theorem copyStep_copied (d s n k : Nat) (m0 : Memory) (hd : NoOverlap d s n)
    (st : Nat × Memory) (h : Copied m0 d s st.1 st.2) (hi : st.1 ≤ n) :
    Copied m0 d s (copyStep d s n k st).1 (copyStep d s n k st).2 ∧
    (copyStep d s n k st).1 ≤ n := by
  unfold copyStep
  by_cases hk : st.1 + k ≤ n
  · rw [if_pos hk]; exact ⟨h.step hk hd, hk⟩
  · rw [if_neg hk]; exact ⟨h, hi⟩

/-- The unaligned head copies a prefix of the range. -/
theorem copyHead_copied (m : Memory) (dest src n : Nat) (hd : NoOverlap dest src n) :
    Copied m dest src (copyHead m dest src n).1 (copyHead m dest src n).2 ∧
    (copyHead m dest src n).1 ≤ n := by
  unfold copyHead
  have hp : (if 64 - dest % 64 < n then 64 - dest % 64 else n) ≤ n := by
    split_ifs <;> omega
  simp only
  generalize (if 64 - dest % 64 < n then 64 - dest % 64 else n) = p at hp
  by_cases ha : dest % 64 ≠ 0
  · rw [if_pos ha]
    obtain ⟨c1, l1, _⟩ := copyWhile_copied
      (fun i => decide (i < p) && decide ((dest + i) % 8 ≠ 0)) 1 dest src n m
      (by omega) hd (by intro i hi; simp at hi; omega) n 0 m (Copied.start m dest src)
      (by omega) (by omega)
    obtain ⟨c2, l2, _⟩ := copyWhile_copied (fun i => decide (i + 8 ≤ p)) 8 dest src n m
      (by omega) hd (by intro i hi; simp at hi; omega) n _ _ c1 l1 (by omega)
    obtain ⟨c3, l3, _⟩ := copyWhile_copied (fun i => decide (i < p)) 1 dest src n m
      (by omega) hd (by intro i hi; simp at hi; omega) n _ _ c2 l2 (by omega)
    exact ⟨c3, l3⟩
  · rw [if_neg ha]
    exact ⟨Copied.start m dest src, by omega⟩

/-- The function `memcpy_no_flush_nt` returns 0 and leaves the memory `Copied`. -/
theorem memcpy_no_flush_nt_copied (m : Memory) (dest ndest src n : Nat)
    (hd : NoOverlap dest src n) :
    (memcpy_no_flush_nt m dest ndest src n).1 = 0 ∧
    Copied m dest src n (memcpy_no_flush_nt m dest ndest src n).2 := by
  have tailLoop : ∀ (i : Nat) (mi : Memory), Copied m dest src i mi → i ≤ n →
      Copied m dest src n (copyWhile (fun i => decide (i < n)) 1 dest src n i mi).2 := by
    intro i mi h hi
    obtain ⟨hc, hle, hcond⟩ := copyWhile_copied (fun i => decide (i < n)) 1 dest src n m
      (by omega) hd (by intro i hi; simp at hi; omega) n i mi h hi (by omega)
    have he : (copyWhile (fun i => decide (i < n)) 1 dest src n i mi).1 = n := by
      simp at hcond; omega
    rw [he] at hc
    exact hc
  unfold memcpy_no_flush_nt
  by_cases hsmall : n < 32
  · rw [if_pos hsmall]
    exact ⟨rfl, tailLoop 0 m (Copied.start m dest src) (by omega)⟩
  · rw [if_neg hsmall]
    refine ⟨rfl, ?_⟩
    simp only
    obtain ⟨c0, l0⟩ := copyHead_copied m dest src n hd
    generalize copyHead m dest src n = head at c0 l0 ⊢
    have hmain : ∀ st : Nat × Memory,
        st = (if head.1 + 64 ≤ n then copyBlocks dest src ((n - head.1) / 64) head.1 head.2
          else head) → Copied m dest src st.1 st.2 ∧ st.1 ≤ n := by
      intro st hst
      by_cases hb : head.1 + 64 ≤ n
      · rw [if_pos hb] at hst
        rw [hst]
        exact copyBlocks_copied dest src n m hd _ _ _ c0 (by omega)
      · rw [if_neg hb] at hst
        rw [hst]
        exact ⟨c0, l0⟩
    obtain ⟨cm, lm⟩ := hmain _ rfl
    generalize (if head.1 + 64 ≤ n then copyBlocks dest src ((n - head.1) / 64) head.1 head.2
      else head) = st at cm lm ⊢
    obtain ⟨c32, l32⟩ := copyStep_copied dest src n 32 m hd st cm lm
    obtain ⟨c16, l16⟩ := copyStep_copied dest src n 16 m hd _ c32 l32
    obtain ⟨c8, l8⟩ := copyStep_copied dest src n 8 m hd _ c16 l16
    obtain ⟨c4, l4⟩ := copyStep_copied dest src n 4 m hd _ c8 l8
    exact tailLoop _ _ c4 l4

/-! ### Auxiliary lemmas: the logic file -/

/-- The address `getNvmAddrByPageId` returns for a page of a mounted segment. -/
theorem LogicFile.getNvmAddrByPageId_of_mounted (NVM_PAGE_SIZE : Nat) (f : LogicFile) (p : Nat)
    (hp : p < 4294967296) (hpps : 0 < f.m_pagesPerSegment)
    (hfit : f.m_pagesPerSegment * NVM_PAGE_SIZE ≤ 18446744073709551616)
    (hc : p / f.m_pagesPerSegment < f.segmentCount)
    (ha : f.m_segmentAddr (p / f.m_pagesPerSegment) ≠ 0) :
    f.getNvmAddrByPageId NVM_PAGE_SIZE p
      = some (f.m_segmentAddr (p / f.m_pagesPerSegment)
          + (p % f.m_pagesPerSegment) * NVM_PAGE_SIZE) := by
  have hm : p % f.m_pagesPerSegment < f.m_pagesPerSegment := Nat.mod_lt _ hpps
  have hle : p % f.m_pagesPerSegment ≤ p := Nat.mod_le _ _
  have hu1 : u64 (p % f.m_pagesPerSegment) = p % f.m_pagesPerSegment :=
    Nat.mod_eq_of_lt (by omega)
  have hu2 : u64 ((p % f.m_pagesPerSegment) * NVM_PAGE_SIZE)
      = (p % f.m_pagesPerSegment) * NVM_PAGE_SIZE := by
    apply Nat.mod_eq_of_lt
    rcases Nat.eq_zero_or_pos NVM_PAGE_SIZE with h0 | h0
    · rw [h0, Nat.mul_zero]; decide
    · have := Nat.mul_lt_mul_of_pos_right hm h0
      omega
  have hpps0 : f.m_pagesPerSegment ≠ 0 := by omega
  unfold LogicFile.getNvmAddrByPageId
  simp only [hpps0, if_false, hc, if_true, ha, ne_eq, not_false_eq_true, hu1, hu2]

/-! ### C13 -/

/-- C13. `LogicFile::getNvmAddrByPageId(p)` returns `base(p / pagesPerSegment) +
(p % pagesPerSegment) × NVM_PAGE_SIZE` whenever `p / pagesPerSegment < segmentCount` and
that segment's address is not null, and it fails (a fatal `CHECK`) exactly when the segment
is not mounted. The division is by a non-zero `pagesPerSegment` and a segment fits the
64-bit address space. -/
theorem getNvmAddrByPageId_translates (NVM_PAGE_SIZE : Nat) (f : LogicFile) (p : Nat)
    (hp : p < 4294967296) (hpps : 0 < f.m_pagesPerSegment)
    (hfit : f.m_pagesPerSegment * NVM_PAGE_SIZE ≤ 18446744073709551616) :
    (p / f.m_pagesPerSegment < f.segmentCount →
      f.m_segmentAddr (p / f.m_pagesPerSegment) ≠ 0 →
      f.getNvmAddrByPageId NVM_PAGE_SIZE p
        = some (f.m_segmentAddr (p / f.m_pagesPerSegment)
            + (p % f.m_pagesPerSegment) * NVM_PAGE_SIZE)) ∧
    (f.getNvmAddrByPageId NVM_PAGE_SIZE p = none ↔
      f.isMounted (p / f.m_pagesPerSegment) = false) := by
  constructor
  · intro hc ha
    exact LogicFile.getNvmAddrByPageId_of_mounted NVM_PAGE_SIZE f p hp hpps hfit hc ha
  · have hpps0 : f.m_pagesPerSegment ≠ 0 := by omega
    unfold LogicFile.getNvmAddrByPageId LogicFile.isMounted
    by_cases hc : p / f.m_pagesPerSegment < f.segmentCount
    · by_cases ha : f.m_segmentAddr (p / f.m_pagesPerSegment) = 0
      · simp [hpps0, hc, ha]
      · simp [hpps0, hc, ha]
    · simp [hpps0, hc]

/-- Witness of C13 on the example file: page 6 is page 2 of segment 1, mounted at 8192;
page 9 lies in segment 2, which is not mounted. -/
theorem getNvmAddrByPageId_translates_witness :
    exFile.getNvmAddrByPageId 64 6 = some (8192 + 2 * 64) ∧
    exFile.getNvmAddrByPageId 64 9 = none :=
  ⟨(getNvmAddrByPageId_translates 64 exFile 6 (by decide) (by decide) (by decide)).1
      (by decide) (by decide),
    (getNvmAddrByPageId_translates 64 exFile 9 (by decide) (by decide) (by decide)).2.mpr
      (by decide)⟩

/-! ### Auxiliary lemmas: reads and writes through virtual pointers -/

/-- C15. `memcpy_no_flush_nt(dest, ndest, src, n)` copies exactly `n` bytes: for every
`n ≤ ndest`, every alignment of `dest` and non-overlapping buffers it returns 0, afterwards
`dest[0..n) = src[0..n)`, no byte outside `dest[0..n)` is changed or stored to, and every
byte of `dest[0..n)` is stored to exactly once (the head, the 64-byte blocks, the
32/16/8/4-byte steps and the byte tail tile the range). -/
theorem memcpy_no_flush_nt_copies_exactly (m : Memory) (dest ndest src n : Nat)
    (_hn : n ≤ ndest) (hd : NoOverlap dest src n) :
    (memcpy_no_flush_nt m dest ndest src n).1 = 0 ∧
    (∀ j, j < n →
      (memcpy_no_flush_nt m dest ndest src n).2.bytes (dest + j) = m.bytes (src + j)) ∧
    (∀ a, ¬ (dest ≤ a ∧ a < dest + n) →
      (memcpy_no_flush_nt m dest ndest src n).2.bytes a = m.bytes a ∧
      (memcpy_no_flush_nt m dest ndest src n).2.stores a = m.stores a) ∧
    (∀ j, j < n →
      (memcpy_no_flush_nt m dest ndest src n).2.stores (dest + j) = m.stores (dest + j) + 1) := by
  obtain ⟨h0, h1, h2, h3⟩ := memcpy_no_flush_nt_copied m dest ndest src n hd
  refine ⟨h0, h1, ?_, ?_⟩
  · intro a ha
    refine ⟨h2 a ha, ?_⟩
    rw [h3 a, if_neg ha, Nat.add_zero]
  · intro j hj
    rw [h3 (dest + j), if_pos (by omega)]

/-- Witness of C15: 200 bytes copied from address 5000 to the unaligned address 1003 (a
head of 21 bytes, two 64-byte blocks, then steps of 32, 16 and a tail of 3 bytes). -/
theorem memcpy_no_flush_nt_copies_exactly_witness :
    (memcpy_no_flush_nt exMemory 1003 256 5000 200).1 = 0 ∧
    (∀ j, j < 200 →
      (memcpy_no_flush_nt exMemory 1003 256 5000 200).2.bytes (1003 + j)
        = exMemory.bytes (5000 + j)) ∧
    (∀ a, ¬ (1003 ≤ a ∧ a < 1003 + 200) →
      (memcpy_no_flush_nt exMemory 1003 256 5000 200).2.bytes a = exMemory.bytes a ∧
      (memcpy_no_flush_nt exMemory 1003 256 5000 200).2.stores a = exMemory.stores a) ∧
    (∀ j, j < 200 →
      (memcpy_no_flush_nt exMemory 1003 256 5000 200).2.stores (1003 + j)
        = exMemory.stores (1003 + j) + 1) :=
  memcpy_no_flush_nt_copies_exactly exMemory 1003 256 5000 200 (by decide)
    ⟨by decide, by decide⟩

/-! ### Auxiliary lemmas: the TxSlot ring -/

/-- The scan of `recycleTxSlot` ends between its start and `max_slot`, and it sets
`recycled` exactly when it advanced. -/
theorem UndoSegment.recycleScan_bounds (recyclable : Nat → Bool) (max_slot : Nat) :
    ∀ (fuel next_slot : Nat) (recycled : Bool), next_slot ≤ max_slot →
      next_slot ≤ (UndoSegment.recycleScan recyclable max_slot fuel next_slot recycled).1 ∧
      (UndoSegment.recycleScan recyclable max_slot fuel next_slot recycled).1 ≤ max_slot ∧
      ((UndoSegment.recycleScan recyclable max_slot fuel next_slot recycled).2 = true ↔
        (recycled = true ∨
          next_slot < (UndoSegment.recycleScan recyclable max_slot fuel next_slot recycled).1)) := by
  intro fuel
  induction fuel with
  | zero =>
    intro n r h
    simp [UndoSegment.recycleScan, h]
  | succ k ih =>
    intro n r h
    unfold UndoSegment.recycleScan
    by_cases hlt : n < max_slot
    · rw [if_pos hlt]
      by_cases hrec : recyclable n = true
      · simp only [hrec, Bool.not_true, Bool.false_eq_true, if_false]
        obtain ⟨h1, h2, h3⟩ := ih (n + 1) true (by omega)
        refine ⟨by omega, h2, ?_⟩
        rw [h3]
        constructor
        · intro _; right; omega
        · intro _; left; rfl
      · have hrec2 : recyclable n = false := by simpa using hrec
        simp [hrec2, h]
    · rw [if_neg hlt]
      simp [h]

/-- The scan advances exactly when the first slot is below `max_slot` and recyclable. -/
theorem UndoSegment.recycleScan_advances (recyclable : Nat → Bool) (max_slot : Nat)
    (fuel next_slot : Nat) (hf : 0 < fuel) :
    (UndoSegment.recycleScan recyclable max_slot fuel next_slot false).2 = true ↔
      (next_slot < max_slot ∧ recyclable next_slot = true) := by
  obtain ⟨k, rfl⟩ : ∃ k, fuel = k + 1 := ⟨fuel - 1, by omega⟩
  unfold UndoSegment.recycleScan
  by_cases hlt : next_slot < max_slot
  · rw [if_pos hlt]
    by_cases hrec : recyclable next_slot = true
    · simp only [hrec, Bool.not_true, Bool.false_eq_true, if_false, hlt, and_self, iff_true]
      exact ((UndoSegment.recycleScan_bounds recyclable max_slot k (next_slot + 1) true
        (by omega)).2.2).mpr (Or.inl rfl)
    · have hrec2 : recyclable next_slot = false := by simpa using hrec
      simp [hrec2]
  · rw [if_neg hlt]
    simp [hlt]

/-- The function `recycleUndoPages` changes no cursor and no slot. -/
theorem UndoSegment.recycleUndoPages_cursors (E : UndoEnv) (u u1 : UndoSegment)
    (file file1 : LogicFile) (b e : Nat)
    (h : u.recycleUndoPages E file b e = some (u1, file1)) :
    u1.m_nextRecycleSlot = u.m_nextRecycleSlot ∧ u1.m_minSlotId = u.m_minSlotId ∧
    u1.m_nextFreeSlot = u.m_nextFreeSlot ∧ u1.m_slots = u.m_slots ∧
    u1.UNDO_TX_SLOTS = u.UNDO_TX_SLOTS := by
  unfold UndoSegment.recycleUndoPages at h
  simp only at h
  revert h
  generalize UndoSegment.recycledEndLoop E u file.m_segmentSize (e + 1 - b) b (0, 0) = r
  generalize (if u32 (u.m_recycledBegin / file.m_segmentSize) = 0 then 1
    else u32 (u.m_recycledBegin / file.m_segmentSize)) = s
  intro h
  by_cases hlt : s < r.2
  · rw [if_pos hlt] at h
    cases hp : file.punch s r.2 with
    | none => rw [hp] at h; exact absurd h (by simp)
    | some f1 =>
      rw [hp] at h
      simp only [Option.some.injEq, Prod.mk.injEq] at h
      rw [← h.1]
      exact ⟨rfl, rfl, rfl, rfl, rfl⟩
  · rw [if_neg hlt] at h
    simp only [Option.some.injEq, Prod.mk.injEq] at h
    rw [← h.1]
    exact ⟨rfl, rfl, rfl, rfl, rfl⟩

/-! ### C16 -/

/-- C16. The cursors of the undo ring satisfy `nextRecycleSlot ≤ minSlotId ≤ nextFreeSlot`,
and `allocateTxSlot` and `recycleTxSlot` preserve this. After a call of `recycleTxSlot`
that recycled at least one slot (the slot at `nextRecycleSlot` is allocated and
recyclable), `nextRecycleSlot` has advanced and `minSlotId = nextRecycleSlot ≤
nextFreeSlot`; a call that recycled nothing returns with the segment and its file
unchanged. `isTxSlotRecyclable` is any predicate. -/
theorem recycle_and_allocate_keep_cursors_ordered (E : UndoEnv) (u : UndoSegment)
    (file : LogicFile) (minSnapshot : Nat) (hinv : u.CursorsOrdered) :
    u.allocateTxSlot.2.CursorsOrdered ∧
    (∀ u1 file1, u.recycleTxSlot E file minSnapshot = some (u1, file1) →
      u1.CursorsOrdered ∧ u1.m_nextFreeSlot = u.m_nextFreeSlot ∧
      ((u.m_nextRecycleSlot < u.m_nextFreeSlot ∧
          E.isTxSlotRecyclable u u.m_nextRecycleSlot minSnapshot = true) →
        u.m_nextRecycleSlot < u1.m_nextRecycleSlot ∧
        u1.m_minSlotId = u1.m_nextRecycleSlot ∧
        u1.m_nextRecycleSlot ≤ u1.m_nextFreeSlot)) ∧
    (¬ (u.m_nextRecycleSlot < u.m_nextFreeSlot ∧
          E.isTxSlotRecyclable u u.m_nextRecycleSlot minSnapshot = true) →
      u.recycleTxSlot E file minSnapshot = some (u, file)) := by
  obtain ⟨hi1, hi2⟩ := hinv
  have hle : u.m_nextRecycleSlot ≤ u.m_nextFreeSlot := le_trans hi1 hi2
  obtain ⟨hb1, hb2, hb3⟩ := UndoSegment.recycleScan_bounds
    (fun i => E.isTxSlotRecyclable u i minSnapshot) u.m_nextFreeSlot
    (u.m_nextFreeSlot - u.m_nextRecycleSlot) u.m_nextRecycleSlot false hle
  have hnone : ¬ (u.m_nextRecycleSlot < u.m_nextFreeSlot ∧
      E.isTxSlotRecyclable u u.m_nextRecycleSlot minSnapshot = true) →
      (UndoSegment.recycleScan (fun i => E.isTxSlotRecyclable u i minSnapshot) u.m_nextFreeSlot
        (u.m_nextFreeSlot - u.m_nextRecycleSlot) u.m_nextRecycleSlot false).2 = false := by
    intro hno
    by_cases hlt : u.m_nextRecycleSlot < u.m_nextFreeSlot
    · have := (UndoSegment.recycleScan_advances (fun i => E.isTxSlotRecyclable u i minSnapshot)
        u.m_nextFreeSlot (u.m_nextFreeSlot - u.m_nextRecycleSlot) u.m_nextRecycleSlot
        (by omega))
      cases hs : (UndoSegment.recycleScan (fun i => E.isTxSlotRecyclable u i minSnapshot)
        u.m_nextFreeSlot (u.m_nextFreeSlot - u.m_nextRecycleSlot) u.m_nextRecycleSlot false).2
      · rfl
      · exact absurd (this.mp hs) hno
    · have h0 : u.m_nextFreeSlot - u.m_nextRecycleSlot = 0 := by omega
      rw [h0]
      rfl
  refine ⟨?_, ?_, ?_⟩
  · unfold UndoSegment.CursorsOrdered UndoSegment.allocateTxSlot
    simp only
    omega
  · intro u1 file1 h
    unfold UndoSegment.recycleTxSlot at h
    simp only at h
    cases hs : (UndoSegment.recycleScan (fun i => E.isTxSlotRecyclable u i minSnapshot)
        u.m_nextFreeSlot (u.m_nextFreeSlot - u.m_nextRecycleSlot) u.m_nextRecycleSlot false).2
    · rw [hs] at h
      simp only [Bool.false_eq_true, if_false, Option.some.injEq, Prod.mk.injEq] at h
      rw [← h.1]
      refine ⟨⟨hi1, hi2⟩, rfl, ?_⟩
      intro hadv
      have := hnone
      by_contra _
      have h2 := (UndoSegment.recycleScan_advances
        (fun i => E.isTxSlotRecyclable u i minSnapshot) u.m_nextFreeSlot
        (u.m_nextFreeSlot - u.m_nextRecycleSlot) u.m_nextRecycleSlot (by omega)).mpr hadv
      rw [hs] at h2
      exact absurd h2 (by simp)
    · rw [hs] at h
      simp only [if_true] at h
      have hadv : u.m_nextRecycleSlot < (UndoSegment.recycleScan
          (fun i => E.isTxSlotRecyclable u i minSnapshot) u.m_nextFreeSlot
          (u.m_nextFreeSlot - u.m_nextRecycleSlot) u.m_nextRecycleSlot false).1 := by
        rcases hb3.mp hs with h0 | h0
        · exact absurd h0 (by simp)
        · exact h0
      revert h
      generalize (UndoSegment.recycleScan (fun i => E.isTxSlotRecyclable u i minSnapshot)
        u.m_nextFreeSlot (u.m_nextFreeSlot - u.m_nextRecycleSlot) u.m_nextRecycleSlot false).1
        = next_slot at hb1 hb2 hadv
      intro h
      cases hp : UndoSegment.recycleUndoPages E
          ({ (if next_slot + SLOT_OFFSET ≥ u.m_nextFreeSlot then
                ({ u with m_minSnapshot := minSnapshot } : UndoSegment) else u) with
             m_minSlotId := next_slot } : UndoSegment)
          file u.m_nextRecycleSlot (next_slot - 1) with
      | none =>
        rw [hp] at h
        exact absurd h (by simp)
      | some r =>
        obtain ⟨u3, f3⟩ := r
        rw [hp] at h
        simp only [Option.some.injEq, Prod.mk.injEq] at h
        obtain ⟨c1, c2, c3, c4, c5⟩ := UndoSegment.recycleUndoPages_cursors E _ u3 file f3 _ _ hp
        have hfree : u3.m_nextFreeSlot = u.m_nextFreeSlot := by
          rw [c3]; split_ifs <;> rfl
        have hmin : u3.m_minSlotId = next_slot := by rw [c2]
        rw [← h.1]
        refine ⟨⟨?_, ?_⟩, hfree, ?_⟩
        · show next_slot ≤ u3.m_minSlotId
          omega
        · show u3.m_minSlotId ≤ u3.m_nextFreeSlot
          omega
        · intro _
          refine ⟨hadv, ?_, ?_⟩
          · show u3.m_minSlotId = next_slot
            exact hmin
          · show next_slot ≤ u3.m_nextFreeSlot
            omega
  · intro hno
    unfold UndoSegment.recycleTxSlot
    simp only [hnone hno, Bool.false_eq_true, if_false]

/-- Witness of C16: on the example ring the reclaimer recycles slots 0, 1 and 2 and stops
at slot 3, which is in progress. -/
theorem recycle_and_allocate_keep_cursors_ordered_witness :
    ∃ u1 file1, exRing.recycleTxSlot exUndoEnv exFile 9223372036854775810 = some (u1, file1) ∧
      u1.m_nextRecycleSlot = 3 ∧ u1.m_minSlotId = 3 ∧ u1.m_nextFreeSlot = 4 ∧
      u1.CursorsOrdered := by
  cases hx : exRing.recycleTxSlot exUndoEnv exFile 9223372036854775810 with
  | none =>
    have : (exRing.recycleTxSlot exUndoEnv exFile 9223372036854775810).isSome = true := by
      decide
    rw [hx] at this
    exact absurd this (by simp)
  | some r =>
    obtain ⟨u1, file1⟩ := r
    have h := (recycle_and_allocate_keep_cursors_ordered exUndoEnv exRing exFile
      9223372036854775810 ⟨by decide, by decide⟩).2.1 u1 file1 hx
    have h1 : (exRing.recycleTxSlot exUndoEnv exFile 9223372036854775810).map
        (fun r => (r.1.m_nextRecycleSlot, r.1.m_nextFreeSlot)) = some (3, 4) := by decide
    rw [hx] at h1
    simp only [Option.map_some', Option.some.injEq, Prod.mk.injEq] at h1
    have h2 := h.2.2 ⟨by decide, by decide⟩
    exact ⟨u1, file1, rfl, h1.1, by rw [h2.2.1]; exact h1.1, h1.2, h.1⟩

/-! ### C17 -/

/-- C17 (what the code does). On a segment with at least one allocated TxSlot and
`recoveryStart = 0`, `getMaxCSNForRollback` sets `recoveryStart` to the first candidate
plus one, and `backgroundRecovery` walks `[recoveryStart, recoveryEnd]`: with a single
allocated slot it visits no slot at all, with two or more it visits the last allocated slot
only. The first of the two candidates is never handed to `UndoRecordRollBack` and keeps its
status, `IN_PROGRESS` included. The call ends with `recoveryStart = 0`. -/
theorem backgroundRecovery_skips_first_candidate (E : UndoEnv) (u : UndoSegment)
    (hne : E.isEmpty u = false) (_hn : 1 ≤ u.m_nextFreeSlot) (hrs : u.m_recoveryStart = 0) :
    ((u.getMaxCSNForRollback E).2.backgroundRecovery).1.m_recoveryStart = 0 ∧
    (u.m_nextFreeSlot = 1 →
      ((u.getMaxCSNForRollback E).2.backgroundRecovery).2 = [] ∧
      ((u.getMaxCSNForRollback E).2.backgroundRecovery).1.m_slots = u.m_slots) ∧
    (2 ≤ u.m_nextFreeSlot →
      ((u.getMaxCSNForRollback E).2.backgroundRecovery).2
        = (if (u.getTxSlot (u.m_nextFreeSlot - 1)).status = TxSlotStatus.IN_PROGRESS
            then [u.m_nextFreeSlot - 1] else []) ∧
      ∀ p, p ≠ (u.m_nextFreeSlot - 1) % u.UNDO_TX_SLOTS →
        ((u.getMaxCSNForRollback E).2.backgroundRecovery).1.m_slots p = u.m_slots p) := by
  refine ⟨rfl, ?_, ?_⟩
  · intro h1
    unfold UndoSegment.getMaxCSNForRollback UndoSegment.backgroundRecovery
    simp only [hne, Bool.false_eq_true, if_false, hrs, h1, if_true]
    exact ⟨rfl, rfl⟩
  · intro h2
    have hpos : u.m_nextFreeSlot - 1 > 0 := by omega
    have hcount : u.m_nextFreeSlot - 1 + 1 - (u.m_nextFreeSlot - 1) = 1 := by omega
    have hstart : u.m_nextFreeSlot - 1 - 1 + 1 = u.m_nextFreeSlot - 1 := by omega
    unfold UndoSegment.getMaxCSNForRollback UndoSegment.backgroundRecovery
    simp only [hne, Bool.false_eq_true, if_false, hrs, if_true, hpos, hstart, hcount]
    simp only [UndoSegment.recoveryLoop, UndoSegment.getTxSlot]
    by_cases hs : (u.m_slots ((u.m_nextFreeSlot - 1) % u.UNDO_TX_SLOTS)).status
        = TxSlotStatus.IN_PROGRESS
    · simp only [hs, if_true, List.nil_append, true_and]
      intro p hp
      exact Function.update_noteq hp _ _
    · simp only [hs, if_false, true_and]
      intro p _
      trivial

/-- Witness of C17: the crashed segment with a single slot in progress, and the crashed
segment whose last two slots are in progress. Recovery leaves slot 0 of the first and slot 2
of the second `IN_PROGRESS`. -/
theorem backgroundRecovery_skips_first_candidate_witness :
    ((exCrashed.getMaxCSNForRollback exUndoEnv).2.backgroundRecovery).2 = [] ∧
    (((exCrashed.getMaxCSNForRollback exUndoEnv).2.backgroundRecovery).1.getTxSlot 0).status
      = TxSlotStatus.IN_PROGRESS ∧
    ((exCrashedTwo.getMaxCSNForRollback exUndoEnv).2.backgroundRecovery).2 = [3] ∧
    (((exCrashedTwo.getMaxCSNForRollback exUndoEnv).2.backgroundRecovery).1.getTxSlot 2).status
      = TxSlotStatus.IN_PROGRESS ∧
    ((exCrashedTwo.getMaxCSNForRollback exUndoEnv).2.backgroundRecovery).1.m_recoveryStart = 0 :=
  have h1 := backgroundRecovery_skips_first_candidate exUndoEnv exCrashed (by decide)
    (by decide) (by decide)
  have h2 := backgroundRecovery_skips_first_candidate exUndoEnv exCrashedTwo (by decide)
    (by decide) (by decide)
  ⟨(h1.2.1 (by decide)).1,
    by rw [UndoSegment.getTxSlot, (h1.2.1 (by decide)).2]; decide,
    (h2.2.2 (by decide)).1,
    by rw [UndoSegment.getTxSlot, (h2.2.2 (by decide)).2 _ (by decide)]; decide,
    h2.1⟩

/-! ### C18 -/

/-- The value `getMaxCSNForRollback` returns. -/
theorem UndoSegment.getMaxCSNForRollback_fst (E : UndoEnv) (u : UndoSegment)
    (hn : E.isEmpty u = false → 1 ≤ u.m_nextFreeSlot) :
    (u.getMaxCSNForRollback E).1 = u.rollbackCSN E := by
  unfold UndoSegment.getMaxCSNForRollback UndoSegment.rollbackCSN
  by_cases he : E.isEmpty u = true
  · simp only [he, if_true]
  · have he2 : E.isEmpty u = false := by simpa using he
    have h1 := hn he2
    simp only [he2, Bool.false_eq_true, if_false]
    unfold UndoSegment.lastCommittedCSN
    by_cases h2 : 2 ≤ u.m_nextFreeSlot
    · have hpos : u.m_nextFreeSlot - 1 > 0 := by omega
      have hcount : u.m_nextFreeSlot - 1 + 1 - (u.m_nextFreeSlot - 2) = 2 := by omega
      have e1 : u.m_nextFreeSlot - 1 - 1 = u.m_nextFreeSlot - 2 := by omega
      have e2 : u.m_nextFreeSlot - 2 + 1 = u.m_nextFreeSlot - 1 := by omega
      simp only [hpos, if_true, e1]
      simp only [hcount, UndoSegment.maxCommittedCSN, e2, h2, true_and]
      by_cases c1 : (u.getTxSlot (u.m_nextFreeSlot - 2)).status = TxSlotStatus.COMMITTED <;>
        by_cases c2 : (u.getTxSlot (u.m_nextFreeSlot - 1)).status = TxSlotStatus.COMMITTED <;>
        simp [c1, c2]
    · have h0 : u.m_nextFreeSlot - 1 = 0 := by omega
      have hn2 : ¬ 2 ≤ u.m_nextFreeSlot := h2
      simp only [h0, gt_iff_lt, lt_self_iff_false, if_false, Nat.zero_add, Nat.sub_zero,
        UndoSegment.maxCommittedCSN, hn2, false_and]
      by_cases c2 : (u.getTxSlot 0).status = TxSlotStatus.COMMITTED <;> simp [c2]

/-- The value the loop of `CheckRecoverUndoWatermark` returns when every entry of
`g_undoSegmentAllocated` is 2. -/
theorem CheckRecoverUndoWatermarkLoop_fst (E : UndoEnv) :
    ∀ (segments : List UndoSegment) (acc : Nat),
      (∀ seg ∈ segments, E.isEmpty seg = false → 1 ≤ seg.m_nextFreeSlot) →
      (CheckRecoverUndoWatermarkLoop E (segments.map (fun seg => (seg, 2))) acc).1
        = (segments.map (fun seg => seg.rollbackCSN E)).foldl max acc := by
  intro segments
  induction segments with
  | nil => intro acc _; rfl
  | cons seg rest ih =>
    intro acc h
    simp only [List.map_cons, CheckRecoverUndoWatermarkLoop, ne_eq, not_true_eq_false,
      if_false, List.foldl_cons]
    rw [ih _ (fun s hs => h s (List.mem_cons_of_mem _ hs)),
      UndoSegment.getMaxCSNForRollback_fst E seg (h seg (List.mem_cons_self _ _))]

/-- A running maximum is at least its start and every element. -/
theorem foldl_max_bounds : ∀ (l : List Nat) (acc : Nat),
    acc ≤ l.foldl max acc ∧ ∀ x ∈ l, x ≤ l.foldl max acc := by
  intro l
  induction l with
  | nil => intro acc; exact ⟨le_refl _, fun x hx => absurd hx (List.not_mem_nil x)⟩
  | cons a rest ih =>
    intro acc
    obtain ⟨h1, h2⟩ := ih (max acc a)
    simp only [List.foldl_cons]
    refine ⟨le_trans (le_max_left _ _) h1, ?_⟩
    intro x hx
    rcases List.mem_cons.mp hx with rfl | hx
    · exact le_trans (le_max_right _ _) h1
    · exact h2 x hx

/-- C18 (amended). On BootStrap (`UndoSegmentMount`) the CSN handed to `setRecoveredCSN` is
the value of `CheckRecoverUndoWatermark()`: the maximum of `MIN_TX_CSN` and, over all undo
segments, of `getMaxCSNForRollback()`, which is the largest `csn` of a `COMMITTED` slot
among the last two allocated slots of a segment that is not empty (0 if there is none) and
the persisted `m_minSnapshot` of an empty segment. The watermark is not consulted. The
value is at least `MIN_TX_CSN` and at least (not strictly above) every CSN committed in one
of the last two slots of a segment that is not empty. -/
theorem UndoSegmentMount_recovered_csn (E : UndoEnv) (MIN_TX_CSN : Nat)
    (segments : List UndoSegment)
    (hn : ∀ seg ∈ segments, E.isEmpty seg = false → 1 ≤ seg.m_nextFreeSlot) :
    (UndoSegmentMount E MIN_TX_CSN segments).1
      = (segments.map (fun seg => seg.rollbackCSN E)).foldl max MIN_TX_CSN ∧
    MIN_TX_CSN ≤ (UndoSegmentMount E MIN_TX_CSN segments).1 ∧
    (∀ seg ∈ segments, E.isEmpty seg = false →
      ∀ i, (i + 1 = seg.m_nextFreeSlot ∨ i + 2 = seg.m_nextFreeSlot) →
        (seg.getTxSlot i).status = TxSlotStatus.COMMITTED →
        (seg.getTxSlot i).csn ≤ (UndoSegmentMount E MIN_TX_CSN segments).1) := by
  have hval : (UndoSegmentMount E MIN_TX_CSN segments).1
      = (segments.map (fun seg => seg.rollbackCSN E)).foldl max MIN_TX_CSN := by
    unfold UndoSegmentMount CheckRecoverUndoWatermark
    exact CheckRecoverUndoWatermarkLoop_fst E segments MIN_TX_CSN hn
  obtain ⟨hb1, hb2⟩ := foldl_max_bounds (segments.map (fun seg => seg.rollbackCSN E)) MIN_TX_CSN
  refine ⟨hval, by rw [hval]; exact hb1, ?_⟩
  intro seg hs he i hi hc
  rw [hval]
  refine le_trans ?_ (hb2 (seg.rollbackCSN E) (List.mem_map_of_mem _ hs))
  unfold UndoSegment.rollbackCSN UndoSegment.lastCommittedCSN
  simp only [he, Bool.false_eq_true, if_false]
  rcases hi with hi | hi
  · have e : seg.m_nextFreeSlot - 1 = i := by omega
    rw [e, if_pos hc]
    exact le_max_right _ _
  · have e : seg.m_nextFreeSlot - 2 = i := by omega
    have h2 : 2 ≤ seg.m_nextFreeSlot := by omega
    rw [e, if_pos ⟨h2, hc⟩]
    exact le_max_left _ _

/-- Witness of C18: two segments, the example ring (last two slots rolled back and in
progress) and a segment whose only slot committed at `2^63 + 5`. -/
theorem UndoSegmentMount_recovered_csn_witness :
    (UndoSegmentMount exUndoEnv 9223372036854775808 [exRing, exCommitted]).1
      = 9223372036854775813 ∧
    9223372036854775808 ≤ (UndoSegmentMount exUndoEnv 9223372036854775808
      [exRing, exCommitted]).1 :=
  have h := UndoSegmentMount_recovered_csn exUndoEnv 9223372036854775808 [exRing, exCommitted]
    (by
      intro seg hs _
      simp only [List.mem_cons, List.mem_singleton, List.not_mem_nil, or_false] at hs
      rcases hs with rfl | rfl <;> decide)
  ⟨h.1.trans (by decide), h.2.1⟩

/-- Counterexample to C18 as stated: one undo segment whose only slot committed at
`K = 2^63 + 5`, and a watermark file whose counter is 0, so that the watermark-bumped base
CSN of the run is `2^63 + 2^32`. The CSN handed to `setRecoveredCSN` is `2^63 + 5`: it is
not `max(MIN_TX_CSN, base, K) = 2^63 + 2^32`, and it is not strictly greater than `K`. -/
theorem UndoSegmentMount_ignores_watermark :
    (exCommitted.getTxSlot 0).status = TxSlotStatus.COMMITTED ∧
    (exCommitted.getTxSlot 0).csn = 9223372036854775813 ∧
    (GetAndIncreaseWatermark 512 9223372036854775808 (fun _ _ => 4096) (fun _ => 0)).map
        (fun r => r.1) = some (9223372036854775808 + 4294967296) ∧
    (UndoSegmentMount exUndoEnv 9223372036854775808 [exCommitted]).1 = 9223372036854775813 ∧
    (UndoSegmentMount exUndoEnv 9223372036854775808 [exCommitted]).1
      ≠ max 9223372036854775808 (max (9223372036854775808 + 4294967296) 9223372036854775813) ∧
    ¬ (exCommitted.getTxSlot 0).csn
        < (UndoSegmentMount exUndoEnv 9223372036854775808 [exCommitted]).1 := by
  decide

/-! ### C19 -/

/-- A call of `mMapFile` leaves the number of pages per segment as it is. -/
theorem LogicFile.mMapFile_pagesPerSegment (f f1 : LogicFile) (id : Nat) (init ok : Bool)
    (h : f.mMapFile id init = some (ok, f1)) : f1.m_pagesPerSegment = f.m_pagesPerSegment := by
  unfold LogicFile.mMapFile at h
  by_cases hm : f.isMounted id = true
  · rw [if_pos hm] at h
    simp only [Option.some.injEq, Prod.mk.injEq] at h
    rw [← h.2]
  · rw [if_neg hm] at h
    simp only at h
    by_cases ha : f.pmem_map_file id init = 0
    · rw [if_pos ha] at h
      cases init with
      | true => simp at h
      | false =>
        simp only [Bool.false_eq_true, if_false, Option.some.injEq, Prod.mk.injEq] at h
        rw [← h.2]
    · rw [if_neg ha] at h
      simp only [Option.some.injEq, Prod.mk.injEq] at h
      rw [← h.2]
      by_cases hc : f.segmentCount ≤ id
      · simp [hc]
      · simp [hc]

/-- The loop of `mount` leaves the number of pages per segment as it is. -/
theorem LogicFile.mountLoop_pagesPerSegment : ∀ (count i : Nat) (f f1 : LogicFile),
    LogicFile.mountLoop count i f = some f1 → f1.m_pagesPerSegment = f.m_pagesPerSegment
  | 0, _, f, f1, h => by
    simp only [LogicFile.mountLoop, Option.some.injEq] at h
    rw [← h]
  | count + 1, i, f, f1, h => by
    simp only [LogicFile.mountLoop] at h
    cases hm : f.mMapFile i false with
    | none => simp [hm] at h
    | some x =>
      obtain ⟨ok, f2⟩ := x
      simp only [hm] at h
      have h2 := LogicFile.mMapFile_pagesPerSegment f f2 i false ok hm
      cases ok with
      | true =>
        simp only [if_true] at h
        rw [LogicFile.mountLoop_pagesPerSegment count (i + 1) f2 f1 h, h2]
      | false =>
        simp only [Bool.false_eq_true, if_false, Option.some.injEq] at h
        rw [← h, h2]

/-- C19. `GetAndIncreaseWatermark` builds its file with one segment of 1024 bytes. Where a
page is larger than that, as are the 8192-byte pages of the build, the constructor sets
`m_pagesPerSegment = 1024 / NVM_PAGE_SIZE = 0`, `getNvmAddrByPageId` divides by that number,
and the call ends there (`none`): the counter is not read, nothing is incremented and no
base CSN is returned. -/
theorem GetAndIncreaseWatermark_divides_by_zero (NVM_PAGE_SIZE MIN_TX_CSN : Nat)
    (pmem_map_file : Nat → Bool → Nat) (pm : Nat → Nat) (hpage : 1024 < NVM_PAGE_SIZE) :
    (∀ file, LogicFile.create NVM_PAGE_SIZE pmem_map_file 1024 1 = some file →
      file.m_pagesPerSegment = 0) ∧
    (∀ file : LogicFile, file.m_pagesPerSegment = 0 →
      ∀ pageId, file.getNvmAddrByPageId NVM_PAGE_SIZE pageId = none) ∧
    GetAndIncreaseWatermark NVM_PAGE_SIZE MIN_TX_CSN pmem_map_file pm = none := by
  have hdiv : 1024 / NVM_PAGE_SIZE = 0 := Nat.div_eq_of_lt hpage
  have hcreate : ∀ file, LogicFile.create NVM_PAGE_SIZE pmem_map_file 1024 1 = some file →
      file.m_pagesPerSegment = 0 := by
    intro file h
    unfold LogicFile.create at h
    simp only at h
    cases hm : LogicFile.mMapFile
        { m_segmentSize := 1024, m_pagesPerSegment := 1024 / NVM_PAGE_SIZE
          segmentCount := 0, m_segmentAddr := fun _ => 0
          segmentCapacity := 1, pmem_map_file := pmem_map_file } 0 true with
    | none => simp [hm] at h
    | some x =>
      obtain ⟨ok, f1⟩ := x
      simp only [hm] at h
      have h2 := LogicFile.mMapFile_pagesPerSegment _ f1 0 true ok hm
      cases ok with
      | true =>
        simp only [if_true, Option.some.injEq] at h
        rw [← h, h2]
        exact hdiv
      | false => simp at h
  have haddr : ∀ file : LogicFile, file.m_pagesPerSegment = 0 →
      ∀ pageId, file.getNvmAddrByPageId NVM_PAGE_SIZE pageId = none := by
    intro file h0 pageId
    simp [LogicFile.getNvmAddrByPageId, h0]
  refine ⟨hcreate, haddr, ?_⟩
  unfold GetAndIncreaseWatermark
  cases hc : LogicFile.create NVM_PAGE_SIZE pmem_map_file 1024 1 with
  | none => rfl
  | some file =>
    simp only
    cases hm : file.mount with
    | none => rfl
    | some file1 =>
      simp only
      have h1 : file1.m_pagesPerSegment = 0 := by
        unfold LogicFile.mount at hm
        split_ifs at hm
        rw [LogicFile.mountLoop_pagesPerSegment _ _ _ _ hm]
        exact hcreate file hc
      rw [haddr file1 h1 0]

/-- Witness of C19: pages of 8192 bytes; the constructor succeeds, with no page in the
segment, and the call does not return. -/
theorem GetAndIncreaseWatermark_divides_by_zero_witness :
    LogicFile.create 8192 (fun _ _ => 4096) 1024 1 ≠ none ∧
    GetAndIncreaseWatermark 8192 9223372036854775808 (fun _ _ => 4096) (fun _ => 0) = none :=
  ⟨by simp [LogicFile.create, LogicFile.mMapFile, LogicFile.isMounted],
   (GetAndIncreaseWatermark_divides_by_zero 8192 9223372036854775808 (fun _ _ => 4096)
    (fun _ => 0) (by decide)).2.2⟩

/-- What the function computes in a build whose pages fit the segment (a page size of at
most 1024 bytes, segment 0 mapped): it increments the persistent 64-bit counter by one and
returns `MIN_TX_CSN + (newCounter << 32)` computed in 64-bit arithmetic, with
`MIN_TX_CSN = 1 << 63`. As long as `newCounter < 2^31` the sum does not wrap: the returned
CSN is `2^63 + newCounter × 2^32`, its most significant bit is set and it is strictly
greater than the base CSN of the previous run, `2^63 + oldCounter × 2^32`. -/
theorem GetAndIncreaseWatermark_base_csn (NVM_PAGE_SIZE MIN_TX_CSN : Nat)
    (pmem_map_file : Nat → Bool → Nat) (pm : Nat → Nat)
    (hmin : MIN_TX_CSN = 9223372036854775808)
    (hpage : 0 < NVM_PAGE_SIZE) (hpage2 : NVM_PAGE_SIZE ≤ 1024)
    (hmap : pmem_map_file 0 true ≠ 0)
    (hword : pm (pmem_map_file 0 true) < 18446744073709551616) :
    ∃ csn pm1,
      GetAndIncreaseWatermark NVM_PAGE_SIZE MIN_TX_CSN pmem_map_file pm = some (csn, pm1) ∧
      pm1 (pmem_map_file 0 true) = u64 (pm (pmem_map_file 0 true) + 1) ∧
      (∀ a, a ≠ pmem_map_file 0 true → pm1 a = pm a) ∧
      csn = u64 (MIN_TX_CSN + u64 (pm1 (pmem_map_file 0 true) * 4294967296)) ∧
      (pm (pmem_map_file 0 true) + 1 < 2147483648 →
        csn = 9223372036854775808 + (pm (pmem_map_file 0 true) + 1) * 4294967296 ∧
        TxInfoIsCSN csn = true ∧
        9223372036854775808 + pm (pmem_map_file 0 true) * 4294967296 < csn) := by
  have hpps : 0 < 1024 / NVM_PAGE_SIZE := Nat.div_pos hpage2 hpage
  have hpps0 : 1024 / NVM_PAGE_SIZE ≠ 0 := by omega
  have hcreate : LogicFile.create NVM_PAGE_SIZE pmem_map_file 1024 1 = some
      { m_segmentSize := 1024, m_pagesPerSegment := 1024 / NVM_PAGE_SIZE, segmentCount := 1
        m_segmentAddr := Function.update (fun i => if 0 ≤ i then 0 else 0) 0
          (pmem_map_file 0 true)
        segmentCapacity := 1, pmem_map_file := pmem_map_file } := by
    simp [LogicFile.create, LogicFile.mMapFile, LogicFile.isMounted, hmap]
  refine ⟨_, Function.update pm (pmem_map_file 0 true) (u64 (pm (pmem_map_file 0 true) + 1)),
    ?_, ?_, ?_, rfl, ?_⟩
  · have hmount : LogicFile.mount
        { m_segmentSize := 1024, m_pagesPerSegment := 1024 / NVM_PAGE_SIZE, segmentCount := 1
          m_segmentAddr := Function.update (fun i => if 0 ≤ i then 0 else 0) 0
            (pmem_map_file 0 true)
          segmentCapacity := 1, pmem_map_file := pmem_map_file } = some
        { m_segmentSize := 1024, m_pagesPerSegment := 1024 / NVM_PAGE_SIZE, segmentCount := 1
          m_segmentAddr := Function.update (fun i => if 0 ≤ i then 0 else 0) 0
            (pmem_map_file 0 true)
          segmentCapacity := 1, pmem_map_file := pmem_map_file } := by
      simp only [LogicFile.mount, Function.update_same, hmap, if_false, Nat.sub_self,
        LogicFile.mountLoop]
    have haddr : LogicFile.getNvmAddrByPageId NVM_PAGE_SIZE
        { m_segmentSize := 1024, m_pagesPerSegment := 1024 / NVM_PAGE_SIZE, segmentCount := 1
          m_segmentAddr := Function.update (fun i => if 0 ≤ i then 0 else 0) 0
            (pmem_map_file 0 true)
          segmentCapacity := 1, pmem_map_file := pmem_map_file } 0
        = some (pmem_map_file 0 true) := by
      have hz : 0 / (1024 / NVM_PAGE_SIZE) = 0 := Nat.zero_div _
      unfold LogicFile.getNvmAddrByPageId
      simp only [hpps0, if_false, Function.update_apply, hz, Nat.zero_mod, if_true]
      simp [u64, hmap]
    unfold GetAndIncreaseWatermark
    rw [hcreate]
    simp only [hmount, haddr, Function.update_same]
  · simp
  · intro a ha
    exact Function.update_noteq ha _ _
  · intro hsmall
    simp only [Function.update_same]
    have h1 : u64 (pm (pmem_map_file 0 true) + 1) = pm (pmem_map_file 0 true) + 1 :=
      Nat.mod_eq_of_lt (by omega)
    have h2 : u64 ((pm (pmem_map_file 0 true) + 1) * 4294967296)
        = (pm (pmem_map_file 0 true) + 1) * 4294967296 := Nat.mod_eq_of_lt (by omega)
    have h3 : u64 (MIN_TX_CSN + (pm (pmem_map_file 0 true) + 1) * 4294967296)
        = 9223372036854775808 + (pm (pmem_map_file 0 true) + 1) * 4294967296 := by
      rw [hmin]; exact Nat.mod_eq_of_lt (by omega)
    rw [h1, h2, h3]
    refine ⟨rfl, ?_, by omega⟩
    unfold TxInfoIsCSN
    simp

/-- The first run on a fresh watermark file with pages of 512 bytes. -/
theorem GetAndIncreaseWatermark_base_csn_witness :
    ∃ csn pm1,
      GetAndIncreaseWatermark 512 9223372036854775808 (fun _ _ => 4096) (fun _ => 0)
        = some (csn, pm1) ∧
      pm1 4096 = 1 ∧ csn = 9223372036854775808 + 4294967296 ∧ TxInfoIsCSN csn = true :=
  (GetAndIncreaseWatermark_base_csn 512 9223372036854775808 (fun _ _ => 4096) (fun _ => 0)
    rfl (by decide) (by decide) (by decide) (by decide)).elim
    (fun csn h => h.elim (fun pm1 h =>
      ⟨csn, pm1, h.1, h.2.1, (h.2.2.2.2 (by decide)).1, (h.2.2.2.2 (by decide)).2.1⟩))

/-- With pages of 512 bytes, the run that finds the counter at `2^31 - 1`. The new counter
is `2^31`, the shift gives `2^63` and the 64-bit sum with `MIN_TX_CSN = 2^63` wraps to 0:
the most significant bit of the returned CSN is clear and the CSN is below the base CSN of
the previous run. -/
theorem GetAndIncreaseWatermark_wraps :
    (GetAndIncreaseWatermark 512 9223372036854775808 (fun _ _ => 4096)
        (fun _ => 2147483647)).map (fun r => (r.1, r.2 4096, TxInfoIsCSN r.1))
      = some (0, 2147483648, false) ∧
    (GetAndIncreaseWatermark 512 9223372036854775808 (fun _ _ => 4096)
        (fun _ => 2147483646)).map (fun r => (r.1, r.2 4096))
      = some (9223372036854775808 + 2147483647 * 4294967296, 2147483647) := by
  decide

/-! ### Auxiliary lemmas: the serializer -/

/-- An `or` with a value below the shift is a sum. -/
theorem shiftLeft_or_eq_add (b k rest : Nat) (h : rest < 2 ^ k) :
    (b <<< k) ||| rest = b * 2 ^ k + rest := by
  rw [Nat.shiftLeft_eq, Nat.mul_comm, ← Nat.mul_add_lt_is_or h]

/-- The byte `(value >> k) & 0xFF`. -/
theorem shiftRight_and_255 (v k : Nat) : (v >>> k) &&& 0xFF = v / 2 ^ k % 256 := by
  rw [Nat.shiftRight_eq_div_pow]
  exact Nat.and_pow_two_sub_one_eq_mod _ 8

/-- The byte `value & 0xFF`. -/
theorem and_255 (v : Nat) : v &&& 0xFF = v % 256 := Nat.and_pow_two_sub_one_eq_mod _ 8

/-- A stored byte is read back as it is. -/
theorem u8_u8 (n : Nat) : u8 (u8 n) = u8 n := by
  unfold u8; omega

/-- The bytes `write_uint16` leaves at its position. -/
theorem BinaryWriter.write_uint16_bytes (w : BinaryWriter) (v : Nat) :
    (w.write_uint16 v).buffer (w.position + 0) = v / 256 % 256 ∧
    (w.write_uint16 v).buffer (w.position + 1) = v % 256 := by
  refine ⟨?_, ?_⟩ <;>
    simp [BinaryWriter.write_uint16, BinaryWriter.put, Function.update_apply, u8,
      Nat.shiftRight_eq_div_pow, and_255]

/-- The bytes `write_uint32` leaves at its position. -/
theorem BinaryWriter.write_uint32_bytes (w : BinaryWriter) (v : Nat) :
    (w.write_uint32 v).buffer (w.position + 0) = v / 16777216 % 256 ∧
    (w.write_uint32 v).buffer (w.position + 1) = v / 65536 % 256 ∧
    (w.write_uint32 v).buffer (w.position + 2) = v / 256 % 256 ∧
    (w.write_uint32 v).buffer (w.position + 3) = v % 256 := by
  refine ⟨?_, ?_, ?_, ?_⟩
  all_goals
    simp [BinaryWriter.write_uint32, BinaryWriter.put, Function.update_apply, u8,
      Nat.shiftRight_eq_div_pow, and_255]
  all_goals split_ifs
  all_goals omega

/-- The bytes `write_uint64` leaves at its position. -/
theorem BinaryWriter.write_uint64_bytes (w : BinaryWriter) (v : Nat) :
    (w.write_uint64 v).buffer (w.position + 0) = v / 72057594037927936 % 256 ∧
    (w.write_uint64 v).buffer (w.position + 1) = v / 281474976710656 % 256 ∧
    (w.write_uint64 v).buffer (w.position + 2) = v / 1099511627776 % 256 ∧
    (w.write_uint64 v).buffer (w.position + 3) = v / 4294967296 % 256 ∧
    (w.write_uint64 v).buffer (w.position + 4) = v / 16777216 % 256 ∧
    (w.write_uint64 v).buffer (w.position + 5) = v / 65536 % 256 ∧
    (w.write_uint64 v).buffer (w.position + 6) = v / 256 % 256 ∧
    (w.write_uint64 v).buffer (w.position + 7) = v % 256 := by
  refine ⟨?_, ?_, ?_, ?_, ?_, ?_, ?_, ?_⟩
  all_goals
    simp [BinaryWriter.write_uint64, BinaryWriter.put, Function.update_apply, u8,
      Nat.shiftRight_eq_div_pow, and_255]
  all_goals split_ifs
  all_goals omega

/-- A byte read is below 256. -/
theorem BinaryReader.byteAt_lt (r : BinaryReader) (i : Nat) : r.byteAt i < 256 := by
  unfold BinaryReader.byteAt u8; omega

/-- The value `read_uint16` assembles from the bytes at its position. -/
theorem BinaryReader.read_uint16_val (r : BinaryReader) :
    r.read_uint16 = (r.byteAt 0 * 256 + r.byteAt 1, { r with position := r.position + 2 }) := by
  have h0 := r.byteAt_lt 0
  have h1 := r.byteAt_lt 1
  unfold BinaryReader.read_uint16
  simp only
  have e0 : u16 (r.byteAt 0 <<< 8) = r.byteAt 0 <<< 8 := by
    rw [Nat.shiftLeft_eq]; unfold u16; omega
  rw [e0, shiftLeft_or_eq_add _ 8 _ (by omega)]
  norm_num

/-- The value `read_uint32` assembles from the bytes at its position. -/
theorem BinaryReader.read_uint32_val (r : BinaryReader) :
    r.read_uint32 = (r.byteAt 0 * 16777216 + (r.byteAt 1 * 65536 + (r.byteAt 2 * 256
      + r.byteAt 3)), { r with position := r.position + 4 }) := by
  have h0 := r.byteAt_lt 0
  have h1 := r.byteAt_lt 1
  have h2 := r.byteAt_lt 2
  have h3 := r.byteAt_lt 3
  unfold BinaryReader.read_uint32
  simp only
  have e0 : u32 (r.byteAt 0 <<< 24) = r.byteAt 0 <<< 24 := by
    rw [Nat.shiftLeft_eq]; unfold u32; omega
  have e1 : u32 (r.byteAt 1 <<< 16) = r.byteAt 1 <<< 16 := by
    rw [Nat.shiftLeft_eq]; unfold u32; omega
  have e2 : u32 (r.byteAt 2 <<< 8) = r.byteAt 2 <<< 8 := by
    rw [Nat.shiftLeft_eq]; unfold u32; omega
  rw [e0, e1, e2, Nat.or_assoc, Nat.or_assoc,
    shiftLeft_or_eq_add _ 8 _ (by omega),
    shiftLeft_or_eq_add _ 16 _ (by omega),
    shiftLeft_or_eq_add _ 24 _ (by omega)]
  norm_num

/-- The value `read_uint64` assembles from the bytes at its position. -/
theorem BinaryReader.read_uint64_val (r : BinaryReader) :
    r.read_uint64 = (r.byteAt 0 * 72057594037927936 + (r.byteAt 1 * 281474976710656
      + (r.byteAt 2 * 1099511627776 + (r.byteAt 3 * 4294967296 + (r.byteAt 4 * 16777216
      + (r.byteAt 5 * 65536 + (r.byteAt 6 * 256 + r.byteAt 7)))))),
      { r with position := r.position + 8 }) := by
  have h0 := r.byteAt_lt 0
  have h1 := r.byteAt_lt 1
  have h2 := r.byteAt_lt 2
  have h3 := r.byteAt_lt 3
  have h4 := r.byteAt_lt 4
  have h5 := r.byteAt_lt 5
  have h6 := r.byteAt_lt 6
  have h7 := r.byteAt_lt 7
  unfold BinaryReader.read_uint64
  simp only
  have e0 : u64 (r.byteAt 0 <<< 56) = r.byteAt 0 <<< 56 := by
    rw [Nat.shiftLeft_eq]; unfold u64; omega
  have e1 : u64 (r.byteAt 1 <<< 48) = r.byteAt 1 <<< 48 := by
    rw [Nat.shiftLeft_eq]; unfold u64; omega
  have e2 : u64 (r.byteAt 2 <<< 40) = r.byteAt 2 <<< 40 := by
    rw [Nat.shiftLeft_eq]; unfold u64; omega
  have e3 : u64 (r.byteAt 3 <<< 32) = r.byteAt 3 <<< 32 := by
    rw [Nat.shiftLeft_eq]; unfold u64; omega
  have e4 : u64 (r.byteAt 4 <<< 24) = r.byteAt 4 <<< 24 := by
    rw [Nat.shiftLeft_eq]; unfold u64; omega
  have e5 : u64 (r.byteAt 5 <<< 16) = r.byteAt 5 <<< 16 := by
    rw [Nat.shiftLeft_eq]; unfold u64; omega
  have e6 : u64 (r.byteAt 6 <<< 8) = r.byteAt 6 <<< 8 := by
    rw [Nat.shiftLeft_eq]; unfold u64; omega
  rw [e0, e1, e2, e3, e4, e5, e6]
  simp only [Nat.or_assoc]
  rw [shiftLeft_or_eq_add _ 8 _ (by omega),
    shiftLeft_or_eq_add _ 16 _ (by omega),
    shiftLeft_or_eq_add _ 24 _ (by omega),
    shiftLeft_or_eq_add _ 32 _ (by omega),
    shiftLeft_or_eq_add _ 40 _ (by omega),
    shiftLeft_or_eq_add _ 48 _ (by omega),
    shiftLeft_or_eq_add _ 56 _ (by omega)]
  norm_num

/-- What `read_uint8` returns where `write_uint8(v)` has written. -/
theorem read_uint8_written (w : BinaryWriter) (v : Nat) (hv : v < 256) (b : Nat → Nat)
    (hb : ∀ i, i < 1 → b (w.position + i) = (w.write_uint8 v).buffer (w.position + i)) :
    BinaryReader.read_uint8 { buffer := b, position := w.position }
      = (v, { buffer := b, position := w.position + 1 }) := by
  have h0 := hb 0 (by omega)
  simp only [BinaryWriter.write_uint8, BinaryWriter.put, Nat.add_zero,
    Function.update_same] at h0
  simp only [BinaryReader.read_uint8, BinaryReader.byteAt, Nat.add_zero, h0, u8_u8]
  rw [show u8 v = v from Nat.mod_eq_of_lt hv]

/-- What `read_uint16` returns where `write_uint16(v)` has written. -/
theorem read_uint16_written (w : BinaryWriter) (v : Nat) (hv : v < 65536) (b : Nat → Nat)
    (hb : ∀ i, i < 2 → b (w.position + i) = (w.write_uint16 v).buffer (w.position + i)) :
    BinaryReader.read_uint16 { buffer := b, position := w.position }
      = (v, { buffer := b, position := w.position + 2 }) := by
  obtain ⟨w0, w1⟩ := w.write_uint16_bytes v
  rw [BinaryReader.read_uint16_val]
  simp only [BinaryReader.byteAt, hb 0 (by omega), hb 1 (by omega), w0, w1, u8]
  congr 1
  omega

/-- What `read_uint32` returns where `write_uint32(v)` has written. -/
theorem read_uint32_written (w : BinaryWriter) (v : Nat) (hv : v < 4294967296) (b : Nat → Nat)
    (hb : ∀ i, i < 4 → b (w.position + i) = (w.write_uint32 v).buffer (w.position + i)) :
    BinaryReader.read_uint32 { buffer := b, position := w.position }
      = (v, { buffer := b, position := w.position + 4 }) := by
  obtain ⟨w0, w1, w2, w3⟩ := w.write_uint32_bytes v
  rw [BinaryReader.read_uint32_val]
  simp only [BinaryReader.byteAt, hb 0 (by omega), hb 1 (by omega), hb 2 (by omega),
    hb 3 (by omega), w0, w1, w2, w3, u8]
  congr 1
  omega

/-- What `read_uint64` returns where `write_uint64(v)` has written. -/
theorem read_uint64_written (w : BinaryWriter) (v : Nat) (hv : v < 18446744073709551616)
    (b : Nat → Nat)
    (hb : ∀ i, i < 8 → b (w.position + i) = (w.write_uint64 v).buffer (w.position + i)) :
    BinaryReader.read_uint64 { buffer := b, position := w.position }
      = (v, { buffer := b, position := w.position + 8 }) := by
  obtain ⟨w0, w1, w2, w3, w4, w5, w6, w7⟩ := w.write_uint64_bytes v
  have b0 := (hb 0 (by omega)).trans w0
  have b1 := (hb 1 (by omega)).trans w1
  have b2 := (hb 2 (by omega)).trans w2
  have b3 := (hb 3 (by omega)).trans w3
  have b4 := (hb 4 (by omega)).trans w4
  have b5 := (hb 5 (by omega)).trans w5
  have b6 := (hb 6 (by omega)).trans w6
  have b7 := (hb 7 (by omega)).trans w7
  clear hb w0 w1 w2 w3 w4 w5 w6 w7
  rw [BinaryReader.read_uint64_val]
  simp only [BinaryReader.byteAt, b0, b1, b2, b3, b4, b5, b6, b7, u8]
  simp only [Nat.mod_mod]
  have s2 : v / 256 % 256 * 256 + v % 256 = v % 65536 := by omega
  have s3 : v / 65536 % 256 * 65536 + v % 65536 = v % 16777216 := by omega
  have s4 : v / 16777216 % 256 * 16777216 + v % 16777216 = v % 4294967296 := by omega
  have s5 : v / 4294967296 % 256 * 4294967296 + v % 4294967296 = v % 1099511627776 := by
    omega
  have s6 : v / 1099511627776 % 256 * 1099511627776 + v % 1099511627776
      = v % 281474976710656 := by omega
  have s7 : v / 281474976710656 % 256 * 281474976710656 + v % 281474976710656
      = v % 72057594037927936 := by omega
  have s8 : v / 72057594037927936 % 256 * 72057594037927936 + v % 72057594037927936 = v := by
    omega
  rw [s2, s3, s4, s5, s6, s7, s8]

/-- The sign flips of the signed writers stay in the range of the unsigned type and cancel
with those of the readers. -/
theorem sign_flip_facts :
    (∀ v : Int, -128 ≤ v → v < 128 →
      toU8 v ^^^ 0x80 < 256 ∧ toS8 (u8 ((toU8 v ^^^ 0x80) ^^^ 0x80)) = v) ∧
    (∀ v : Int, -32768 ≤ v → v < 32768 →
      toU16 v ^^^ 0x8000 < 65536 ∧ toS16 (u16 ((toU16 v ^^^ 0x8000) ^^^ 0x8000)) = v) ∧
    (∀ v : Int, -2147483648 ≤ v → v < 2147483648 →
      toU32 v ^^^ INT32_SIGN < 4294967296 ∧
      toS32 ((toU32 v ^^^ INT32_SIGN) ^^^ INT32_SIGN) = v) ∧
    (∀ v : Int, -9223372036854775808 ≤ v → v < 9223372036854775808 →
      toU64 v ^^^ INT64_SIGN < 18446744073709551616 ∧
      toS64 ((toU64 v ^^^ INT64_SIGN) ^^^ INT64_SIGN) = v) := by
  refine ⟨?_, ?_, ?_, ?_⟩
  · intro v h1 h2
    have hu : toU8 v < 2 ^ 8 := by unfold toU8; omega
    refine ⟨Nat.xor_lt_two_pow hu (by norm_num), ?_⟩
    rw [Nat.xor_cancel_right]
    unfold toS8 u8 toU8
    split_ifs <;> omega
  · intro v h1 h2
    have hu : toU16 v < 2 ^ 16 := by unfold toU16; omega
    refine ⟨Nat.xor_lt_two_pow hu (by norm_num), ?_⟩
    rw [Nat.xor_cancel_right]
    unfold toS16 u16 toU16
    split_ifs <;> omega
  · intro v h1 h2
    have hu : toU32 v < 2 ^ 32 := by unfold toU32; omega
    refine ⟨Nat.xor_lt_two_pow hu (by unfold INT32_SIGN; norm_num), ?_⟩
    rw [Nat.xor_cancel_right]
    unfold toS32 toU32
    split_ifs <;> omega
  · intro v h1 h2
    have hu : toU64 v < 2 ^ 64 := by unfold toU64; omega
    refine ⟨Nat.xor_lt_two_pow hu (by unfold INT64_SIGN; norm_num), ?_⟩
    rw [Nat.xor_cancel_right]
    unfold toS64 toU64
    split_ifs <;> omega

/-- A write advances the position by `sizeof(T)` and changes no byte below the position it
started at. -/
theorem BinaryWriter.write_frame (w : BinaryWriter) (f : Field) :
    (w.write f).position = w.position + f.size ∧
    ∀ i, i < w.position → (w.write f).buffer i = w.buffer i := by
  cases f <;>
    refine ⟨rfl, fun i hi => ?_⟩ <;>
    simp only [BinaryWriter.write, BinaryWriter.write_uint8, BinaryWriter.write_int8,
      BinaryWriter.write_uint16, BinaryWriter.write_int16, BinaryWriter.write_uint32,
      BinaryWriter.write_int32, BinaryWriter.write_uint64, BinaryWriter.write_int64,
      BinaryWriter.put, Function.update_apply] <;>
    (split_ifs <;> first | rfl | omega)

/-- A sequence of writes advances the position by the sum of the sizes and changes no byte
below the position it started at. -/
theorem BinaryWriter.writeAll_frame : ∀ (fs : List Field) (w : BinaryWriter),
    (w.writeAll fs).position = w.position + (fs.map Field.size).sum ∧
    ∀ i, i < w.position → (w.writeAll fs).buffer i = w.buffer i := by
  intro fs
  induction fs with
  | nil => intro w; exact ⟨rfl, fun _ _ => rfl⟩
  | cons f rest ih =>
    intro w
    obtain ⟨p1, b1⟩ := w.write_frame f
    obtain ⟨p2, b2⟩ := ih (w.write f)
    have e : w.writeAll (f :: rest) = (w.write f).writeAll rest := rfl
    rw [e]
    refine ⟨?_, ?_⟩
    · rw [p2, p1, List.map_cons, List.sum_cons]; omega
    · intro i hi
      rw [b2 i (by omega), b1 i hi]

/-- What `read_T` returns where `write_T(v)` has written: the value, with the position
advanced by `sizeof(T)`. -/
theorem read_written_field (w : BinaryWriter) (f : Field) (hf : f.InRange) (b : Nat → Nat)
    (hb : ∀ i, i < f.size → b (w.position + i) = (w.write f).buffer (w.position + i)) :
    BinaryReader.read { buffer := b, position := w.position } f
      = (f, { buffer := b, position := w.position + f.size }) := by
  obtain ⟨s8, s16, s32, s64⟩ := sign_flip_facts
  cases f with
  | uint8 v =>
    simp only [BinaryReader.read, read_uint8_written w v hf b hb, Field.size]
  | int8 v =>
    obtain ⟨hx, hs⟩ := s8 v hf.1 hf.2
    simp only [BinaryReader.read, BinaryReader.read_int8,
      read_uint8_written w _ hx b hb, hs, Field.size]
  | uint16 v =>
    simp only [BinaryReader.read, read_uint16_written w v hf b hb, Field.size]
  | int16 v =>
    obtain ⟨hx, hs⟩ := s16 v hf.1 hf.2
    simp only [BinaryReader.read, BinaryReader.read_int16,
      read_uint16_written w _ hx b hb, hs, Field.size]
  | uint32 v =>
    simp only [BinaryReader.read, read_uint32_written w v hf b hb, Field.size]
  | int32 v =>
    obtain ⟨hx, hs⟩ := s32 v hf.1 hf.2
    simp only [BinaryReader.read, BinaryReader.read_int32,
      read_uint32_written w _ hx b hb, hs, Field.size]
  | uint64 v =>
    simp only [BinaryReader.read, read_uint64_written w v hf b hb, Field.size]
  | int64 v =>
    obtain ⟨hx, hs⟩ := s64 v hf.1 hf.2
    simp only [BinaryReader.read, BinaryReader.read_int64,
      read_uint64_written w _ hx b hb, hs, Field.size]

/-- A sequence of writes is read back in order, from any buffer that agrees with the
written one from the start position on. -/
theorem readAll_written : ∀ (fs : List Field) (w : BinaryWriter) (b : Nat → Nat),
    (∀ f ∈ fs, f.InRange) →
    (∀ i, w.position ≤ i → b i = (w.writeAll fs).buffer i) →
    BinaryReader.readAll { buffer := b, position := w.position } fs
      = (fs, { buffer := b, position := w.position + (fs.map Field.size).sum }) := by
  intro fs
  induction fs with
  | nil => intro w b _ _; rfl
  | cons f rest ih =>
    intro w b hr hb
    obtain ⟨p1, _⟩ := w.write_frame f
    obtain ⟨_, b2⟩ := BinaryWriter.writeAll_frame rest (w.write f)
    have e : w.writeAll (f :: rest) = (w.write f).writeAll rest := rfl
    have h1 := read_written_field w f (hr f (List.mem_cons_self _ _)) b (by
      intro i hi
      rw [hb (w.position + i) (by omega), e, b2 _ (by omega)])
    have h2 := ih (w.write f) b (fun g hg => hr g (List.mem_cons_of_mem _ hg)) (by
      intro i hi
      rw [hb i (by omega), e])
    rw [p1] at h2
    simp only [BinaryReader.readAll, h1, h2, List.map_cons, List.sum_cons, Nat.add_assoc]

/-! ### C20 -/

/-- C20. The serializer round-trips every integer type `T` of `uint8, int8, uint16, int16,
uint32, int32, uint64, int64`: after `write_T(v)` a reader placed where the writer stood
returns `v` from `read_T()`, and the size of the writer and the position of the reader have
both advanced by `sizeof(T)`. A sequence of writes is read back in order by the matching
sequence of reads. In particular `PacTreeIndex::decode(encode(pKey, rowId), pKey) = rowId`,
with `keyLength = 8`. -/
theorem serializer_round_trip (w : BinaryWriter) :
    (∀ v : Nat, v < 256 →
      BinaryReader.read_uint8 { buffer := (w.write_uint8 v).buffer, position := w.position }
        = (v, { buffer := (w.write_uint8 v).buffer, position := w.position + 1 }) ∧
      (w.write_uint8 v).get_size = w.get_size + 1) ∧
    (∀ v : Int, -128 ≤ v ∧ v < 128 →
      BinaryReader.read_int8 { buffer := (w.write_int8 v).buffer, position := w.position }
        = (v, { buffer := (w.write_int8 v).buffer, position := w.position + 1 }) ∧
      (w.write_int8 v).get_size = w.get_size + 1) ∧
    (∀ v : Nat, v < 65536 →
      BinaryReader.read_uint16 { buffer := (w.write_uint16 v).buffer, position := w.position }
        = (v, { buffer := (w.write_uint16 v).buffer, position := w.position + 2 }) ∧
      (w.write_uint16 v).get_size = w.get_size + 2) ∧
    (∀ v : Int, -32768 ≤ v ∧ v < 32768 →
      BinaryReader.read_int16 { buffer := (w.write_int16 v).buffer, position := w.position }
        = (v, { buffer := (w.write_int16 v).buffer, position := w.position + 2 }) ∧
      (w.write_int16 v).get_size = w.get_size + 2) ∧
    (∀ v : Nat, v < 4294967296 →
      BinaryReader.read_uint32 { buffer := (w.write_uint32 v).buffer, position := w.position }
        = (v, { buffer := (w.write_uint32 v).buffer, position := w.position + 4 }) ∧
      (w.write_uint32 v).get_size = w.get_size + 4) ∧
    (∀ v : Int, -2147483648 ≤ v ∧ v < 2147483648 →
      BinaryReader.read_int32 { buffer := (w.write_int32 v).buffer, position := w.position }
        = (v, { buffer := (w.write_int32 v).buffer, position := w.position + 4 }) ∧
      (w.write_int32 v).get_size = w.get_size + 4) ∧
    (∀ v : Nat, v < 18446744073709551616 →
      BinaryReader.read_uint64 { buffer := (w.write_uint64 v).buffer, position := w.position }
        = (v, { buffer := (w.write_uint64 v).buffer, position := w.position + 8 }) ∧
      (w.write_uint64 v).get_size = w.get_size + 8) ∧
    (∀ v : Int, -9223372036854775808 ≤ v ∧ v < 9223372036854775808 →
      BinaryReader.read_int64 { buffer := (w.write_int64 v).buffer, position := w.position }
        = (v, { buffer := (w.write_int64 v).buffer, position := w.position + 8 }) ∧
      (w.write_int64 v).get_size = w.get_size + 8) ∧
    (∀ fs : List Field, (∀ f ∈ fs, f.InRange) →
      BinaryReader.readAll { buffer := (w.writeAll fs).buffer, position := w.position } fs
        = (fs, { buffer := (w.writeAll fs).buffer
                 position := w.position + (fs.map Field.size).sum }) ∧
      (w.writeAll fs).get_size = w.get_size + (fs.map Field.size).sum) ∧
    (∀ (pacKey : Key_t) (pKey rowId : Nat), pKey < 4294967296 → rowId < 4294967296 →
      ∃ k, PacTreeIndex.encode pacKey pKey rowId = some k ∧ k.keyLength = 8 ∧
        PacTreeIndex.decode k pKey = some rowId) := by
  refine ⟨?_, ?_, ?_, ?_, ?_, ?_, ?_, ?_, ?_, ?_⟩
  · intro v hv
    have h := read_written_field w (Field.uint8 v) hv (w.write_uint8 v).buffer (fun _ _ => rfl)
    simp only [BinaryReader.read, Field.size, Prod.mk.injEq, Field.uint8.injEq] at h
    exact ⟨Prod.ext h.1 h.2, rfl⟩
  · intro v hv
    have h := read_written_field w (Field.int8 v) hv (w.write_int8 v).buffer (fun _ _ => rfl)
    simp only [BinaryReader.read, Field.size, Prod.mk.injEq, Field.int8.injEq] at h
    exact ⟨Prod.ext h.1 h.2, rfl⟩
  · intro v hv
    have h := read_written_field w (Field.uint16 v) hv (w.write_uint16 v).buffer (fun _ _ => rfl)
    simp only [BinaryReader.read, Field.size, Prod.mk.injEq, Field.uint16.injEq] at h
    exact ⟨Prod.ext h.1 h.2, rfl⟩
  · intro v hv
    have h := read_written_field w (Field.int16 v) hv (w.write_int16 v).buffer (fun _ _ => rfl)
    simp only [BinaryReader.read, Field.size, Prod.mk.injEq, Field.int16.injEq] at h
    exact ⟨Prod.ext h.1 h.2, rfl⟩
  · intro v hv
    have h := read_written_field w (Field.uint32 v) hv (w.write_uint32 v).buffer (fun _ _ => rfl)
    simp only [BinaryReader.read, Field.size, Prod.mk.injEq, Field.uint32.injEq] at h
    exact ⟨Prod.ext h.1 h.2, rfl⟩
  · intro v hv
    have h := read_written_field w (Field.int32 v) hv (w.write_int32 v).buffer (fun _ _ => rfl)
    simp only [BinaryReader.read, Field.size, Prod.mk.injEq, Field.int32.injEq] at h
    exact ⟨Prod.ext h.1 h.2, rfl⟩
  · intro v hv
    have h := read_written_field w (Field.uint64 v) hv (w.write_uint64 v).buffer (fun _ _ => rfl)
    simp only [BinaryReader.read, Field.size, Prod.mk.injEq, Field.uint64.injEq] at h
    exact ⟨Prod.ext h.1 h.2, rfl⟩
  · intro v hv
    have h := read_written_field w (Field.int64 v) hv (w.write_int64 v).buffer (fun _ _ => rfl)
    simp only [BinaryReader.read, Field.size, Prod.mk.injEq, Field.int64.injEq] at h
    exact ⟨Prod.ext h.1 h.2, rfl⟩
  · intro fs hfs
    exact ⟨readAll_written fs w _ hfs (fun _ _ => rfl), (BinaryWriter.writeAll_frame fs w).1⟩
  · intro pacKey pKey rowId hp hr
    refine ⟨{ data := (((BinaryWriter.create pacKey.data).write_uint32 pKey).write_uint32
      rowId).buffer, keyLength := 8 }, rfl, rfl, ?_⟩
    have h1 := read_uint32_written (BinaryWriter.create pacKey.data) pKey hp
      (((BinaryWriter.create pacKey.data).write_uint32 pKey).write_uint32 rowId).buffer
      (by
        intro i hi
        exact (BinaryWriter.write_frame ((BinaryWriter.create pacKey.data).write_uint32 pKey)
          (Field.uint32 rowId)).2 _ (by
            show (BinaryWriter.create pacKey.data).position + i
              < (BinaryWriter.create pacKey.data).position + 4
            omega))
    have h2 := read_uint32_written ((BinaryWriter.create pacKey.data).write_uint32 pKey) rowId
      hr (((BinaryWriter.create pacKey.data).write_uint32 pKey).write_uint32 rowId).buffer
      (fun _ _ => rfl)
    have h1' : BinaryReader.read_uint32 (BinaryReader.create
        (((BinaryWriter.create pacKey.data).write_uint32 pKey).write_uint32 rowId).buffer)
        = (pKey, { buffer := (((BinaryWriter.create pacKey.data).write_uint32
            pKey).write_uint32 rowId).buffer
                   position := ((BinaryWriter.create pacKey.data).write_uint32 pKey).position }) :=
      h1
    simp only [PacTreeIndex.decode, h1', h2, ne_eq, not_true_eq_false, if_false]

/-- Witness of C20: the key of primary key 7 and row 42, and the `int32` value -5. -/
theorem serializer_round_trip_witness :
    (∃ k, PacTreeIndex.encode { data := fun _ => 0, keyLength := 0 } 7 42 = some k ∧
      k.keyLength = 8 ∧ PacTreeIndex.decode k 7 = some 42) ∧
    (BinaryReader.read_int32
      { buffer := ((BinaryWriter.create (fun _ => 0)).write_int32 (-5)).buffer
        position := (BinaryWriter.create (fun _ => 0)).position }).1 = -5 :=
  have h := serializer_round_trip (BinaryWriter.create (fun _ => 0))
  ⟨h.2.2.2.2.2.2.2.2.2 { data := fun _ => 0, keyLength := 0 } 7 42 (by decide) (by decide),
    congrArg Prod.fst ((h.2.2.2.2.2.1 (-5) (by decide)).1)⟩

/-! ### Auxiliary lemmas: the order of serialized values -/

/-- Flipping a bit that is clear adds its weight. -/
theorem xor_two_pow_of_lt (n u : Nat) (h : u < 2 ^ n) : u ^^^ 2 ^ n = u + 2 ^ n := by
  have e : 2 ^ n * 1 + u = 2 ^ n * 1 ||| u := Nat.mul_add_lt_is_or h 1
  rw [Nat.mul_one] at e
  rw [Nat.add_comm, e]
  apply Nat.eq_of_testBit_eq
  intro i
  rw [Nat.testBit_xor, Nat.testBit_or, Nat.testBit_two_pow]
  by_cases hi : n = i
  · subst hi
    simp [Nat.testBit_lt_two_pow h]
  · simp [hi]

/-- Flipping a bit that is set removes its weight. -/
theorem xor_two_pow_of_ge (n u : Nat) (h1 : 2 ^ n ≤ u) (h2 : u < 2 ^ (n + 1)) :
    u ^^^ 2 ^ n = u - 2 ^ n := by
  have hr : u - 2 ^ n < 2 ^ n := by rw [Nat.pow_succ] at h2; omega
  have e := xor_two_pow_of_lt n (u - 2 ^ n) hr
  have e2 : u - 2 ^ n + 2 ^ n = u := by omega
  rw [e2] at e
  conv_lhs => rw [← e]
  rw [Nat.xor_cancel_right]

/-- A byte of the low part of a value. -/
theorem mod_pow_div_mod (v j m : Nat) (h : j < m) :
    v % 256 ^ m / 256 ^ j % 256 = v / 256 ^ j % 256 := by
  have e : 256 ^ m = 256 ^ j * 256 ^ (m - j) := by
    rw [← Nat.pow_add]; congr 1; omega
  rw [e, Nat.mod_mul_right_div_self]
  apply Nat.mod_mod_of_dvd
  exact dvd_pow_self 256 (by omega)

/-- The low bytes of a value are those of its low part. -/
theorem beBytes_mod (v m : Nat) : ∀ k, k ≤ m → beBytes k (v % 256 ^ m) = beBytes k v := by
  intro k
  induction k with
  | zero => intro _; rfl
  | succ k ih =>
    intro h
    simp only [beBytes]
    rw [mod_pow_div_mod v k m (by omega), ih (by omega)]

/-- Big-endian byte strings of one length compare as the values they encode. -/
theorem bytesLt_beBytes : ∀ (k a b : Nat), a < 256 ^ k → b < 256 ^ k →
    bytesLt (beBytes k a) (beBytes k b) = decide (a < b) := by
  intro k
  induction k with
  | zero =>
    intro a b ha hb
    simp only [Nat.pow_zero] at ha hb
    have : ¬ a < b := by omega
    simp [beBytes, bytesLt, this]
  | succ k ih =>
    intro a b ha hb
    have hpos : 0 < 256 ^ k := Nat.pow_pos (by omega)
    have hda : a / 256 ^ k < 256 := by
      rw [Nat.div_lt_iff_lt_mul hpos]; rw [Nat.pow_succ] at ha; rw [Nat.mul_comm]; exact ha
    have hdb : b / 256 ^ k < 256 := by
      rw [Nat.div_lt_iff_lt_mul hpos]; rw [Nat.pow_succ] at hb; rw [Nat.mul_comm]; exact hb
    have hma : a % 256 ^ k < 256 ^ k := Nat.mod_lt _ hpos
    have hmb : b % 256 ^ k < 256 ^ k := Nat.mod_lt _ hpos
    have ea := Nat.div_add_mod a (256 ^ k)
    have eb := Nat.div_add_mod b (256 ^ k)
    simp only [beBytes, bytesLt]
    rw [Nat.mod_eq_of_lt hda, Nat.mod_eq_of_lt hdb, ← beBytes_mod a k k (le_refl _),
      ← beBytes_mod b k k (le_refl _), ih _ _ hma hmb]
    generalize a / 256 ^ k = qa at *
    generalize b / 256 ^ k = qb at *
    generalize a % 256 ^ k = ra at *
    generalize b % 256 ^ k = rb at *
    generalize 256 ^ k = p at *
    by_cases h1 : qa < qb
    · have : p * (qa + 1) ≤ p * qb := Nat.mul_le_mul_left p h1
      have hab : a < b := by rw [Nat.mul_add, Nat.mul_one] at this; omega
      simp [h1, hab]
    · by_cases h2 : qa = qb
      · subst h2
        have hiff : (ra < rb) ↔ (a < b) := by omega
        simp [hiff]
      · have h3 : qb < qa := by omega
        have : p * (qb + 1) ≤ p * qa := Nat.mul_le_mul_left p h3
        have hab : ¬ a < b := by rw [Nat.mul_add, Nat.mul_one] at this; omega
        simp [h1, h2, hab]

/-- The bytes `write_T(v)` produces are the big-endian bytes of the code of `v`. -/
theorem BinaryWriter.written_write (w : BinaryWriter) (f : Field) :
    (w.write f).written w.position = beBytes f.size f.code := by
  have hp := (w.write_frame f).1
  unfold BinaryWriter.written
  rw [hp, Nat.add_sub_cancel_left]
  cases f with
  | uint8 v =>
    simp [BinaryWriter.write, BinaryWriter.write_uint8, BinaryWriter.put, Field.size,
      Field.code, beBytes, List.range_succ, u8]
  | int8 v =>
    simp [BinaryWriter.write, BinaryWriter.write_int8, BinaryWriter.write_uint8,
      BinaryWriter.put, Field.size, Field.code, beBytes, List.range_succ, u8]
  | uint16 v =>
    obtain ⟨b0, b1⟩ := w.write_uint16_bytes v
    simp only [Nat.add_zero] at b0
    simp [BinaryWriter.write, Field.size, Field.code, beBytes, List.range_succ, b0, b1]
  | int16 v =>
    obtain ⟨b0, b1⟩ := w.write_uint16_bytes (toU16 v ^^^ 0x8000)
    simp only [Nat.add_zero] at b0
    simp [BinaryWriter.write, BinaryWriter.write_int16, Field.size, Field.code, beBytes,
      List.range_succ, b0, b1]
  | uint32 v =>
    obtain ⟨b0, b1, b2, b3⟩ := w.write_uint32_bytes v
    simp only [Nat.add_zero] at b0
    simp [BinaryWriter.write, Field.size, Field.code, beBytes, List.range_succ, b0, b1, b2, b3]
  | int32 v =>
    obtain ⟨b0, b1, b2, b3⟩ := w.write_uint32_bytes (toU32 v ^^^ INT32_SIGN)
    simp only [Nat.add_zero] at b0
    simp [BinaryWriter.write, BinaryWriter.write_int32, Field.size, Field.code, beBytes,
      List.range_succ, b0, b1, b2, b3]
  | uint64 v =>
    obtain ⟨b0, b1, b2, b3, b4, b5, b6, b7⟩ := w.write_uint64_bytes v
    simp only [Nat.add_zero] at b0
    simp [BinaryWriter.write, Field.size, Field.code, beBytes, List.range_succ, b0, b1, b2, b3,
      b4, b5, b6, b7]
  | int64 v =>
    obtain ⟨b0, b1, b2, b3, b4, b5, b6, b7⟩ := w.write_uint64_bytes (toU64 v ^^^ INT64_SIGN)
    simp only [Nat.add_zero] at b0
    simp [BinaryWriter.write, BinaryWriter.write_int64, Field.size, Field.code, beBytes,
      List.range_succ, b0, b1, b2, b3, b4, b5, b6, b7]

/-- The code of a signed value is the value shifted by half the range of its type. -/
theorem sign_flip_shift :
    (∀ v : Int, -128 ≤ v → v < 128 → ((toU8 v ^^^ 0x80 : Nat) : Int) = v + 128) ∧
    (∀ v : Int, -32768 ≤ v → v < 32768 → ((toU16 v ^^^ 0x8000 : Nat) : Int) = v + 32768) ∧
    (∀ v : Int, -2147483648 ≤ v → v < 2147483648 →
      ((toU32 v ^^^ INT32_SIGN : Nat) : Int) = v + 2147483648) ∧
    (∀ v : Int, -9223372036854775808 ≤ v → v < 9223372036854775808 →
      ((toU64 v ^^^ INT64_SIGN : Nat) : Int) = v + 9223372036854775808) := by
  refine ⟨?_, ?_, ?_, ?_⟩
  · intro v h1 h2
    by_cases hs : 0 ≤ v
    · have hu : toU8 v < 2 ^ 7 := by unfold toU8; omega
      have e := xor_two_pow_of_lt 7 _ hu
      norm_num at e
      rw [e]; unfold toU8; omega
    · have hu1 : 2 ^ 7 ≤ toU8 v := by unfold toU8; omega
      have hu2 : toU8 v < 2 ^ (7 + 1) := by unfold toU8; omega
      have e := xor_two_pow_of_ge 7 _ hu1 hu2
      norm_num at e
      rw [e]; unfold toU8; omega
  · intro v h1 h2
    by_cases hs : 0 ≤ v
    · have hu : toU16 v < 2 ^ 15 := by unfold toU16; omega
      have e := xor_two_pow_of_lt 15 _ hu
      norm_num at e
      rw [e]; unfold toU16; omega
    · have hu1 : 2 ^ 15 ≤ toU16 v := by unfold toU16; omega
      have hu2 : toU16 v < 2 ^ (15 + 1) := by unfold toU16; omega
      have e := xor_two_pow_of_ge 15 _ hu1 hu2
      norm_num at e
      rw [e]; unfold toU16; omega
  · intro v h1 h2
    unfold INT32_SIGN
    by_cases hs : 0 ≤ v
    · have hu : toU32 v < 2 ^ 31 := by unfold toU32; omega
      have e := xor_two_pow_of_lt 31 _ hu
      norm_num at e
      rw [e]; unfold toU32; omega
    · have hu1 : 2 ^ 31 ≤ toU32 v := by unfold toU32; omega
      have hu2 : toU32 v < 2 ^ (31 + 1) := by unfold toU32; omega
      have e := xor_two_pow_of_ge 31 _ hu1 hu2
      norm_num at e
      rw [e]; unfold toU32; omega
  · intro v h1 h2
    unfold INT64_SIGN
    by_cases hs : 0 ≤ v
    · have hu : toU64 v < 2 ^ 63 := by unfold toU64; omega
      have e := xor_two_pow_of_lt 63 _ hu
      norm_num at e
      rw [e]; unfold toU64; omega
    · have hu1 : 2 ^ 63 ≤ toU64 v := by unfold toU64; omega
      have hu2 : toU64 v < 2 ^ (63 + 1) := by unfold toU64; omega
      have e := xor_two_pow_of_ge 63 _ hu1 hu2
      norm_num at e
      rw [e]; unfold toU64; omega

/-- The code of a value in the range of its type fits the bytes of the type. -/
theorem Field.code_lt (f : Field) (hf : f.InRange) : f.code < 256 ^ f.size := by
  obtain ⟨s8, s16, s32, s64⟩ := sign_flip_shift
  cases f with
  | uint8 v => simpa [Field.code, Field.size] using hf
  | int8 v =>
    have h1 := hf.1
    have h2 := hf.2
    have := s8 v h1 h2
    simp only [Field.code, Field.size]
    omega
  | uint16 v => simpa [Field.code, Field.size] using hf
  | int16 v =>
    have h1 := hf.1
    have h2 := hf.2
    have := s16 v h1 h2
    simp only [Field.code, Field.size]
    omega
  | uint32 v => simpa [Field.code, Field.size] using hf
  | int32 v =>
    have h1 := hf.1
    have h2 := hf.2
    have := s32 v h1 h2
    simp only [Field.code, Field.size]
    omega
  | uint64 v => simpa [Field.code, Field.size] using hf
  | int64 v =>
    have h1 := hf.1
    have h2 := hf.2
    have := s64 v h1 h2
    simp only [Field.code, Field.size]
    omega

/-- The codes of two values of one type are in the order of the values. -/
theorem Field.code_lt_of_lt (f g : Field) (hf : f.InRange) (hg : g.InRange) (h : f.lt g) :
    f.size = g.size ∧ f.code < g.code := by
  obtain ⟨s8, s16, s32, s64⟩ := sign_flip_shift
  cases f <;> cases g <;> simp only [Field.lt] at h <;>
    simp only [Field.code, Field.size, true_and]
  · exact h
  · have a := s8 _ hf.1 hf.2; have b := s8 _ hg.1 hg.2; omega
  · exact h
  · have a := s16 _ hf.1 hf.2; have b := s16 _ hg.1 hg.2; omega
  · exact h
  · have a := s32 _ hf.1 hf.2; have b := s32 _ hg.1 hg.2; omega
  · exact h
  · have a := s64 _ hf.1 hf.2; have b := s64 _ hg.1 hg.2; omega

/-- The key `encode(pKey, rowId)` is the 8-byte big-endian image of `pKey · 2^32 + rowId`. -/
theorem PacTreeIndex.encode_bytes (pacKey : Key_t) (pKey rowId : Nat)
    (_hp : pKey < 4294967296) (hr : rowId < 4294967296) :
    ∃ k, PacTreeIndex.encode pacKey pKey rowId = some k ∧
      k.bytes = beBytes 8 (pKey * 4294967296 + rowId) := by
  refine ⟨{ data := (((BinaryWriter.create pacKey.data).write_uint32 pKey).write_uint32
    rowId).buffer, keyLength := 8 }, rfl, ?_⟩
  obtain ⟨a0, a1, a2, a3⟩ := (BinaryWriter.create pacKey.data).write_uint32_bytes pKey
  obtain ⟨b0, b1, b2, b3⟩ :=
    ((BinaryWriter.create pacKey.data).write_uint32 pKey).write_uint32_bytes rowId
  have hfr := (BinaryWriter.write_frame ((BinaryWriter.create pacKey.data).write_uint32 pKey)
    (Field.uint32 rowId)).2
  have hpos : ((BinaryWriter.create pacKey.data).write_uint32 pKey).position = 4 := rfl
  have hpos0 : (BinaryWriter.create pacKey.data).position = 0 := rfl
  rw [hpos] at b0 b1 b2 b3 hfr
  rw [hpos0] at a0 a1 a2 a3
  have c0 := (hfr 0 (by omega)).trans a0
  have c1 := (hfr 1 (by omega)).trans a1
  have c2 := (hfr 2 (by omega)).trans a2
  have c3 := (hfr 3 (by omega)).trans a3
  simp only [BinaryWriter.write] at c0 c1 c2 c3
  simp only [Key_t.bytes, beBytes, List.range_succ, List.range_zero, List.nil_append,
    List.cons_append, List.map_cons, List.map_nil, c0, c1, c2, c3]
  norm_num at b0 b1 b2 b3 ⊢
  rw [b0, b1, b2, b3]
  refine ⟨?_, ?_, ?_, ?_, ?_, ?_, ?_, ?_⟩ <;> omega

/-! ### C21 -/

/-- C21. The serializer preserves order. For every type `T` of `uint8, int8, uint16, int16,
uint32, int32, uint64, int64` and values `a < b` of `T`, the bytes `write_T(a)` produces are
lexicographically smaller, compared byte by byte as `unsigned char`, than those `write_T(b)`
produces. Consequently `encode(pKey, 0) ≤ encode(pKey, rowId) ≤ encode(pKey, 0xffffffff)`
for every `rowId`, and a key of another `pKey` lies below `encode(pKey, 0)` or above
`encode(pKey, 0xffffffff)`, the two bounds `PacTreeIndex::Get` scans between. -/
theorem serializer_preserves_order :
    (∀ (w w2 : BinaryWriter) (a b : Field), a.InRange → b.InRange → a.lt b →
      bytesLt ((w.write a).written w.position) ((w2.write b).written w2.position) = true) ∧
    (∀ (pacKey kb ke : Key_t) (pKey rowId : Nat), pKey < 4294967296 → rowId < 4294967296 →
      ∃ k0 k k1, PacTreeIndex.encode kb pKey 0 = some k0 ∧
        PacTreeIndex.encode pacKey pKey rowId = some k ∧
        PacTreeIndex.encode ke pKey 0xffffffff = some k1 ∧
        bytesLt k.bytes k0.bytes = false ∧ bytesLt k1.bytes k.bytes = false) ∧
    (∀ (pacKey kb ke : Key_t) (pKey other rowId : Nat), pKey < 4294967296 →
      other < 4294967296 → rowId < 4294967296 → other ≠ pKey →
      ∃ k0 k k1, PacTreeIndex.encode kb pKey 0 = some k0 ∧
        PacTreeIndex.encode pacKey other rowId = some k ∧
        PacTreeIndex.encode ke pKey 0xffffffff = some k1 ∧
        (bytesLt k.bytes k0.bytes = true ∨ bytesLt k1.bytes k.bytes = true)) := by
  refine ⟨?_, ?_, ?_⟩
  · intro w w2 a b ha hb hlt
    obtain ⟨hs, hc⟩ := Field.code_lt_of_lt a b ha hb hlt
    rw [w.written_write a, w2.written_write b, hs,
      bytesLt_beBytes b.size a.code b.code (hs ▸ a.code_lt ha) (b.code_lt hb)]
    exact decide_eq_true hc
  · intro pacKey kb ke pKey rowId hp hr
    obtain ⟨k0, e0, h0⟩ := PacTreeIndex.encode_bytes kb pKey 0 hp (by omega)
    obtain ⟨k, e, h⟩ := PacTreeIndex.encode_bytes pacKey pKey rowId hp hr
    obtain ⟨k1, e1, h1⟩ := PacTreeIndex.encode_bytes ke pKey 0xffffffff hp (by omega)
    refine ⟨k0, k, k1, e0, e, e1, ?_, ?_⟩
    · rw [h, h0, bytesLt_beBytes 8 _ _ (by norm_num; omega) (by norm_num; omega)]
      exact decide_eq_false (by omega)
    · rw [h1, h, bytesLt_beBytes 8 _ _ (by norm_num; omega) (by norm_num; omega)]
      exact decide_eq_false (by omega)
  · intro pacKey kb ke pKey other rowId hp ho hr hne
    obtain ⟨k0, e0, h0⟩ := PacTreeIndex.encode_bytes kb pKey 0 hp (by omega)
    obtain ⟨k, e, h⟩ := PacTreeIndex.encode_bytes pacKey other rowId ho hr
    obtain ⟨k1, e1, h1⟩ := PacTreeIndex.encode_bytes ke pKey 0xffffffff hp (by omega)
    refine ⟨k0, k, k1, e0, e, e1, ?_⟩
    rw [h, h0, h1, bytesLt_beBytes 8 _ _ (by norm_num; omega) (by norm_num; omega),
      bytesLt_beBytes 8 _ _ (by norm_num; omega) (by norm_num; omega)]
    rcases Nat.lt_or_gt_of_ne hne with hlt | hgt
    · left; exact decide_eq_true (by omega)
    · right; exact decide_eq_true (by omega)

/-- Witness of C21: the `int16` values -2 and 3, and the keys of primary key 7 between the
scan bounds of primary key 7. -/
theorem serializer_preserves_order_witness :
    bytesLt (((BinaryWriter.create (fun _ => 0)).write (Field.int16 (-2))).written 0)
      (((BinaryWriter.create (fun _ => 0)).write (Field.int16 3)).written 0) = true ∧
    ∃ k0 k k1, PacTreeIndex.encode { data := fun _ => 0, keyLength := 0 } 7 0 = some k0 ∧
      PacTreeIndex.encode { data := fun _ => 0, keyLength := 0 } 7 42 = some k ∧
      PacTreeIndex.encode { data := fun _ => 0, keyLength := 0 } 7 0xffffffff = some k1 ∧
      bytesLt k.bytes k0.bytes = false ∧ bytesLt k1.bytes k.bytes = false :=
  ⟨serializer_preserves_order.1 (BinaryWriter.create (fun _ => 0))
      (BinaryWriter.create (fun _ => 0)) (Field.int16 (-2)) (Field.int16 3)
      ⟨by decide, by decide⟩ ⟨by decide, by decide⟩ (show (-2 : Int) < 3 by decide),
    serializer_preserves_order.2.1 { data := fun _ => 0, keyLength := 0 }
      { data := fun _ => 0, keyLength := 0 } { data := fun _ => 0, keyLength := 0 } 7 42
      (by decide) (by decide)⟩

/-! ### Auxiliary lemmas: latency statistics -/

/-- A left fold of additions is a sum. -/
theorem foldl_add_eq_sum {α : Type} (f : α → Nat) : ∀ (l : List α) (init : Nat),
    l.foldl (fun a x => a + f x) init = init + (l.map f).sum := by
  intro l
  induction l with
  | nil => intro init; simp
  | cons x rest ih => intro init; simp [ih, Nat.add_assoc]

/-- The number of rounds of a batch loop covers the array exactly. -/
theorem LatencyStat.batches_mul (BucketNum : Nat) (hB : BucketNum % BatchSize = 0) :
    LatencyStat.batches BucketNum * BatchSize = BucketNum := by
  unfold LatencyStat.batches BatchSize at *
  omega

/-- What a sequence of inserts leaves in a statistic. -/
theorem LatencyStat.insert_foldl (B P : Nat) : ∀ (l : List Nat) (s : LatencyStat),
    (∀ i, (l.foldl (LatencyStat.insert B P) s).m_data i =
      s.m_data i + l.countP (fun v => decide (v < B * P) && decide (v / P = i))) ∧
    (l.foldl (LatencyStat.insert B P) s).m_overflowCnt =
      s.m_overflowCnt + l.countP (fun v => !decide (v < B * P)) ∧
    (l.foldl (LatencyStat.insert B P) s).m_overflowSum =
      s.m_overflowSum + (l.filter (fun v => !decide (v < B * P))).sum := by
  intro l
  induction l with
  | nil => intro s; simp
  | cons v rest ih =>
    intro s
    obtain ⟨h1, h2, h3⟩ := ih (LatencyStat.insert B P s v)
    simp only [List.foldl_cons]
    by_cases hv : v < B * P
    · refine ⟨?_, ?_, ?_⟩
      · intro i
        rw [h1 i]
        simp only [LatencyStat.insert, LatencyStat.m_maxLatencyUs, hv, if_true,
          Function.update_apply, List.countP_cons, decide_True, Bool.true_and]
        by_cases hi : i = v / P
        · subst hi; simp; omega
        · have hi2 : ¬ v / P = i := fun h => hi h.symm
          simp [hi, hi2]
      · rw [h2]
        simp [LatencyStat.insert, LatencyStat.m_maxLatencyUs, hv]
      · rw [h3]
        simp [LatencyStat.insert, LatencyStat.m_maxLatencyUs, hv]
    · refine ⟨?_, ?_, ?_⟩
      · intro i
        rw [h1 i]
        simp [LatencyStat.insert, LatencyStat.m_maxLatencyUs, hv]
      · rw [h2]
        simp [LatencyStat.insert, LatencyStat.m_maxLatencyUs, hv]
        omega
      · rw [h3]
        simp [LatencyStat.insert, LatencyStat.m_maxLatencyUs, hv]
        omega

/-- The cells the loop of `operator+=` has added to. -/
theorem LatencyStat.addLoop_apply (data other : Nat → Nat) (i : Nat) : ∀ n,
    LatencyStat.addLoop data other n i =
      if i < n * BatchSize then data i + other i else data i := by
  intro n
  induction n with
  | zero => simp [LatencyStat.addLoop]
  | succ n ih =>
    simp only [LatencyStat.addLoop, ih, BatchSize]
    split_ifs <;> first | rfl | omega

/-- The cells the first loop of `sumUp` has stored. -/
theorem LatencyStat.sumUpLoop_apply (stats : List LatencyStat) (out : Nat → Nat) (i : Nat) :
    ∀ n, LatencyStat.sumUpLoop stats out n i =
      if i < n * BatchSize then (stats.map (fun st => st.m_data i)).sum else out i := by
  intro n
  induction n with
  | zero => simp [LatencyStat.sumUpLoop]
  | succ n ih =>
    simp only [LatencyStat.sumUpLoop, ih, BatchSize, foldl_add_eq_sum, Nat.zero_add]
    split_ifs <;> first | rfl | omega

/-- What a fold of `operator+=` over a list of statistics leaves. -/
theorem LatencyStat.add_foldl (B : Nat) : ∀ (ws : List LatencyStat) (acc : LatencyStat),
    (∀ i, i < LatencyStat.batches B * BatchSize →
      (ws.foldl (LatencyStat.add B) acc).m_data i =
        acc.m_data i + (ws.map (fun st => st.m_data i)).sum) ∧
    (ws.foldl (LatencyStat.add B) acc).m_overflowCnt =
      acc.m_overflowCnt + (ws.map (fun st => st.m_overflowCnt)).sum ∧
    (ws.foldl (LatencyStat.add B) acc).m_overflowSum =
      acc.m_overflowSum + (ws.map (fun st => st.m_overflowSum)).sum := by
  intro ws
  induction ws with
  | nil => intro acc; simp
  | cons w rest ih =>
    intro acc
    obtain ⟨h1, h2, h3⟩ := ih (LatencyStat.add B acc w)
    simp only [List.foldl_cons, List.map_cons, List.sum_cons]
    refine ⟨?_, ?_, ?_⟩
    · intro i hi
      rw [h1 i hi]
      simp only [LatencyStat.add, LatencyStat.addLoop_apply, hi, if_true]
      omega
    · rw [h2]; simp only [LatencyStat.add]; omega
    · rw [h3]; simp only [LatencyStat.add]; omega

/-- Counting over the sequences of the workers is counting over all latencies. -/
theorem countP_workers (q : Nat → Bool) (B P : Nat) (f : LatencyStat → Nat)
    (hf : ∀ l : List Nat, f (l.foldl (LatencyStat.insert B P) LatencyStat.create)
      = l.countP q) : ∀ seqs : List (List Nat),
    ((seqs.map (fun l => l.foldl (LatencyStat.insert B P) LatencyStat.create)).map f).sum
      = seqs.flatten.countP q := by
  intro seqs
  induction seqs with
  | nil => simp
  | cons l rest ih =>
    simp only [List.map_cons, List.sum_cons, List.flatten_cons, List.countP_append, ih, hf]

/-- Summing over the sequences of the workers is summing over all latencies. -/
theorem sum_workers (q : Nat → Bool) (B P : Nat) (f : LatencyStat → Nat)
    (hf : ∀ l : List Nat, f (l.foldl (LatencyStat.insert B P) LatencyStat.create)
      = (l.filter q).sum) : ∀ seqs : List (List Nat),
    ((seqs.map (fun l => l.foldl (LatencyStat.insert B P) LatencyStat.create)).map f).sum
      = (seqs.flatten.filter q).sum := by
  intro seqs
  induction seqs with
  | nil => simp
  | cons l rest ih =>
    simp only [List.map_cons, List.sum_cons, List.flatten_cons, List.filter_append,
      List.sum_append, ih, hf]

/-! ### C22 -/

/-- C22. Merging latency statistics is a homomorphism. For every sequence `vals` of
latencies, in range and overflow alike, and every distribution of them over per-worker
objects (`seqs`, one sequence per worker, of which `vals` is an interleaving): the fold of
`operator+=` over the workers, from a fresh object, and `LatencyStat::sumUp(out, stats, k)`,
whatever `out` held, are both equal under `operator==` to the statistic obtained by
inserting every latency into one `LatencyStat`. `BucketNum` is a multiple of `BatchSize`,
as the `static_assert` of the class demands. -/
theorem latencyStat_merge_is_homomorphism (BucketNum Precision : Nat)
    (hB : BucketNum % BatchSize = 0) (vals : List Nat) (seqs : List (List Nat))
    (hperm : vals.Perm seqs.flatten) (out : LatencyStat) :
    LatencyStat.eq BucketNum
      (vals.foldl (LatencyStat.insert BucketNum Precision) LatencyStat.create)
      ((seqs.map (fun l => l.foldl (LatencyStat.insert BucketNum Precision)
          LatencyStat.create)).foldl (LatencyStat.add BucketNum) LatencyStat.create) = true ∧
    LatencyStat.eq BucketNum
      (vals.foldl (LatencyStat.insert BucketNum Precision) LatencyStat.create)
      (LatencyStat.sumUp BucketNum out
        (seqs.map (fun l => l.foldl (LatencyStat.insert BucketNum Precision)
          LatencyStat.create))) = true := by
  have hbm := LatencyStat.batches_mul BucketNum hB
  obtain ⟨v1, v2, v3⟩ := LatencyStat.insert_foldl BucketNum Precision vals LatencyStat.create
  obtain ⟨a1, a2, a3⟩ := LatencyStat.add_foldl BucketNum
    (seqs.map (fun l => l.foldl (LatencyStat.insert BucketNum Precision) LatencyStat.create))
    LatencyStat.create
  have hd : ∀ i, ((seqs.map (fun l => l.foldl (LatencyStat.insert BucketNum Precision)
      LatencyStat.create)).map (fun st => st.m_data i)).sum
      = vals.countP (fun v => decide (v < BucketNum * Precision)
          && decide (v / Precision = i)) := by
    intro i
    rw [countP_workers (fun v => decide (v < BucketNum * Precision)
      && decide (v / Precision = i)) BucketNum Precision (fun st => st.m_data i)
      (fun l => by
        have h := (LatencyStat.insert_foldl BucketNum Precision l LatencyStat.create).1 i
        simpa [LatencyStat.create] using h) seqs]
    exact (hperm.countP_eq _).symm
  have hc : ((seqs.map (fun l => l.foldl (LatencyStat.insert BucketNum Precision)
      LatencyStat.create)).map (fun st => st.m_overflowCnt)).sum
      = vals.countP (fun v => !decide (v < BucketNum * Precision)) := by
    rw [countP_workers (fun v => !decide (v < BucketNum * Precision)) BucketNum Precision
      (fun st => st.m_overflowCnt)
      (fun l => by
        have h := (LatencyStat.insert_foldl BucketNum Precision l LatencyStat.create).2.1
        simpa [LatencyStat.create] using h) seqs]
    exact (hperm.countP_eq _).symm
  have hs : ((seqs.map (fun l => l.foldl (LatencyStat.insert BucketNum Precision)
      LatencyStat.create)).map (fun st => st.m_overflowSum)).sum
      = (vals.filter (fun v => !decide (v < BucketNum * Precision))).sum := by
    rw [sum_workers (fun v => !decide (v < BucketNum * Precision)) BucketNum Precision
      (fun st => st.m_overflowSum)
      (fun l => by
        have h := (LatencyStat.insert_foldl BucketNum Precision l LatencyStat.create).2.2
        simpa [LatencyStat.create] using h) seqs]
    exact ((hperm.filter _).sum_eq).symm
  constructor
  · simp only [LatencyStat.eq, Bool.and_eq_true, List.all_eq_true, List.mem_range, beq_iff_eq]
    refine ⟨?_, ?_, ?_⟩
    · intro i hi
      rw [v1 i, a1 i (by omega), hd i]
    · rw [v2, a2, hc]
    · rw [v3, a3, hs]
  · simp only [LatencyStat.eq, Bool.and_eq_true, List.all_eq_true, List.mem_range, beq_iff_eq,
      LatencyStat.sumUp, LatencyStat.sumUpLoop_apply, foldl_add_eq_sum, Nat.zero_add]
    refine ⟨?_, ?_, ?_⟩
    · intro i hi
      rw [if_pos (by omega), v1 i, hd i]
      exact Nat.zero_add _
    · rw [v2, hc]
      exact Nat.zero_add _
    · rw [v3, hs]
      exact Nat.zero_add _

/-- Witness of C22: five latencies, two of them overflows of an eight-bucket statistic,
spread over two workers. -/
theorem latencyStat_merge_is_homomorphism_witness :
    LatencyStat.eq 8 ([3, 9, 0, 3, 100].foldl (LatencyStat.insert 8 1) LatencyStat.create)
      (([[3, 0, 100], [9, 3]].map (fun l => l.foldl (LatencyStat.insert 8 1)
          LatencyStat.create)).foldl (LatencyStat.add 8) LatencyStat.create) = true ∧
    LatencyStat.eq 8 ([3, 9, 0, 3, 100].foldl (LatencyStat.insert 8 1) LatencyStat.create)
      (LatencyStat.sumUp 8 LatencyStat.create
        ([[3, 0, 100], [9, 3]].map (fun l => l.foldl (LatencyStat.insert 8 1)
          LatencyStat.create))) = true :=
  latencyStat_merge_is_homomorphism 8 1 (by decide) [3, 9, 0, 3, 100] [[3, 0, 100], [9, 3]]
    (by decide) LatencyStat.create

/-! ### Auxiliary lemmas: averages and percentiles -/

/-- The payload both update paths leave: the row bytes of the tuple, when these agree with
the stored row outside the updated columns. -/
theorem update_payloads_agree (tuple : RAMTuple) (stored : NVMTuple)
    (hcols : ∀ c ∈ tuple.m_updatedCols, c.m_colOffset + c.m_colLen ≤ tuple.m_rowLen)
    (hrow : tuple.m_tuple.m_data.length = tuple.m_rowLen)
    (hpm : stored.m_data.length = tuple.m_rowLen)
    (hagree : ∀ i, ¬ coveredBy tuple.m_updatedCols i →
      tuple.m_tuple.m_data[i]? = stored.m_data[i]?) :
    copyBytes stored.m_data 0 (tuple.m_tuple.m_data.take tuple.m_rowLen) = tuple.m_tuple.m_data ∧
    tuple.copyUpdatedColumnsToNVM stored.m_data = tuple.m_tuple.m_data := by
  constructor
  · rw [← hrow, List.take_length]
    exact copyBytes_zero_full _ _ (by omega)
  · obtain ⟨_, hp⟩ := patchColumns_spec tuple.m_tuple.m_data tuple.m_updatedCols stored.m_data
      (by intro c hc; rw [hrow]; exact hcols c hc) (by omega)
    apply List.ext_getElem?
    intro i
    by_cases hc : coveredBy tuple.m_updatedCols i
    · exact (hp i).1 hc
    · have := (hp i).2 hc
      unfold patchColumns at this
      unfold RAMTuple.copyUpdatedColumnsToNVM
      rw [this]
      exact (hagree i hc).symm

/-! ### C24 -/

/-- C24. `HeapUpdate` and `HeapUpdate2` are equivalent on consistent input. For a row whose
entry is not locked, updated columns inside the row and a `RAMTuple` whose row bytes agree
with the stored row outside the updated columns, both calls return the same status and
leave the same transaction (hence the same write-set), the same row-id map, the same undo
records and the same persistent memory away from the row; the PM tuple of the row has in
both cases the same `txInfo`, `prev`, `isUsed`, `isDeleted` and payload, and on status `OK`
these are the TxSlot pointer, the new undo pointer, the old flags and the row bytes of the
tuple. If the stored `dataSize` is the row length (as every insert leaves it), the two
final states are equal. -/
theorem HeapUpdate_HeapUpdate2_equivalent (P : Params) (su : SatisfiedUpdateFn)
    (s : HeapState) (tx : Transaction) (table : Table) (rowId : Nat) (tuple : RAMTuple)
    (e : RowIdMapEntry) (r1 : RowIdMap)
    (hent : s.rowIdMap.GetEntry P rowId false = some (some e, r1))
    (hlock : e.m_locked = false)
    (hcols : ∀ c ∈ tuple.m_updatedCols, c.m_colOffset + c.m_colLen ≤ tuple.m_rowLen)
    (hrow : tuple.m_tuple.m_data.length = tuple.m_rowLen)
    (hpm : (s.pm e.m_nvmAddr).m_data.length = tuple.m_rowLen)
    (hagree : ∀ i, ¬ coveredBy tuple.m_updatedCols i →
      tuple.m_tuple.m_data[i]? = (s.pm e.m_nvmAddr).m_data[i]?) :
    ∃ st t2 s1 s2 tx1,
      HeapUpdate P su s tx table rowId tuple = some (st, t2, s1, tx1) ∧
      HeapUpdate2 P su s tx table rowId tuple = some (st, s2, tx1) ∧
      s1.rowIdMap = s2.rowIdMap ∧ s1.undo = s2.undo ∧
      (∀ a, a ≠ e.m_nvmAddr → s1.pm a = s2.pm a) ∧
      (s1.pm e.m_nvmAddr).m_txInfo = (s2.pm e.m_nvmAddr).m_txInfo ∧
      (s1.pm e.m_nvmAddr).m_prev = (s2.pm e.m_nvmAddr).m_prev ∧
      (s1.pm e.m_nvmAddr).m_isUsed = (s2.pm e.m_nvmAddr).m_isUsed ∧
      (s1.pm e.m_nvmAddr).m_isDeleted = (s2.pm e.m_nvmAddr).m_isDeleted ∧
      (s1.pm e.m_nvmAddr).m_data = (s2.pm e.m_nvmAddr).m_data ∧
      (st = HamStatus.OK →
        (s2.pm e.m_nvmAddr).m_txInfo = tx1.GetTxSlotLocation ∧
        (s2.pm e.m_nvmAddr).m_prev = (PrepareUpdateUndo (tx.PrepareUndo s.undo).2
          (tx.PrepareUndo s.undo).1 table.SegmentHead rowId (s.pm e.m_nvmAddr)
          tuple.m_updatedCols).2 ∧
        (s2.pm e.m_nvmAddr).m_isUsed = (s.pm e.m_nvmAddr).m_isUsed ∧
        (s2.pm e.m_nvmAddr).m_isDeleted = (s.pm e.m_nvmAddr).m_isDeleted ∧
        (s2.pm e.m_nvmAddr).m_data = tuple.m_tuple.m_data ∧
        tx1.m_writeSet = (tx.PrepareUndo s.undo).1.m_writeSet ++ [rowId]) ∧
      ((s.pm e.m_nvmAddr).m_dataSize = tuple.m_rowLen → s1 = s2) := by
  obtain ⟨hp1, hp2⟩ := update_payloads_agree tuple (s.pm e.m_nvmAddr) hcols hrow hpm hagree
  cases h1 : HeapUpdate P su s tx table rowId tuple with
  | none =>
    exfalso
    unfold HeapUpdate at h1
    simp only [hent, RowIdMapEntry.Lock, hlock, Bool.false_eq_true, if_false] at h1
    split_ifs at h1
  | some res1 =>
    cases h2 : HeapUpdate2 P su s tx table rowId tuple with
    | none =>
      exfalso
      unfold HeapUpdate2 at h2
      simp only [hent, RowIdMapEntry.Lock, hlock, Bool.false_eq_true, if_false] at h2
      split_ifs at h2
    | some res2 =>
      unfold HeapUpdate at h1
      unfold HeapUpdate2 at h2
      simp only [hent, RowIdMapEntry.Lock, hlock, Bool.false_eq_true, if_false] at h1 h2
      by_cases hchk : CheckTxStatus tx = true
      · simp only [hchk, if_true, Option.some.injEq] at h1 h2
        subst h1 h2
        exact ⟨_, _, _, _, _, rfl, rfl, rfl, rfl, fun _ _ => rfl, rfl, rfl, rfl, rfl, rfl,
          fun h => absurd h (by simp), fun _ => rfl⟩
      · have hchk2 : CheckTxStatus tx = false := by simpa using hchk
        simp only [hchk2, Bool.false_eq_true, if_false] at h1 h2
        by_cases hres : su (tx.PrepareUndo s.undo).1 (tx.PrepareUndo s.undo).2
            (s.pm e.m_nvmAddr) = TMResult.INVISIBLE ∨
            su (tx.PrepareUndo s.undo).1 (tx.PrepareUndo s.undo).2 (s.pm e.m_nvmAddr)
            = TMResult.BEING_MODIFIED
        · simp only [hres, if_true, Option.some.injEq] at h1 h2
          subst h1 h2
          exact ⟨_, _, _, _, _, rfl, rfl, rfl, rfl, fun _ _ => rfl, rfl, rfl, rfl, rfl, rfl,
            fun h => absurd h (by simp), fun _ => rfl⟩
        · simp only [hres, if_false] at h1 h2
          by_cases hdel : (s.pm e.m_nvmAddr).m_isDeleted = true
          · simp only [hdel, if_true, Option.some.injEq] at h1 h2
            subst h1 h2
            exact ⟨_, _, _, _, _, rfl, rfl, rfl, rfl, fun _ _ => rfl, rfl, rfl, rfl, rfl, rfl,
              fun h => absurd h (by simp), fun _ => rfl⟩
          · simp only [hdel, Bool.false_eq_true, if_false, Option.some.injEq] at h1 h2
            subst h1 h2
            refine ⟨_, _, _, _, _, rfl, rfl, rfl, rfl, ?_, ?_, ?_, ?_, ?_, ?_, ?_, ?_⟩
            · intro a ha
              simp only [Function.update_apply, ha, if_false]
            · simp [Function.update_same, RAMTuple.Serialize, RAMTuple.InitHead,
                NVMTuple.InitHead, copyTuple]
            · simp [Function.update_same, RAMTuple.Serialize, RAMTuple.InitHead,
                NVMTuple.InitHead, copyTuple]
            · simp [Function.update_same, RAMTuple.Serialize, RAMTuple.InitHead,
                NVMTuple.InitHead, copyTuple]
            · simp [Function.update_same, RAMTuple.Serialize, RAMTuple.InitHead,
                NVMTuple.InitHead, copyTuple]
            · simp only [Function.update_same, RAMTuple.Serialize, RAMTuple.InitHead,
                NVMTuple.InitHead, copyTuple, hp1, hp2]
            · intro _
              have hd : (s.pm e.m_nvmAddr).m_isDeleted = false := by simpa using hdel
              refine ⟨?_, ?_, ?_, ?_, ?_, ?_⟩
              · simp [Function.update_same, Transaction.PushWriteSet,
                  Transaction.GetTxSlotLocation]
              · simp [Function.update_same]
              · simp [Function.update_same]
              · simp [Function.update_same, hd]
              · simp only [Function.update_same, hp2]
              · simp [Transaction.PushWriteSet]
            · intro hsize
              have hd : (s.pm e.m_nvmAddr).m_isDeleted = false := by simpa using hdel
              simp only [RAMTuple.Serialize, RAMTuple.InitHead, NVMTuple.InitHead, copyTuple,
                hp1, hp2, hsize]

/-- Witness of C24: both update paths on row 0 of the example table, with a tuple read from
the row whose bytes 0 and 1 were set to 9. -/
theorem HeapUpdate_HeapUpdate2_equivalent_witness :
    ∃ t2 s1 s2 tx1,
      HeapUpdate exParams exSatisfiedUpdate exRowState exTx exTable 0 exUpdatedTuple
        = some (HamStatus.OK, t2, s1, tx1) ∧
      HeapUpdate2 exParams exSatisfiedUpdate exRowState exTx exTable 0 exUpdatedTuple
        = some (HamStatus.OK, s2, tx1) ∧
      (s2.pm 8256).m_data = [9, 9, 3, 4, 5, 6, 7, 8] ∧ s1 = s2 := by
  obtain ⟨st, t2, s1, s2, tx1, h1, h2, _, _, _, _, _, _, _, _, hok, hfull⟩ :=
    HeapUpdate_HeapUpdate2_equivalent exParams exSatisfiedUpdate exRowState exTx exTable 0
      exUpdatedTuple { RowIdMapEntry.zero with m_isTupleValid := true, m_nvmAddr := 8256 }
      (exRowState.rowIdMap.putEntry 0
        { RowIdMapEntry.zero with m_isTupleValid := true, m_nvmAddr := 8256 })
      rfl rfl (by decide) rfl rfl
      (by
        intro i hi
        match i with
        | 0 => exact absurd ⟨_, List.mem_cons_self _ _, by decide, by decide⟩ hi
        | 1 => exact absurd ⟨_, List.mem_cons_self _ _, by decide, by decide⟩ hi
        | i + 2 => rfl)
  have hst : (HeapUpdate2 exParams exSatisfiedUpdate exRowState exTx exTable 0
      exUpdatedTuple).map (fun r => r.1) = some HamStatus.OK := by decide
  rw [h2] at hst
  simp only [Option.map_some', Option.some.injEq] at hst
  subst hst
  exact ⟨t2, s1, s2, tx1, h1, h2, (hok rfl).2.2.2.2.1, hfull rfl⟩

/-! ### C25 -/

/-- C25. Frame of `HeapUpdate2`. For updated columns inside the row, a successful
`HeapUpdate2` changes on the stored tuple only the header fields `txInfo` (the TxSlot
pointer) and `prev` (the new undo pointer), and the payload bytes of the ranges
`[colOffset, colOffset + colLen)` of the updated columns, which become the bytes of the
`RAMTuple` at the same offsets; `isUsed`, `isDeleted`, `dataSize`, the payload length and
every payload byte outside those ranges are unchanged, and so is every other tuple of the
persistent memory. -/
theorem HeapUpdate2_frame (P : Params) (su : SatisfiedUpdateFn) (s s1 : HeapState)
    (tx tx2 : Transaction) (table : Table) (rowId : Nat) (tuple : RAMTuple)
    (e : RowIdMapEntry) (r1 : RowIdMap)
    (hent : s.rowIdMap.GetEntry P rowId false = some (some e, r1))
    (hcols : ∀ c ∈ tuple.m_updatedCols, c.m_colOffset + c.m_colLen ≤ tuple.m_rowLen)
    (hrow : tuple.m_tuple.m_data.length = tuple.m_rowLen)
    (hpm : (s.pm e.m_nvmAddr).m_data.length = tuple.m_rowLen)
    (h : HeapUpdate2 P su s tx table rowId tuple = some (HamStatus.OK, s1, tx2)) :
    (s1.pm e.m_nvmAddr).m_txInfo = tx2.GetTxSlotLocation ∧
    (s1.pm e.m_nvmAddr).m_prev = (PrepareUpdateUndo (tx.PrepareUndo s.undo).2
      (tx.PrepareUndo s.undo).1 table.SegmentHead rowId (s.pm e.m_nvmAddr)
      tuple.m_updatedCols).2 ∧
    (s1.pm e.m_nvmAddr).m_isUsed = (s.pm e.m_nvmAddr).m_isUsed ∧
    (s1.pm e.m_nvmAddr).m_isDeleted = (s.pm e.m_nvmAddr).m_isDeleted ∧
    (s1.pm e.m_nvmAddr).m_dataSize = (s.pm e.m_nvmAddr).m_dataSize ∧
    (s1.pm e.m_nvmAddr).m_data.length = (s.pm e.m_nvmAddr).m_data.length ∧
    (∀ i, coveredBy tuple.m_updatedCols i →
      (s1.pm e.m_nvmAddr).m_data[i]? = tuple.m_tuple.m_data[i]?) ∧
    (∀ i, ¬ coveredBy tuple.m_updatedCols i →
      (s1.pm e.m_nvmAddr).m_data[i]? = (s.pm e.m_nvmAddr).m_data[i]?) ∧
    (∀ a, a ≠ e.m_nvmAddr → s1.pm a = s.pm a) := by
  obtain ⟨hl, hp⟩ := patchColumns_spec tuple.m_tuple.m_data tuple.m_updatedCols
    (s.pm e.m_nvmAddr).m_data (by intro c hc; rw [hrow]; exact hcols c hc) (by omega)
  unfold HeapUpdate2 at h
  by_cases hchk : CheckTxStatus tx = true
  · simp [hchk] at h
  · have hchk2 : CheckTxStatus tx = false := by simpa using hchk
    simp only [hchk2, Bool.false_eq_true, if_false, hent] at h
    cases hlk : e.Lock with
    | none => simp [hlk] at h
    | some e1 =>
      have he1 : e1.m_nvmAddr = e.m_nvmAddr := by
        unfold RowIdMapEntry.Lock at hlk
        split_ifs at hlk
        simp only [Option.some.injEq] at hlk
        rw [← hlk]
      simp only [hlk, he1] at h
      by_cases hres : su (tx.PrepareUndo s.undo).1 (tx.PrepareUndo s.undo).2
          (s.pm e.m_nvmAddr) = TMResult.INVISIBLE ∨
          su (tx.PrepareUndo s.undo).1 (tx.PrepareUndo s.undo).2 (s.pm e.m_nvmAddr)
          = TMResult.BEING_MODIFIED
      · simp [hres] at h
      · simp only [hres, if_false] at h
        by_cases hdel : (s.pm e.m_nvmAddr).m_isDeleted = true
        · simp [hdel] at h
        · have hd : (s.pm e.m_nvmAddr).m_isDeleted = false := by simpa using hdel
          simp only [hd, Bool.false_eq_true, if_false, Option.some.injEq, Prod.mk.injEq,
            true_and] at h
          obtain ⟨hs1, htx⟩ := h
          subst hs1 htx
          refine ⟨?_, ?_, ?_, ?_, ?_, ?_, ?_, ?_, ?_⟩
          · simp [Function.update_same, Transaction.PushWriteSet,
              Transaction.GetTxSlotLocation]
          · simp only [Function.update_same]
          · simp only [Function.update_same]
          · simp only [Function.update_same, hd]
          · simp only [Function.update_same]
          · simp only [Function.update_same]
            show (patchColumns tuple.m_tuple.m_data tuple.m_updatedCols
              (s.pm e.m_nvmAddr).m_data).length = _
            rw [hl]; omega
          · intro i hc
            simp only [Function.update_same]
            exact (hp i).1 hc
          · intro i hc
            simp only [Function.update_same]
            exact (hp i).2 hc
          · intro a ha
            exact Function.update_noteq ha _ _

/-- Witness of C25: `HeapUpdate2` on row 0 of the example table with a tuple of nines whose
updated column is bytes 0 and 1: the stored bytes 2 to 7 stay 3 to 8. -/
theorem HeapUpdate2_frame_witness :
    ∃ s1 tx2, HeapUpdate2 exParams exSatisfiedUpdate exRowState exTx exTable 0 exDirtyTuple
        = some (HamStatus.OK, s1, tx2) ∧
      (s1.pm 8256).m_isUsed = true ∧ (s1.pm 8256).m_dataSize = 8 ∧
      (s1.pm 8256).m_data[0]? = some 9 ∧ (s1.pm 8256).m_data[5]? = some 6 := by
  cases hx : HeapUpdate2 exParams exSatisfiedUpdate exRowState exTx exTable 0 exDirtyTuple with
  | none =>
    have : (HeapUpdate2 exParams exSatisfiedUpdate exRowState exTx exTable 0
      exDirtyTuple).isSome = true := by decide
    rw [hx] at this
    exact absurd this (by simp)
  | some r =>
    obtain ⟨st, s1, tx2⟩ := r
    have h0 : (HeapUpdate2 exParams exSatisfiedUpdate exRowState exTx exTable 0
        exDirtyTuple).map (fun x => x.1) = some HamStatus.OK := by decide
    rw [hx] at h0
    simp only [Option.map_some', Option.some.injEq] at h0
    subst h0
    obtain ⟨_, _, h3, _, h5, _, h7, h8, _⟩ := HeapUpdate2_frame exParams exSatisfiedUpdate
      exRowState s1 exTx tx2 exTable 0 exDirtyTuple
      { RowIdMapEntry.zero with m_isTupleValid := true, m_nvmAddr := 8256 }
      (exRowState.rowIdMap.putEntry 0
        { RowIdMapEntry.zero with m_isTupleValid := true, m_nvmAddr := 8256 })
      rfl (by decide) rfl rfl hx
    refine ⟨s1, tx2, rfl, h3, h5, ?_, ?_⟩
    · exact h7 0 ⟨_, List.mem_cons_self _ _, by decide, by decide⟩
    · refine h8 5 ?_
      rintro ⟨c, hc, h1, h2⟩
      simp only [exDirtyTuple, List.mem_singleton] at hc
      subst hc
      simp at h2

/-! ### Auxiliary lemmas: the slot loop of `tryAllocNewPage` -/

/-- The loop of `tryAllocNewPage` stops at the first invalid slot of the stride. -/
theorem RowIDMgr.installSlot_first_invalid (P : Params) (m : RowIDMgr) (k : Nat) :
    ∀ (fuel leaf : Nat), k < fuel → leaf + k * m.spaceCount < 4294967296 →
      (∀ j, j < k → P.NVMPageIdIsValid (m.extentIds (leaf + j * m.spaceCount)) = true) →
      P.NVMPageIdIsValid (m.extentIds (leaf + k * m.spaceCount)) = false →
      RowIDMgr.installSlot P m fuel leaf = some (leaf + k * m.spaceCount) := by
  induction k with
  | zero =>
    intro fuel leaf hf _ _ hinv
    obtain ⟨n, rfl⟩ : ∃ n, fuel = n + 1 := ⟨fuel - 1, by omega⟩
    simp only [Nat.zero_mul, Nat.add_zero] at hinv ⊢
    exact RowIDMgr.installSlot_of_invalid P m n leaf hinv
  | succ k ih =>
    intro fuel leaf hf hb hval hinv
    obtain ⟨n, rfl⟩ : ∃ n, fuel = n + 1 := ⟨fuel - 1, by omega⟩
    have h0 := hval 0 (by omega)
    simp only [Nat.zero_mul, Nat.add_zero] at h0
    have e : leaf + (k + 1) * m.spaceCount = leaf + m.spaceCount + k * m.spaceCount := by
      rw [Nat.add_mul, Nat.one_mul]; omega
    have hle : leaf + m.spaceCount ≤ leaf + (k + 1) * m.spaceCount := by
      rw [e]; exact Nat.le_add_right _ _
    have hu : u32 (leaf + m.spaceCount) = leaf + m.spaceCount := u32_of_lt (by omega)
    unfold RowIDMgr.installSlot
    rw [if_pos h0, hu, e]
    apply ih n (leaf + m.spaceCount) (by omega) (by rw [← e]; exact hb)
    · intro j hj
      have := hval (j + 1) (by omega)
      rw [show leaf + (j + 1) * m.spaceCount = leaf + m.spaceCount + j * m.spaceCount by
        rw [Nat.add_mul, Nat.one_mul]; omega] at this
      exact this
    · rw [← e]; exact hinv

/-! ### C26 -/

/-- C26. `RowIDMgr::tryAllocNewPage(e)` never overwrites a valid extent-id slot. If slot `e`
is valid on entry the call allocates nothing and changes nothing. Otherwise it takes a page
from the table space and, under the mutex, installs it in the first invalid slot among
`e, e + dirCount, e + 2·dirCount, …` of the page map it finds there (`locked`, what racing
threads have left; without a race this is slot `e`): that slot has an index congruent to
`e` modulo `dirCount`, and every other slot is left unchanged. The slot indices stay below
`2^32`. -/
theorem tryAllocNewPage_never_overwrites (P : Params) (fuel : Nat) (m : RowIDMgr)
    (others : RowIDMgr → RowIDMgr) (e : Nat) :
    (P.NVMPageIdIsValid (m.extentIds e) = true →
      m.tryAllocNewPage P fuel e = some m ∧ m.tryAllocNewPageRaced P fuel others e = some m) ∧
    m.tryAllocNewPageRaced P fuel id e = m.tryAllocNewPage P fuel e ∧
    (∀ (pageId : Nat) (rest : List Nat) (locked : RowIDMgr) (k : Nat),
      P.NVMPageIdIsValid (m.extentIds e) = false → m.freePages = pageId :: rest →
      locked = others { m with freePages := rest } →
      k < fuel → e + k * locked.spaceCount < 4294967296 →
      (∀ j, j < k →
        P.NVMPageIdIsValid (locked.extentIds (e + j * locked.spaceCount)) = true) →
      P.NVMPageIdIsValid (locked.extentIds (e + k * locked.spaceCount)) = false →
      ∃ m1, m.tryAllocNewPageRaced P fuel others e = some m1 ∧
        m1.extentIds (e + k * locked.spaceCount) = pageId ∧
        (∀ i, i ≠ e + k * locked.spaceCount → m1.extentIds i = locked.extentIds i) ∧
        (e + k * locked.spaceCount) % locked.spaceCount = e % locked.spaceCount ∧
        m1.freePages = locked.freePages ∧ m1.maxPageId = locked.maxPageId) := by
  refine ⟨?_, ?_, ?_⟩
  · intro hv
    constructor
    · simp [RowIDMgr.tryAllocNewPage, hv]
    · simp [RowIDMgr.tryAllocNewPageRaced, hv]
  · unfold RowIDMgr.tryAllocNewPageRaced RowIDMgr.tryAllocNewPage
    by_cases hv : P.NVMPageIdIsValid (m.extentIds e) = true
    · simp [hv]
    · simp only [hv, Bool.false_eq_true, if_false, id_eq]
      cases hf : m.freePages with
      | nil => rfl
      | cons p rest =>
        simp only []
        cases fuel with
        | zero => simp [RowIDMgr.installSlot]
        | succ n =>
          have hv2 : P.NVMPageIdIsValid (m.extentIds e) = false := by simpa using hv
          rw [RowIDMgr.installSlot_of_invalid P m n e hv2,
            RowIDMgr.installSlot_of_invalid P { m with freePages := rest } n e hv2]
  · intro pageId rest locked k hv hf hl hk hb hval hinv
    have hslot := RowIDMgr.installSlot_first_invalid P locked k fuel e hk hb hval hinv
    refine ⟨{ locked with
      extentIds := (Function.update locked.extentIds (e + k * locked.spaceCount) pageId) },
      ?_, ?_, ?_, ?_, rfl, rfl⟩
    · unfold RowIDMgr.tryAllocNewPageRaced
      simp only [hv, Bool.false_eq_true, if_false, hf, ← hl, hslot]
    · simp only [Function.update_same]
    · intro i hi
      exact Function.update_noteq hi _ _
    · exact Nat.add_mul_mod_self_right _ _ _

/-- Witness of C26: with two directories the call for slot 1 finds, under the mutex, the
slots 1 and 3 taken by racing threads and installs its page 3 in slot 5. -/
theorem tryAllocNewPage_never_overwrites_witness :
    ∃ m1, exRowMgr.tryAllocNewPageRaced exParams 3 exOthers 1 = some m1 ∧
      m1.extentIds (1 + 2 * 2) = 3 ∧
      (∀ i, i ≠ 1 + 2 * 2 → m1.extentIds i
        = (exOthers { exRowMgr with freePages := [4] }).extentIds i) ∧
      (1 + 2 * 2) % 2 = 1 % 2 :=
  have h := (tryAllocNewPage_never_overwrites exParams 3 exRowMgr exOthers 1).2.2 3 [4]
    (exOthers { exRowMgr with freePages := [4] }) 2 (by decide) (by decide) rfl (by decide)
    (by decide)
    (by
      intro j hj
      match j with
      | 0 => decide
      | 1 => decide
      | j + 2 => omega)
    (by decide)
  match h with
  | ⟨m1, h1, h2, h3, h4, _, _⟩ => ⟨m1, h1, h2, h3, h4⟩

/-! ### Auxiliary lemmas: the ring positions `recycleTxSlot` clears -/

/-- The ring positions of the slot ids `b ≤ i < n`, for at most one turn of a ring of `N`
slots: one interval, or two when the range wraps. -/
theorem ring_residues (N b n p : Nat) (hN : 0 < N) (hlt : b < n) (hle : n - b ≤ N) :
    (∃ i, b ≤ i ∧ i < n ∧ i % N = p) ↔
      (if b % N < n % N then b % N ≤ p ∧ p < n % N
       else (b % N ≤ p ∧ p < N) ∨ p < n % N) := by
  have hb := Nat.div_add_mod b N
  have hn := Nat.div_add_mod n N
  have hbo : b % N < N := Nat.mod_lt _ hN
  have heo : n % N < N := Nat.mod_lt _ hN
  have key : n / N = b / N ∨ n / N = b / N + 1 := by
    by_contra hcon
    push_neg at hcon
    rcases Nat.lt_or_ge (n / N) (b / N) with h | h
    · have := Nat.mul_le_mul_left N (show n / N + 1 ≤ b / N from h)
      rw [Nat.mul_add, Nat.mul_one] at this
      omega
    · have h2 : b / N + 2 ≤ n / N := by omega
      have := Nat.mul_le_mul_left N h2
      rw [Nat.mul_add] at this
      omega
  constructor
  · rintro ⟨i, hi1, hi2, hi3⟩
    have hi := Nat.div_add_mod i N
    rw [hi3] at hi
    have hp : p < N := by rw [← hi3]; exact Nat.mod_lt _ hN
    rcases key with hk | hk
    · rw [hk] at hn
      have hq : i / N = b / N := by
        rcases Nat.lt_trichotomy (i / N) (b / N) with h | h | h
        · have := Nat.mul_le_mul_left N (show i / N + 1 ≤ b / N from h)
          rw [Nat.mul_add, Nat.mul_one] at this
          omega
        · exact h
        · have := Nat.mul_le_mul_left N (show b / N + 1 ≤ i / N from h)
          rw [Nat.mul_add, Nat.mul_one] at this
          omega
      rw [hq] at hi
      split_ifs <;> omega
    · rw [hk, Nat.mul_add, Nat.mul_one] at hn
      have hq : i / N = b / N ∨ i / N = b / N + 1 := by
        by_contra hcon
        push_neg at hcon
        rcases Nat.lt_or_ge (i / N) (b / N) with h | h
        · have := Nat.mul_le_mul_left N (show i / N + 1 ≤ b / N from h)
          rw [Nat.mul_add, Nat.mul_one] at this
          omega
        · have h2 : b / N + 2 ≤ i / N := by omega
          have := Nat.mul_le_mul_left N h2
          rw [Nat.mul_add] at this
          omega
      rcases hq with hq | hq
      · rw [hq] at hi
        split_ifs <;> omega
      · rw [hq, Nat.mul_add, Nat.mul_one] at hi
        split_ifs <;> omega
  · intro h
    by_cases hc : b % N < n % N
    · rw [if_pos hc] at h
      rcases key with hk | hk
      · rw [hk] at hn
        refine ⟨N * (b / N) + p, by omega, by omega, ?_⟩
        rw [Nat.mul_add_mod, Nat.mod_eq_of_lt (by omega)]
      · rw [hk, Nat.mul_add, Nat.mul_one] at hn
        omega
    · rw [if_neg hc] at h
      rcases key with hk | hk
      · rw [hk] at hn
        omega
      · rw [hk, Nat.mul_add, Nat.mul_one] at hn
        rcases h with h | h
        · refine ⟨N * (b / N) + p, by omega, by omega, ?_⟩
          rw [Nat.mul_add_mod, Nat.mod_eq_of_lt (by omega)]
        · refine ⟨N * (b / N + 1) + p, ?_, ?_, ?_⟩
          · rw [Nat.mul_add, Nat.mul_one]; omega
          · rw [Nat.mul_add, Nat.mul_one]; omega
          · rw [Nat.mul_add_mod, Nat.mod_eq_of_lt (by omega)]

/-- The slots the two `memset_s` branches clear. -/
theorem UndoSegment.clearSlots_spec (u : UndoSegment) (b n p : Nat) (hN : 0 < u.UNDO_TX_SLOTS)
    (hlt : b < n) (hle : n - b ≤ u.UNDO_TX_SLOTS) :
    ((∃ i, b ≤ i ∧ i < n ∧ i % u.UNDO_TX_SLOTS = p) →
      u.clearSlots (b % u.UNDO_TX_SLOTS) (n % u.UNDO_TX_SLOTS) p = TxSlot.zero) ∧
    ((¬ ∃ i, b ≤ i ∧ i < n ∧ i % u.UNDO_TX_SLOTS = p) →
      u.clearSlots (b % u.UNDO_TX_SLOTS) (n % u.UNDO_TX_SLOTS) p = u.m_slots p) := by
  have hr := ring_residues u.UNDO_TX_SLOTS b n p hN hlt hle
  unfold UndoSegment.clearSlots
  by_cases hc : b % u.UNDO_TX_SLOTS < n % u.UNDO_TX_SLOTS
  · rw [if_pos hc] at hr ⊢
    rw [hr]
    exact ⟨fun h => if_pos h, fun h => if_neg h⟩
  · rw [if_neg hc] at hr ⊢
    rw [hr]
    exact ⟨fun h => if_pos h, fun h => if_neg h⟩

/-- The scan of `recycleTxSlot` passes recyclable slots only and stops at the first slot
that is not recyclable. -/
theorem UndoSegment.recycleScan_first (recyclable : Nat → Bool) (max_slot : Nat) :
    ∀ (fuel next_slot : Nat) (recycled : Bool), max_slot - next_slot ≤ fuel →
      (∀ i, next_slot ≤ i →
        i < (UndoSegment.recycleScan recyclable max_slot fuel next_slot recycled).1 →
        recyclable i = true) ∧
      ((UndoSegment.recycleScan recyclable max_slot fuel next_slot recycled).1 < max_slot →
        recyclable (UndoSegment.recycleScan recyclable max_slot fuel next_slot recycled).1
          = false) := by
  intro fuel
  induction fuel with
  | zero =>
    intro n r h
    simp only [UndoSegment.recycleScan]
    exact ⟨fun i h1 h2 => by omega, fun h2 => by omega⟩
  | succ k ih =>
    intro n r h
    unfold UndoSegment.recycleScan
    by_cases hlt : n < max_slot
    · rw [if_pos hlt]
      by_cases hrec : recyclable n = true
      · simp only [hrec, Bool.not_true, Bool.false_eq_true, if_false]
        obtain ⟨h1, h2⟩ := ih (n + 1) true (by omega)
        refine ⟨?_, h2⟩
        intro i hi1 hi2
        by_cases hin : i = n
        · rw [hin]; exact hrec
        · exact h1 i (by omega) hi2
      · have hrec2 : recyclable n = false := by simpa using hrec
        simp only [hrec2, Bool.not_false, if_true]
        exact ⟨fun i h1 h2 => by omega, fun _ => trivial⟩
    · rw [if_neg hlt]
      exact ⟨fun i h1 h2 => by omega, fun h2 => by omega⟩

/-! ### C27 -/

/-- C27. `recycleTxSlot(minSnapshot)`, entered with `b = nextRecycleSlot ≤ f = nextFreeSlot`
and `f − b ≤ UNDO_TX_SLOTS`, advances `nextRecycleSlot` to `n`, the smallest slot id in
`[b, f)` that is not recyclable (`n = f` if all are): every slot id in `[b, n)` is
recyclable and `n`, if below `f`, is not. It zeroes exactly the ring positions
`i mod UNDO_TX_SLOTS` of the slot ids `b ≤ i < n`, also when the range wraps around the
ring, and modifies no other `TxSlot`. Stated for a call that returns (the `CHECK`s of
`punch` hold). -/
theorem recycleTxSlot_clears_recycled_slots (E : UndoEnv) (u u1 : UndoSegment)
    (file file1 : LogicFile) (minSnapshot : Nat) (hN : 0 < u.UNDO_TX_SLOTS)
    (_hseg : 0 < file.m_segmentSize)
    (hb : u.m_nextRecycleSlot ≤ u.m_nextFreeSlot)
    (hring : u.m_nextFreeSlot - u.m_nextRecycleSlot ≤ u.UNDO_TX_SLOTS)
    (h : u.recycleTxSlot E file minSnapshot = some (u1, file1)) :
    u.m_nextRecycleSlot ≤ u1.m_nextRecycleSlot ∧ u1.m_nextRecycleSlot ≤ u.m_nextFreeSlot ∧
    (∀ i, u.m_nextRecycleSlot ≤ i → i < u1.m_nextRecycleSlot →
      E.isTxSlotRecyclable u i minSnapshot = true) ∧
    (u1.m_nextRecycleSlot < u.m_nextFreeSlot →
      E.isTxSlotRecyclable u u1.m_nextRecycleSlot minSnapshot = false) ∧
    (∀ p, (∃ i, u.m_nextRecycleSlot ≤ i ∧ i < u1.m_nextRecycleSlot ∧
        i % u.UNDO_TX_SLOTS = p) → u1.m_slots p = TxSlot.zero) ∧
    (∀ p, (¬ ∃ i, u.m_nextRecycleSlot ≤ i ∧ i < u1.m_nextRecycleSlot ∧
        i % u.UNDO_TX_SLOTS = p) → u1.m_slots p = u.m_slots p) ∧
    u1.m_nextFreeSlot = u.m_nextFreeSlot := by
  obtain ⟨hb1, hb2, hb3⟩ := UndoSegment.recycleScan_bounds
    (fun i => E.isTxSlotRecyclable u i minSnapshot) u.m_nextFreeSlot
    (u.m_nextFreeSlot - u.m_nextRecycleSlot) u.m_nextRecycleSlot false hb
  obtain ⟨hf1, hf2⟩ := UndoSegment.recycleScan_first
    (fun i => E.isTxSlotRecyclable u i minSnapshot) u.m_nextFreeSlot
    (u.m_nextFreeSlot - u.m_nextRecycleSlot) u.m_nextRecycleSlot false (le_refl _)
  unfold UndoSegment.recycleTxSlot at h
  simp only at h
  cases hs : (UndoSegment.recycleScan (fun i => E.isTxSlotRecyclable u i minSnapshot)
      u.m_nextFreeSlot (u.m_nextFreeSlot - u.m_nextRecycleSlot) u.m_nextRecycleSlot false).2
  · rw [hs] at h
    simp only [Bool.false_eq_true, if_false, Option.some.injEq, Prod.mk.injEq] at h
    rw [← h.1]
    have hsame : (UndoSegment.recycleScan (fun i => E.isTxSlotRecyclable u i minSnapshot)
        u.m_nextFreeSlot (u.m_nextFreeSlot - u.m_nextRecycleSlot) u.m_nextRecycleSlot
        false).1 = u.m_nextRecycleSlot := by
      by_contra hne
      have : (UndoSegment.recycleScan (fun i => E.isTxSlotRecyclable u i minSnapshot)
        u.m_nextFreeSlot (u.m_nextFreeSlot - u.m_nextRecycleSlot) u.m_nextRecycleSlot
        false).2 = true := hb3.mpr (Or.inr (by omega))
      rw [hs] at this
      exact absurd this (by simp)
    rw [hsame] at hf2
    refine ⟨le_refl _, hb, fun i h1 h2 => by omega, hf2, ?_, fun _ _ => rfl, rfl⟩
    rintro p ⟨i, h1, h2, _⟩
    omega
  · rw [hs] at h
    simp only [if_true] at h
    have hadv : u.m_nextRecycleSlot < (UndoSegment.recycleScan
        (fun i => E.isTxSlotRecyclable u i minSnapshot) u.m_nextFreeSlot
        (u.m_nextFreeSlot - u.m_nextRecycleSlot) u.m_nextRecycleSlot false).1 := by
      rcases hb3.mp hs with h0 | h0
      · exact absurd h0 (by simp)
      · exact h0
    revert h
    generalize (UndoSegment.recycleScan (fun i => E.isTxSlotRecyclable u i minSnapshot)
      u.m_nextFreeSlot (u.m_nextFreeSlot - u.m_nextRecycleSlot) u.m_nextRecycleSlot false).1
      = next_slot at hb1 hb2 hadv hf1 hf2
    intro h
    cases hp : UndoSegment.recycleUndoPages E
        ({ (if next_slot + SLOT_OFFSET ≥ u.m_nextFreeSlot then
              ({ u with m_minSnapshot := minSnapshot } : UndoSegment) else u) with
           m_minSlotId := next_slot } : UndoSegment)
        file u.m_nextRecycleSlot (next_slot - 1) with
    | none =>
      rw [hp] at h
      exact absurd h (by simp)
    | some r =>
      obtain ⟨u3, f3⟩ := r
      rw [hp] at h
      simp only [Option.some.injEq, Prod.mk.injEq] at h
      obtain ⟨_, _, c3, c4, c5⟩ := UndoSegment.recycleUndoPages_cursors E _ u3 file f3 _ _ hp
      have hfree : u3.m_nextFreeSlot = u.m_nextFreeSlot := by
        rw [c3]; split_ifs <;> rfl
      have hslots : u3.m_slots = u.m_slots := by
        rw [c4]; split_ifs <;> rfl
      have hNN : u3.UNDO_TX_SLOTS = u.UNDO_TX_SLOTS := by
        rw [c5]; split_ifs <;> rfl
      have hcl := fun p => UndoSegment.clearSlots_spec u3 u.m_nextRecycleSlot next_slot p
        (by rw [hNN]; exact hN) hadv (by rw [hNN]; omega)
      rw [← h.1]
      refine ⟨by show u.m_nextRecycleSlot ≤ next_slot; omega, hb2, hf1, hf2, ?_, ?_, hfree⟩
      · intro p hex
        show u3.clearSlots (u.m_nextRecycleSlot % u3.UNDO_TX_SLOTS)
          (next_slot % u3.UNDO_TX_SLOTS) p = TxSlot.zero
        exact (hcl p).1 (by rw [hNN]; exact hex)
      · intro p hex
        show u3.clearSlots (u.m_nextRecycleSlot % u3.UNDO_TX_SLOTS)
          (next_slot % u3.UNDO_TX_SLOTS) p = u.m_slots p
        rw [← hslots]
        exact (hcl p).2 (by rw [hNN]; exact hex)

/-- Witness of C27: on the wrapped ring the reclaimer recycles the slot ids 3 and 4 and stops
at id 5; the ring positions 3 and 0 are zeroed, the positions 1 and 2 are kept. -/
theorem recycleTxSlot_clears_recycled_slots_witness :
    ∃ u1 file1, exWrappedRing.recycleTxSlot exUndoEnv exFile 9223372036854775810
        = some (u1, file1) ∧
      u1.m_nextRecycleSlot = 5 ∧ u1.m_slots 3 = TxSlot.zero ∧ u1.m_slots 0 = TxSlot.zero ∧
      u1.m_slots 1 = exWrappedRing.m_slots 1 ∧ u1.m_slots 2 = exWrappedRing.m_slots 2 := by
  cases hx : exWrappedRing.recycleTxSlot exUndoEnv exFile 9223372036854775810 with
  | none =>
    have : (exWrappedRing.recycleTxSlot exUndoEnv exFile 9223372036854775810).isSome
        = true := by decide
    rw [hx] at this
    exact absurd this (by simp)
  | some r =>
    obtain ⟨u1, file1⟩ := r
    have h := recycleTxSlot_clears_recycled_slots exUndoEnv exWrappedRing u1 exFile file1
      9223372036854775810 (by decide) (by decide) (by decide) (by decide) hx
    have h1 : (exWrappedRing.recycleTxSlot exUndoEnv exFile 9223372036854775810).map
        (fun r => r.1.m_nextRecycleSlot) = some 5 := by decide
    rw [hx] at h1
    simp only [Option.map_some', Option.some.injEq] at h1
    obtain ⟨_, _, _, _, hz, hk, _⟩ := h
    rw [h1] at hz hk
    refine ⟨u1, file1, rfl, h1, hz 3 ⟨3, by decide, by decide, by decide⟩,
      hz 0 ⟨4, by decide, by decide, by decide⟩, hk 1 ?_, hk 2 ?_⟩
    · rintro ⟨i, h1, h2, h3⟩
      have hN : exWrappedRing.UNDO_TX_SLOTS = 4 := rfl
      have hb : exWrappedRing.m_nextRecycleSlot = 3 := rfl
      rw [hN] at h3
      rw [hb] at h1
      omega
    · rintro ⟨i, h1, h2, h3⟩
      have hN : exWrappedRing.UNDO_TX_SLOTS = 4 := rfl
      have hb : exWrappedRing.m_nextRecycleSlot = 3 := rfl
      rw [hN] at h3
      rw [hb] at h1
      omega

/-! ### Auxiliary lemmas: released undo segments -/

/-- A remapping of a segment other than segment 0 keeps the entry of segment 0. -/
theorem LogicFile.reMMapFile_keeps_header (f f1 : LogicFile) (i : Nat) (hi : 1 ≤ i)
    (h : f.reMMapFile i = some f1) :
    f1.m_segmentAddr 0 = f.m_segmentAddr 0 ∧ f.segmentCount ≤ f1.segmentCount := by
  unfold LogicFile.reMMapFile at h
  by_cases h1 : f.segmentCount ≤ i ∨ f.m_segmentAddr i = 0
  · rw [if_pos h1] at h
    simp only [Option.some.injEq] at h
    rw [← h]
    exact ⟨rfl, le_refl _⟩
  · rw [if_neg h1] at h
    by_cases h2 : ¬ f.segmentCount < f.segmentCapacity
    · rw [if_pos h2] at h
      exact absurd h (by simp)
    · rw [if_neg h2] at h
      simp only [Option.some.injEq] at h
      rw [← h]
      push_neg at h1
      refine ⟨?_, by show f.segmentCount ≤ f.segmentCount + 1; omega⟩
      show Function.update (Function.update f.m_segmentAddr f.segmentCount
        (f.m_segmentAddr i)) i 0 0 = f.m_segmentAddr 0
      rw [Function.update_noteq (by omega), Function.update_noteq (by omega)]

/-- The loop of `punch` from a segment other than segment 0 keeps the entry of segment 0. -/
theorem LogicFile.punchLoop_keeps_header : ∀ (count i : Nat) (f f1 : LogicFile), 1 ≤ i →
    LogicFile.punchLoop count i f = some f1 →
    f1.m_segmentAddr 0 = f.m_segmentAddr 0 ∧ f.segmentCount ≤ f1.segmentCount := by
  intro count
  induction count with
  | zero =>
    intro i f f1 _ h
    simp only [LogicFile.punchLoop, Option.some.injEq] at h
    rw [← h]
    exact ⟨rfl, le_refl _⟩
  | succ n ih =>
    intro i f f1 hi h
    unfold LogicFile.punchLoop at h
    cases hr : f.reMMapFile i with
    | none => rw [hr] at h; exact absurd h (by simp)
    | some f2 =>
      rw [hr] at h
      obtain ⟨a1, a2⟩ := LogicFile.reMMapFile_keeps_header f f2 i hi hr
      obtain ⟨b1, b2⟩ := ih (i + 1) f2 f1 (by omega) h
      exact ⟨by rw [b1, a1], by omega⟩

/-- The loop of `recycleUndoPages` ends with the offsets of the last slot that has undo
records, or with its start value if no slot has any. -/
theorem UndoSegment.recycledEndLoop_spec (E : UndoEnv) (u : UndoSegment) (segmentSize : Nat) :
    ∀ (count i : Nat) (acc : Nat × Nat),
      (UndoSegment.recycledEndLoop E u segmentSize count i acc = acc ∧
        ∀ k, i ≤ k → k < i + count → (u.getTxSlot k).start = 0) ∨
      ∃ j, i ≤ j ∧ j < i + count ∧ (u.getTxSlot j).start ≠ 0 ∧
        (∀ k, j < k → k < i + count → (u.getTxSlot k).start = 0) ∧
        UndoSegment.recycledEndLoop E u segmentSize count i acc =
          (E.UndoRecPtrGetOffset (u.getTxSlot j).endPtr,
           u32 (E.UndoRecPtrGetOffset (u.getTxSlot j).endPtr / segmentSize)) := by
  intro count
  induction count with
  | zero =>
    intro i acc
    left
    exact ⟨rfl, fun k h1 h2 => by omega⟩
  | succ n ih =>
    intro i acc
    unfold UndoSegment.recycledEndLoop
    by_cases hs : (u.getTxSlot i).start = 0
    · simp only [hs, if_true]
      rcases ih (i + 1) acc with ⟨h1, h2⟩ | ⟨j, h1, h2, h3, h4, h5⟩
      · left
        refine ⟨h1, ?_⟩
        intro k hk1 hk2
        by_cases hki : k = i
        · rw [hki]; exact hs
        · exact h2 k (by omega) (by omega)
      · right
        exact ⟨j, by omega, by omega, h3, fun k a b => h4 k a (by omega), h5⟩
    · simp only [hs, if_false]
      rcases ih (i + 1) (E.UndoRecPtrGetOffset (u.getTxSlot i).endPtr,
          u32 (E.UndoRecPtrGetOffset (u.getTxSlot i).endPtr / segmentSize)) with
        ⟨h1, h2⟩ | ⟨j, h1, h2, h3, h4, h5⟩
      · right
        exact ⟨i, le_refl _, by omega, hs, fun k a b => h2 k (by omega) (by omega), h1⟩
      · right
        exact ⟨j, by omega, by omega, h3, fun k a b => h4 k a (by omega), h5⟩

/-! ### C28 -/

/-- C28. The undo header segment is never released. A returning `recycleUndoPages(beginSlot,
endSlot)` either changes nothing, or has called `LogicFile::punch(lo, hi)` once, with
`1 ≤ lo < hi`, where `hi` is the segment containing the end offset of the last slot `j` of
`[beginSlot, endSlot]` that has undo records (`start ≠ 0`), as a 32-bit value; only in that
case `recycledBegin` advances, to that end offset. Segment 0 keeps its entry of
`m_segmentAddr`, so it stays mounted at index 0. -/
theorem recycleUndoPages_keeps_header_segment (E : UndoEnv) (u u1 : UndoSegment)
    (file file1 : LogicFile) (beginSlot endSlot : Nat) (_hseg : 0 < file.m_segmentSize)
    (h : u.recycleUndoPages E file beginSlot endSlot = some (u1, file1)) :
    ((u1 = u ∧ file1 = file) ∨
      ∃ lo hi j, 1 ≤ lo ∧ lo < hi ∧ file.punch lo hi = some file1 ∧
        beginSlot ≤ j ∧ j ≤ endSlot ∧ (u.getTxSlot j).start ≠ 0 ∧
        (∀ k, j < k → k ≤ endSlot → (u.getTxSlot k).start = 0) ∧
        hi = u32 (E.UndoRecPtrGetOffset (u.getTxSlot j).endPtr / file.m_segmentSize) ∧
        u1 = { u with m_recycledBegin := E.UndoRecPtrGetOffset (u.getTxSlot j).endPtr }) ∧
    file1.m_segmentAddr 0 = file.m_segmentAddr 0 ∧
    (file.isMounted 0 = true → file1.isMounted 0 = true) := by
  unfold UndoSegment.recycleUndoPages at h
  simp only at h
  have hspec := UndoSegment.recycledEndLoop_spec E u file.m_segmentSize
    (endSlot + 1 - beginSlot) beginSlot (0, 0)
  revert h hspec
  generalize UndoSegment.recycledEndLoop E u file.m_segmentSize (endSlot + 1 - beginSlot)
    beginSlot (0, 0) = r
  have hlo : 1 ≤ (if u32 (u.m_recycledBegin / file.m_segmentSize) = 0 then 1
      else u32 (u.m_recycledBegin / file.m_segmentSize)) := by
    split_ifs <;> omega
  revert hlo
  generalize (if u32 (u.m_recycledBegin / file.m_segmentSize) = 0 then 1
    else u32 (u.m_recycledBegin / file.m_segmentSize)) = s
  intro hlo h hspec
  by_cases hlt : s < r.2
  · rw [if_pos hlt] at h
    cases hp : file.punch s r.2 with
    | none => rw [hp] at h; exact absurd h (by simp)
    | some f1 =>
      rw [hp] at h
      simp only [Option.some.injEq, Prod.mk.injEq] at h
      obtain ⟨hu, hf⟩ := h
      subst hf
      have hpl := hp
      unfold LogicFile.punch at hpl
      rw [if_neg (by omega)] at hpl
      obtain ⟨k1, k2⟩ := LogicFile.punchLoop_keeps_header _ _ _ _ hlo hpl
      refine ⟨Or.inr ?_, k1, ?_⟩
      · rcases hspec with ⟨h1, _⟩ | ⟨j, h1, h2, h3, h4, h5⟩
        · rw [h1] at hlt
          simp at hlt
        · refine ⟨s, r.2, j, hlo, hlt, hp, h1, by omega, h3, fun k a b => h4 k a (by omega),
            ?_, ?_⟩
          · rw [h5]
          · rw [← hu, h5]
      · intro hm
        unfold LogicFile.isMounted at hm ⊢
        simp only [Bool.and_eq_true, decide_eq_true_eq] at hm ⊢
        exact ⟨by omega, by rw [k1]; exact hm.2⟩
  · rw [if_neg hlt] at h
    simp only [Option.some.injEq, Prod.mk.injEq] at h
    obtain ⟨hu, hf⟩ := h
    subst hu hf
    exact ⟨Or.inl ⟨rfl, rfl⟩, rfl, fun hm => hm⟩

/-- Witness of C28: the records of slot 0 end at offset 600 of a file of 256-byte segments;
`punch(1, 2)` moves the mapping of segment 1 to the new entry 3 and segment 0 stays mounted
at address 4096. -/
theorem recycleUndoPages_keeps_header_segment_witness :
    ∃ u1 file1, exRecorded.recycleUndoPages exUndoEnv exFile 0 0 = some (u1, file1) ∧
      file1.m_segmentAddr 0 = exFile.m_segmentAddr 0 ∧ file1.isMounted 0 = true ∧
      exFile.punch 1 2 = some file1 ∧ u1.m_recycledBegin = 600 := by
  cases hx : exRecorded.recycleUndoPages exUndoEnv exFile 0 0 with
  | none =>
    have : (exRecorded.recycleUndoPages exUndoEnv exFile 0 0).isSome = true := by decide
    rw [hx] at this
    exact absurd this (by simp)
  | some r =>
    obtain ⟨u1, file1⟩ := r
    obtain ⟨hcase, h0, hm⟩ := recycleUndoPages_keeps_header_segment exUndoEnv exRecorded u1
      exFile file1 0 0 (by decide) hx
    have hb : (exRecorded.recycleUndoPages exUndoEnv exFile 0 0).map
        (fun r => r.1.m_recycledBegin) = some 600 := by decide
    rw [hx] at hb
    simp only [Option.map_some', Option.some.injEq] at hb
    refine ⟨u1, file1, rfl, h0, hm (by decide), ?_, hb⟩
    rcases hcase with ⟨hu, _⟩ | ⟨lo, hi, j, h1, h2, h3, h4, h5, _, _, h8, _⟩
    · rw [hu] at hb
      exact absurd hb (by decide)
    · have hj : j = 0 := by omega
      subst hj
      have hhi : hi = 2 := by rw [h8]; decide
      subst hhi
      have hlo : lo = 1 := by omega
      subst hlo
      exact h3

/-! ### Auxiliary lemmas: the row ids of an extent -/

/-- The first free bit behind a run of acquired bits. -/
theorem firstFree_replicate (rest : List Bool) : ∀ n,
    firstFree (List.replicate n true ++ false :: rest) = some n := by
  intro n
  induction n with
  | zero => rfl
  | succ n ih =>
    rw [List.replicate_succ, List.cons_append]
    simp only [firstFree, ih, Option.map_some']

/-- The range `tryNextSegment` sets in a table of one directory. -/
theorem VecStore.tryNextSegment_range (v : VecStore) (bm : GlobalBitMap) (localBit : Nat)
    (hg : v.m_gbm = [bm]) (hgid : v.groupId = 0) (hf : firstFree bm.bits = some localBit) :
    v.tryNextSegment.map (fun v1 => v1.cache.m_range)
      = some (segmentRange v.m_tuplesPerExtent (globalBitOf 1 0 localBit)) := by
  simp only [VecStore.tryNextSegment, hg, hgid, List.get?, GlobalBitMap.SyncAcquire, hf,
    List.length_singleton, Option.map_some']

/-- The row ids of the range `tryNextSegment` sets for a bit of the bitmap the constructor
built lie below `MaxRowId`, which is below `2^32`. -/
theorem segmentRange_below_max (MaxRowId spaceCount tuplesPerExtent dirSeq localBit rowId : Nat)
    (hmax : MaxRowId < 4294967296) (htpe : 0 < tuplesPerExtent) (hdir : dirSeq < spaceCount)
    (hbit : localBit < u32 (MaxRowId / tuplesPerExtent / spaceCount))
    (hr : rowId < (segmentRange tuplesPerExtent (globalBitOf spaceCount dirSeq localBit)).m_end) :
    rowId < MaxRowId := by
  have h1 : localBit + 1 ≤ MaxRowId / tuplesPerExtent / spaceCount :=
    Nat.lt_of_lt_of_le hbit (u32_le _)
  have h2 : spaceCount * (localBit + 1) ≤ MaxRowId / tuplesPerExtent :=
    le_trans (Nat.mul_le_mul_left spaceCount h1) (Nat.mul_div_le _ _)
  have h3 : dirSeq + spaceCount * localBit + 1 ≤ MaxRowId / tuplesPerExtent := by
    rw [Nat.mul_add, Nat.mul_one] at h2
    omega
  have h4 : (dirSeq + spaceCount * localBit + 1) * tuplesPerExtent ≤ MaxRowId :=
    le_trans (Nat.mul_le_mul_right tuplesPerExtent h3) (Nat.div_mul_le_self _ _)
  have h5 : dirSeq + spaceCount * localBit + 1
      ≤ (dirSeq + spaceCount * localBit + 1) * tuplesPerExtent :=
    Nat.le_mul_of_pos_right _ htpe
  have e1 : u32 (dirSeq + spaceCount * localBit) = dirSeq + spaceCount * localBit :=
    u32_of_lt (by omega)
  have e2 : u32 (dirSeq + spaceCount * localBit + 1) = dirSeq + spaceCount * localBit + 1 :=
    u32_of_lt (by omega)
  have e3 : u32 ((dirSeq + spaceCount * localBit + 1) * tuplesPerExtent)
      = (dirSeq + spaceCount * localBit + 1) * tuplesPerExtent := u32_of_lt (by omega)
  simp only [segmentRange, RowIdRange.setRange, globalBitOf, e1, e2, e3] at hr
  omega

/-! ### C29 -/

/-- C29. Level-1 indexing of the row-id map. For every 32-bit row id `r` the entry
index `r % RowIdMapSegmentLen` is below `RowIdMapSegmentLen`, and the segment index
`r / RowIdMapSegmentLen` that `GetEntry` hands to `GetSegment` is at most `SegmentEntryLen`;
it is below `SegmentEntryLen`, the length of `m_segments`, exactly when
`r < SegmentEntryLen × RowIdMapSegmentLen = 4294705152`. Every row id of a range that
`tryNextSegment` sets lies below `MaxRowId`; so the segment index of every row id the
allocator hands out is in bounds provided `MaxRowId ≤ 4294705152`. -/
theorem GetEntry_indices_in_bounds (P : Params)
    (spaceCount tuplesPerExtent dirSeq localBit rowId : Nat)
    (hmax : P.MaxRowId ≤ SegmentEntryLen * RowIdMapSegmentLen)
    (htpe : 0 < tuplesPerExtent) (hdir : dirSeq < spaceCount)
    (hbit : localBit < u32 (P.MaxRowId / tuplesPerExtent / spaceCount))
    (hr : rowId < (segmentRange tuplesPerExtent (globalBitOf spaceCount dirSeq localBit)).m_end) :
    (rowId < P.MaxRowId ∧ (RowIdMap.entryIndex rowId).1 < SegmentEntryLen ∧
      (RowIdMap.entryIndex rowId).2 < RowIdMapSegmentLen) ∧
    ∀ r, r < 4294967296 →
      (RowIdMap.entryIndex r).2 < RowIdMapSegmentLen ∧
      (RowIdMap.entryIndex r).1 ≤ SegmentEntryLen ∧
      ((RowIdMap.entryIndex r).1 < SegmentEntryLen ↔
        r < SegmentEntryLen * RowIdMapSegmentLen) := by
  have hlt := segmentRange_below_max P.MaxRowId spaceCount tuplesPerExtent dirSeq localBit
    rowId (by unfold SegmentEntryLen RowIdMapSegmentLen at hmax; omega) htpe hdir hbit hr
  unfold SegmentEntryLen RowIdMapSegmentLen at hmax
  refine ⟨⟨hlt, ?_, ?_⟩, ?_⟩
  · simp only [RowIdMap.entryIndex, SegmentEntryLen, RowIdMapSegmentLen]
    omega
  · simp only [RowIdMap.entryIndex, RowIdMapSegmentLen]
    omega
  · intro r hr32
    simp only [RowIdMap.entryIndex, SegmentEntryLen, RowIdMapSegmentLen]
    refine ⟨by omega, by omega, by omega⟩

/-- Witness of C29: under the example parameters (`MaxRowId = 63`, four tuples per extent,
two directories) the row id 13 of the extent of bit 1 of directory 1. -/
theorem GetEntry_indices_in_bounds_witness :
    13 < exParams.MaxRowId ∧ (RowIdMap.entryIndex 13).1 < SegmentEntryLen ∧
      (RowIdMap.entryIndex 13).2 < RowIdMapSegmentLen :=
  (GetEntry_indices_in_bounds exParams 2 4 1 1 13 (by decide) (by decide) (by decide)
    (by decide) (by decide)).1

/-- Failing input of C29: with `MaxRowId = 2^32 - 2` (`wideParams`), 65536 tuples
per extent and one directory, the bitmap has 65535 bits; `tryNextSegment` acquires bit 65534
and sets the range that starts at row id 4294836224, a valid 32-bit row id below `MaxRowId`
whose segment index is 16383 = `SegmentEntryLen`, one past the last element of
`m_segments`. -/
theorem GetEntry_segment_index_past_array :
    u32 (wideParams.MaxRowId / 65536 / 1) = 65535 ∧
    exTopVec.tryNextSegment.map (fun v => v.cache.m_range)
      = some (RowIdRange.setRange 4294836224 4294901760) ∧
    RowIdIsValid wideParams 4294836224 = true ∧ 4294836224 < wideParams.MaxRowId ∧
    (RowIdMap.entryIndex 4294836224).1 = SegmentEntryLen ∧ SegmentEntryLen = 16383 := by
  refine ⟨by decide, ?_, by decide, by decide, by decide, by decide⟩
  have hr : segmentRange 65536 (globalBitOf 1 0 65534)
      = RowIdRange.setRange 4294836224 4294901760 := by decide
  rw [← hr]
  exact VecStore.tryNextSegment_range exTopVec _ 65534 rfl rfl (firstFree_replicate [] 65534)

/-! ### Auxiliary lemmas: the flush filter -/

/-- The key bits of a value. -/
theorem and_FMASK (x : Nat) : x &&& FMASK = x % 1125899906842624 :=
  Nat.and_pow_two_sub_one_eq_mod x 50

/-- The first loop of `access` on a group of zero entries hits exactly the key 0. -/
theorem FlushCache.findHit_zero (access : Nat) : ∀ count i,
    FlushCache.findHit (fun _ => 0) access count i =
      if access = 0 ∧ 0 < count then some i else none := by
  intro count
  induction count with
  | zero => intro i; simp [FlushCache.findHit]
  | succ n ih =>
    intro i
    unfold FlushCache.findHit
    by_cases h : access = 0
    · simp [h]
    · simp [h, ih]

/-- The second loop of `access` keeps the key bits of every entry it does not replace by
the key. -/
theorem FlushCache.evict_keeps_keys (k access : Nat) : ∀ (rounds : Nat) (c : FlushCache)
    (g i : Nat),
    (FlushCache.evict k access rounds c).tuple_id g i &&& FMASK = c.tuple_id g i &&& FMASK ∨
    (FlushCache.evict k access rounds c).tuple_id g i = access := by
  intro rounds
  induction rounds with
  | zero => intro c g i; left; rfl
  | succ n ih =>
    intro c g i
    unfold FlushCache.evict
    simp only
    generalize (if c.counter = SET then 0 else c.counter) = counter
    by_cases hz : c.tuple_id k counter >>> COUNT_START = 0
    · rw [if_pos hz]
      simp only [FlushCache.setEntry, Function.update_apply]
      by_cases hg : g = k
      · by_cases hi : i = counter
        · right
          rw [hg, hi]
          simp [Function.update_same]
        · left; simp [hg, hi]
      · left; simp [hg]
    · rw [if_neg hz]
      rcases ih { (c.setEntry k counter (c.tuple_id k counter - (FMASK + 1))) with
          counter := counter + 1 } g i with h | h
      · left
        rw [h]
        simp only [FlushCache.setEntry, Function.update_apply]
        by_cases hg : g = k
        · by_cases hi : i = counter
          · subst hg hi
            simp only [if_true, Function.update_same]
            rw [and_FMASK, and_FMASK]
            have hge : 1125899906842624 ≤ c.tuple_id g i := by
              rw [Nat.shiftRight_eq_div_pow] at hz
              by_contra hlt
              exact hz (Nat.div_eq_of_lt (by unfold COUNT_START; omega))
            have hF : FMASK + 1 = 1125899906842624 := by decide
            rw [hF]
            omega
          · simp [hg, hi]
        · simp [hg]
      · right; exact h

/-! ### C30 -/

/-- C30 (what the code does). On a freshly constructed `FlushCache` the first call
`access(rowId)` returns `true` exactly for `rowId = 0`, whose key equals the key bits of the
zero-filled entries: the first `copyUpdatedColumnsToNVM` of a thread flushes the row exactly
when `rowId ≠ 0`. A call of `access` leaves the low 50 key bits of every entry as they were,
or stores its own key in the entry. -/
theorem flushCache_first_access (rowId : Nat) :
    ((FlushCache.create.access rowId).1 = true ↔ rowId = 0) ∧
    ((RAMTuple.flushAfterCopy FlushCache.create rowId).1 = true ↔ rowId ≠ 0) ∧
    ∀ (c : FlushCache) (g i : Nat),
      (c.access rowId).2.tuple_id g i &&& FMASK = c.tuple_id g i &&& FMASK ∨
      (c.access rowId).2.tuple_id g i = rowId := by
  have h1 : (FlushCache.create.access rowId).1 = true ↔ rowId = 0 := by
    unfold FlushCache.access FlushCache.create
    simp only [FlushCache.findHit_zero]
    by_cases h : rowId = 0
    · simp [h, SET]
    · simp [h]
  refine ⟨h1, ?_, ?_⟩
  · unfold RAMTuple.flushAfterCopy
    simp only [Bool.not_eq_true', ne_eq]
    rw [← h1]
    simp
  · intro c g i
    unfold FlushCache.access
    simp only
    cases hh : FlushCache.findHit
        (c.tuple_id (rowId / 100 % 1000000007 &&& (GROUP - 1))) rowId SET 0 with
    | none => exact FlushCache.evict_keeps_keys _ rowId 2 c g i
    | some j =>
      simp only
      left
      split_ifs
      · simp only [FlushCache.setEntry, Function.update_apply]
        by_cases hg : g = rowId / 100 % 1000000007 &&& (GROUP - 1)
        · by_cases hi : i = j
          · subst hi
            simp only [hg, if_true, Function.update_same]
            rw [and_FMASK, and_FMASK]
            have hF : FMASK + 1 = 1125899906842624 := by decide
            rw [hF]
            unfold u64
            omega
          · simp [hg, hi]
        · simp [hg]
      · rfl

/-- The failing input of C30: the first access of row 0 on a fresh cache is a hit, and the
first column copy of row 0 does not flush. -/
theorem flushCache_first_access_witness :
    (FlushCache.create.access 0).1 = true ∧
    (RAMTuple.flushAfterCopy FlushCache.create 0).1 = false :=
  ⟨(flushCache_first_access 0).1.mpr rfl, by decide⟩

end NVMDB
